import Mathlib

/-!
# connectordb: the transform pipeline language

A shallow embedding of `src/connectordb/streamdb/dataset/transforms/transform_generator_y.go`:
the regular-expression tokenizer (`TransformLex.Next`, `TransformLex.Lex`), the
goyacc tables and the table-driven parser loop (`TransformParse`), and `ParseTransform`.

Conventions.
* Go strings are modelled by `String`/`List Char`; a position counts characters.  The lexical
  classes are ASCII apart from `.` inside a string literal, so this agrees with Go's byte
  offsets on ASCII input.
* The stage constructors (`pipelineGeneratorTransform`, `addTransformGenerator`, ...) live in
  files that are not part of this development; a stage is the symbolic term built from them.
* `getCustomFunction` is the function registry lookup; it is a parameter of the parser.
-/

namespace Transforms

/-! ## Stage values -/

/-- A `TransformFunc` value, as the term of generator calls that built it.  `nil` is Go's nil
function value (the zero value of the `val` field and of `TransformLex.output`). -/
inductive TransformFunc where
  | nil
  | pipelineGeneratorTransform (left right : TransformFunc)
  | pipelineGeneratorIf (cond : TransformFunc)
  | pipelineGeneratorOr (left right : TransformFunc)
  | pipelineGeneratorAnd (left right : TransformFunc)
  | pipelineGeneratorNot (arg : TransformFunc)
  | pipelineGeneratorCompare (left right : TransformFunc) (op : String)
  | addTransformGenerator (left right : TransformFunc)
  | subtractTransformGenerator (left right : TransformFunc)
  | multiplyTransformGenerator (left right : TransformFunc)
  | divideTransformGenerator (left right : TransformFunc)
  | inverseTransformGenerator (arg : TransformFunc)
  /-- The call `pipelineGeneratorConstant(strconv.ParseFloat(lexeme, 64))` -/
  | pipelineGeneratorConstantFloat (lexeme : String)
  /-- The call `pipelineGeneratorConstant(strconv.ParseBool(lexeme))` -/
  | pipelineGeneratorConstantBool (lexeme : String)
  /-- The call `pipelineGeneratorConstant(text, nil)` -/
  | pipelineGeneratorConstantString (text : String)
  | pipelineGeneratorGet (path : List String)
  | pipelineGeneratorIdentity
  | pipelineGeneratorSet (path : List String) (value : TransformFunc)
  | pipelineGeneratorHas (key : String)
  deriving DecidableEq, Repr

/-- The registry lookup `getCustomFunction(name, args...)`: the stage it returns and the
message of the error it returns (`none` for a nil error). -/
abbrev CustomFunctions := String → List TransformFunc → TransformFunc × Option String

/-- The semantic value record `TransformSymType`. -/
structure TransformSymType where
  yys : Int
  val : TransformFunc
  strVal : String
  stringList : List String
  funcList : List TransformFunc
  deriving DecidableEq, Repr

/-- The zero value of `TransformSymType`. -/
def TransformSymType.zero : TransformSymType :=
  { yys := 0, val := TransformFunc.nil, strVal := "", stringList := [], funcList := [] }

/-! ## Token constants -/

def NUMBER : Int := 57346
def BOOL : Int := 57347
def STRING : Int := 57348
def COMPOP : Int := 57349
def THIS : Int := 57350
def OR : Int := 57351
def AND : Int := 57352
def NOT : Int := 57353
def RB : Int := 57354
def LB : Int := 57355
def EOF : Int := 57356
def PIPE : Int := 57357
def RSQUARE : Int := 57358
def LSQUARE : Int := 57359
def COMMA : Int := 57360
def GTE : Int := 57361
def LTE : Int := 57362
def GT : Int := 57363
def LT : Int := 57364
def EQ : Int := 57365
def NE : Int := 57366
def IDENTIFIER : Int := 57367
def HAS : Int := 57368
def IF : Int := 57369
def SET : Int := 57370
def PLUS : Int := 57371
def MINUS : Int := 57372
def MULTIPLY : Int := 57373
def DIVIDE : Int := 57374
def UMINUS : Int := 57375

def TransformEofCode : Int := 1
def TransformErrCode : Int := 2

/-! ## Lexer -/

def errorString : String := "<ERROR>"
def eofString : String := "<EOF>"

/-- The double quote character. -/
def dquote : Char := Char.ofNat 34

/-- The line feed character, which `.` does not match. -/
def newline : Char := Char.ofNat 10

/-- The tab character. -/
def tabChar : Char := Char.ofNat 9

def builtins : List String := ["has", "if", "gte", "lte", "gt", "lt", "eq", "ne", "set"]
def logicals : List String := ["true", "false", "and", "or", "not"]
def compops : List String := ["<=", ">=", "<", ">", "==", "!="]
def pipes : List String := [":", "|", ","]
def syms : List String := ["$", "[", "]", "(", ")"]
def maths : List String := ["-", "*", "/", "+"]

/-- An alternation of literals `w1|w2|...` at the start of `rest`: Go's regexp prefers the
leftmost alternative that matches. -/
def matchLiterals (lits : List String) (rest : List Char) : Option (List Char) :=
  (lits.find? (fun w => w.data.isPrefixOf rest)).map String.data

/-- The class `[0-9]`. -/
def isDigit (c : Char) : Bool := decide (48 ≤ c.toNat ∧ c.toNat ≤ 57)

/-- The class `[a-zA-Z_]`. -/
def isIdentStart (c : Char) : Bool :=
  decide ((97 ≤ c.toNat ∧ c.toNat ≤ 122) ∨ (65 ≤ c.toNat ∧ c.toNat ≤ 90) ∨ c.toNat = 95)

/-- The class `[a-zA-Z_0-9]`. -/
def isIdentChar (c : Char) : Bool := isIdentStart c || isDigit c

/-- The class `numbers`, `(-)?[0-9]+(\.[0-9]+)?`, at the start of `rest`: greedy, so an
optional sign, every digit that follows, and a fraction when a dot and a digit follow. -/
def matchNumbers (rest : List Char) : Option (List Char) :=
  let sign : List Char := match rest with
    | c :: _ => if c = Char.ofNat 45 then [c] else []
    | [] => []
  let r := rest.drop sign.length
  let ds := r.takeWhile isDigit
  if ds = [] then none
  else
    match r.drop ds.length with
    | c :: r3 =>
      let fs := r3.takeWhile isDigit
      if c = Char.ofNat 46 ∧ fs ≠ [] then some (sign ++ ds ++ c :: fs) else some (sign ++ ds)
    | [] => some (sign ++ ds)

/-- The class `stringr`, a quote, `.+?` and a quote, at the start of `rest`: an opening quote,
one character that is not a line feed, then lazily up to the next quote; no match when a
line feed or the end of input comes first. -/
def matchStringr (rest : List Char) : Option (List Char) :=
  match rest with
  | q :: c0 :: r =>
    if q = dquote ∧ c0 ≠ newline then
      let body := r.takeWhile (fun c => c ≠ dquote ∧ c ≠ newline)
      match r.drop body.length with
      | c :: _ => if c = dquote then some (q :: c0 :: body ++ [c]) else none
      | [] => none
    else none
  | _ => none

/-- The class `idents`, `([a-zA-Z_][a-zA-Z_0-9]*)`, at the start of `rest`. -/
def matchIdents (rest : List Char) : Option (List Char) :=
  match rest with
  | c :: r => if isIdentStart c then some (c :: r.takeWhile isIdentChar) else none
  | [] => none

/-- The call `tokenizer.FindString(rest)` for the anchored alternation of `init`: the classes are
tried in the order of the `strings.Join`, the first one that matches wins, and the empty
string is returned when none does. -/
def tokenizerFindString (rest : List Char) : List Char :=
  ((matchLiterals builtins rest).orElse fun _ =>
   (matchLiterals logicals rest).orElse fun _ =>
   (matchNumbers rest).orElse fun _ =>
   (matchLiterals compops rest).orElse fun _ =>
   (matchStringr rest).orElse fun _ =>
   (matchLiterals pipes rest).orElse fun _ =>
   (matchLiterals syms rest).orElse fun _ =>
   (matchIdents rest).orElse fun _ =>
   matchLiterals maths rest).getD []

/-- The call `numberRegex.MatchString(token)`: the whole of `token` is a number. -/
def numberRegexMatch (token : List Char) : Bool := decide (matchNumbers token = some token)

/-- The call `stringRegex.MatchString(token)`, for `^` quote `.+?` quote `$`: at least three
characters, a quote first and last, and no line feed between them. -/
def stringRegexMatch (token : List Char) : Bool :=
  decide (3 ≤ token.length ∧ token.head? = some dquote ∧ token.getLast? = some dquote ∧
    newline ∉ (token.drop 1).dropLast)

/-- The lexer `TransformLex`. -/
structure TransformLex where
  input : String
  position : Int
  errorString : String
  output : TransformFunc
  deriving DecidableEq, Repr

/-- The method `AtEOF`. -/
def TransformLex.AtEOF (t : TransformLex) : Bool := decide (t.position ≥ t.input.data.length)

/-- The whitespace loop of `Next`, `for c == ' ' || c == '\t'`, run on `rest = input[position:]`
(so `AtEOF` is `rest = []`).  The result is `(true, position)` when the loop left through
`return eofString` and `(false, position)` when it ended on a character that is no blank. -/
def TransformLex.skipBlanks : List Char → Char → Int → Bool × Int
  | rest, c, position =>
    if c = ' ' ∨ c = tabChar then
      match rest with
      | [] => (true, position)
      | d :: rest1 => TransformLex.skipBlanks rest1 d (position + 1)
    else (false, position)

/-- The method `Next`: the next lexeme and the lexer after the call. -/
def TransformLex.Next (l : TransformLex) : String × TransformLex :=
  match TransformLex.skipBlanks (l.input.data.drop l.position.toNat) ' ' l.position with
  | (true, p) => (eofString, { l with position := p })
  | (false, p) =>
    let position := p - 1
    let rest := l.input.data.drop position.toNat
    let token := tokenizerFindString rest
    let l1 := { l with position := position + token.length }
    if token = [] then (Transforms.errorString, l1) else (String.mk token, l1)

/-- The `switch token` of `Lex`: the token code returned and the value left in `lval.strVal`
(the lexeme, or for a STRING the lexeme without its first and last character). -/
def lexSwitch (token : String) : Int × String :=
  if token = eofString then (0, token)
  else if token = errorString then (0, token)
  else if token = "true" ∨ token = "false" then (BOOL, token)
  else if token = ")" then (RB, token)
  else if token = "(" then (LB, token)
  else if token = "[" then (LSQUARE, token)
  else if token = "]" then (RSQUARE, token)
  else if token = "$" then (THIS, token)
  else if token = "has" then (HAS, token)
  else if token = "and" then (AND, token)
  else if token = "or" then (OR, token)
  else if token = "not" then (NOT, token)
  else if token = ">=" ∨ token = "<=" ∨ token = ">" ∨ token = "<" ∨ token = "==" ∨ token = "!="
    then (COMPOP, token)
  else if token = "if" then (IF, token)
  else if token = "|" ∨ token = ":" then (PIPE, token)
  else if token = "," then (COMMA, token)
  else if token = "gte" then (GTE, token)
  else if token = "lte" then (LTE, token)
  else if token = "lt" then (LT, token)
  else if token = "gt" then (GT, token)
  else if token = "eq" then (EQ, token)
  else if token = "ne" then (NE, token)
  else if token = "set" then (SET, token)
  else if token = "-" then (MINUS, token)
  else if token = "+" then (PLUS, token)
  else if token = "/" then (DIVIDE, token)
  else if token = "*" then (MULTIPLY, token)
  else if numberRegexMatch token.data then (NUMBER, token)
  else if stringRegexMatch token.data then (STRING, String.mk ((token.data.drop 1).dropLast))
  else (IDENTIFIER, token)

/-- The method `Lex`: the token code returned, the updated `lval`, and the lexer after the call. -/
def TransformLex.Lex (lexer : TransformLex) (lval : TransformSymType) :
    Int × TransformSymType × TransformLex :=
  ((lexSwitch lexer.Next.1).1, { lval with strVal := (lexSwitch lexer.Next.1).2 }, lexer.Next.2)

/-- The method `Error`: the message replaces the stored one. -/
def TransformLex.Error (l : TransformLex) (s : String) : TransformLex :=
  { l with errorString := s }


/-! ## Parser tables -/

/-- The exception table `TransformExca`. -/
def TransformExca : List Int :=
  [
   -1, 1, 1, -1, -2, 0
  ]

/-- The action table `TransformAct`. -/
def TransformAct : List Int :=
  [
   1, 3, 61, 17, 18, 19, 32, 20, 9, 5,
   8, 71, 16, 38, 39, 11, 35, 41, 23, 24,
   25, 26, 27, 28, 29, 22, 4, 21, 40, 12,
   10, 6, 36, 37, 91, 2, 75, 85, 36, 37,
   34, 53, 93, 86, 55, 42, 65, 66, 67, 68,
   69, 70, 73, 30, 58, 59, 76, 77, 74, 92,
   75, 84, 30, 51, 30, 54, 52, 56, 57, 83,
   82, 81, 30, 30, 30, 50, 49, 80, 89, 88,
   30, 17, 18, 19, 48, 20, 79, 90, 8, 30,
   16, 60, 33, 47, 30, 94, 23, 24, 25, 26,
   27, 28, 29, 22, 4, 21, 46, 12, 17, 18,
   19, 31, 20, 45, 95, 8, 44, 16, 43, 78,
   31, 63, 62, 23, 24, 25, 26, 27, 28, 29,
   22, 87, 21, 64, 12, 17, 18, 19, 72, 20,
   15, 14, 13, 7, 16, 0, 0, 0, 0, 0,
   23, 24, 25, 26, 27, 28, 29, 22, 0, 21,
   0, 12, 17, 18, 19, 0, 20, 0, 0, 0,
   0, 16, 0, 0, 0, 0, 0, 23, 24, 25,
   26, 27, 28, 29, 22, 0, 21
  ]

/-- The table `TransformPact`: per state, the base of its shift entries in `TransformAct`. -/
def TransformPact : List Int :=
  [
   77, 38, -1000, 111, 104, 82, -1000, -1000, 104, 9,
   -18, -1000, 158, -1000, -1000, -1000, 77, -1000, -1000, -1000,
   28, 105, 103, 100, 93, 80, 71, 63, 62, 50,
   77, 104, 111, 104, -1000, 131, 131, 131, 158, 158,
   -1000, 79, 116, 113, 127, 77, 77, 77, 77, 77,
   77, -1, -1000, 82, -1000, 3, -18, -18, -1000, -1000,
   -1000, 42, -1000, 39, 107, 74, 65, 59, 58, 57,
   49, -1000, 25, 38, -1000, 125, 116, 77, -1000, -1000,
   -1000, -1000, -1000, -1000, -1000, -1000, 77, -1000, 18, 47,
   38, 24, -1000, 104, 102, -1000
  ]

/-- The table `TransformPgo`: per nonterminal, the base of its goto entries. -/
def TransformPgo : List Int :=
  [
   0, 1, 9, 31, 143, 15, 35, 0, 142, 141,
   140, 30, 8, 138, 2
  ]

/-- The table `TransformR1`: per production, its left-hand nonterminal. -/
def TransformR1 : List Int :=
  [
   0, 7, 7, 6, 6, 1, 1, 2, 2, 3,
   3, 4, 4, 12, 12, 12, 11, 11, 11, 11,
   5, 5, 5, 5, 8, 8, 8, 9, 9, 10,
   10, 10, 10, 10, 10, 10, 10, 10, 10, 10,
   14, 14, 13, 13
  ]

/-- The table `TransformR2`: per production, the length of its right-hand side. -/
def TransformR2 : List Int :=
  [
   0, 1, 3, 1, 2, 1, 3, 1, 3, 1,
   2, 1, 3, 1, 3, 3, 1, 3, 3, 2,
   1, 1, 1, 3, 1, 1, 1, 4, 1, 9,
   6, 4, 4, 4, 4, 4, 4, 4, 3, 4,
   1, 3, 1, 3
  ]

/-- The table `TransformChk`: per state, the symbol that leads into it. -/
def TransformChk : List Int :=
  [
   -1000, -7, -6, -1, 27, -2, -3, -4, 11, -12,
   -11, -5, 30, -8, -9, -10, 13, 4, 5, 6,
   8, 28, 26, 19, 20, 21, 22, 23, 24, 25,
   15, 9, -1, 10, -3, 7, 29, 30, 31, 32,
   -5, -7, 17, 13, 13, 13, 13, 13, 13, 13,
   13, 13, -6, -2, -3, -12, -11, -11, -5, -5,
   12, -14, 6, 8, 6, -7, -7, -7, -7, -7,
   -7, 12, -13, -7, 16, 18, 17, 18, 12, 12,
   12, 12, 12, 12, 12, 12, 18, 6, -14, -7,
   -7, 16, 12, 18, -1, 12
  ]

/-- The table `TransformDef`: per state, its default action. -/
def TransformDef : List Int :=
  [
   0, -2, 1, 3, 0, 5, 7, 9, 0, 11,
   13, 16, 0, 20, 21, 22, 0, 24, 25, 26,
   28, 0, 0, 0, 0, 0, 0, 0, 0, 0,
   0, 0, 4, 0, 10, 0, 0, 0, 0, 0,
   19, 0, 0, 0, 0, 0, 0, 0, 0, 0,
   0, 0, 2, 6, 8, 12, 14, 15, 17, 18,
   23, 0, 40, 0, 0, 0, 0, 0, 0, 0,
   0, 38, 0, 42, 27, 0, 0, 0, 31, 32,
   33, 34, 35, 36, 37, 39, 0, 41, 0, 0,
   43, 0, 30, 0, 0, 29
  ]

/-- The table `TransformTok1`. -/
def TransformTok1 : List Int :=
  [
   1
  ]

/-- The table `TransformTok2`. -/
def TransformTok2 : List Int :=
  [
   2, 3, 4, 5, 6, 7, 8, 9, 10, 11,
   12, 13, 14, 15, 16, 17, 18, 19, 20, 21,
   22, 23, 24, 25, 26, 27, 28, 29, 30, 31,
   32, 33
  ]

/-- The table `TransformTok3`. -/
def TransformTok3 : List Int :=
  [
   0
  ]

def TransformNprod : Int := 44
def TransformPrivate : Int := 57344
def TransformLast : Int := 187
def TransformFlag : Int := -1000

/-- The index expression `t[i]` on a table.  Where the parser indexes a table the guards
before it keep `i` in range. -/
def idx (t : List Int) (i : Int) : Int := t.getD i.toNat 0

/-! ## Parser -/

/-- The loop of `Transformlex1` over `TransformTok3`, `for i := 0; i < len; i += 2`: the value
of `c` when control reaches `out`.  The second argument is `c` before the iteration.  (On a
last entry without a partner the loop would index past the end if the entry were `char`;
`TransformTok3` is `[0]` and `char` is positive where the loop runs.) -/
def tok3Loop (char : Int) : List Int → Int → Int
  | a :: b :: rest, _ => if a = char then b else tok3Loop char rest a
  | [a], _ => a
  | [], c => c

/-- The translation of a token code in `Transformlex1`, from the value `char` that `Lex`
returned to the parser's numbering. -/
def lex1Code (char : Int) : Int :=
  let c : Int :=
    if char ≤ 0 then idx TransformTok1 0
    else if char < TransformTok1.length then idx TransformTok1 char
    else if char ≥ TransformPrivate ∧ char < TransformPrivate + TransformTok2.length then
      idx TransformTok2 (char - TransformPrivate)
    else tok3Loop char TransformTok3 0
  if c = 0 then idx TransformTok2 1 else c

/-- The function `Transformlex1`: calls `Lex` and translates the token code into the parser's
numbering. -/
def Transformlex1 (lex : TransformLex) (lval : TransformSymType) :
    Int × TransformSymType × TransformLex :=
  (lex1Code (lex.Lex lval).1, (lex.Lex lval).2.1, (lex.Lex lval).2.2)

/-- The local variables of `TransformParse` together with the lexer it drives.  `TransformS`
holds the live part of the value stack, `TransformS[0..Transformp]`, top first, so
`Transformp` is its length minus one. -/
structure TransformParserState where
  Transformlex : TransformLex
  Transformlval : TransformSymType
  TransformVAL : TransformSymType
  TransformS : List TransformSymType
  Nerrs : Int
  Errflag : Int
  Transformstate : Int
  Transformchar : Int
  deriving DecidableEq, Repr

/-- Where control is after one pass through the body of `TransformParse`. -/
inductive TransformOutcome where
  /-- The statement `return code` (label `ret0` or `ret1`) -/
  | ret (code : Int) (lex : TransformLex)
  /-- control is at label `Transformnewstate` -/
  | newstate (st : TransformParserState)
  /-- a run-time panic (index out of range) -/
  | fault
  deriving DecidableEq, Repr

/-- Label `Transformstack`: push the state and `TransformVAL`. -/
def Transformstack (st : TransformParserState) : TransformParserState :=
  { st with TransformS := { st.TransformVAL with yys := st.Transformstate } :: st.TransformS }

/-- The statement `if Transformchar < 0 then Transformchar = Transformlex1(...)`. -/
def readChar (st : TransformParserState) : TransformParserState :=
  if st.Transformchar < 0 then
    { st with Transformchar := (Transformlex1 st.Transformlex st.Transformlval).1,
              Transformlval := (Transformlex1 st.Transformlex st.Transformlval).2.1,
              Transformlex := (Transformlex1 st.Transformlex st.Transformlval).2.2 }
  else st

/-- The first loop over `TransformExca`: the entries after the pair `-1, state`. -/
def excaFind (state : Int) : List Int → Option (List Int)
  | a :: b :: rest => if a = -1 ∧ b = state then some rest else excaFind state rest
  | _ => none

/-- The second loop over `TransformExca`: the action paired with `char`, or with the first
negative entry. -/
def excaScan (char : Int) : List Int → Option Int
  | a :: b :: rest => if a < 0 ∨ a = char then some b else excaScan char rest
  | _ => none

/-- The `switch Transformnt` of semantic actions.  `S` is the value stack before the
reduction, top first, so `TransformS[Transformpt-k]` is `S.getD k`. -/
def TransformAction (getCustomFunction : CustomFunctions) (Transformnt : Int)
    (S : List TransformSymType) (VAL : TransformSymType) (lex : TransformLex) :
    TransformSymType × TransformLex :=
  let D : Nat → TransformSymType := fun k => S.getD k TransformSymType.zero
  match Transformnt.toNat with
  | 1 => ({ VAL with val := (D 0).val }, { lex with output := (D 0).val })
  | 2 =>
    let v := TransformFunc.pipelineGeneratorTransform (D 2).val (D 0).val
    ({ VAL with val := v }, { lex with output := v })
  | 3 => ({ VAL with val := (D 0).val }, lex)
  | 4 => ({ VAL with val := TransformFunc.pipelineGeneratorIf (D 0).val }, lex)
  | 5 => ({ VAL with val := (D 0).val }, lex)
  | 6 => ({ VAL with val := TransformFunc.pipelineGeneratorOr (D 2).val (D 0).val }, lex)
  | 7 => ({ VAL with val := (D 0).val }, lex)
  | 8 => ({ VAL with val := TransformFunc.pipelineGeneratorAnd (D 2).val (D 0).val }, lex)
  | 9 => ({ VAL with val := (D 0).val }, lex)
  | 10 => ({ VAL with val := TransformFunc.pipelineGeneratorNot (D 0).val }, lex)
  | 11 => ({ VAL with val := (D 0).val }, lex)
  | 12 =>
    ({ VAL with val := TransformFunc.pipelineGeneratorCompare (D 2).val (D 0).val (D 1).strVal },
      lex)
  | 13 => ({ VAL with val := (D 0).val }, lex)
  | 14 => ({ VAL with val := TransformFunc.addTransformGenerator (D 2).val (D 0).val }, lex)
  | 15 => ({ VAL with val := TransformFunc.subtractTransformGenerator (D 2).val (D 0).val }, lex)
  | 16 => ({ VAL with val := (D 0).val }, lex)
  | 17 => ({ VAL with val := TransformFunc.multiplyTransformGenerator (D 2).val (D 0).val }, lex)
  | 18 => ({ VAL with val := TransformFunc.divideTransformGenerator (D 2).val (D 0).val }, lex)
  | 19 => ({ VAL with val := TransformFunc.inverseTransformGenerator (D 0).val }, lex)
  | 20 => ({ VAL with val := (D 0).val }, lex)
  | 21 => ({ VAL with val := (D 0).val }, lex)
  | 22 => ({ VAL with val := (D 0).val }, lex)
  | 23 => ({ VAL with val := (D 1).val }, lex)
  | 24 => ({ VAL with val := TransformFunc.pipelineGeneratorConstantFloat (D 0).strVal }, lex)
  | 25 => ({ VAL with val := TransformFunc.pipelineGeneratorConstantBool (D 0).strVal }, lex)
  | 26 => ({ VAL with val := TransformFunc.pipelineGeneratorConstantString (D 0).strVal }, lex)
  | 27 => ({ VAL with val := TransformFunc.pipelineGeneratorGet (D 1).stringList }, lex)
  | 28 => ({ VAL with val := TransformFunc.pipelineGeneratorIdentity }, lex)
  | 29 =>
    ({ VAL with val := TransformFunc.pipelineGeneratorSet (D 4).stringList (D 1).val }, lex)
  | 30 => ({ VAL with val := TransformFunc.pipelineGeneratorSet [] (D 1).val }, lex)
  | 31 => ({ VAL with val := TransformFunc.pipelineGeneratorHas (D 1).strVal }, lex)
  | 32 =>
    ({ VAL with val := (TransformFunc.pipelineGeneratorCompare
        TransformFunc.pipelineGeneratorIdentity (D 1).val ">=") }, lex)
  | 33 =>
    ({ VAL with val := (TransformFunc.pipelineGeneratorCompare
        TransformFunc.pipelineGeneratorIdentity (D 1).val "<=") }, lex)
  | 34 =>
    ({ VAL with val := (TransformFunc.pipelineGeneratorCompare
        TransformFunc.pipelineGeneratorIdentity (D 1).val ">") }, lex)
  | 35 =>
    ({ VAL with val := (TransformFunc.pipelineGeneratorCompare
        TransformFunc.pipelineGeneratorIdentity (D 1).val "<") }, lex)
  | 36 =>
    ({ VAL with val := (TransformFunc.pipelineGeneratorCompare
        TransformFunc.pipelineGeneratorIdentity (D 1).val "==") }, lex)
  | 37 =>
    ({ VAL with val := (TransformFunc.pipelineGeneratorCompare
        TransformFunc.pipelineGeneratorIdentity (D 1).val "!=") }, lex)
  | 38 =>
    match getCustomFunction (D 2).strVal [] with
    | (fn, some msg) => ({ VAL with val := fn }, lex.Error msg)
    | (fn, none) => ({ VAL with val := fn }, lex)
  | 39 =>
    match getCustomFunction (D 3).strVal (D 1).funcList with
    | (fn, some msg) => ({ VAL with val := fn }, lex.Error msg)
    | (fn, none) => ({ VAL with val := fn }, lex)
  | 40 => ({ VAL with stringList := [(D 0).strVal] }, lex)
  | 41 => ({ VAL with stringList := [(D 0).strVal] ++ (D 2).stringList }, lex)
  | 42 => ({ VAL with funcList := [(D 0).val] }, lex)
  | 43 => ({ VAL with funcList := [(D 0).val] ++ (D 2).funcList }, lex)
  | _ => (VAL, lex)

/-- The reduction by production `n`: pop `TransformR2[n]` entries, take `TransformVAL` from
the lowest of them (`TransformS[Transformp+1]`; every production that is reduced has a
right-hand side of length at least one), consult the goto table, run the semantic action
and go to `Transformstack`. -/
def Transformreduce (getCustomFunction : CustomFunctions) (st : TransformParserState)
    (n : Int) : TransformOutcome :=
  let Transformnt := n
  let S := st.TransformS
  match S.drop (idx TransformR2 n).toNat with
  | [] => TransformOutcome.fault
  | top :: below =>
    let VAL := S.getD ((idx TransformR2 n).toNat - 1) TransformSymType.zero
    let n1 := idx TransformR1 n
    let g := idx TransformPgo n1
    let j := g + top.yys + 1
    let state :=
      if j ≥ TransformLast then idx TransformAct g
      else if idx TransformChk (idx TransformAct j) ≠ -n1 then idx TransformAct g
      else idx TransformAct j
    match TransformAction getCustomFunction Transformnt S VAL st.Transformlex with
    | (VAL, lex) =>
      TransformOutcome.newstate (Transformstack
        { st with TransformS := top :: below, TransformVAL := VAL, Transformstate := state,
                  Transformlex := lex })

/-- The loop `for Transformp >= 0` of error recovery: pop until a state shifts the `error`
token; `ret1` when the stack runs out. -/
def errorPop (st : TransformParserState) : List TransformSymType → TransformOutcome
  | [] => TransformOutcome.ret 1 st.Transformlex
  | e :: rest =>
    let n := idx TransformPact e.yys + TransformErrCode
    if n ≥ 0 ∧ n < TransformLast ∧ idx TransformChk (idx TransformAct n) = TransformErrCode then
      TransformOutcome.newstate (Transformstack
        { st with TransformS := e :: rest, Transformstate := idx TransformAct n })
    else errorPop st rest

/-- The branch `if Transformn == 0` of `Transformdefault`: the `switch Errflag`.  `Errflag` only
takes the values 0 to 3. -/
def TransformErrorRecovery (st : TransformParserState) : TransformOutcome :=
  if st.Errflag = 0 then
    errorPop { st with Transformlex := st.Transformlex.Error "syntax error",
                       Nerrs := st.Nerrs + 1, Errflag := 3 } st.TransformS
  else if st.Errflag = 1 ∨ st.Errflag = 2 then
    errorPop { st with Errflag := 3 } st.TransformS
  else if st.Errflag = 3 then
    if st.Transformchar = TransformEofCode then TransformOutcome.ret 1 st.Transformlex
    else TransformOutcome.newstate { st with Transformchar := -1 }
  else TransformOutcome.fault

/-- Label `Transformdefault`: the default action of the state. -/
def Transformdefault (getCustomFunction : CustomFunctions) (st : TransformParserState) :
    TransformOutcome :=
  let n := idx TransformDef st.Transformstate
  if n = -2 then
    let st := readChar st
    match excaFind st.Transformstate TransformExca with
    | none => TransformOutcome.fault
    | some tail =>
      match excaScan st.Transformchar tail with
      | none => TransformOutcome.fault
      | some n =>
        if n < 0 then TransformOutcome.ret 0 st.Transformlex
        else if n = 0 then TransformErrorRecovery st
        else Transformreduce getCustomFunction st n
  else if n = 0 then TransformErrorRecovery st
  else Transformreduce getCustomFunction st n

/-- Label `Transformnewstate`: one pass from `Transformnewstate` to the next time control is
there, or to a return. -/
def Transformnewstate (getCustomFunction : CustomFunctions) (st : TransformParserState) :
    TransformOutcome :=
  let n := idx TransformPact st.Transformstate
  if n ≤ TransformFlag then Transformdefault getCustomFunction st
  else
    let st := readChar st
    let n := n + st.Transformchar
    if n < 0 ∨ n ≥ TransformLast then Transformdefault getCustomFunction st
    else
      let n := idx TransformAct n
      if idx TransformChk n = st.Transformchar then
        TransformOutcome.newstate (Transformstack
          { st with Transformchar := -1, TransformVAL := st.Transformlval, Transformstate := n,
                    Errflag := if st.Errflag > 0 then st.Errflag - 1 else st.Errflag })
      else Transformdefault getCustomFunction st

/-- The parser loop, bounded by `fuel` passes.  `none`: the fuel ran out, or a panic. -/
def TransformParseLoop (getCustomFunction : CustomFunctions) :
    Nat → TransformParserState → Option (Int × TransformLex)
  | 0, _ => none
  | fuel + 1, st =>
    match Transformnewstate getCustomFunction st with
    | TransformOutcome.ret code lex => some (code, lex)
    | TransformOutcome.newstate st1 => TransformParseLoop getCustomFunction fuel st1
    | TransformOutcome.fault => none

/-- The parser state at the first arrival at `Transformnewstate`. -/
def TransformParseInit (lex : TransformLex) : TransformParserState :=
  Transformstack
    { Transformlex := lex, Transformlval := TransformSymType.zero,
      TransformVAL := TransformSymType.zero, TransformS := [], Nerrs := 0, Errflag := 0,
      Transformstate := 0, Transformchar := -1 }

/-- The function `TransformParse`: the return code and the lexer at the return. -/
def TransformParse (getCustomFunction : CustomFunctions) (fuel : Nat) (lex : TransformLex) :
    Option (Int × TransformLex) :=
  TransformParseLoop getCustomFunction fuel (TransformParseInit lex)

/-- The function `ParseTransform`: the returned stage and the message of the returned error (`none` for
a nil error). -/
def ParseTransform (getCustomFunction : CustomFunctions) (fuel : Nat) (input : String) :
    Option (TransformFunc × Option String) :=
  match TransformParse getCustomFunction fuel
      { input := input, position := 0, errorString := "", output := TransformFunc.nil } with
  | none => none
  | some (_, tl) =>
    if tl.errorString = "" then some (tl.output, none)
    else some (tl.output, some tl.errorString)

/-! ## Tokens, and the lexer seen as a token stream -/

/-- A token as `Lex` delivers it: the code it returns and the `strVal` it leaves in `lval`. -/
structure Token where
  code : Int
  strVal : String
  deriving DecidableEq, Repr

/-- The call of `Lex` at `position` of `input`: the code returned, the `strVal` it leaves, and
the position after the call.  (`Lex` reads and writes no other field of the lexer.) -/
def lexAt (input : String) (position : Int) : Int × String × Int :=
  let l : TransformLex :=
    { input := input, position := position, errorString := "", output := TransformFunc.nil }
  ((lexSwitch l.Next.1).1, (lexSwitch l.Next.1).2, l.Next.2.position)

/-- Successive calls of `Lex` from `position` deliver exactly the tokens `ts`, and the call
after them returns 0 (the lexeme `<EOF>` or `<ERROR>`). -/
def lexesAs (input : String) : Int → List Token → Bool
  | position, [] => decide ((lexAt input position).1 ≤ 0)
  | position, t :: ts =>
    decide ((lexAt input position).1 = t.code ∧ 0 < t.code ∧
      (lexAt input position).2.1 = t.strVal) &&
    lexesAs input (lexAt input position).2.2 ts

/-- The parser's code of the next token of a stream: `TransformEofCode` at its end. -/
def lookahead : List Token → Int
  | [] => 1
  | t :: _ => lex1Code t.code

/-! ## The parse tables read as an automaton -/

/-- The shift test of `Transformnewstate` in state `s` on the token code `c`: the state shifted
to, when the shift is valid. -/
def validShift (s c : Int) : Option Int :=
  if idx TransformPact s ≤ TransformFlag then none
  else if idx TransformPact s + c < 0 ∨ idx TransformPact s + c ≥ TransformLast then none
  else if idx TransformChk (idx TransformAct (idx TransformPact s + c)) = c then
    some (idx TransformAct (idx TransformPact s + c))
  else none

/-- The production that state `s` reduces by on the token code `c`: there is no valid shift
and the default action of `s` is a production. -/
def defaultReduce (s c : Int) : Option Int :=
  if (validShift s c).isSome then none
  else if idx TransformDef s ≤ 0 then none
  else some (idx TransformDef s)

/-- The goto computation of a reduction: the state entered from `s` on the nonterminal `n1`. -/
def gotoState (s n1 : Int) : Int :=
  if idx TransformPgo n1 + s + 1 ≥ TransformLast then idx TransformAct (idx TransformPgo n1)
  else if idx TransformChk (idx TransformAct (idx TransformPgo n1 + s + 1)) ≠ -n1 then
    idx TransformAct (idx TransformPgo n1)
  else idx TransformAct (idx TransformPgo n1 + s + 1)

/-- State `s` has no valid shift on `c` and its action on `c` is the error action:
`TransformDef` is 0, or it is -2 and the exception table gives 0. -/
def errorAction (s c : Int) : Bool :=
  (validShift s c).isNone &&
  (decide (idx TransformDef s = 0) ||
   (decide (idx TransformDef s = -2) &&
    decide (((excaFind s TransformExca).bind (excaScan c)) = some 0)))

/-- State `s` accepts on `c`: no valid shift, `TransformDef` is -2 and the exception table
gives a negative action. -/
def acceptAction (s c : Int) : Bool :=
  (validShift s c).isNone && decide (idx TransformDef s = -2) &&
  (match (excaFind s TransformExca).bind (excaScan c) with
   | some n => decide (n < 0)
   | none => false)

/-- The state has a valid shift of the `error` token (the test of the error recovery loop). -/
def errorShift (s : Int) : Bool :=
  decide (idx TransformPact s + TransformErrCode ≥ 0 ∧
    idx TransformPact s + TransformErrCode < TransformLast ∧
    idx TransformChk (idx TransformAct (idx TransformPact s + TransformErrCode)) =
      TransformErrCode)

/-! ## The grammar behind the tables -/

/-- The nonterminals, by the level of the language they stand for. -/
inductive NT where
  /-- Number 7: stages joined by PIPE -/
  | pipeline
  /-- Number 6: a stage, with or without a leading `if` -/
  | guarded
  /-- Number 1: operands joined by `or` -/
  | disjunction
  /-- Number 2: operands joined by `and` -/
  | conjunction
  /-- Number 3: operand with leading `not`s -/
  | negation
  /-- Number 4: one comparison at most -/
  | comparison
  /-- Number 12: operands joined by `+` and `-` -/
  | additive
  /-- Number 11: operands joined by `*` and `/`, or a negated atom -/
  | multiplicative
  /-- Number 5: an atom -/
  | terminal
  /-- Number 8 -/
  | constant
  /-- Number 9 -/
  | variable
  /-- Number 10 -/
  | function
  /-- Number 14: quoted names joined by commas -/
  | stringList
  /-- Number 13: pipelines joined by commas -/
  | funcList
  deriving DecidableEq, Repr

/-- The number of a nonterminal in `TransformR1` and `TransformPgo`. -/
def NT.num : NT → Int
  | NT.pipeline => 7
  | NT.guarded => 6
  | NT.disjunction => 1
  | NT.conjunction => 2
  | NT.negation => 3
  | NT.comparison => 4
  | NT.additive => 12
  | NT.multiplicative => 11
  | NT.terminal => 5
  | NT.constant => 8
  | NT.variable => 9
  | NT.function => 10
  | NT.stringList => 14
  | NT.funcList => 13

/-- The states in which a phrase of the nonterminal can begin. -/
def NT.starts : NT → List Int
  | NT.pipeline => [0, 16, 45, 46, 47, 48, 49, 50, 51, 77, 86]
  | NT.guarded => [0, 16, 45, 46, 47, 48, 49, 50, 51, 77, 86, 30]
  | NT.disjunction => [0, 16, 45, 46, 47, 48, 49, 50, 51, 77, 86, 30, 4, 93]
  | NT.conjunction => [0, 16, 45, 46, 47, 48, 49, 50, 51, 77, 86, 30, 4, 93, 31]
  | NT.negation => [0, 16, 45, 46, 47, 48, 49, 50, 51, 77, 86, 30, 4, 93, 31, 33, 8]
  | NT.comparison => [0, 16, 45, 46, 47, 48, 49, 50, 51, 77, 86, 30, 4, 93, 31, 33, 8]
  | NT.additive => [0, 16, 45, 46, 47, 48, 49, 50, 51, 77, 86, 30, 4, 93, 31, 33, 8, 35]
  | NT.multiplicative =>
    [0, 16, 45, 46, 47, 48, 49, 50, 51, 77, 86, 30, 4, 93, 31, 33, 8, 35, 36, 37]
  | NT.stringList => [42, 76]
  | NT.funcList => [51]
  | _ => [0, 16, 45, 46, 47, 48, 49, 50, 51, 77, 86, 30, 4, 93, 31, 33, 8, 35, 36, 37, 38, 39, 12]

/-- The token codes of the parser's numbering: 1 is the end of input, 4 to 32 are the tokens
of `TransformToknames`. -/
def tokenCodes : List Int :=
  [1, 2, 3, 4, 5, 6, 7, 8, 9, 10, 11, 12, 13, 14, 15, 16, 17, 18, 19, 20, 21, 22, 23, 24, 25,
   26, 27, 28, 29, 30, 31, 32, 33]

/-- The token codes after which a phrase of the nonterminal is complete: those on which the
parser does not extend the phrase by a shift (LSQUARE 17 after `$`; MULTIPLY 31 and DIVIDE 32
after a product; COMPOP 7, PLUS 29 and MINUS 30 after a sum; AND 10; OR 9; PIPE 15 after a
call argument). -/
def NT.follows : NT → Int → Bool
  | NT.stringList, c => decide (c ∈ tokenCodes)
  | NT.constant, c | NT.variable, c | NT.function, c | NT.terminal, c | NT.multiplicative, c =>
    decide (c ∈ tokenCodes ∧ c ≠ 17)
  | NT.additive, c => decide (c ∈ tokenCodes ∧ c ∉ [17, 31, 32])
  | NT.comparison, c | NT.negation, c | NT.conjunction, c =>
    decide (c ∈ tokenCodes ∧ c ∉ [17, 31, 32, 7, 29, 30])
  | NT.disjunction, c => decide (c ∈ tokenCodes ∧ c ∉ [17, 31, 32, 7, 29, 30, 10])
  | NT.guarded, c | NT.pipeline, c => decide (c ∈ tokenCodes ∧ c ∉ [17, 31, 32, 7, 29, 30, 10, 9])
  | NT.funcList, c => decide (c ∈ tokenCodes ∧ c ∉ [17, 31, 32, 7, 29, 30, 10, 9, 15])

/-- What a phrase leaves in its stack entry: a stage in `val`, or a list in `stringList` or
in `funcList`. -/
inductive SemVal where
  | func (f : TransformFunc)
  | strings (l : List String)
  | funcs (l : List TransformFunc)
  deriving DecidableEq, Repr

/-- The stack entry `e` carries the value `v`. -/
def SemVal.carriedBy : SemVal → TransformSymType → Prop
  | SemVal.func f, e => e.val = f
  | SemVal.strings l, e => e.stringList = l
  | SemVal.funcs l, e => e.funcList = l

/-- The grammar of the tables, one rule per production 1 to 43, each with the value its
semantic action computes and the messages the action passes to `Error`, in order.
`Derives X ts v es`: the tokens `ts` form a phrase of `X` whose value is `v`. -/
inductive Derives (getCustomFunction : CustomFunctions) :
    NT → List Token → SemVal → List String → Prop where
  | p1 {ts v es} :
    Derives getCustomFunction NT.guarded ts (SemVal.func v) es →
    Derives getCustomFunction NT.pipeline ts (SemVal.func v) es
  | p2 {t1 t2 a b e1 e2} (s : String) :
    Derives getCustomFunction NT.pipeline t1 (SemVal.func a) e1 →
    Derives getCustomFunction NT.guarded t2 (SemVal.func b) e2 →
    Derives getCustomFunction NT.pipeline (t1 ++ Token.mk PIPE s :: t2)
      (SemVal.func (TransformFunc.pipelineGeneratorTransform a b)) (e1 ++ e2)
  | p3 {ts v es} :
    Derives getCustomFunction NT.disjunction ts (SemVal.func v) es →
    Derives getCustomFunction NT.guarded ts (SemVal.func v) es
  | p4 {ts v es} (s : String) :
    Derives getCustomFunction NT.disjunction ts (SemVal.func v) es →
    Derives getCustomFunction NT.guarded (Token.mk IF s :: ts)
      (SemVal.func (TransformFunc.pipelineGeneratorIf v)) es
  | p5 {ts v es} :
    Derives getCustomFunction NT.conjunction ts (SemVal.func v) es →
    Derives getCustomFunction NT.disjunction ts (SemVal.func v) es
  | p6 {t1 t2 a b e1 e2} (s : String) :
    Derives getCustomFunction NT.disjunction t1 (SemVal.func a) e1 →
    Derives getCustomFunction NT.conjunction t2 (SemVal.func b) e2 →
    Derives getCustomFunction NT.disjunction (t1 ++ Token.mk OR s :: t2)
      (SemVal.func (TransformFunc.pipelineGeneratorOr a b)) (e1 ++ e2)
  | p7 {ts v es} :
    Derives getCustomFunction NT.negation ts (SemVal.func v) es →
    Derives getCustomFunction NT.conjunction ts (SemVal.func v) es
  | p8 {t1 t2 a b e1 e2} (s : String) :
    Derives getCustomFunction NT.conjunction t1 (SemVal.func a) e1 →
    Derives getCustomFunction NT.negation t2 (SemVal.func b) e2 →
    Derives getCustomFunction NT.conjunction (t1 ++ Token.mk AND s :: t2)
      (SemVal.func (TransformFunc.pipelineGeneratorAnd a b)) (e1 ++ e2)
  | p9 {ts v es} :
    Derives getCustomFunction NT.comparison ts (SemVal.func v) es →
    Derives getCustomFunction NT.negation ts (SemVal.func v) es
  | p10 {ts v es} (s : String) :
    Derives getCustomFunction NT.negation ts (SemVal.func v) es →
    Derives getCustomFunction NT.negation (Token.mk NOT s :: ts)
      (SemVal.func (TransformFunc.pipelineGeneratorNot v)) es
  | p11 {ts v es} :
    Derives getCustomFunction NT.additive ts (SemVal.func v) es →
    Derives getCustomFunction NT.comparison ts (SemVal.func v) es
  | p12 {t1 t2 a b e1 e2} (op : String) :
    Derives getCustomFunction NT.additive t1 (SemVal.func a) e1 →
    Derives getCustomFunction NT.additive t2 (SemVal.func b) e2 →
    Derives getCustomFunction NT.comparison (t1 ++ Token.mk COMPOP op :: t2)
      (SemVal.func (TransformFunc.pipelineGeneratorCompare a b op)) (e1 ++ e2)
  | p13 {ts v es} :
    Derives getCustomFunction NT.multiplicative ts (SemVal.func v) es →
    Derives getCustomFunction NT.additive ts (SemVal.func v) es
  | p14 {t1 t2 a b e1 e2} (s : String) :
    Derives getCustomFunction NT.additive t1 (SemVal.func a) e1 →
    Derives getCustomFunction NT.multiplicative t2 (SemVal.func b) e2 →
    Derives getCustomFunction NT.additive (t1 ++ Token.mk PLUS s :: t2)
      (SemVal.func (TransformFunc.addTransformGenerator a b)) (e1 ++ e2)
  | p15 {t1 t2 a b e1 e2} (s : String) :
    Derives getCustomFunction NT.additive t1 (SemVal.func a) e1 →
    Derives getCustomFunction NT.multiplicative t2 (SemVal.func b) e2 →
    Derives getCustomFunction NT.additive (t1 ++ Token.mk MINUS s :: t2)
      (SemVal.func (TransformFunc.subtractTransformGenerator a b)) (e1 ++ e2)
  | p16 {ts v es} :
    Derives getCustomFunction NT.terminal ts (SemVal.func v) es →
    Derives getCustomFunction NT.multiplicative ts (SemVal.func v) es
  | p17 {t1 t2 a b e1 e2} (s : String) :
    Derives getCustomFunction NT.multiplicative t1 (SemVal.func a) e1 →
    Derives getCustomFunction NT.terminal t2 (SemVal.func b) e2 →
    Derives getCustomFunction NT.multiplicative (t1 ++ Token.mk MULTIPLY s :: t2)
      (SemVal.func (TransformFunc.multiplyTransformGenerator a b)) (e1 ++ e2)
  | p18 {t1 t2 a b e1 e2} (s : String) :
    Derives getCustomFunction NT.multiplicative t1 (SemVal.func a) e1 →
    Derives getCustomFunction NT.terminal t2 (SemVal.func b) e2 →
    Derives getCustomFunction NT.multiplicative (t1 ++ Token.mk DIVIDE s :: t2)
      (SemVal.func (TransformFunc.divideTransformGenerator a b)) (e1 ++ e2)
  | p19 {ts v es} (s : String) :
    Derives getCustomFunction NT.terminal ts (SemVal.func v) es →
    Derives getCustomFunction NT.multiplicative (Token.mk MINUS s :: ts)
      (SemVal.func (TransformFunc.inverseTransformGenerator v)) es
  | p20 {ts v es} :
    Derives getCustomFunction NT.constant ts (SemVal.func v) es →
    Derives getCustomFunction NT.terminal ts (SemVal.func v) es
  | p21 {ts v es} :
    Derives getCustomFunction NT.variable ts (SemVal.func v) es →
    Derives getCustomFunction NT.terminal ts (SemVal.func v) es
  | p22 {ts v es} :
    Derives getCustomFunction NT.function ts (SemVal.func v) es →
    Derives getCustomFunction NT.terminal ts (SemVal.func v) es
  | p23 {ts v es} (s1 s2 : String) :
    Derives getCustomFunction NT.pipeline ts (SemVal.func v) es →
    Derives getCustomFunction NT.terminal (Token.mk LB s1 :: ts ++ [Token.mk RB s2])
      (SemVal.func v) es
  | p24 (s : String) :
    Derives getCustomFunction NT.constant [Token.mk NUMBER s]
      (SemVal.func (TransformFunc.pipelineGeneratorConstantFloat s)) []
  | p25 (s : String) :
    Derives getCustomFunction NT.constant [Token.mk BOOL s]
      (SemVal.func (TransformFunc.pipelineGeneratorConstantBool s)) []
  | p26 (s : String) :
    Derives getCustomFunction NT.constant [Token.mk STRING s]
      (SemVal.func (TransformFunc.pipelineGeneratorConstantString s)) []
  | p27 {ts l es} (s1 s2 s3 : String) :
    Derives getCustomFunction NT.stringList ts (SemVal.strings l) es →
    Derives getCustomFunction NT.variable
      (Token.mk THIS s1 :: Token.mk LSQUARE s2 :: ts ++ [Token.mk RSQUARE s3])
      (SemVal.func (TransformFunc.pipelineGeneratorGet l)) es
  | p28 (s : String) :
    Derives getCustomFunction NT.variable [Token.mk THIS s]
      (SemVal.func TransformFunc.pipelineGeneratorIdentity) []
  | p29 {t1 t2 l v e1 e2} (s1 s2 s3 s4 s5 s6 s7 : String) :
    Derives getCustomFunction NT.stringList t1 (SemVal.strings l) e1 →
    Derives getCustomFunction NT.disjunction t2 (SemVal.func v) e2 →
    Derives getCustomFunction NT.function
      (Token.mk SET s1 :: Token.mk LB s2 :: Token.mk THIS s3 :: Token.mk LSQUARE s4 :: t1 ++
        Token.mk RSQUARE s5 :: Token.mk COMMA s6 :: t2 ++ [Token.mk RB s7])
      (SemVal.func (TransformFunc.pipelineGeneratorSet l v)) (e1 ++ e2)
  | p30 {ts v es} (s1 s2 s3 s4 s5 : String) :
    Derives getCustomFunction NT.pipeline ts (SemVal.func v) es →
    Derives getCustomFunction NT.function
      (Token.mk SET s1 :: Token.mk LB s2 :: Token.mk THIS s3 :: Token.mk COMMA s4 :: ts ++
        [Token.mk RB s5])
      (SemVal.func (TransformFunc.pipelineGeneratorSet [] v)) es
  | p31 (s1 s2 key s3 : String) :
    Derives getCustomFunction NT.function
      [Token.mk HAS s1, Token.mk LB s2, Token.mk STRING key, Token.mk RB s3]
      (SemVal.func (TransformFunc.pipelineGeneratorHas key)) []
  | p32 {ts v es} (s1 s2 s3 : String) :
    Derives getCustomFunction NT.pipeline ts (SemVal.func v) es →
    Derives getCustomFunction NT.function
      (Token.mk GTE s1 :: Token.mk LB s2 :: ts ++ [Token.mk RB s3])
      (SemVal.func (TransformFunc.pipelineGeneratorCompare
        TransformFunc.pipelineGeneratorIdentity v ">=")) es
  | p33 {ts v es} (s1 s2 s3 : String) :
    Derives getCustomFunction NT.pipeline ts (SemVal.func v) es →
    Derives getCustomFunction NT.function
      (Token.mk LTE s1 :: Token.mk LB s2 :: ts ++ [Token.mk RB s3])
      (SemVal.func (TransformFunc.pipelineGeneratorCompare
        TransformFunc.pipelineGeneratorIdentity v "<=")) es
  | p34 {ts v es} (s1 s2 s3 : String) :
    Derives getCustomFunction NT.pipeline ts (SemVal.func v) es →
    Derives getCustomFunction NT.function
      (Token.mk GT s1 :: Token.mk LB s2 :: ts ++ [Token.mk RB s3])
      (SemVal.func (TransformFunc.pipelineGeneratorCompare
        TransformFunc.pipelineGeneratorIdentity v ">")) es
  | p35 {ts v es} (s1 s2 s3 : String) :
    Derives getCustomFunction NT.pipeline ts (SemVal.func v) es →
    Derives getCustomFunction NT.function
      (Token.mk LT s1 :: Token.mk LB s2 :: ts ++ [Token.mk RB s3])
      (SemVal.func (TransformFunc.pipelineGeneratorCompare
        TransformFunc.pipelineGeneratorIdentity v "<")) es
  | p36 {ts v es} (s1 s2 s3 : String) :
    Derives getCustomFunction NT.pipeline ts (SemVal.func v) es →
    Derives getCustomFunction NT.function
      (Token.mk EQ s1 :: Token.mk LB s2 :: ts ++ [Token.mk RB s3])
      (SemVal.func (TransformFunc.pipelineGeneratorCompare
        TransformFunc.pipelineGeneratorIdentity v "==")) es
  | p37 {ts v es} (s1 s2 s3 : String) :
    Derives getCustomFunction NT.pipeline ts (SemVal.func v) es →
    Derives getCustomFunction NT.function
      (Token.mk NE s1 :: Token.mk LB s2 :: ts ++ [Token.mk RB s3])
      (SemVal.func (TransformFunc.pipelineGeneratorCompare
        TransformFunc.pipelineGeneratorIdentity v "!=")) es
  | p38 (name s1 s2 : String) :
    Derives getCustomFunction NT.function
      [Token.mk IDENTIFIER name, Token.mk LB s1, Token.mk RB s2]
      (SemVal.func (getCustomFunction name []).1) (getCustomFunction name []).2.toList
  | p39 {ts l es} (name s1 s2 : String) :
    Derives getCustomFunction NT.funcList ts (SemVal.funcs l) es →
    Derives getCustomFunction NT.function
      (Token.mk IDENTIFIER name :: Token.mk LB s1 :: ts ++ [Token.mk RB s2])
      (SemVal.func (getCustomFunction name l).1) (es ++ (getCustomFunction name l).2.toList)
  | p40 (s : String) :
    Derives getCustomFunction NT.stringList [Token.mk STRING s] (SemVal.strings [s]) []
  | p41 {ts l es} (s1 s : String) :
    Derives getCustomFunction NT.stringList ts (SemVal.strings l) es →
    Derives getCustomFunction NT.stringList (ts ++ [Token.mk COMMA s1, Token.mk STRING s])
      (SemVal.strings ([s] ++ l)) es
  | p42 {ts v es} :
    Derives getCustomFunction NT.pipeline ts (SemVal.func v) es →
    Derives getCustomFunction NT.funcList ts (SemVal.funcs [v]) es
  | p43 {t1 t2 l v e1 e2} (s : String) :
    Derives getCustomFunction NT.funcList t1 (SemVal.funcs l) e1 →
    Derives getCustomFunction NT.pipeline t2 (SemVal.func v) e2 →
    Derives getCustomFunction NT.funcList (t1 ++ Token.mk COMMA s :: t2)
      (SemVal.funcs ([v] ++ l)) (e1 ++ e2)

/-- The message stored in the lexer after the calls `Error(e)` for `e` in `es`, in order, when
`init` was stored before: each call replaces the message. -/
def lastError (es : List String) (init : String) : String :=
  es.foldl (fun _ e => e) init

/-- The error that `ParseTransform` returns for the stored message `s`: nil when it is empty. -/
def errorOf (s : String) : Option String :=
  if s = "" then none else some s

/-! ## Runs of the parser -/

/-- What the proofs track of a parser state at `Transformnewstate`: the value stack (top
first), the tokens not yet shifted, and the message and output stored in the lexer. -/
structure Cfg where
  stack : List TransformSymType
  toks : List Token
  err : String
  out : TransformFunc

/-- The head of `ts` is held in `Transformlval` and the lexer is about to deliver the rest. -/
def Held (st : TransformParserState) : List Token → Prop
  | [] => True
  | t :: rest =>
    st.Transformlval.strVal = t.strVal ∧
    lexesAs st.Transformlex.input st.Transformlex.position rest = true

/-- The tokens not yet shifted are `ts`: either no token is held in `Transformchar` and the
lexer is about to deliver `ts`, or the head of `ts` is held (the end of input when `ts` is
empty) and the lexer is about to deliver the rest. -/
def Pending (st : TransformParserState) (ts : List Token) : Prop :=
  (st.Transformchar < 0 ∧
      lexesAs st.Transformlex.input st.Transformlex.position ts = true) ∨
  (st.Transformchar = lookahead ts ∧ Held st ts)

/-- The parser state `st`, at `Transformnewstate`, is described by `c`. -/
def Abs (st : TransformParserState) (c : Cfg) : Prop :=
  st.TransformS = c.stack ∧
  (∃ e S, c.stack = e :: S ∧ st.Transformstate = e.yys) ∧
  st.Errflag = 0 ∧
  st.Transformlex.errorString = c.err ∧
  st.Transformlex.output = c.out ∧
  (st.Transformlval.val = TransformFunc.nil ∧ st.Transformlval.stringList = [] ∧
    st.Transformlval.funcList = []) ∧
  Pending st c.toks

/-- Exactly `n` passes through `Transformnewstate`, none of which returns. -/
def stepN (getCustomFunction : CustomFunctions) :
    Nat → TransformParserState → Option TransformParserState
  | 0, st => some st
  | n + 1, st =>
    match Transformnewstate getCustomFunction st with
    | TransformOutcome.newstate st1 => stepN getCustomFunction n st1
    | _ => none

/-- From every parser state described by `c` the parser reaches, in finitely many passes, a
state described by `d`. -/
def Reach (getCustomFunction : CustomFunctions) (c d : Cfg) : Prop :=
  ∀ st, Abs st c → ∃ n st1, stepN getCustomFunction n st = some st1 ∧ Abs st1 d

/-- The parser handles the phrase `ts` of `X` as the grammar says: started in a state where a
phrase of `X` can begin, with `ts` and then `rest` to come and the token after `ts` one that
completes a phrase of `X`, it reaches the state with one more stack entry, for `X`, that
carries the value `v`; the lexer then stores the last of the messages `es`, and after a
pipeline its output is the value. -/
def Phrase (getCustomFunction : CustomFunctions) (X : NT) (ts : List Token) (v : SemVal)
    (es : List String) : Prop :=
  ∀ (e : TransformSymType) (S : List TransformSymType) (rest : List Token) (err : String)
    (out : TransformFunc), e.yys ∈ X.starts → X.follows (lookahead rest) = true →
    ∃ e1 out1 err1,
      Reach getCustomFunction ⟨e :: S, ts ++ rest, err, out⟩ ⟨e1 :: e :: S, rest, err1, out1⟩ ∧
      err1 = lastError es err ∧ e1.yys = gotoState e.yys X.num ∧ v.carriedBy e1 ∧
      (X = NT.pipeline → SemVal.func out1 = v)

/-- The stack entry pushed by the shift of a token into state `s`. -/
def shiftEntry (s : Int) (strVal : String) : TransformSymType :=
  { yys := s, val := TransformFunc.nil, strVal := strVal, stringList := [], funcList := [] }

/-- A registry without entries: every lookup fails with an error. -/
def emptyRegistry : CustomFunctions :=
  fun _ _ => (TransformFunc.nil, some "unknown function")

/-- A registry in which every name is a function that returns its first argument. -/
def firstArgRegistry : CustomFunctions :=
  fun _ args => (args.headD TransformFunc.nil, none)

/-- The tokens of the quoted keys `k, ks` written with commas between them. -/
def keyTokens : String → List String → List Token
  | k, [] => [Token.mk STRING k]
  | k, k2 :: ks => Token.mk STRING k :: Token.mk COMMA "," :: keyTokens k2 ks

/-- The tokens of the arguments `a, as` written with commas between them. -/
def argTokens : List Token → List (List Token) → List Token
  | a, [] => a
  | a, a2 :: rest => a ++ Token.mk COMMA "," :: argTokens a2 rest

/-- The comparison keywords, each with the operator of its production (32 to 37). -/
def shorthandOps : List (Int × String) :=
  [(GTE, ">="), (LTE, "<="), (GT, ">"), (LT, "<"), (EQ, "=="), (NE, "!=")]

/-- The function `ParseTransform` returns `r` on `input` (with enough fuel). -/
def ParsesTo (getCustomFunction : CustomFunctions) (input : String)
    (r : TransformFunc × Option String) : Prop :=
  ∃ fuel, ParseTransform getCustomFunction fuel input = some r

/-- A registry in which every name is a function whose stage is the identity. -/
def identityRegistry : CustomFunctions :=
  fun _ _ => (TransformFunc.pipelineGeneratorIdentity, none)

/-- The semantic action of production `Transformnt`, run on the value stack `S` (top first),
calls `getCustomFunction` and the call returns an error: the actions of productions 38 and
39 are the ones that call it. -/
def callFails (getCustomFunction : CustomFunctions) (Transformnt : Int)
    (S : List TransformSymType) : Bool :=
  let D : Nat → TransformSymType := fun k => S.getD k TransformSymType.zero
  (decide (Transformnt = 38) && (getCustomFunction (D 2).strVal []).2.isSome) ||
  (decide (Transformnt = 39) &&
    (getCustomFunction (D 3).strVal (D 1).funcList).2.isSome)

/-- After `n` passes of the parse of `input`, the next pass reduces by a production whose
semantic action calls `getCustomFunction`, and the call returns an error. -/
def failingCallAt (getCustomFunction : CustomFunctions) (input : String) (n : Nat) : Bool :=
  match stepN getCustomFunction n (TransformParseInit
      { input := input, position := 0, errorString := "", output := TransformFunc.nil }) with
  | some st =>
    match defaultReduce st.Transformstate (readChar st).Transformchar with
    | some p => callFails getCustomFunction p st.TransformS
    | none => false
  | none => false

/-- The comparison keywords: the text, the token code that `Lex` returns for it, and the
operator of the production that starts with the token (32 to 37). -/
def shorthandKeywords : List (String × Int × String) :=
  [("gte", GTE, ">="), ("lte", LTE, "<="), ("gt", GT, ">"), ("lt", LT, "<"),
   ("eq", EQ, "=="), ("ne", NE, "!=")]

end Transforms

/-! # Package restcore -/

namespace Restcore

/-- The message of the error `ErrInvalidName`; an error value is modelled by its message and a
nil error by `none`. -/
def ErrInvalidName : String := "The given name did not pass sanitation."

/-- The call `strings.Contains(s, substr)`: `substr` occurs in `s`. -/
def stringsContains (s substr : String) : Bool :=
  s.data.tails.any (fun t => substr.data.isPrefixOf t)

/-- The backslash, the one character of the Go literal in the second test of `ValidName`. -/
def backslash : Char := Char.ofNat 92

/-- The function `ValidName`. -/
def ValidName (n : String) (err : Option String) : Option String :=
  match err with
  | some e => some e
  | none =>
    if stringsContains n "/" || stringsContains n (String.mk [backslash]) ||
        stringsContains n " " || stringsContains n "?" || decide (n.length = 0) then
      some ErrInvalidName
    else none

end Restcore

/-! # Package commands -/

namespace Commands

/-- What a run of `importStreamData` does: the batches passed to `InsertStreamByID`, in the
order of the calls, and the error returned (`none` for nil). -/
structure ImportRun (Datapoint : Type) where
  inserted : List (List Datapoint)
  err : Option String
  deriving DecidableEq, Repr

/-- The read loop of `importStreamData` with the statements after it, entered after a first
call of `dr.Next()` that returned no error.  The list argument holds the datapoints that
the calls of `dr.Next()` still deliver, up to the first call that returns a nil datapoint.
The error of a call of `Next` inside the loop is assigned to the `err` that
`dpb, err := dp.Bytes()` declares in the body of the loop; the condition of the loop and the
test after the loop read the `err` of the function, which the loop leaves nil, so the loop
goes on as long as the datapoint is not nil and the test after it finds no error.  `Bytes`
gives `len(dpb)` or the error of `dp.Bytes()`, and `InsertStreamByID` the error of an
insert; `dpa` and `size` are the local variables.  (`size` is a Go `int`; it stays below
ten million plus the length of one datapoint, so it does not wrap.) -/
def importLoop {Datapoint : Type} (Bytes : Datapoint → Except String Nat)
    (InsertStreamByID : List Datapoint → Option String) :
    List Datapoint → List Datapoint → Nat → ImportRun Datapoint
  | [], dpa, _ => if dpa.length > 0 then ⟨[dpa], InsertStreamByID dpa⟩ else ⟨[], none⟩
  | dp :: rest, dpa, size =>
    let dpa := dpa ++ [dp]
    match Bytes dp with
    | Except.error e => ⟨[], some e⟩
    | Except.ok n =>
      let size := size + n
      if size > 10000000 ∨ dpa.length > 10000 then
        match InsertStreamByID dpa with
        | some e => ⟨[dpa], some e⟩
        | none =>
          let r := importLoop Bytes InsertStreamByID rest [] 0
          ⟨dpa :: r.inserted, r.err⟩
      else importLoop Bytes InsertStreamByID rest dpa size

/-- The function `importStreamData` from the first call of `dr.Next()` on, for a file whose
datapoints, as the calls of `dr.Next()` deliver them, are `file`; `readErr` is the error of
the first call (`none` for nil), the one that `dp, err := dr.Next()` stores in the `err` of
the function: with it the loop is not entered and the error is returned. -/
def importStreamData {Datapoint : Type} (Bytes : Datapoint → Except String Nat)
    (InsertStreamByID : List Datapoint → Option String) (readErr : Option String)
    (file : List Datapoint) : ImportRun Datapoint :=
  match readErr with
  | some e => ⟨[], some e⟩
  | none => importLoop Bytes InsertStreamByID file [] 0

end Commands

namespace Transforms

/-! ## Stacks as the parser builds them, and runs on described states -/

/-- The states of the parser: the indices of `TransformPact`. -/
def stateList : List Int :=
  [0, 1, 2, 3, 4, 5, 6, 7, 8, 9, 10, 11, 12, 13, 14, 15, 16, 17, 18, 19, 20, 21, 22, 23, 24,
   25, 26, 27, 28, 29, 30, 31, 32, 33, 34, 35, 36, 37, 38, 39, 40, 41, 42, 43, 44, 45, 46, 47,
   48, 49, 50, 51, 52, 53, 54, 55, 56, 57, 58, 59, 60, 61, 62, 63, 64, 65, 66, 67, 68, 69, 70,
   71, 72, 73, 74, 75, 76, 77, 78, 79, 80, 81, 82, 83, 84, 85, 86, 87, 88, 89, 90, 91, 92, 93,
   94, 95]

/-- The numbers of the nonterminals. -/
def ntNums : List Int := [1, 2, 3, 4, 5, 6, 7, 8, 9, 10, 11, 12, 13, 14]

/-- The nonterminals. -/
def allNT : List NT :=
  [NT.pipeline, NT.guarded, NT.disjunction, NT.conjunction, NT.negation, NT.comparison,
   NT.additive, NT.multiplicative, NT.terminal, NT.constant, NT.variable, NT.function,
   NT.stringList, NT.funcList]

/-- The states in which a phrase of the nonterminal with number `n` can begin. -/
def startsOfNum (n : Int) : List Int :=
  (allNT.filter (fun X => decide (X.num = n))).flatMap NT.starts

/-- For each state, the states from which the parser enters it: by the shift of a token, or
by the goto on a nonterminal from a state where a phrase of it can begin. -/
def predTable : List (List Int) :=
  [[],
   [0],
   [0, 16, 45, 46, 47, 48, 49, 50, 51, 77, 86],
   [0, 16, 30, 45, 46, 47, 48, 49, 50, 51, 77, 86],
   [0, 16, 30, 45, 46, 47, 48, 49, 50, 51, 77, 86],
   [0, 4, 16, 30, 45, 46, 47, 48, 49, 50, 51, 77, 86, 93],
   [0, 4, 16, 30, 31, 45, 46, 47, 48, 49, 50, 51, 77, 86, 93],
   [0, 4, 8, 16, 30, 31, 33, 45, 46, 47, 48, 49, 50, 51, 77, 86, 93],
   [0, 4, 8, 16, 30, 31, 33, 45, 46, 47, 48, 49, 50, 51, 77, 86, 93],
   [0, 4, 8, 16, 30, 31, 33, 45, 46, 47, 48, 49, 50, 51, 77, 86, 93],
   [0, 4, 8, 16, 30, 31, 33, 35, 45, 46, 47, 48, 49, 50, 51, 77, 86, 93],
   [0, 4, 8, 16, 30, 31, 33, 35, 36, 37, 45, 46, 47, 48, 49, 50, 51, 77, 86, 93],
   [0, 4, 8, 16, 30, 31, 33, 35, 36, 37, 45, 46, 47, 48, 49, 50, 51, 77, 86, 93],
   [0, 4, 8, 12, 16, 30, 31, 33, 35, 36, 37, 38, 39, 45, 46, 47, 48, 49, 50, 51, 77, 86, 93],
   [0, 4, 8, 12, 16, 30, 31, 33, 35, 36, 37, 38, 39, 45, 46, 47, 48, 49, 50, 51, 77, 86, 93],
   [0, 4, 8, 12, 16, 30, 31, 33, 35, 36, 37, 38, 39, 45, 46, 47, 48, 49, 50, 51, 77, 86, 93],
   [0, 4, 8, 12, 16, 30, 31, 33, 35, 36, 37, 38, 39, 45, 46, 47, 48, 49, 50, 51, 77, 86, 93],
   [0, 4, 8, 12, 16, 30, 31, 33, 35, 36, 37, 38, 39, 45, 46, 47, 48, 49, 50, 51, 77, 86, 93],
   [0, 4, 8, 12, 16, 30, 31, 33, 35, 36, 37, 38, 39, 45, 46, 47, 48, 49, 50, 51, 77, 86, 93],
   [0, 4, 8, 12, 16, 30, 31, 33, 35, 36, 37, 38, 39, 45, 46, 47, 48, 49, 50, 51, 77, 86, 93],
   [0, 4, 8, 12, 16, 30, 31, 33, 35, 36, 37, 38, 39, 45, 46, 47, 48, 49, 50, 51, 77, 86, 93],
   [0, 4, 8, 12, 16, 30, 31, 33, 35, 36, 37, 38, 39, 45, 46, 47, 48, 49, 50, 51, 77, 86, 93],
   [0, 4, 8, 12, 16, 30, 31, 33, 35, 36, 37, 38, 39, 45, 46, 47, 48, 49, 50, 51, 77, 86, 93],
   [0, 4, 8, 12, 16, 30, 31, 33, 35, 36, 37, 38, 39, 45, 46, 47, 48, 49, 50, 51, 77, 86, 93],
   [0, 4, 8, 12, 16, 30, 31, 33, 35, 36, 37, 38, 39, 45, 46, 47, 48, 49, 50, 51, 77, 86, 93],
   [0, 4, 8, 12, 16, 30, 31, 33, 35, 36, 37, 38, 39, 45, 46, 47, 48, 49, 50, 51, 77, 86, 93],
   [0, 4, 8, 12, 16, 30, 31, 33, 35, 36, 37, 38, 39, 45, 46, 47, 48, 49, 50, 51, 77, 86, 93],
   [0, 4, 8, 12, 16, 30, 31, 33, 35, 36, 37, 38, 39, 45, 46, 47, 48, 49, 50, 51, 77, 86, 93],
   [0, 4, 8, 12, 16, 30, 31, 33, 35, 36, 37, 38, 39, 45, 46, 47, 48, 49, 50, 51, 77, 86, 93],
   [0, 4, 8, 12, 16, 30, 31, 33, 35, 36, 37, 38, 39, 45, 46, 47, 48, 49, 50, 51, 77, 86, 93],
   [1, 41, 65, 66, 67, 68, 69, 70, 73, 89, 90],
   [3, 32, 94],
   [4],
   [5, 53],
   [8],
   [9],
   [9, 55],
   [9, 55],
   [10, 56, 57],
   [10, 56, 57],
   [12],
   [16],
   [20],
   [21],
   [22],
   [23],
   [24],
   [25],
   [26],
   [27],
   [28],
   [29],
   [30],
   [31],
   [33],
   [35],
   [36],
   [37],
   [38],
   [39],
   [41],
   [42],
   [42, 76],
   [43],
   [44],
   [45],
   [46],
   [47],
   [48],
   [49],
   [50],
   [51],
   [51],
   [51],
   [61],
   [61, 88],
   [63],
   [63],
   [64],
   [65],
   [66],
   [67],
   [68],
   [69],
   [70],
   [72],
   [72],
   [75],
   [76],
   [77],
   [86],
   [88],
   [89],
   [91],
   [93],
   [94]]

/-- The states from which the parser enters state `s`. -/
def preds (s : Int) : List Int := predTable.getD s.toNat []

/-- The states that an entry `n` places below an entry of state `s` can have. -/
def predsN : Nat → Int → List Int
  | 0, s => [s]
  | n + 1, s => ((predsN n s).flatMap preds).dedup

/-- A stack as the parser builds it: the entry of state 0 at the bottom, and every other
entry of a state that is entered from the state of the entry below it. -/
def Linked : List TransformSymType → Prop
  | [] => False
  | [e] => e.yys = 0
  | e :: f :: S => e.yys ∈ stateList ∧ f.yys ∈ preds e.yys ∧ Linked (f :: S)

/-- A rank of the nonterminals, by number, that every production with a single symbol on its
right-hand side raises. -/
def ntRank : List Nat := [0, 8, 7, 6, 5, 2, 9, 10, 1, 1, 1, 3, 4, 11, 1]

/-- The rank of the symbol on which state `s` is entered (`TransformChk` holds it, negated
for a nonterminal): 0 for a token. -/
def stateRank (s : Int) : Nat :=
  if idx TransformChk s < 0 then ntRank.getD (-(idx TransformChk s)).toNat 0 else 0

/-- A bound on the passes still to come from a described state: every shift uses up a token,
every reduction shortens the stack or raises the rank of its top state. -/
def Cfg.measure (c : Cfg) : Nat :=
  (2 * c.toks.length + c.stack.length) * 12 +
    (11 - stateRank (c.stack.headD TransformSymType.zero).yys)

/-- Where one pass leaves a described state. -/
inductive CfgOutcome where
  /-- The parser returns `code` with the message and the output stored -/
  | ret (code : Int) (err : String) (out : TransformFunc)
  /-- The parser is at `Transformnewstate` again -/
  | next (c : Cfg)
  /-- The pass has no description (it does not occur on the stacks that the parser builds) -/
  | fault

/-- The reduction by production `p` on a described state. -/
def cfgReduce (getCustomFunction : CustomFunctions) (c : Cfg) (p : Int) : CfgOutcome :=
  match c.stack.drop (idx TransformR2 p).toNat with
  | [] => CfgOutcome.fault
  | b :: B =>
    CfgOutcome.next
      ⟨{ (TransformAction getCustomFunction p c.stack
            (c.stack.getD ((idx TransformR2 p).toNat - 1) TransformSymType.zero)
            ⟨"", 0, c.err, c.out⟩).1 with yys := gotoState b.yys (idx TransformR1 p) } :: b :: B,
        c.toks,
        (TransformAction getCustomFunction p c.stack
            (c.stack.getD ((idx TransformR2 p).toNat - 1) TransformSymType.zero)
            ⟨"", 0, c.err, c.out⟩).2.errorString,
        (TransformAction getCustomFunction p c.stack
            (c.stack.getD ((idx TransformR2 p).toNat - 1) TransformSymType.zero)
            ⟨"", 0, c.err, c.out⟩).2.output⟩

/-- One pass of the parser on a described state: the shift of the next token when the tables
have one, else acceptance or the syntax error, else the reduction by the default production
of the state. -/
def cfgStep (getCustomFunction : CustomFunctions) (c : Cfg) : CfgOutcome :=
  match c.stack with
  | [] => CfgOutcome.fault
  | e :: _ =>
    match validShift e.yys (lookahead c.toks) with
    | some s1 =>
      match c.toks with
      | t :: ts => CfgOutcome.next ⟨shiftEntry s1 t.strVal :: c.stack, ts, c.err, c.out⟩
      | [] => CfgOutcome.fault
    | none =>
      if acceptAction e.yys (lookahead c.toks) = true then CfgOutcome.ret 0 c.err c.out
      else if errorAction e.yys (lookahead c.toks) = true then
        CfgOutcome.ret 1 "syntax error" c.out
      else
        match defaultReduce e.yys (lookahead c.toks) with
        | some p => cfgReduce getCustomFunction c p
        | none => CfgOutcome.fault

/-- The passes of the parser on a described state, bounded by `fuel`: the return code, the
message and the output at the return. -/
def cfgRun (getCustomFunction : CustomFunctions) :
    Nat → Cfg → Option (Int × String × TransformFunc)
  | 0, _ => none
  | fuel + 1, c =>
    match cfgStep getCustomFunction c with
    | CfgOutcome.ret code err out => some (code, err, out)
    | CfgOutcome.next c1 => cfgRun getCustomFunction fuel c1
    | CfgOutcome.fault => none

/-! ## The two spellings of the pipe -/

/-- The character with `|` replaced by `:`. -/
def colonForBar (c : Char) : Char := if c = '|' then ':' else c

/-- The text with every `|` replaced by `:`. -/
def colonsForBars (s : String) : String := String.mk (s.data.map colonForBar)

/-- The token codes, in the parser's numbering, of the tokens whose `strVal` a semantic
action reads: NUMBER, BOOL, STRING, COMPOP and IDENTIFIER. -/
def readKinds : List Int := [4, 5, 6, 7, 25]

/-- The entries of state `s` are entries of a token whose `strVal` an action reads. -/
def strValRead (s : Int) : Bool := decide (idx TransformChk s ∈ readKinds)

/-- The places below the top of the stack, counted from 0, where the semantic action of
production `p` reads a `strVal`. -/
def readsStrVal (p : Int) : List Nat :=
  if p = 12 ∨ p = 31 then [1]
  else if p = 24 ∨ p = 25 ∨ p = 26 ∨ p = 40 ∨ p = 41 then [0]
  else if p = 38 then [2]
  else if p = 39 then [3]
  else []

/-- Two stack entries that differ at most in a `strVal` that no action reads. -/
def SameEntry (e1 e2 : TransformSymType) : Prop :=
  e1.yys = e2.yys ∧ e1.val = e2.val ∧ e1.stringList = e2.stringList ∧
  e1.funcList = e2.funcList ∧ (strValRead e1.yys = true → e1.strVal = e2.strVal)

/-- Two tokens of the same kind that differ at most in a `strVal` that no action reads. -/
def SameToken (t1 t2 : Token) : Prop :=
  t1.code = t2.code ∧ (lex1Code t1.code ∈ readKinds → t1.strVal = t2.strVal)

/-- Two described states that differ at most in `strVal`s that no action reads. -/
def SameCfg (c1 c2 : Cfg) : Prop :=
  List.Forall₂ SameEntry c1.stack c2.stack ∧ List.Forall₂ SameToken c1.toks c2.toks ∧
  c1.err = c2.err ∧ c1.out = c2.out

end Transforms

namespace Transforms

/-! ## The cursor of the lexer -/

/-- The whitespace loop of `Next` on the input itself, with the index expression
`l.input[l.position]` checked: `none` is the panic of an index out of range (or the end of
the fuel, the number of passes allowed).  The result is `(true, position)` when the loop
left through `return eofString` and `(false, position)` when it ended. -/
def TransformLex.skipBlanksChecked (input : List Char) : Nat → Char → Int → Option (Bool × Int)
  | 0, _, _ => none
  | fuel + 1, c, position =>
    if c = ' ' ∨ c = tabChar then
      if position ≥ input.length then some (true, position)
      else if 0 ≤ position then
        match input[position.toNat]? with
        | some d => TransformLex.skipBlanksChecked input fuel d (position + 1)
        | none => none
      else none
    else some (false, position)

/-- The method `Next` with the index expression of its loop and the slice expression
`l.input[l.position:]` checked: `none` is a panic.  The loop is given one pass more than the
input has characters. -/
def TransformLex.NextChecked (l : TransformLex) : Option (String × TransformLex) :=
  match TransformLex.skipBlanksChecked l.input.data (l.input.data.length + 1) ' '
      l.position with
  | none => none
  | some (true, p) => some (eofString, { l with position := p })
  | some (false, p) =>
    let position := p - 1
    if 0 ≤ position ∧ position ≤ l.input.data.length then
      let rest := l.input.data.drop position.toNat
      let token := tokenizerFindString rest
      let l1 := { l with position := position + token.length }
      if token = [] then some (Transforms.errorString, l1) else some (String.mk token, l1)
    else none

/-- The strings of the `case` labels of the `switch token` of `Lex`, in their order. -/
def switchCases : List String :=
  [eofString, errorString, "true", "false", ")", "(", "[", "]", "$", "has", "and", "or", "not",
   ">=", "<=", ">", "<", "==", "!=", "if", "|", ":", ",", "gte", "lte", "lt", "gt", "eq", "ne",
   "set", "-", "+", "/", "*"]

/-- The lexical classes in the order of the `strings.Join` of `init`, each as the matcher of
its pattern at the start of a text. -/
def lexicalClasses : List (List Char → Option (List Char)) :=
  [matchLiterals builtins, matchLiterals logicals, matchNumbers, matchLiterals compops,
   matchStringr, matchLiterals pipes, matchLiterals syms, matchIdents, matchLiterals maths]

/-- A registry whose lookups fail with an error of the empty message. -/
def silentRegistry : CustomFunctions :=
  fun _ _ => (TransformFunc.nil, some "")

/-- The lexer after `n` calls of `Next`. -/
def TransformLex.afterCalls : Nat → TransformLex → TransformLex
  | 0, l => l
  | n + 1, l => TransformLex.afterCalls n l.Next.2

end Transforms

namespace Restcore

/-- The message of the error `ErrCantParse`. -/
def ErrCantParse : String :=
  "The given query cannot be parsed, since the values could not be extracted"

/-- The conversion `int64(lim)` of a `uint64`: the signed number with the same 64 bits. -/
def int64OfUint64 (lim : Nat) : Int :=
  if lim % 2 ^ 64 < 2 ^ 63 then ((lim % 2 ^ 64 : Nat) : Int)
  else ((lim % 2 ^ 64 : Nat) : Int) - 2 ^ 64

/-- The results of `ParseTRange`: the two times, the limit (an `int64`) and the error. -/
structure TRange (F : Type) where
  t1 : F
  t2 : F
  limit : Int
  err : Option String
  deriving DecidableEq, Repr

/-- The function `ParseTRange`.  The query `q` is given by its method `Get`; `ParseFloat s`
and `ParseUint s` stand for `strconv.ParseFloat(s, 64)` and `strconv.ParseUint(s, 0, 64)`,
each the value and the error returned (`none` for nil), and `F` for `float64`. -/
def ParseTRange {F : Type} [Zero F] (ParseFloat : String → F × Option String)
    (ParseUint : String → Nat × Option String) (q : String → String) : TRange F :=
  let t1s := q "t1"
  let t2s := q "t2"
  if t1s.length = 0 ∧ t2s.length = 0 then ⟨0, 0, 0, some ErrCantParse⟩
  else
    let t1 := ParseFloat t1s
    if t1s ≠ "" ∧ t1.2 ≠ none then ⟨0, 0, 0, some "Could not parse t1 parameter"⟩
    else
      let t2 := ParseFloat t2s
      if t2s ≠ "" ∧ t2.2 ≠ none then ⟨0, 0, 0, some "Could not parse t2 parameter"⟩
      else
        let lims := q "limit"
        let lim := ParseUint lims
        if lims ≠ "" ∧ lim.2 ≠ none then ⟨0, 0, 0, some "Could not parse limit parameter."⟩
        else ⟨t1.1, t2.1, int64OfUint64 lim.1, none⟩

/-- A reading of decimal numerals that stands in for `strconv.ParseUint(s, 0, 64)` where a
concrete query is evaluated: the value of a string of digits that does not begin with 0
(or is "0"), with the range error of a value that does not fit 64 bits; every other string
is a syntax error here.  (The Go function also reads the prefixes 0x, 0o, 0b and 0.) -/
def decimalUint (s : String) : Nat × Option String :=
  if s.data = [] ∨ (s.data.all fun c => decide (48 ≤ c.toNat ∧ c.toNat ≤ 57)) = false ∨
      (s.data.head? = some '0' ∧ 1 < s.data.length) then (0, some "invalid syntax")
  else if s.data.foldl (fun n c => 10 * n + (c.toNat - 48)) 0 < 2 ^ 64 then
    (s.data.foldl (fun n c => 10 * n + (c.toNat - 48)) 0, none)
  else (2 ^ 64 - 1, some "value out of range")

/-- The query `?t1=1&limit=9223372036854775808` by its method `Get`. -/
def queryLimit2Pow63 (key : String) : String :=
  if key = "t1" then "1" else if key = "limit" then "9223372036854775808" else ""

end Restcore

namespace Transforms

/-! # Proofs

## The lexer as a token stream -/

theorem lex1Code_nonpos {c : Int} (h : c ≤ 0) : lex1Code c = 1 := by
  simp [lex1Code, h, idx, TransformTok1]

theorem lex1Code_mem (c : Int) : lex1Code c ∈ tokenCodes := by
  by_cases h0 : c ≤ 0
  · rw [lex1Code_nonpos h0]; decide
  · by_cases h1 : c ≥ TransformPrivate ∧ c < TransformPrivate + TransformTok2.length
    · have h2 : 57344 ≤ c := h1.1
      have h3 : c < 57376 := h1.2
      interval_cases c <;> decide
    · have h4 : ¬ c < (TransformTok1.length : Int) := by
        simp only [TransformTok1, List.length_singleton]; omega
      simp only [lex1Code, h0, h4, h1, if_false, TransformTok3, tok3Loop]
      decide

theorem lookahead_pos (ts : List Token) : 1 ≤ lookahead ts := by
  cases ts with
  | nil => simp [lookahead]
  | cons t ts =>
    have h := lex1Code_mem t.code
    simp only [lookahead]
    generalize lex1Code t.code = c at h
    simp only [tokenCodes, List.mem_cons, List.mem_singleton, List.not_mem_nil, or_false] at h
    omega

theorem lookahead_mem (ts : List Token) : lookahead ts ∈ tokenCodes := by
  cases ts with
  | nil => decide
  | cons t ts => exact lex1Code_mem t.code

theorem Next_fst (l : TransformLex) :
    l.Next.1 = (TransformLex.mk l.input l.position "" TransformFunc.nil).Next.1 := by
  unfold TransformLex.Next
  dsimp only
  cases TransformLex.skipBlanks (l.input.data.drop l.position.toNat) ' ' l.position with
  | mk b p =>
    cases b
    · dsimp only
      split <;> rfl
    · rfl

theorem Next_snd (l : TransformLex) :
    l.Next.2 = { l with position :=
      (TransformLex.mk l.input l.position "" TransformFunc.nil).Next.2.position } := by
  unfold TransformLex.Next
  dsimp only
  cases TransformLex.skipBlanks (l.input.data.drop l.position.toNat) ' ' l.position with
  | mk b p =>
    cases b
    · dsimp only
      split <;> rfl
    · rfl

theorem Lex_eq (l : TransformLex) (lval : TransformSymType) :
    l.Lex lval = ((lexAt l.input l.position).1,
      { lval with strVal := (lexAt l.input l.position).2.1 },
      { l with position := (lexAt l.input l.position).2.2 }) := by
  simp only [TransformLex.Lex, lexAt]
  rw [Next_fst l, Next_snd l]


/-! ## One pass of the parser loop, on described states -/

theorem Pending_held {st : TransformParserState} {ts : List Token} (h : Pending st ts)
    (hc : ¬ st.Transformchar < 0) :
    st.Transformchar = lookahead ts ∧ Held st ts := by
  rcases h with h | h
  · exact absurd h.1 hc
  · exact h

theorem Pending_unread {st : TransformParserState} {ts : List Token} (h : Pending st ts)
    (hc : st.Transformchar < 0) :
    lexesAs st.Transformlex.input st.Transformlex.position ts = true := by
  rcases h with h | h
  · exact h.2
  · have := lookahead_pos ts
    omega

theorem readChar_spec {st : TransformParserState} {c : Cfg} (h : Abs st c) :
    Abs (readChar st) c ∧ (readChar st).Transformchar = lookahead c.toks ∧
      (readChar st).Transformstate = st.Transformstate ∧
      (readChar st).TransformVAL = st.TransformVAL ∧
      (readChar st).Nerrs = st.Nerrs := by
  obtain ⟨hS, hstate, hflag, herr, hout, hlval, hpend⟩ := h
  by_cases hc : st.Transformchar < 0
  · have hl := Pending_unread hpend hc
    simp only [readChar, hc, if_true, Transformlex1, Lex_eq]
    refine ⟨⟨hS, hstate, hflag, herr, hout, hlval, ?_⟩, ?_, trivial, trivial, trivial⟩
    · right
      cases hts : c.toks with
      | nil =>
        rw [hts] at hl
        simp only [lexesAs, decide_eq_true_eq] at hl
        simp [lookahead, lex1Code_nonpos hl, Held]
      | cons t rest =>
        rw [hts] at hl
        simp only [lexesAs, Bool.and_eq_true, decide_eq_true_eq] at hl
        simp only [lookahead, Held]
        exact ⟨by rw [hl.1.1], hl.1.2.2, hl.2⟩
    · cases hts : c.toks with
      | nil =>
        rw [hts] at hl
        simp only [lexesAs, decide_eq_true_eq] at hl
        simp [lookahead, lex1Code_nonpos hl]
      | cons t rest =>
        rw [hts] at hl
        simp only [lexesAs, Bool.and_eq_true, decide_eq_true_eq] at hl
        simp only [lookahead]
        rw [hl.1.1]
  · have hl := Pending_held hpend hc
    simp only [readChar, hc, if_false]
    exact ⟨⟨hS, hstate, hflag, herr, hout, hlval, hpend⟩, hl.1, trivial, trivial, trivial⟩

theorem validShift_some {s c s1 : Int} (h : validShift s c = some s1) :
    ¬ idx TransformPact s ≤ TransformFlag ∧
    ¬ (idx TransformPact s + c < 0 ∨ idx TransformPact s + c ≥ TransformLast) ∧
    idx TransformChk (idx TransformAct (idx TransformPact s + c)) = c ∧
    idx TransformAct (idx TransformPact s + c) = s1 := by
  unfold validShift at h
  split_ifs at h with h1 h2 h3
  exact ⟨h1, h2, h3, Option.some.inj h⟩

theorem validShift_none {s c : Int} (h : validShift s c = none) :
    idx TransformPact s ≤ TransformFlag ∨
    (idx TransformPact s + c < 0 ∨ idx TransformPact s + c ≥ TransformLast) ∨
    ¬ idx TransformChk (idx TransformAct (idx TransformPact s + c)) = c := by
  unfold validShift at h
  split_ifs at h with h1 h2 h3
  · exact Or.inl h1
  · exact Or.inr (Or.inl h2)
  · exact Or.inr (Or.inr h3)

/-- Without a valid shift, `Transformnewstate` goes to `Transformdefault`, with the token
read or not. -/
theorem newstate_default (gcf : CustomFunctions) {st : TransformParserState} {c : Cfg}
    {e : TransformSymType} {S : List TransformSymType} (h : Abs st c) (hs : c.stack = e :: S)
    (hv : validShift e.yys (lookahead c.toks) = none) :
    ∃ st1, Transformnewstate gcf st = Transformdefault gcf st1 ∧ Abs st1 c ∧
      st1.Transformstate = e.yys ∧ (st1 = st ∨ st1 = readChar st) := by
  have hst : st.Transformstate = e.yys := by
    obtain ⟨_, ⟨e1, S1, h1, h2⟩, _⟩ := h
    rw [hs] at h1
    cases h1
    exact h2
  obtain ⟨hr, hchar, hrs, _, _⟩ := readChar_spec h
  unfold Transformnewstate
  dsimp only
  rw [hchar, hst]
  by_cases h1 : idx TransformPact e.yys ≤ TransformFlag
  · exact ⟨st, by rw [if_pos h1], h, hst, Or.inl rfl⟩
  · rw [if_neg h1]
    refine ⟨readChar st, ?_, hr, by rw [hrs, hst], Or.inr rfl⟩
    rcases validShift_none hv with h2 | h2 | h2
    · exact absurd h2 h1
    · rw [if_pos h2]
    · by_cases h3 : idx TransformPact e.yys + lookahead c.toks < 0 ∨
          idx TransformPact e.yys + lookahead c.toks ≥ TransformLast
      · rw [if_pos h3]
      · rw [if_neg h3, if_neg h2]

theorem stepN_trans (gcf : CustomFunctions) {n m : Nat} {a b c : TransformParserState}
    (h1 : stepN gcf n a = some b) (h2 : stepN gcf m b = some c) :
    stepN gcf (n + m) a = some c := by
  induction n generalizing a with
  | zero =>
    simp only [stepN] at h1
    cases h1
    simpa using h2
  | succ k ih =>
    rw [Nat.succ_add]
    simp only [stepN] at h1 ⊢
    cases hx : Transformnewstate gcf a with
    | ret code lex => rw [hx] at h1; cases h1
    | fault => rw [hx] at h1; cases h1
    | newstate st1 =>
      rw [hx] at h1
      exact ih h1

theorem Reach.refl (gcf : CustomFunctions) (c : Cfg) : Reach gcf c c :=
  fun st h => ⟨0, st, rfl, h⟩

theorem Reach.trans {gcf : CustomFunctions} {a b c : Cfg} (h1 : Reach gcf a b)
    (h2 : Reach gcf b c) : Reach gcf a c := by
  intro st h
  obtain ⟨n, st1, hn, hb⟩ := h1 st h
  obtain ⟨m, st2, hm, hc⟩ := h2 st1 hb
  exact ⟨n + m, st2, stepN_trans gcf hn hm, hc⟩

/-- A valid shift. -/
theorem Reach_shift (gcf : CustomFunctions) {e : TransformSymType} {S : List TransformSymType}
    {t : Token} {ts : List Token} {err : String} {out : TransformFunc} {s1 : Int}
    (hv : validShift e.yys (lex1Code t.code) = some s1) :
    Reach gcf ⟨e :: S, t :: ts, err, out⟩ ⟨shiftEntry s1 t.strVal :: e :: S, ts, err, out⟩ := by
  intro st h
  obtain ⟨hr, hchar, hrs, _, _⟩ := readChar_spec h
  obtain ⟨hS, ⟨e1, S1, hstk, hstate⟩, hflag, herr, hout, hlval, hpend⟩ := hr
  have hS0 := h.1
  dsimp only at hstk hS hchar herr hout hpend hS0
  cases hstk
  simp only [lookahead] at hchar
  obtain ⟨h1, h2, h3, h4⟩ := validShift_some hv
  have hnot : ¬ (readChar st).Transformchar < 0 := by
    have := lookahead_pos (t :: ts)
    simp only [lookahead] at this
    omega
  have hheld := Pending_held hpend hnot
  simp only [Held] at hheld
  refine ⟨1, Transformstack { readChar st with
      Transformchar := -1, TransformVAL := (readChar st).Transformlval, Transformstate := s1,
      Errflag := if (readChar st).Errflag > 0 then (readChar st).Errflag - 1
        else (readChar st).Errflag }, ?_, ?_⟩
  · simp only [stepN]
    unfold Transformnewstate
    dsimp only
    rw [hchar, ← hrs, hstate, if_neg h1, if_neg h2, if_pos h3, h4]
  · refine ⟨?_, ⟨_, _, rfl, ?_⟩, ?_, herr, hout, hlval, ?_⟩
    · simp only [Transformstack, hS, shiftEntry, h4]
      congr 1
      cases hl : (readChar st).Transformlval
      rw [hl] at hlval hheld
      dsimp only at hlval hheld
      simp only [hlval.1, hlval.2.1, hlval.2.2, hheld.2.1]
    · simp only [Transformstack, shiftEntry, h4]
    · simp only [Transformstack, hflag]
      rfl
    · left
      exact ⟨by simp [Transformstack], hheld.2.2⟩


/-- A semantic action reads and writes only the message and the output of the lexer. -/
theorem TransformAction_lex (gcf : CustomFunctions) (p : Int) (S : List TransformSymType)
    (V : TransformSymType) (lex : TransformLex) :
    TransformAction gcf p S V lex =
      ((TransformAction gcf p S V ⟨"", 0, lex.errorString, lex.output⟩).1,
       { lex with
         errorString :=
           (TransformAction gcf p S V ⟨"", 0, lex.errorString, lex.output⟩).2.errorString,
         output := (TransformAction gcf p S V ⟨"", 0, lex.errorString, lex.output⟩).2.output }) := by
  unfold TransformAction
  dsimp only
  split <;> first | rfl | (split <;> rfl)

theorem Pending_congr {st st1 : TransformParserState} {ts : List Token} (h : Pending st ts)
    (h1 : st1.Transformchar = st.Transformchar)
    (h2 : st1.Transformlval = st.Transformlval)
    (h3 : st1.Transformlex.input = st.Transformlex.input)
    (h4 : st1.Transformlex.position = st.Transformlex.position) : Pending st1 ts := by
  unfold Pending at h ⊢
  rw [h1, h3, h4]
  rcases h with h | h
  · exact Or.inl h
  · refine Or.inr ⟨h.1, ?_⟩
    cases ts with
    | nil => trivial
    | cons t rest =>
      have := h.2
      simp only [Held] at this ⊢
      rw [h2, h3, h4]
      exact this

theorem defaultReduce_some {s c p : Int} (h : defaultReduce s c = some p) :
    validShift s c = none ∧ idx TransformDef s = p ∧ 0 < p := by
  unfold defaultReduce at h
  split_ifs at h with h1 h2
  have h3 := Option.some.inj h
  refine ⟨?_, h3, by omega⟩
  cases hv : validShift s c with
  | none => rfl
  | some x => rw [hv] at h1; simp at h1

/-- A reduction: the state has no valid shift on the next token and its default action is
the production `p`, of length `k` and left-hand side `n1`. -/
theorem Reach_reduce (gcf : CustomFunctions) (S : List TransformSymType) (ts : List Token)
    (err : String) (out : TransformFunc) (p n1 : Int) (k : Nat) {e : TransformSymType}
    {S0 : List TransformSymType} {b : TransformSymType} {B : List TransformSymType}
    (hS : S = e :: S0) (hred : defaultReduce e.yys (lookahead ts) = some p)
    (hR2 : idx TransformR2 p = k) (hR1 : idx TransformR1 p = n1)
    (hdrop : S.drop k = b :: B) :
    Reach gcf ⟨S, ts, err, out⟩
      ⟨{ (TransformAction gcf p S (S.getD (k - 1) TransformSymType.zero)
            ⟨"", 0, err, out⟩).1 with yys := gotoState b.yys n1 } :: b :: B,
        ts,
        (TransformAction gcf p S (S.getD (k - 1) TransformSymType.zero)
            ⟨"", 0, err, out⟩).2.errorString,
        (TransformAction gcf p S (S.getD (k - 1) TransformSymType.zero)
            ⟨"", 0, err, out⟩).2.output⟩ := by
  intro st h
  obtain ⟨hv, hdef, hpos⟩ := defaultReduce_some hred
  obtain ⟨st1, hstep, habs, hstate, _⟩ := newstate_default gcf h hS hv
  obtain ⟨hS1, _, hflag, herr, hout, hlval, hpend⟩ := habs
  dsimp only at hS1 herr hout hpend
  have hstep2 : Transformdefault gcf st1 = Transformreduce gcf st1 p := by
    unfold Transformdefault
    dsimp only
    rw [hstate, hdef, if_neg (by omega), if_neg (by omega)]
  obtain ⟨st2, hst2⟩ : ∃ st2, st2 = Transformstack
      { st1 with
        TransformS := b :: B,
        TransformVAL :=
          (TransformAction gcf p S (S.getD (k - 1) TransformSymType.zero) st1.Transformlex).1,
        Transformstate := gotoState b.yys n1,
        Transformlex :=
          (TransformAction gcf p S (S.getD (k - 1) TransformSymType.zero)
            st1.Transformlex).2 } := ⟨_, rfl⟩
  have hstep3 : Transformreduce gcf st1 p = TransformOutcome.newstate st2 := by
    unfold Transformreduce
    dsimp only
    rw [hS1, hR2, Int.toNat_ofNat, hdrop, hR1, hst2]
    rfl
  refine ⟨1, st2, ?_, ?_⟩
  · simp only [stepN]
    rw [hstep, hstep2, hstep3]
  · rw [hst2, TransformAction_lex gcf p S _ st1.Transformlex, herr, hout]
    refine ⟨rfl, ⟨_, _, rfl, rfl⟩, hflag, rfl, rfl, hlval, ?_⟩
    exact Pending_congr hpend rfl rfl rfl rfl

/-! ## The productions, one by one

For each production, the entries of the tables along its right-hand side (checked by
evaluation), and the run of the parser over a phrase built by it. -/

theorem follows_mem {X : NT} {c : Int} (h : X.follows c = true) : c ∈ tokenCodes := by
  cases X <;> simp only [NT.follows, decide_eq_true_eq] at h <;> first | exact h | exact h.1

/-- The table entries on the path of production 1, from every state in which its
left-hand side can begin. -/
theorem fact1 : ∀ s ∈ NT.pipeline.starts,
    s ∈ NT.guarded.starts ∧
    (∀ c ∈ tokenCodes, NT.pipeline.follows c = true →
      NT.guarded.follows c = true ∧ defaultReduce (gotoState s 6) c = some 1) := by
  decide!

/-- Production 1: the parser handles a phrase built by it as the grammar says. -/
theorem phrase_p1 (gcf : CustomFunctions) {ts v es}
    (h1 : Phrase gcf NT.guarded ts (SemVal.func v) es) :
    Phrase gcf NT.pipeline ts (SemVal.func v) es := by
  intro e S rest err out hs hla
  have hc := follows_mem hla
  obtain ⟨f1, fl⟩ := fact1 _ hs
  obtain ⟨g1, g2⟩ := fl _ hc hla
  try simp only [List.append_assoc, List.cons_append, List.nil_append, List.singleton_append]
  obtain ⟨x1, o1, r1, hr1, he1, hy1, hv1, ho1⟩ :=
    h1 e (S) (rest) err out f1 g1
  subst he1
  simp only [SemVal.carriedBy] at hv1
  have hrR := Reach_reduce gcf (x1 :: e :: S) rest (lastError es err) o1 1 7 1
    rfl (by rw [hy1]; exact g2) (by decide) (by decide) rfl
  refine ⟨_, _, _, hr1.trans (hrR), ?_, rfl, ?_, ?_⟩
  · simp [TransformAction, lastError, List.foldl_append]
  · simp [SemVal.carriedBy, TransformAction, shiftEntry, hv1]
  · intro _
    simp [TransformAction, shiftEntry, hv1]

/-- The table entries on the path of production 2, from every state in which its
left-hand side can begin. -/
theorem fact2 : ∀ s ∈ NT.pipeline.starts,
    NT.pipeline.follows (lex1Code PIPE) = true ∧
    validShift (gotoState s 7) (lex1Code PIPE) = some 30 ∧
    (30 : Int) ∈ NT.guarded.starts ∧
    (∀ c ∈ tokenCodes, NT.pipeline.follows c = true →
      NT.guarded.follows c = true ∧ defaultReduce (gotoState 30 6) c = some 2) := by
  decide!

/-- Production 2: the parser handles a phrase built by it as the grammar says. -/
theorem phrase_p2 (gcf : CustomFunctions) {t1 t2 a b e1 e2} (s : String)
    (h1 : Phrase gcf NT.pipeline t1 (SemVal.func a) e1)
    (h2 : Phrase gcf NT.guarded t2 (SemVal.func b) e2) :
    Phrase gcf NT.pipeline (t1 ++ Token.mk PIPE s :: t2)
      (SemVal.func (TransformFunc.pipelineGeneratorTransform a b)) (e1 ++ e2) := by
  intro e S rest err out hs hla
  have hc := follows_mem hla
  obtain ⟨f1, f2, f3, fl⟩ := fact2 _ hs
  obtain ⟨g1, g2⟩ := fl _ hc hla
  try simp only [List.append_assoc, List.cons_append, List.nil_append, List.singleton_append]
  obtain ⟨x1, o1, r1, hr1, he1, hy1, hv1, ho1⟩ :=
    h1 e (S) (Token.mk PIPE s :: (t2 ++ rest)) err out hs f1
  subst he1
  simp only [SemVal.carriedBy] at hv1
  have hr2 : Reach gcf ⟨x1 :: e :: S, Token.mk PIPE s :: (t2 ++ rest), (lastError e1 err), o1⟩ _ :=
    Reach_shift gcf (by rw [hy1]; exact f2)
  obtain ⟨x3, o3, r3, hr3, he3, hy3, hv3, ho3⟩ :=
    h2 (shiftEntry 30 s) (x1 :: e :: S) (rest) (lastError e1 err) o1 f3 g1
  subst he3
  simp only [SemVal.carriedBy] at hv3
  have hrR := Reach_reduce gcf (x3 :: shiftEntry 30 s :: x1 :: e :: S) rest (lastError e2 (lastError e1 err)) o3 2 7 3
    rfl (by rw [hy3]; exact g2) (by decide) (by decide) rfl
  refine ⟨_, _, _, hr1.trans (hr2.trans (hr3.trans (hrR))), ?_, rfl, ?_, ?_⟩
  · simp [TransformAction, lastError, List.foldl_append]
  · simp [SemVal.carriedBy, TransformAction, shiftEntry, hv1, hv3]
  · intro _
    simp [TransformAction, shiftEntry, hv1, hv3]

/-- The table entries on the path of production 3, from every state in which its
left-hand side can begin. -/
theorem fact3 : ∀ s ∈ NT.guarded.starts,
    s ∈ NT.disjunction.starts ∧
    (∀ c ∈ tokenCodes, NT.guarded.follows c = true →
      NT.disjunction.follows c = true ∧ defaultReduce (gotoState s 1) c = some 3) := by
  decide!

/-- Production 3: the parser handles a phrase built by it as the grammar says. -/
theorem phrase_p3 (gcf : CustomFunctions) {ts v es}
    (h1 : Phrase gcf NT.disjunction ts (SemVal.func v) es) :
    Phrase gcf NT.guarded ts (SemVal.func v) es := by
  intro e S rest err out hs hla
  have hc := follows_mem hla
  obtain ⟨f1, fl⟩ := fact3 _ hs
  obtain ⟨g1, g2⟩ := fl _ hc hla
  try simp only [List.append_assoc, List.cons_append, List.nil_append, List.singleton_append]
  obtain ⟨x1, o1, r1, hr1, he1, hy1, hv1, ho1⟩ :=
    h1 e (S) (rest) err out f1 g1
  subst he1
  simp only [SemVal.carriedBy] at hv1
  have hrR := Reach_reduce gcf (x1 :: e :: S) rest (lastError es err) o1 3 6 1
    rfl (by rw [hy1]; exact g2) (by decide) (by decide) rfl
  refine ⟨_, _, _, hr1.trans (hrR), ?_, rfl, ?_, ?_⟩
  · simp [TransformAction, lastError, List.foldl_append]
  · simp [SemVal.carriedBy, TransformAction, shiftEntry, hv1]
  · intro h
    cases h

/-- The table entries on the path of production 4, from every state in which its
left-hand side can begin. -/
theorem fact4 : ∀ s ∈ NT.guarded.starts,
    validShift s (lex1Code IF) = some 4 ∧
    (4 : Int) ∈ NT.disjunction.starts ∧
    (∀ c ∈ tokenCodes, NT.guarded.follows c = true →
      NT.disjunction.follows c = true ∧ defaultReduce (gotoState 4 1) c = some 4) := by
  decide!

/-- Production 4: the parser handles a phrase built by it as the grammar says. -/
theorem phrase_p4 (gcf : CustomFunctions) {ts v es} (s : String)
    (h1 : Phrase gcf NT.disjunction ts (SemVal.func v) es) :
    Phrase gcf NT.guarded (Token.mk IF s :: ts)
      (SemVal.func (TransformFunc.pipelineGeneratorIf v)) es := by
  intro e S rest err out hs hla
  have hc := follows_mem hla
  obtain ⟨f1, f2, fl⟩ := fact4 _ hs
  obtain ⟨g1, g2⟩ := fl _ hc hla
  try simp only [List.append_assoc, List.cons_append, List.nil_append, List.singleton_append]
  have hr1 : Reach gcf ⟨e :: S, Token.mk IF s :: (ts ++ rest), err, out⟩ _ :=
    Reach_shift gcf f1
  obtain ⟨x2, o2, r2, hr2, he2, hy2, hv2, ho2⟩ :=
    h1 (shiftEntry 4 s) (e :: S) (rest) err out f2 g1
  subst he2
  simp only [SemVal.carriedBy] at hv2
  have hrR := Reach_reduce gcf (x2 :: shiftEntry 4 s :: e :: S) rest (lastError es err) o2 4 6 2
    rfl (by rw [hy2]; exact g2) (by decide) (by decide) rfl
  refine ⟨_, _, _, hr1.trans (hr2.trans (hrR)), ?_, rfl, ?_, ?_⟩
  · simp [TransformAction, lastError, List.foldl_append]
  · simp [SemVal.carriedBy, TransformAction, shiftEntry, hv2]
  · intro h
    cases h

/-- The table entries on the path of production 5, from every state in which its
left-hand side can begin. -/
theorem fact5 : ∀ s ∈ NT.disjunction.starts,
    s ∈ NT.conjunction.starts ∧
    (∀ c ∈ tokenCodes, NT.disjunction.follows c = true →
      NT.conjunction.follows c = true ∧ defaultReduce (gotoState s 2) c = some 5) := by
  decide!

/-- Production 5: the parser handles a phrase built by it as the grammar says. -/
theorem phrase_p5 (gcf : CustomFunctions) {ts v es}
    (h1 : Phrase gcf NT.conjunction ts (SemVal.func v) es) :
    Phrase gcf NT.disjunction ts (SemVal.func v) es := by
  intro e S rest err out hs hla
  have hc := follows_mem hla
  obtain ⟨f1, fl⟩ := fact5 _ hs
  obtain ⟨g1, g2⟩ := fl _ hc hla
  try simp only [List.append_assoc, List.cons_append, List.nil_append, List.singleton_append]
  obtain ⟨x1, o1, r1, hr1, he1, hy1, hv1, ho1⟩ :=
    h1 e (S) (rest) err out f1 g1
  subst he1
  simp only [SemVal.carriedBy] at hv1
  have hrR := Reach_reduce gcf (x1 :: e :: S) rest (lastError es err) o1 5 1 1
    rfl (by rw [hy1]; exact g2) (by decide) (by decide) rfl
  refine ⟨_, _, _, hr1.trans (hrR), ?_, rfl, ?_, ?_⟩
  · simp [TransformAction, lastError, List.foldl_append]
  · simp [SemVal.carriedBy, TransformAction, shiftEntry, hv1]
  · intro h
    cases h

/-- The table entries on the path of production 6, from every state in which its
left-hand side can begin. -/
theorem fact6 : ∀ s ∈ NT.disjunction.starts,
    NT.disjunction.follows (lex1Code OR) = true ∧
    validShift (gotoState s 1) (lex1Code OR) = some 31 ∧
    (31 : Int) ∈ NT.conjunction.starts ∧
    (∀ c ∈ tokenCodes, NT.disjunction.follows c = true →
      NT.conjunction.follows c = true ∧ defaultReduce (gotoState 31 2) c = some 6) := by
  decide!

/-- Production 6: the parser handles a phrase built by it as the grammar says. -/
theorem phrase_p6 (gcf : CustomFunctions) {t1 t2 a b e1 e2} (s : String)
    (h1 : Phrase gcf NT.disjunction t1 (SemVal.func a) e1)
    (h2 : Phrase gcf NT.conjunction t2 (SemVal.func b) e2) :
    Phrase gcf NT.disjunction (t1 ++ Token.mk OR s :: t2)
      (SemVal.func (TransformFunc.pipelineGeneratorOr a b)) (e1 ++ e2) := by
  intro e S rest err out hs hla
  have hc := follows_mem hla
  obtain ⟨f1, f2, f3, fl⟩ := fact6 _ hs
  obtain ⟨g1, g2⟩ := fl _ hc hla
  try simp only [List.append_assoc, List.cons_append, List.nil_append, List.singleton_append]
  obtain ⟨x1, o1, r1, hr1, he1, hy1, hv1, ho1⟩ :=
    h1 e (S) (Token.mk OR s :: (t2 ++ rest)) err out hs f1
  subst he1
  simp only [SemVal.carriedBy] at hv1
  have hr2 : Reach gcf ⟨x1 :: e :: S, Token.mk OR s :: (t2 ++ rest), (lastError e1 err), o1⟩ _ :=
    Reach_shift gcf (by rw [hy1]; exact f2)
  obtain ⟨x3, o3, r3, hr3, he3, hy3, hv3, ho3⟩ :=
    h2 (shiftEntry 31 s) (x1 :: e :: S) (rest) (lastError e1 err) o1 f3 g1
  subst he3
  simp only [SemVal.carriedBy] at hv3
  have hrR := Reach_reduce gcf (x3 :: shiftEntry 31 s :: x1 :: e :: S) rest (lastError e2 (lastError e1 err)) o3 6 1 3
    rfl (by rw [hy3]; exact g2) (by decide) (by decide) rfl
  refine ⟨_, _, _, hr1.trans (hr2.trans (hr3.trans (hrR))), ?_, rfl, ?_, ?_⟩
  · simp [TransformAction, lastError, List.foldl_append]
  · simp [SemVal.carriedBy, TransformAction, shiftEntry, hv1, hv3]
  · intro h
    cases h

/-- The table entries on the path of production 7, from every state in which its
left-hand side can begin. -/
theorem fact7 : ∀ s ∈ NT.conjunction.starts,
    s ∈ NT.negation.starts ∧
    (∀ c ∈ tokenCodes, NT.conjunction.follows c = true →
      NT.negation.follows c = true ∧ defaultReduce (gotoState s 3) c = some 7) := by
  decide!

/-- Production 7: the parser handles a phrase built by it as the grammar says. -/
theorem phrase_p7 (gcf : CustomFunctions) {ts v es}
    (h1 : Phrase gcf NT.negation ts (SemVal.func v) es) :
    Phrase gcf NT.conjunction ts (SemVal.func v) es := by
  intro e S rest err out hs hla
  have hc := follows_mem hla
  obtain ⟨f1, fl⟩ := fact7 _ hs
  obtain ⟨g1, g2⟩ := fl _ hc hla
  try simp only [List.append_assoc, List.cons_append, List.nil_append, List.singleton_append]
  obtain ⟨x1, o1, r1, hr1, he1, hy1, hv1, ho1⟩ :=
    h1 e (S) (rest) err out f1 g1
  subst he1
  simp only [SemVal.carriedBy] at hv1
  have hrR := Reach_reduce gcf (x1 :: e :: S) rest (lastError es err) o1 7 2 1
    rfl (by rw [hy1]; exact g2) (by decide) (by decide) rfl
  refine ⟨_, _, _, hr1.trans (hrR), ?_, rfl, ?_, ?_⟩
  · simp [TransformAction, lastError, List.foldl_append]
  · simp [SemVal.carriedBy, TransformAction, shiftEntry, hv1]
  · intro h
    cases h

/-- The table entries on the path of production 8, from every state in which its
left-hand side can begin. -/
theorem fact8 : ∀ s ∈ NT.conjunction.starts,
    NT.conjunction.follows (lex1Code AND) = true ∧
    validShift (gotoState s 2) (lex1Code AND) = some 33 ∧
    (33 : Int) ∈ NT.negation.starts ∧
    (∀ c ∈ tokenCodes, NT.conjunction.follows c = true →
      NT.negation.follows c = true ∧ defaultReduce (gotoState 33 3) c = some 8) := by
  decide!

/-- Production 8: the parser handles a phrase built by it as the grammar says. -/
theorem phrase_p8 (gcf : CustomFunctions) {t1 t2 a b e1 e2} (s : String)
    (h1 : Phrase gcf NT.conjunction t1 (SemVal.func a) e1)
    (h2 : Phrase gcf NT.negation t2 (SemVal.func b) e2) :
    Phrase gcf NT.conjunction (t1 ++ Token.mk AND s :: t2)
      (SemVal.func (TransformFunc.pipelineGeneratorAnd a b)) (e1 ++ e2) := by
  intro e S rest err out hs hla
  have hc := follows_mem hla
  obtain ⟨f1, f2, f3, fl⟩ := fact8 _ hs
  obtain ⟨g1, g2⟩ := fl _ hc hla
  try simp only [List.append_assoc, List.cons_append, List.nil_append, List.singleton_append]
  obtain ⟨x1, o1, r1, hr1, he1, hy1, hv1, ho1⟩ :=
    h1 e (S) (Token.mk AND s :: (t2 ++ rest)) err out hs f1
  subst he1
  simp only [SemVal.carriedBy] at hv1
  have hr2 : Reach gcf ⟨x1 :: e :: S, Token.mk AND s :: (t2 ++ rest), (lastError e1 err), o1⟩ _ :=
    Reach_shift gcf (by rw [hy1]; exact f2)
  obtain ⟨x3, o3, r3, hr3, he3, hy3, hv3, ho3⟩ :=
    h2 (shiftEntry 33 s) (x1 :: e :: S) (rest) (lastError e1 err) o1 f3 g1
  subst he3
  simp only [SemVal.carriedBy] at hv3
  have hrR := Reach_reduce gcf (x3 :: shiftEntry 33 s :: x1 :: e :: S) rest (lastError e2 (lastError e1 err)) o3 8 2 3
    rfl (by rw [hy3]; exact g2) (by decide) (by decide) rfl
  refine ⟨_, _, _, hr1.trans (hr2.trans (hr3.trans (hrR))), ?_, rfl, ?_, ?_⟩
  · simp [TransformAction, lastError, List.foldl_append]
  · simp [SemVal.carriedBy, TransformAction, shiftEntry, hv1, hv3]
  · intro h
    cases h

/-- The table entries on the path of production 9, from every state in which its
left-hand side can begin. -/
theorem fact9 : ∀ s ∈ NT.negation.starts,
    s ∈ NT.comparison.starts ∧
    (∀ c ∈ tokenCodes, NT.negation.follows c = true →
      NT.comparison.follows c = true ∧ defaultReduce (gotoState s 4) c = some 9) := by
  decide!

/-- Production 9: the parser handles a phrase built by it as the grammar says. -/
theorem phrase_p9 (gcf : CustomFunctions) {ts v es}
    (h1 : Phrase gcf NT.comparison ts (SemVal.func v) es) :
    Phrase gcf NT.negation ts (SemVal.func v) es := by
  intro e S rest err out hs hla
  have hc := follows_mem hla
  obtain ⟨f1, fl⟩ := fact9 _ hs
  obtain ⟨g1, g2⟩ := fl _ hc hla
  try simp only [List.append_assoc, List.cons_append, List.nil_append, List.singleton_append]
  obtain ⟨x1, o1, r1, hr1, he1, hy1, hv1, ho1⟩ :=
    h1 e (S) (rest) err out f1 g1
  subst he1
  simp only [SemVal.carriedBy] at hv1
  have hrR := Reach_reduce gcf (x1 :: e :: S) rest (lastError es err) o1 9 3 1
    rfl (by rw [hy1]; exact g2) (by decide) (by decide) rfl
  refine ⟨_, _, _, hr1.trans (hrR), ?_, rfl, ?_, ?_⟩
  · simp [TransformAction, lastError, List.foldl_append]
  · simp [SemVal.carriedBy, TransformAction, shiftEntry, hv1]
  · intro h
    cases h

/-- The table entries on the path of production 10, from every state in which its
left-hand side can begin. -/
theorem fact10 : ∀ s ∈ NT.negation.starts,
    validShift s (lex1Code NOT) = some 8 ∧
    (8 : Int) ∈ NT.negation.starts ∧
    (∀ c ∈ tokenCodes, NT.negation.follows c = true →
      defaultReduce (gotoState 8 3) c = some 10) := by
  decide!

/-- Production 10: the parser handles a phrase built by it as the grammar says. -/
theorem phrase_p10 (gcf : CustomFunctions) {ts v es} (s : String)
    (h1 : Phrase gcf NT.negation ts (SemVal.func v) es) :
    Phrase gcf NT.negation (Token.mk NOT s :: ts)
      (SemVal.func (TransformFunc.pipelineGeneratorNot v)) es := by
  intro e S rest err out hs hla
  have hc := follows_mem hla
  obtain ⟨f1, f2, fl⟩ := fact10 _ hs
  have g1 := fl _ hc hla
  try simp only [List.append_assoc, List.cons_append, List.nil_append, List.singleton_append]
  have hr1 : Reach gcf ⟨e :: S, Token.mk NOT s :: (ts ++ rest), err, out⟩ _ :=
    Reach_shift gcf f1
  obtain ⟨x2, o2, r2, hr2, he2, hy2, hv2, ho2⟩ :=
    h1 (shiftEntry 8 s) (e :: S) (rest) err out f2 hla
  subst he2
  simp only [SemVal.carriedBy] at hv2
  have hrR := Reach_reduce gcf (x2 :: shiftEntry 8 s :: e :: S) rest (lastError es err) o2 10 3 2
    rfl (by rw [hy2]; exact g1) (by decide) (by decide) rfl
  refine ⟨_, _, _, hr1.trans (hr2.trans (hrR)), ?_, rfl, ?_, ?_⟩
  · simp [TransformAction, lastError, List.foldl_append]
  · simp [SemVal.carriedBy, TransformAction, shiftEntry, hv2]
  · intro h
    cases h

/-- The table entries on the path of production 11, from every state in which its
left-hand side can begin. -/
theorem fact11 : ∀ s ∈ NT.comparison.starts,
    s ∈ NT.additive.starts ∧
    (∀ c ∈ tokenCodes, NT.comparison.follows c = true →
      NT.additive.follows c = true ∧ defaultReduce (gotoState s 12) c = some 11) := by
  decide!

/-- Production 11: the parser handles a phrase built by it as the grammar says. -/
theorem phrase_p11 (gcf : CustomFunctions) {ts v es}
    (h1 : Phrase gcf NT.additive ts (SemVal.func v) es) :
    Phrase gcf NT.comparison ts (SemVal.func v) es := by
  intro e S rest err out hs hla
  have hc := follows_mem hla
  obtain ⟨f1, fl⟩ := fact11 _ hs
  obtain ⟨g1, g2⟩ := fl _ hc hla
  try simp only [List.append_assoc, List.cons_append, List.nil_append, List.singleton_append]
  obtain ⟨x1, o1, r1, hr1, he1, hy1, hv1, ho1⟩ :=
    h1 e (S) (rest) err out f1 g1
  subst he1
  simp only [SemVal.carriedBy] at hv1
  have hrR := Reach_reduce gcf (x1 :: e :: S) rest (lastError es err) o1 11 4 1
    rfl (by rw [hy1]; exact g2) (by decide) (by decide) rfl
  refine ⟨_, _, _, hr1.trans (hrR), ?_, rfl, ?_, ?_⟩
  · simp [TransformAction, lastError, List.foldl_append]
  · simp [SemVal.carriedBy, TransformAction, shiftEntry, hv1]
  · intro h
    cases h

/-- The table entries on the path of production 12, from every state in which its
left-hand side can begin. -/
theorem fact12 : ∀ s ∈ NT.comparison.starts,
    s ∈ NT.additive.starts ∧
    NT.additive.follows (lex1Code COMPOP) = true ∧
    validShift (gotoState s 12) (lex1Code COMPOP) = some 35 ∧
    (35 : Int) ∈ NT.additive.starts ∧
    (∀ c ∈ tokenCodes, NT.comparison.follows c = true →
      NT.additive.follows c = true ∧ defaultReduce (gotoState 35 12) c = some 12) := by
  decide!

/-- Production 12: the parser handles a phrase built by it as the grammar says. -/
theorem phrase_p12 (gcf : CustomFunctions) {t1 t2 a b e1 e2} (op : String)
    (h1 : Phrase gcf NT.additive t1 (SemVal.func a) e1)
    (h2 : Phrase gcf NT.additive t2 (SemVal.func b) e2) :
    Phrase gcf NT.comparison (t1 ++ Token.mk COMPOP op :: t2)
      (SemVal.func (TransformFunc.pipelineGeneratorCompare a b op)) (e1 ++ e2) := by
  intro e S rest err out hs hla
  have hc := follows_mem hla
  obtain ⟨f1, f2, f3, f4, fl⟩ := fact12 _ hs
  obtain ⟨g1, g2⟩ := fl _ hc hla
  try simp only [List.append_assoc, List.cons_append, List.nil_append, List.singleton_append]
  obtain ⟨x1, o1, r1, hr1, he1, hy1, hv1, ho1⟩ :=
    h1 e (S) (Token.mk COMPOP op :: (t2 ++ rest)) err out f1 f2
  subst he1
  simp only [SemVal.carriedBy] at hv1
  have hr2 : Reach gcf ⟨x1 :: e :: S, Token.mk COMPOP op :: (t2 ++ rest), (lastError e1 err), o1⟩ _ :=
    Reach_shift gcf (by rw [hy1]; exact f3)
  obtain ⟨x3, o3, r3, hr3, he3, hy3, hv3, ho3⟩ :=
    h2 (shiftEntry 35 op) (x1 :: e :: S) (rest) (lastError e1 err) o1 f4 g1
  subst he3
  simp only [SemVal.carriedBy] at hv3
  have hrR := Reach_reduce gcf (x3 :: shiftEntry 35 op :: x1 :: e :: S) rest (lastError e2 (lastError e1 err)) o3 12 4 3
    rfl (by rw [hy3]; exact g2) (by decide) (by decide) rfl
  refine ⟨_, _, _, hr1.trans (hr2.trans (hr3.trans (hrR))), ?_, rfl, ?_, ?_⟩
  · simp [TransformAction, lastError, List.foldl_append]
  · simp [SemVal.carriedBy, TransformAction, shiftEntry, hv1, hv3]
  · intro h
    cases h

/-- The table entries on the path of production 13, from every state in which its
left-hand side can begin. -/
theorem fact13 : ∀ s ∈ NT.additive.starts,
    s ∈ NT.multiplicative.starts ∧
    (∀ c ∈ tokenCodes, NT.additive.follows c = true →
      NT.multiplicative.follows c = true ∧ defaultReduce (gotoState s 11) c = some 13) := by
  decide!

/-- Production 13: the parser handles a phrase built by it as the grammar says. -/
theorem phrase_p13 (gcf : CustomFunctions) {ts v es}
    (h1 : Phrase gcf NT.multiplicative ts (SemVal.func v) es) :
    Phrase gcf NT.additive ts (SemVal.func v) es := by
  intro e S rest err out hs hla
  have hc := follows_mem hla
  obtain ⟨f1, fl⟩ := fact13 _ hs
  obtain ⟨g1, g2⟩ := fl _ hc hla
  try simp only [List.append_assoc, List.cons_append, List.nil_append, List.singleton_append]
  obtain ⟨x1, o1, r1, hr1, he1, hy1, hv1, ho1⟩ :=
    h1 e (S) (rest) err out f1 g1
  subst he1
  simp only [SemVal.carriedBy] at hv1
  have hrR := Reach_reduce gcf (x1 :: e :: S) rest (lastError es err) o1 13 12 1
    rfl (by rw [hy1]; exact g2) (by decide) (by decide) rfl
  refine ⟨_, _, _, hr1.trans (hrR), ?_, rfl, ?_, ?_⟩
  · simp [TransformAction, lastError, List.foldl_append]
  · simp [SemVal.carriedBy, TransformAction, shiftEntry, hv1]
  · intro h
    cases h

/-- The table entries on the path of production 14, from every state in which its
left-hand side can begin. -/
theorem fact14 : ∀ s ∈ NT.additive.starts,
    NT.additive.follows (lex1Code PLUS) = true ∧
    validShift (gotoState s 12) (lex1Code PLUS) = some 36 ∧
    (36 : Int) ∈ NT.multiplicative.starts ∧
    (∀ c ∈ tokenCodes, NT.additive.follows c = true →
      NT.multiplicative.follows c = true ∧ defaultReduce (gotoState 36 11) c = some 14) := by
  decide!

/-- Production 14: the parser handles a phrase built by it as the grammar says. -/
theorem phrase_p14 (gcf : CustomFunctions) {t1 t2 a b e1 e2} (s : String)
    (h1 : Phrase gcf NT.additive t1 (SemVal.func a) e1)
    (h2 : Phrase gcf NT.multiplicative t2 (SemVal.func b) e2) :
    Phrase gcf NT.additive (t1 ++ Token.mk PLUS s :: t2)
      (SemVal.func (TransformFunc.addTransformGenerator a b)) (e1 ++ e2) := by
  intro e S rest err out hs hla
  have hc := follows_mem hla
  obtain ⟨f1, f2, f3, fl⟩ := fact14 _ hs
  obtain ⟨g1, g2⟩ := fl _ hc hla
  try simp only [List.append_assoc, List.cons_append, List.nil_append, List.singleton_append]
  obtain ⟨x1, o1, r1, hr1, he1, hy1, hv1, ho1⟩ :=
    h1 e (S) (Token.mk PLUS s :: (t2 ++ rest)) err out hs f1
  subst he1
  simp only [SemVal.carriedBy] at hv1
  have hr2 : Reach gcf ⟨x1 :: e :: S, Token.mk PLUS s :: (t2 ++ rest), (lastError e1 err), o1⟩ _ :=
    Reach_shift gcf (by rw [hy1]; exact f2)
  obtain ⟨x3, o3, r3, hr3, he3, hy3, hv3, ho3⟩ :=
    h2 (shiftEntry 36 s) (x1 :: e :: S) (rest) (lastError e1 err) o1 f3 g1
  subst he3
  simp only [SemVal.carriedBy] at hv3
  have hrR := Reach_reduce gcf (x3 :: shiftEntry 36 s :: x1 :: e :: S) rest (lastError e2 (lastError e1 err)) o3 14 12 3
    rfl (by rw [hy3]; exact g2) (by decide) (by decide) rfl
  refine ⟨_, _, _, hr1.trans (hr2.trans (hr3.trans (hrR))), ?_, rfl, ?_, ?_⟩
  · simp [TransformAction, lastError, List.foldl_append]
  · simp [SemVal.carriedBy, TransformAction, shiftEntry, hv1, hv3]
  · intro h
    cases h

/-- The table entries on the path of production 15, from every state in which its
left-hand side can begin. -/
theorem fact15 : ∀ s ∈ NT.additive.starts,
    NT.additive.follows (lex1Code MINUS) = true ∧
    validShift (gotoState s 12) (lex1Code MINUS) = some 37 ∧
    (37 : Int) ∈ NT.multiplicative.starts ∧
    (∀ c ∈ tokenCodes, NT.additive.follows c = true →
      NT.multiplicative.follows c = true ∧ defaultReduce (gotoState 37 11) c = some 15) := by
  decide!

/-- Production 15: the parser handles a phrase built by it as the grammar says. -/
theorem phrase_p15 (gcf : CustomFunctions) {t1 t2 a b e1 e2} (s : String)
    (h1 : Phrase gcf NT.additive t1 (SemVal.func a) e1)
    (h2 : Phrase gcf NT.multiplicative t2 (SemVal.func b) e2) :
    Phrase gcf NT.additive (t1 ++ Token.mk MINUS s :: t2)
      (SemVal.func (TransformFunc.subtractTransformGenerator a b)) (e1 ++ e2) := by
  intro e S rest err out hs hla
  have hc := follows_mem hla
  obtain ⟨f1, f2, f3, fl⟩ := fact15 _ hs
  obtain ⟨g1, g2⟩ := fl _ hc hla
  try simp only [List.append_assoc, List.cons_append, List.nil_append, List.singleton_append]
  obtain ⟨x1, o1, r1, hr1, he1, hy1, hv1, ho1⟩ :=
    h1 e (S) (Token.mk MINUS s :: (t2 ++ rest)) err out hs f1
  subst he1
  simp only [SemVal.carriedBy] at hv1
  have hr2 : Reach gcf ⟨x1 :: e :: S, Token.mk MINUS s :: (t2 ++ rest), (lastError e1 err), o1⟩ _ :=
    Reach_shift gcf (by rw [hy1]; exact f2)
  obtain ⟨x3, o3, r3, hr3, he3, hy3, hv3, ho3⟩ :=
    h2 (shiftEntry 37 s) (x1 :: e :: S) (rest) (lastError e1 err) o1 f3 g1
  subst he3
  simp only [SemVal.carriedBy] at hv3
  have hrR := Reach_reduce gcf (x3 :: shiftEntry 37 s :: x1 :: e :: S) rest (lastError e2 (lastError e1 err)) o3 15 12 3
    rfl (by rw [hy3]; exact g2) (by decide) (by decide) rfl
  refine ⟨_, _, _, hr1.trans (hr2.trans (hr3.trans (hrR))), ?_, rfl, ?_, ?_⟩
  · simp [TransformAction, lastError, List.foldl_append]
  · simp [SemVal.carriedBy, TransformAction, shiftEntry, hv1, hv3]
  · intro h
    cases h

/-- The table entries on the path of production 16, from every state in which its
left-hand side can begin. -/
theorem fact16 : ∀ s ∈ NT.multiplicative.starts,
    s ∈ NT.terminal.starts ∧
    (∀ c ∈ tokenCodes, NT.multiplicative.follows c = true →
      NT.terminal.follows c = true ∧ defaultReduce (gotoState s 5) c = some 16) := by
  decide!

/-- Production 16: the parser handles a phrase built by it as the grammar says. -/
theorem phrase_p16 (gcf : CustomFunctions) {ts v es}
    (h1 : Phrase gcf NT.terminal ts (SemVal.func v) es) :
    Phrase gcf NT.multiplicative ts (SemVal.func v) es := by
  intro e S rest err out hs hla
  have hc := follows_mem hla
  obtain ⟨f1, fl⟩ := fact16 _ hs
  obtain ⟨g1, g2⟩ := fl _ hc hla
  try simp only [List.append_assoc, List.cons_append, List.nil_append, List.singleton_append]
  obtain ⟨x1, o1, r1, hr1, he1, hy1, hv1, ho1⟩ :=
    h1 e (S) (rest) err out f1 g1
  subst he1
  simp only [SemVal.carriedBy] at hv1
  have hrR := Reach_reduce gcf (x1 :: e :: S) rest (lastError es err) o1 16 11 1
    rfl (by rw [hy1]; exact g2) (by decide) (by decide) rfl
  refine ⟨_, _, _, hr1.trans (hrR), ?_, rfl, ?_, ?_⟩
  · simp [TransformAction, lastError, List.foldl_append]
  · simp [SemVal.carriedBy, TransformAction, shiftEntry, hv1]
  · intro h
    cases h

/-- The table entries on the path of production 17, from every state in which its
left-hand side can begin. -/
theorem fact17 : ∀ s ∈ NT.multiplicative.starts,
    NT.multiplicative.follows (lex1Code MULTIPLY) = true ∧
    validShift (gotoState s 11) (lex1Code MULTIPLY) = some 38 ∧
    (38 : Int) ∈ NT.terminal.starts ∧
    (∀ c ∈ tokenCodes, NT.multiplicative.follows c = true →
      NT.terminal.follows c = true ∧ defaultReduce (gotoState 38 5) c = some 17) := by
  decide!

/-- Production 17: the parser handles a phrase built by it as the grammar says. -/
theorem phrase_p17 (gcf : CustomFunctions) {t1 t2 a b e1 e2} (s : String)
    (h1 : Phrase gcf NT.multiplicative t1 (SemVal.func a) e1)
    (h2 : Phrase gcf NT.terminal t2 (SemVal.func b) e2) :
    Phrase gcf NT.multiplicative (t1 ++ Token.mk MULTIPLY s :: t2)
      (SemVal.func (TransformFunc.multiplyTransformGenerator a b)) (e1 ++ e2) := by
  intro e S rest err out hs hla
  have hc := follows_mem hla
  obtain ⟨f1, f2, f3, fl⟩ := fact17 _ hs
  obtain ⟨g1, g2⟩ := fl _ hc hla
  try simp only [List.append_assoc, List.cons_append, List.nil_append, List.singleton_append]
  obtain ⟨x1, o1, r1, hr1, he1, hy1, hv1, ho1⟩ :=
    h1 e (S) (Token.mk MULTIPLY s :: (t2 ++ rest)) err out hs f1
  subst he1
  simp only [SemVal.carriedBy] at hv1
  have hr2 : Reach gcf ⟨x1 :: e :: S, Token.mk MULTIPLY s :: (t2 ++ rest), (lastError e1 err), o1⟩ _ :=
    Reach_shift gcf (by rw [hy1]; exact f2)
  obtain ⟨x3, o3, r3, hr3, he3, hy3, hv3, ho3⟩ :=
    h2 (shiftEntry 38 s) (x1 :: e :: S) (rest) (lastError e1 err) o1 f3 g1
  subst he3
  simp only [SemVal.carriedBy] at hv3
  have hrR := Reach_reduce gcf (x3 :: shiftEntry 38 s :: x1 :: e :: S) rest (lastError e2 (lastError e1 err)) o3 17 11 3
    rfl (by rw [hy3]; exact g2) (by decide) (by decide) rfl
  refine ⟨_, _, _, hr1.trans (hr2.trans (hr3.trans (hrR))), ?_, rfl, ?_, ?_⟩
  · simp [TransformAction, lastError, List.foldl_append]
  · simp [SemVal.carriedBy, TransformAction, shiftEntry, hv1, hv3]
  · intro h
    cases h

/-- The table entries on the path of production 18, from every state in which its
left-hand side can begin. -/
theorem fact18 : ∀ s ∈ NT.multiplicative.starts,
    NT.multiplicative.follows (lex1Code DIVIDE) = true ∧
    validShift (gotoState s 11) (lex1Code DIVIDE) = some 39 ∧
    (39 : Int) ∈ NT.terminal.starts ∧
    (∀ c ∈ tokenCodes, NT.multiplicative.follows c = true →
      NT.terminal.follows c = true ∧ defaultReduce (gotoState 39 5) c = some 18) := by
  decide!

/-- Production 18: the parser handles a phrase built by it as the grammar says. -/
theorem phrase_p18 (gcf : CustomFunctions) {t1 t2 a b e1 e2} (s : String)
    (h1 : Phrase gcf NT.multiplicative t1 (SemVal.func a) e1)
    (h2 : Phrase gcf NT.terminal t2 (SemVal.func b) e2) :
    Phrase gcf NT.multiplicative (t1 ++ Token.mk DIVIDE s :: t2)
      (SemVal.func (TransformFunc.divideTransformGenerator a b)) (e1 ++ e2) := by
  intro e S rest err out hs hla
  have hc := follows_mem hla
  obtain ⟨f1, f2, f3, fl⟩ := fact18 _ hs
  obtain ⟨g1, g2⟩ := fl _ hc hla
  try simp only [List.append_assoc, List.cons_append, List.nil_append, List.singleton_append]
  obtain ⟨x1, o1, r1, hr1, he1, hy1, hv1, ho1⟩ :=
    h1 e (S) (Token.mk DIVIDE s :: (t2 ++ rest)) err out hs f1
  subst he1
  simp only [SemVal.carriedBy] at hv1
  have hr2 : Reach gcf ⟨x1 :: e :: S, Token.mk DIVIDE s :: (t2 ++ rest), (lastError e1 err), o1⟩ _ :=
    Reach_shift gcf (by rw [hy1]; exact f2)
  obtain ⟨x3, o3, r3, hr3, he3, hy3, hv3, ho3⟩ :=
    h2 (shiftEntry 39 s) (x1 :: e :: S) (rest) (lastError e1 err) o1 f3 g1
  subst he3
  simp only [SemVal.carriedBy] at hv3
  have hrR := Reach_reduce gcf (x3 :: shiftEntry 39 s :: x1 :: e :: S) rest (lastError e2 (lastError e1 err)) o3 18 11 3
    rfl (by rw [hy3]; exact g2) (by decide) (by decide) rfl
  refine ⟨_, _, _, hr1.trans (hr2.trans (hr3.trans (hrR))), ?_, rfl, ?_, ?_⟩
  · simp [TransformAction, lastError, List.foldl_append]
  · simp [SemVal.carriedBy, TransformAction, shiftEntry, hv1, hv3]
  · intro h
    cases h

/-- The table entries on the path of production 19, from every state in which its
left-hand side can begin. -/
theorem fact19 : ∀ s ∈ NT.multiplicative.starts,
    validShift s (lex1Code MINUS) = some 12 ∧
    (12 : Int) ∈ NT.terminal.starts ∧
    (∀ c ∈ tokenCodes, NT.multiplicative.follows c = true →
      NT.terminal.follows c = true ∧ defaultReduce (gotoState 12 5) c = some 19) := by
  decide!

/-- Production 19: the parser handles a phrase built by it as the grammar says. -/
theorem phrase_p19 (gcf : CustomFunctions) {ts v es} (s : String)
    (h1 : Phrase gcf NT.terminal ts (SemVal.func v) es) :
    Phrase gcf NT.multiplicative (Token.mk MINUS s :: ts)
      (SemVal.func (TransformFunc.inverseTransformGenerator v)) es := by
  intro e S rest err out hs hla
  have hc := follows_mem hla
  obtain ⟨f1, f2, fl⟩ := fact19 _ hs
  obtain ⟨g1, g2⟩ := fl _ hc hla
  try simp only [List.append_assoc, List.cons_append, List.nil_append, List.singleton_append]
  have hr1 : Reach gcf ⟨e :: S, Token.mk MINUS s :: (ts ++ rest), err, out⟩ _ :=
    Reach_shift gcf f1
  obtain ⟨x2, o2, r2, hr2, he2, hy2, hv2, ho2⟩ :=
    h1 (shiftEntry 12 s) (e :: S) (rest) err out f2 g1
  subst he2
  simp only [SemVal.carriedBy] at hv2
  have hrR := Reach_reduce gcf (x2 :: shiftEntry 12 s :: e :: S) rest (lastError es err) o2 19 11 2
    rfl (by rw [hy2]; exact g2) (by decide) (by decide) rfl
  refine ⟨_, _, _, hr1.trans (hr2.trans (hrR)), ?_, rfl, ?_, ?_⟩
  · simp [TransformAction, lastError, List.foldl_append]
  · simp [SemVal.carriedBy, TransformAction, shiftEntry, hv2]
  · intro h
    cases h

/-- The table entries on the path of production 20, from every state in which its
left-hand side can begin. -/
theorem fact20 : ∀ s ∈ NT.terminal.starts,
    s ∈ NT.constant.starts ∧
    (∀ c ∈ tokenCodes, NT.terminal.follows c = true →
      NT.constant.follows c = true ∧ defaultReduce (gotoState s 8) c = some 20) := by
  decide!

/-- Production 20: the parser handles a phrase built by it as the grammar says. -/
theorem phrase_p20 (gcf : CustomFunctions) {ts v es}
    (h1 : Phrase gcf NT.constant ts (SemVal.func v) es) :
    Phrase gcf NT.terminal ts (SemVal.func v) es := by
  intro e S rest err out hs hla
  have hc := follows_mem hla
  obtain ⟨f1, fl⟩ := fact20 _ hs
  obtain ⟨g1, g2⟩ := fl _ hc hla
  try simp only [List.append_assoc, List.cons_append, List.nil_append, List.singleton_append]
  obtain ⟨x1, o1, r1, hr1, he1, hy1, hv1, ho1⟩ :=
    h1 e (S) (rest) err out f1 g1
  subst he1
  simp only [SemVal.carriedBy] at hv1
  have hrR := Reach_reduce gcf (x1 :: e :: S) rest (lastError es err) o1 20 5 1
    rfl (by rw [hy1]; exact g2) (by decide) (by decide) rfl
  refine ⟨_, _, _, hr1.trans (hrR), ?_, rfl, ?_, ?_⟩
  · simp [TransformAction, lastError, List.foldl_append]
  · simp [SemVal.carriedBy, TransformAction, shiftEntry, hv1]
  · intro h
    cases h

/-- The table entries on the path of production 21, from every state in which its
left-hand side can begin. -/
theorem fact21 : ∀ s ∈ NT.terminal.starts,
    s ∈ NT.variable.starts ∧
    (∀ c ∈ tokenCodes, NT.terminal.follows c = true →
      NT.variable.follows c = true ∧ defaultReduce (gotoState s 9) c = some 21) := by
  decide!

/-- Production 21: the parser handles a phrase built by it as the grammar says. -/
theorem phrase_p21 (gcf : CustomFunctions) {ts v es}
    (h1 : Phrase gcf NT.variable ts (SemVal.func v) es) :
    Phrase gcf NT.terminal ts (SemVal.func v) es := by
  intro e S rest err out hs hla
  have hc := follows_mem hla
  obtain ⟨f1, fl⟩ := fact21 _ hs
  obtain ⟨g1, g2⟩ := fl _ hc hla
  try simp only [List.append_assoc, List.cons_append, List.nil_append, List.singleton_append]
  obtain ⟨x1, o1, r1, hr1, he1, hy1, hv1, ho1⟩ :=
    h1 e (S) (rest) err out f1 g1
  subst he1
  simp only [SemVal.carriedBy] at hv1
  have hrR := Reach_reduce gcf (x1 :: e :: S) rest (lastError es err) o1 21 5 1
    rfl (by rw [hy1]; exact g2) (by decide) (by decide) rfl
  refine ⟨_, _, _, hr1.trans (hrR), ?_, rfl, ?_, ?_⟩
  · simp [TransformAction, lastError, List.foldl_append]
  · simp [SemVal.carriedBy, TransformAction, shiftEntry, hv1]
  · intro h
    cases h

/-- The table entries on the path of production 22, from every state in which its
left-hand side can begin. -/
theorem fact22 : ∀ s ∈ NT.terminal.starts,
    s ∈ NT.function.starts ∧
    (∀ c ∈ tokenCodes, NT.terminal.follows c = true →
      NT.function.follows c = true ∧ defaultReduce (gotoState s 10) c = some 22) := by
  decide!

/-- Production 22: the parser handles a phrase built by it as the grammar says. -/
theorem phrase_p22 (gcf : CustomFunctions) {ts v es}
    (h1 : Phrase gcf NT.function ts (SemVal.func v) es) :
    Phrase gcf NT.terminal ts (SemVal.func v) es := by
  intro e S rest err out hs hla
  have hc := follows_mem hla
  obtain ⟨f1, fl⟩ := fact22 _ hs
  obtain ⟨g1, g2⟩ := fl _ hc hla
  try simp only [List.append_assoc, List.cons_append, List.nil_append, List.singleton_append]
  obtain ⟨x1, o1, r1, hr1, he1, hy1, hv1, ho1⟩ :=
    h1 e (S) (rest) err out f1 g1
  subst he1
  simp only [SemVal.carriedBy] at hv1
  have hrR := Reach_reduce gcf (x1 :: e :: S) rest (lastError es err) o1 22 5 1
    rfl (by rw [hy1]; exact g2) (by decide) (by decide) rfl
  refine ⟨_, _, _, hr1.trans (hrR), ?_, rfl, ?_, ?_⟩
  · simp [TransformAction, lastError, List.foldl_append]
  · simp [SemVal.carriedBy, TransformAction, shiftEntry, hv1]
  · intro h
    cases h

/-- The table entries on the path of production 23, from every state in which its
left-hand side can begin. -/
theorem fact23 : ∀ s ∈ NT.terminal.starts,
    validShift s (lex1Code LB) = some 16 ∧
    (16 : Int) ∈ NT.pipeline.starts ∧
    NT.pipeline.follows (lex1Code RB) = true ∧
    validShift (gotoState 16 7) (lex1Code RB) = some 60 ∧
    (∀ c ∈ tokenCodes, NT.terminal.follows c = true →
      defaultReduce 60 c = some 23) := by
  decide!

/-- Production 23: the parser handles a phrase built by it as the grammar says. -/
theorem phrase_p23 (gcf : CustomFunctions) {ts v es} (s1 s2 : String)
    (h1 : Phrase gcf NT.pipeline ts (SemVal.func v) es) :
    Phrase gcf NT.terminal (Token.mk LB s1 :: ts ++ [Token.mk RB s2])
      (SemVal.func v) es := by
  intro e S rest err out hs hla
  have hc := follows_mem hla
  obtain ⟨f1, f2, f3, f4, fl⟩ := fact23 _ hs
  have g1 := fl _ hc hla
  try simp only [List.append_assoc, List.cons_append, List.nil_append, List.singleton_append]
  have hr1 : Reach gcf ⟨e :: S, Token.mk LB s1 :: (ts ++ Token.mk RB s2 :: rest), err, out⟩ _ :=
    Reach_shift gcf f1
  obtain ⟨x2, o2, r2, hr2, he2, hy2, hv2, ho2⟩ :=
    h1 (shiftEntry 16 s1) (e :: S) (Token.mk RB s2 :: rest) err out f2 f3
  subst he2
  simp only [SemVal.carriedBy] at hv2
  have hr3 : Reach gcf ⟨x2 :: shiftEntry 16 s1 :: e :: S, Token.mk RB s2 :: rest, (lastError es err), o2⟩ _ :=
    Reach_shift gcf (by rw [hy2]; exact f4)
  have hrR := Reach_reduce gcf (shiftEntry 60 s2 :: x2 :: shiftEntry 16 s1 :: e :: S) rest (lastError es err) o2 23 5 3
    rfl g1 (by decide) (by decide) rfl
  refine ⟨_, _, _, hr1.trans (hr2.trans (hr3.trans (hrR))), ?_, rfl, ?_, ?_⟩
  · simp [TransformAction, lastError, List.foldl_append]
  · simp [SemVal.carriedBy, TransformAction, shiftEntry, hv2]
  · intro h
    cases h

/-- The table entries on the path of production 24, from every state in which its
left-hand side can begin. -/
theorem fact24 : ∀ s ∈ NT.constant.starts,
    validShift s (lex1Code NUMBER) = some 17 ∧
    (∀ c ∈ tokenCodes, NT.constant.follows c = true →
      defaultReduce 17 c = some 24) := by
  decide!

/-- Production 24: the parser handles a phrase built by it as the grammar says. -/
theorem phrase_p24 (gcf : CustomFunctions) (s : String) :
    Phrase gcf NT.constant [Token.mk NUMBER s]
      (SemVal.func (TransformFunc.pipelineGeneratorConstantFloat s)) [] := by
  intro e S rest err out hs hla
  have hc := follows_mem hla
  obtain ⟨f1, fl⟩ := fact24 _ hs
  have g1 := fl _ hc hla
  try simp only [List.append_assoc, List.cons_append, List.nil_append, List.singleton_append]
  have hr1 : Reach gcf ⟨e :: S, Token.mk NUMBER s :: rest, err, out⟩ _ :=
    Reach_shift gcf f1
  have hrR := Reach_reduce gcf (shiftEntry 17 s :: e :: S) rest err out 24 8 1
    rfl g1 (by decide) (by decide) rfl
  refine ⟨_, _, _, hr1.trans (hrR), ?_, rfl, ?_, ?_⟩
  · simp [TransformAction, lastError, List.foldl_append]
  · simp [SemVal.carriedBy, TransformAction, shiftEntry]
  · intro h
    cases h

/-- The table entries on the path of production 25, from every state in which its
left-hand side can begin. -/
theorem fact25 : ∀ s ∈ NT.constant.starts,
    validShift s (lex1Code BOOL) = some 18 ∧
    (∀ c ∈ tokenCodes, NT.constant.follows c = true →
      defaultReduce 18 c = some 25) := by
  decide!

/-- Production 25: the parser handles a phrase built by it as the grammar says. -/
theorem phrase_p25 (gcf : CustomFunctions) (s : String) :
    Phrase gcf NT.constant [Token.mk BOOL s]
      (SemVal.func (TransformFunc.pipelineGeneratorConstantBool s)) [] := by
  intro e S rest err out hs hla
  have hc := follows_mem hla
  obtain ⟨f1, fl⟩ := fact25 _ hs
  have g1 := fl _ hc hla
  try simp only [List.append_assoc, List.cons_append, List.nil_append, List.singleton_append]
  have hr1 : Reach gcf ⟨e :: S, Token.mk BOOL s :: rest, err, out⟩ _ :=
    Reach_shift gcf f1
  have hrR := Reach_reduce gcf (shiftEntry 18 s :: e :: S) rest err out 25 8 1
    rfl g1 (by decide) (by decide) rfl
  refine ⟨_, _, _, hr1.trans (hrR), ?_, rfl, ?_, ?_⟩
  · simp [TransformAction, lastError, List.foldl_append]
  · simp [SemVal.carriedBy, TransformAction, shiftEntry]
  · intro h
    cases h

/-- The table entries on the path of production 26, from every state in which its
left-hand side can begin. -/
theorem fact26 : ∀ s ∈ NT.constant.starts,
    validShift s (lex1Code STRING) = some 19 ∧
    (∀ c ∈ tokenCodes, NT.constant.follows c = true →
      defaultReduce 19 c = some 26) := by
  decide!

/-- Production 26: the parser handles a phrase built by it as the grammar says. -/
theorem phrase_p26 (gcf : CustomFunctions) (s : String) :
    Phrase gcf NT.constant [Token.mk STRING s]
      (SemVal.func (TransformFunc.pipelineGeneratorConstantString s)) [] := by
  intro e S rest err out hs hla
  have hc := follows_mem hla
  obtain ⟨f1, fl⟩ := fact26 _ hs
  have g1 := fl _ hc hla
  try simp only [List.append_assoc, List.cons_append, List.nil_append, List.singleton_append]
  have hr1 : Reach gcf ⟨e :: S, Token.mk STRING s :: rest, err, out⟩ _ :=
    Reach_shift gcf f1
  have hrR := Reach_reduce gcf (shiftEntry 19 s :: e :: S) rest err out 26 8 1
    rfl g1 (by decide) (by decide) rfl
  refine ⟨_, _, _, hr1.trans (hrR), ?_, rfl, ?_, ?_⟩
  · simp [TransformAction, lastError, List.foldl_append]
  · simp [SemVal.carriedBy, TransformAction, shiftEntry]
  · intro h
    cases h

/-- The table entries on the path of production 27, from every state in which its
left-hand side can begin. -/
theorem fact27 : ∀ s ∈ NT.variable.starts,
    validShift s (lex1Code THIS) = some 20 ∧
    validShift 20 (lex1Code LSQUARE) = some 42 ∧
    (42 : Int) ∈ NT.stringList.starts ∧
    NT.stringList.follows (lex1Code RSQUARE) = true ∧
    validShift (gotoState 42 14) (lex1Code RSQUARE) = some 74 ∧
    (∀ c ∈ tokenCodes, NT.variable.follows c = true →
      defaultReduce 74 c = some 27) := by
  decide!

/-- Production 27: the parser handles a phrase built by it as the grammar says. -/
theorem phrase_p27 (gcf : CustomFunctions) {ts l es} (s1 s2 s3 : String)
    (h1 : Phrase gcf NT.stringList ts (SemVal.strings l) es) :
    Phrase gcf NT.variable
      (Token.mk THIS s1 :: Token.mk LSQUARE s2 :: ts ++ [Token.mk RSQUARE s3])
      (SemVal.func (TransformFunc.pipelineGeneratorGet l)) es := by
  intro e S rest err out hs hla
  have hc := follows_mem hla
  obtain ⟨f1, f2, f3, f4, f5, fl⟩ := fact27 _ hs
  have g1 := fl _ hc hla
  try simp only [List.append_assoc, List.cons_append, List.nil_append, List.singleton_append]
  have hr1 : Reach gcf ⟨e :: S, Token.mk THIS s1 :: Token.mk LSQUARE s2 :: (ts ++ Token.mk RSQUARE s3 :: rest), err, out⟩ _ :=
    Reach_shift gcf f1
  have hr2 : Reach gcf ⟨shiftEntry 20 s1 :: e :: S, Token.mk LSQUARE s2 :: (ts ++ Token.mk RSQUARE s3 :: rest), err, out⟩ _ :=
    Reach_shift gcf f2
  obtain ⟨x3, o3, r3, hr3, he3, hy3, hv3, ho3⟩ :=
    h1 (shiftEntry 42 s2) (shiftEntry 20 s1 :: e :: S) (Token.mk RSQUARE s3 :: rest) err out f3 f4
  subst he3
  simp only [SemVal.carriedBy] at hv3
  have hr4 : Reach gcf ⟨x3 :: shiftEntry 42 s2 :: shiftEntry 20 s1 :: e :: S, Token.mk RSQUARE s3 :: rest, (lastError es err), o3⟩ _ :=
    Reach_shift gcf (by rw [hy3]; exact f5)
  have hrR := Reach_reduce gcf (shiftEntry 74 s3 :: x3 :: shiftEntry 42 s2 :: shiftEntry 20 s1 :: e :: S) rest (lastError es err) o3 27 9 4
    rfl g1 (by decide) (by decide) rfl
  refine ⟨_, _, _, hr1.trans (hr2.trans (hr3.trans (hr4.trans (hrR)))), ?_, rfl, ?_, ?_⟩
  · simp [TransformAction, lastError, List.foldl_append]
  · simp [SemVal.carriedBy, TransformAction, shiftEntry, hv3]
  · intro h
    cases h

/-- The table entries on the path of production 28, from every state in which its
left-hand side can begin. -/
theorem fact28 : ∀ s ∈ NT.variable.starts,
    validShift s (lex1Code THIS) = some 20 ∧
    (∀ c ∈ tokenCodes, NT.variable.follows c = true →
      defaultReduce 20 c = some 28) := by
  decide!

/-- Production 28: the parser handles a phrase built by it as the grammar says. -/
theorem phrase_p28 (gcf : CustomFunctions) (s : String) :
    Phrase gcf NT.variable [Token.mk THIS s]
      (SemVal.func TransformFunc.pipelineGeneratorIdentity) [] := by
  intro e S rest err out hs hla
  have hc := follows_mem hla
  obtain ⟨f1, fl⟩ := fact28 _ hs
  have g1 := fl _ hc hla
  try simp only [List.append_assoc, List.cons_append, List.nil_append, List.singleton_append]
  have hr1 : Reach gcf ⟨e :: S, Token.mk THIS s :: rest, err, out⟩ _ :=
    Reach_shift gcf f1
  have hrR := Reach_reduce gcf (shiftEntry 20 s :: e :: S) rest err out 28 9 1
    rfl g1 (by decide) (by decide) rfl
  refine ⟨_, _, _, hr1.trans (hrR), ?_, rfl, ?_, ?_⟩
  · simp [TransformAction, lastError, List.foldl_append]
  · simp [SemVal.carriedBy, TransformAction, shiftEntry]
  · intro h
    cases h

/-- The table entries on the path of production 29, from every state in which its
left-hand side can begin. -/
theorem fact29 : ∀ s ∈ NT.function.starts,
    validShift s (lex1Code SET) = some 21 ∧
    validShift 21 (lex1Code LB) = some 43 ∧
    validShift 43 (lex1Code THIS) = some 63 ∧
    validShift 63 (lex1Code LSQUARE) = some 76 ∧
    (76 : Int) ∈ NT.stringList.starts ∧
    NT.stringList.follows (lex1Code RSQUARE) = true ∧
    validShift (gotoState 76 14) (lex1Code RSQUARE) = some 91 ∧
    validShift 91 (lex1Code COMMA) = some 93 ∧
    (93 : Int) ∈ NT.disjunction.starts ∧
    NT.disjunction.follows (lex1Code RB) = true ∧
    validShift (gotoState 93 1) (lex1Code RB) = some 95 ∧
    (∀ c ∈ tokenCodes, NT.function.follows c = true →
      defaultReduce 95 c = some 29) := by
  decide!

/-- Production 29: the parser handles a phrase built by it as the grammar says. -/
theorem phrase_p29 (gcf : CustomFunctions) {t1 t2 l v e1 e2} (s1 s2 s3 s4 s5 s6 s7 : String)
    (h1 : Phrase gcf NT.stringList t1 (SemVal.strings l) e1)
    (h2 : Phrase gcf NT.disjunction t2 (SemVal.func v) e2) :
    Phrase gcf NT.function
      (Token.mk SET s1 :: Token.mk LB s2 :: Token.mk THIS s3 :: Token.mk LSQUARE s4 :: t1 ++
        Token.mk RSQUARE s5 :: Token.mk COMMA s6 :: t2 ++ [Token.mk RB s7])
      (SemVal.func (TransformFunc.pipelineGeneratorSet l v)) (e1 ++ e2) := by
  intro e S rest err out hs hla
  have hc := follows_mem hla
  obtain ⟨f1, f2, f3, f4, f5, f6, f7, f8, f9, f10, f11, fl⟩ := fact29 _ hs
  have g1 := fl _ hc hla
  try simp only [List.append_assoc, List.cons_append, List.nil_append, List.singleton_append]
  have hr1 : Reach gcf ⟨e :: S, Token.mk SET s1 :: Token.mk LB s2 :: Token.mk THIS s3 :: Token.mk LSQUARE s4 :: (t1 ++ Token.mk RSQUARE s5 :: Token.mk COMMA s6 :: (t2 ++ Token.mk RB s7 :: rest)), err, out⟩ _ :=
    Reach_shift gcf f1
  have hr2 : Reach gcf ⟨shiftEntry 21 s1 :: e :: S, Token.mk LB s2 :: Token.mk THIS s3 :: Token.mk LSQUARE s4 :: (t1 ++ Token.mk RSQUARE s5 :: Token.mk COMMA s6 :: (t2 ++ Token.mk RB s7 :: rest)), err, out⟩ _ :=
    Reach_shift gcf f2
  have hr3 : Reach gcf ⟨shiftEntry 43 s2 :: shiftEntry 21 s1 :: e :: S, Token.mk THIS s3 :: Token.mk LSQUARE s4 :: (t1 ++ Token.mk RSQUARE s5 :: Token.mk COMMA s6 :: (t2 ++ Token.mk RB s7 :: rest)), err, out⟩ _ :=
    Reach_shift gcf f3
  have hr4 : Reach gcf ⟨shiftEntry 63 s3 :: shiftEntry 43 s2 :: shiftEntry 21 s1 :: e :: S, Token.mk LSQUARE s4 :: (t1 ++ Token.mk RSQUARE s5 :: Token.mk COMMA s6 :: (t2 ++ Token.mk RB s7 :: rest)), err, out⟩ _ :=
    Reach_shift gcf f4
  obtain ⟨x5, o5, r5, hr5, he5, hy5, hv5, ho5⟩ :=
    h1 (shiftEntry 76 s4) (shiftEntry 63 s3 :: shiftEntry 43 s2 :: shiftEntry 21 s1 :: e :: S) (Token.mk RSQUARE s5 :: Token.mk COMMA s6 :: (t2 ++ Token.mk RB s7 :: rest)) err out f5 f6
  subst he5
  simp only [SemVal.carriedBy] at hv5
  have hr6 : Reach gcf ⟨x5 :: shiftEntry 76 s4 :: shiftEntry 63 s3 :: shiftEntry 43 s2 :: shiftEntry 21 s1 :: e :: S, Token.mk RSQUARE s5 :: Token.mk COMMA s6 :: (t2 ++ Token.mk RB s7 :: rest), (lastError e1 err), o5⟩ _ :=
    Reach_shift gcf (by rw [hy5]; exact f7)
  have hr7 : Reach gcf ⟨shiftEntry 91 s5 :: x5 :: shiftEntry 76 s4 :: shiftEntry 63 s3 :: shiftEntry 43 s2 :: shiftEntry 21 s1 :: e :: S, Token.mk COMMA s6 :: (t2 ++ Token.mk RB s7 :: rest), (lastError e1 err), o5⟩ _ :=
    Reach_shift gcf f8
  obtain ⟨x8, o8, r8, hr8, he8, hy8, hv8, ho8⟩ :=
    h2 (shiftEntry 93 s6) (shiftEntry 91 s5 :: x5 :: shiftEntry 76 s4 :: shiftEntry 63 s3 :: shiftEntry 43 s2 :: shiftEntry 21 s1 :: e :: S) (Token.mk RB s7 :: rest) (lastError e1 err) o5 f9 f10
  subst he8
  simp only [SemVal.carriedBy] at hv8
  have hr9 : Reach gcf ⟨x8 :: shiftEntry 93 s6 :: shiftEntry 91 s5 :: x5 :: shiftEntry 76 s4 :: shiftEntry 63 s3 :: shiftEntry 43 s2 :: shiftEntry 21 s1 :: e :: S, Token.mk RB s7 :: rest, (lastError e2 (lastError e1 err)), o8⟩ _ :=
    Reach_shift gcf (by rw [hy8]; exact f11)
  have hrR := Reach_reduce gcf (shiftEntry 95 s7 :: x8 :: shiftEntry 93 s6 :: shiftEntry 91 s5 :: x5 :: shiftEntry 76 s4 :: shiftEntry 63 s3 :: shiftEntry 43 s2 :: shiftEntry 21 s1 :: e :: S) rest (lastError e2 (lastError e1 err)) o8 29 10 9
    rfl g1 (by decide) (by decide) rfl
  refine ⟨_, _, _, hr1.trans (hr2.trans (hr3.trans (hr4.trans (hr5.trans (hr6.trans (hr7.trans (hr8.trans (hr9.trans (hrR))))))))), ?_, rfl, ?_, ?_⟩
  · simp [TransformAction, lastError, List.foldl_append]
  · simp [SemVal.carriedBy, TransformAction, shiftEntry, hv5, hv8]
  · intro h
    cases h

/-- The table entries on the path of production 30, from every state in which its
left-hand side can begin. -/
theorem fact30 : ∀ s ∈ NT.function.starts,
    validShift s (lex1Code SET) = some 21 ∧
    validShift 21 (lex1Code LB) = some 43 ∧
    validShift 43 (lex1Code THIS) = some 63 ∧
    validShift 63 (lex1Code COMMA) = some 77 ∧
    (77 : Int) ∈ NT.pipeline.starts ∧
    NT.pipeline.follows (lex1Code RB) = true ∧
    validShift (gotoState 77 7) (lex1Code RB) = some 92 ∧
    (∀ c ∈ tokenCodes, NT.function.follows c = true →
      defaultReduce 92 c = some 30) := by
  decide!

/-- Production 30: the parser handles a phrase built by it as the grammar says. -/
theorem phrase_p30 (gcf : CustomFunctions) {ts v es} (s1 s2 s3 s4 s5 : String)
    (h1 : Phrase gcf NT.pipeline ts (SemVal.func v) es) :
    Phrase gcf NT.function
      (Token.mk SET s1 :: Token.mk LB s2 :: Token.mk THIS s3 :: Token.mk COMMA s4 :: ts ++
        [Token.mk RB s5])
      (SemVal.func (TransformFunc.pipelineGeneratorSet [] v)) es := by
  intro e S rest err out hs hla
  have hc := follows_mem hla
  obtain ⟨f1, f2, f3, f4, f5, f6, f7, fl⟩ := fact30 _ hs
  have g1 := fl _ hc hla
  try simp only [List.append_assoc, List.cons_append, List.nil_append, List.singleton_append]
  have hr1 : Reach gcf ⟨e :: S, Token.mk SET s1 :: Token.mk LB s2 :: Token.mk THIS s3 :: Token.mk COMMA s4 :: (ts ++ Token.mk RB s5 :: rest), err, out⟩ _ :=
    Reach_shift gcf f1
  have hr2 : Reach gcf ⟨shiftEntry 21 s1 :: e :: S, Token.mk LB s2 :: Token.mk THIS s3 :: Token.mk COMMA s4 :: (ts ++ Token.mk RB s5 :: rest), err, out⟩ _ :=
    Reach_shift gcf f2
  have hr3 : Reach gcf ⟨shiftEntry 43 s2 :: shiftEntry 21 s1 :: e :: S, Token.mk THIS s3 :: Token.mk COMMA s4 :: (ts ++ Token.mk RB s5 :: rest), err, out⟩ _ :=
    Reach_shift gcf f3
  have hr4 : Reach gcf ⟨shiftEntry 63 s3 :: shiftEntry 43 s2 :: shiftEntry 21 s1 :: e :: S, Token.mk COMMA s4 :: (ts ++ Token.mk RB s5 :: rest), err, out⟩ _ :=
    Reach_shift gcf f4
  obtain ⟨x5, o5, r5, hr5, he5, hy5, hv5, ho5⟩ :=
    h1 (shiftEntry 77 s4) (shiftEntry 63 s3 :: shiftEntry 43 s2 :: shiftEntry 21 s1 :: e :: S) (Token.mk RB s5 :: rest) err out f5 f6
  subst he5
  simp only [SemVal.carriedBy] at hv5
  have hr6 : Reach gcf ⟨x5 :: shiftEntry 77 s4 :: shiftEntry 63 s3 :: shiftEntry 43 s2 :: shiftEntry 21 s1 :: e :: S, Token.mk RB s5 :: rest, (lastError es err), o5⟩ _ :=
    Reach_shift gcf (by rw [hy5]; exact f7)
  have hrR := Reach_reduce gcf (shiftEntry 92 s5 :: x5 :: shiftEntry 77 s4 :: shiftEntry 63 s3 :: shiftEntry 43 s2 :: shiftEntry 21 s1 :: e :: S) rest (lastError es err) o5 30 10 6
    rfl g1 (by decide) (by decide) rfl
  refine ⟨_, _, _, hr1.trans (hr2.trans (hr3.trans (hr4.trans (hr5.trans (hr6.trans (hrR)))))), ?_, rfl, ?_, ?_⟩
  · simp [TransformAction, lastError, List.foldl_append]
  · simp [SemVal.carriedBy, TransformAction, shiftEntry, hv5]
  · intro h
    cases h

/-- The table entries on the path of production 31, from every state in which its
left-hand side can begin. -/
theorem fact31 : ∀ s ∈ NT.function.starts,
    validShift s (lex1Code HAS) = some 22 ∧
    validShift 22 (lex1Code LB) = some 44 ∧
    validShift 44 (lex1Code STRING) = some 64 ∧
    validShift 64 (lex1Code RB) = some 78 ∧
    (∀ c ∈ tokenCodes, NT.function.follows c = true →
      defaultReduce 78 c = some 31) := by
  decide!

/-- Production 31: the parser handles a phrase built by it as the grammar says. -/
theorem phrase_p31 (gcf : CustomFunctions) (s1 s2 key s3 : String) :
    Phrase gcf NT.function
      [Token.mk HAS s1, Token.mk LB s2, Token.mk STRING key, Token.mk RB s3]
      (SemVal.func (TransformFunc.pipelineGeneratorHas key)) [] := by
  intro e S rest err out hs hla
  have hc := follows_mem hla
  obtain ⟨f1, f2, f3, f4, fl⟩ := fact31 _ hs
  have g1 := fl _ hc hla
  try simp only [List.append_assoc, List.cons_append, List.nil_append, List.singleton_append]
  have hr1 : Reach gcf ⟨e :: S, Token.mk HAS s1 :: Token.mk LB s2 :: Token.mk STRING key :: Token.mk RB s3 :: rest, err, out⟩ _ :=
    Reach_shift gcf f1
  have hr2 : Reach gcf ⟨shiftEntry 22 s1 :: e :: S, Token.mk LB s2 :: Token.mk STRING key :: Token.mk RB s3 :: rest, err, out⟩ _ :=
    Reach_shift gcf f2
  have hr3 : Reach gcf ⟨shiftEntry 44 s2 :: shiftEntry 22 s1 :: e :: S, Token.mk STRING key :: Token.mk RB s3 :: rest, err, out⟩ _ :=
    Reach_shift gcf f3
  have hr4 : Reach gcf ⟨shiftEntry 64 key :: shiftEntry 44 s2 :: shiftEntry 22 s1 :: e :: S, Token.mk RB s3 :: rest, err, out⟩ _ :=
    Reach_shift gcf f4
  have hrR := Reach_reduce gcf (shiftEntry 78 s3 :: shiftEntry 64 key :: shiftEntry 44 s2 :: shiftEntry 22 s1 :: e :: S) rest err out 31 10 4
    rfl g1 (by decide) (by decide) rfl
  refine ⟨_, _, _, hr1.trans (hr2.trans (hr3.trans (hr4.trans (hrR)))), ?_, rfl, ?_, ?_⟩
  · simp [TransformAction, lastError, List.foldl_append]
  · simp [SemVal.carriedBy, TransformAction, shiftEntry]
  · intro h
    cases h

/-- The table entries on the path of production 32, from every state in which its
left-hand side can begin. -/
theorem fact32 : ∀ s ∈ NT.function.starts,
    validShift s (lex1Code GTE) = some 23 ∧
    validShift 23 (lex1Code LB) = some 45 ∧
    (45 : Int) ∈ NT.pipeline.starts ∧
    NT.pipeline.follows (lex1Code RB) = true ∧
    validShift (gotoState 45 7) (lex1Code RB) = some 79 ∧
    (∀ c ∈ tokenCodes, NT.function.follows c = true →
      defaultReduce 79 c = some 32) := by
  decide!

/-- Production 32: the parser handles a phrase built by it as the grammar says. -/
theorem phrase_p32 (gcf : CustomFunctions) {ts v es} (s1 s2 s3 : String)
    (h1 : Phrase gcf NT.pipeline ts (SemVal.func v) es) :
    Phrase gcf NT.function
      (Token.mk GTE s1 :: Token.mk LB s2 :: ts ++ [Token.mk RB s3])
      (SemVal.func (TransformFunc.pipelineGeneratorCompare
        TransformFunc.pipelineGeneratorIdentity v ">=")) es := by
  intro e S rest err out hs hla
  have hc := follows_mem hla
  obtain ⟨f1, f2, f3, f4, f5, fl⟩ := fact32 _ hs
  have g1 := fl _ hc hla
  try simp only [List.append_assoc, List.cons_append, List.nil_append, List.singleton_append]
  have hr1 : Reach gcf ⟨e :: S, Token.mk GTE s1 :: Token.mk LB s2 :: (ts ++ Token.mk RB s3 :: rest), err, out⟩ _ :=
    Reach_shift gcf f1
  have hr2 : Reach gcf ⟨shiftEntry 23 s1 :: e :: S, Token.mk LB s2 :: (ts ++ Token.mk RB s3 :: rest), err, out⟩ _ :=
    Reach_shift gcf f2
  obtain ⟨x3, o3, r3, hr3, he3, hy3, hv3, ho3⟩ :=
    h1 (shiftEntry 45 s2) (shiftEntry 23 s1 :: e :: S) (Token.mk RB s3 :: rest) err out f3 f4
  subst he3
  simp only [SemVal.carriedBy] at hv3
  have hr4 : Reach gcf ⟨x3 :: shiftEntry 45 s2 :: shiftEntry 23 s1 :: e :: S, Token.mk RB s3 :: rest, (lastError es err), o3⟩ _ :=
    Reach_shift gcf (by rw [hy3]; exact f5)
  have hrR := Reach_reduce gcf (shiftEntry 79 s3 :: x3 :: shiftEntry 45 s2 :: shiftEntry 23 s1 :: e :: S) rest (lastError es err) o3 32 10 4
    rfl g1 (by decide) (by decide) rfl
  refine ⟨_, _, _, hr1.trans (hr2.trans (hr3.trans (hr4.trans (hrR)))), ?_, rfl, ?_, ?_⟩
  · simp [TransformAction, lastError, List.foldl_append]
  · simp [SemVal.carriedBy, TransformAction, shiftEntry, hv3]
  · intro h
    cases h

/-- The table entries on the path of production 33, from every state in which its
left-hand side can begin. -/
theorem fact33 : ∀ s ∈ NT.function.starts,
    validShift s (lex1Code LTE) = some 24 ∧
    validShift 24 (lex1Code LB) = some 46 ∧
    (46 : Int) ∈ NT.pipeline.starts ∧
    NT.pipeline.follows (lex1Code RB) = true ∧
    validShift (gotoState 46 7) (lex1Code RB) = some 80 ∧
    (∀ c ∈ tokenCodes, NT.function.follows c = true →
      defaultReduce 80 c = some 33) := by
  decide!

/-- Production 33: the parser handles a phrase built by it as the grammar says. -/
theorem phrase_p33 (gcf : CustomFunctions) {ts v es} (s1 s2 s3 : String)
    (h1 : Phrase gcf NT.pipeline ts (SemVal.func v) es) :
    Phrase gcf NT.function
      (Token.mk LTE s1 :: Token.mk LB s2 :: ts ++ [Token.mk RB s3])
      (SemVal.func (TransformFunc.pipelineGeneratorCompare
        TransformFunc.pipelineGeneratorIdentity v "<=")) es := by
  intro e S rest err out hs hla
  have hc := follows_mem hla
  obtain ⟨f1, f2, f3, f4, f5, fl⟩ := fact33 _ hs
  have g1 := fl _ hc hla
  try simp only [List.append_assoc, List.cons_append, List.nil_append, List.singleton_append]
  have hr1 : Reach gcf ⟨e :: S, Token.mk LTE s1 :: Token.mk LB s2 :: (ts ++ Token.mk RB s3 :: rest), err, out⟩ _ :=
    Reach_shift gcf f1
  have hr2 : Reach gcf ⟨shiftEntry 24 s1 :: e :: S, Token.mk LB s2 :: (ts ++ Token.mk RB s3 :: rest), err, out⟩ _ :=
    Reach_shift gcf f2
  obtain ⟨x3, o3, r3, hr3, he3, hy3, hv3, ho3⟩ :=
    h1 (shiftEntry 46 s2) (shiftEntry 24 s1 :: e :: S) (Token.mk RB s3 :: rest) err out f3 f4
  subst he3
  simp only [SemVal.carriedBy] at hv3
  have hr4 : Reach gcf ⟨x3 :: shiftEntry 46 s2 :: shiftEntry 24 s1 :: e :: S, Token.mk RB s3 :: rest, (lastError es err), o3⟩ _ :=
    Reach_shift gcf (by rw [hy3]; exact f5)
  have hrR := Reach_reduce gcf (shiftEntry 80 s3 :: x3 :: shiftEntry 46 s2 :: shiftEntry 24 s1 :: e :: S) rest (lastError es err) o3 33 10 4
    rfl g1 (by decide) (by decide) rfl
  refine ⟨_, _, _, hr1.trans (hr2.trans (hr3.trans (hr4.trans (hrR)))), ?_, rfl, ?_, ?_⟩
  · simp [TransformAction, lastError, List.foldl_append]
  · simp [SemVal.carriedBy, TransformAction, shiftEntry, hv3]
  · intro h
    cases h

/-- The table entries on the path of production 34, from every state in which its
left-hand side can begin. -/
theorem fact34 : ∀ s ∈ NT.function.starts,
    validShift s (lex1Code GT) = some 25 ∧
    validShift 25 (lex1Code LB) = some 47 ∧
    (47 : Int) ∈ NT.pipeline.starts ∧
    NT.pipeline.follows (lex1Code RB) = true ∧
    validShift (gotoState 47 7) (lex1Code RB) = some 81 ∧
    (∀ c ∈ tokenCodes, NT.function.follows c = true →
      defaultReduce 81 c = some 34) := by
  decide!

/-- Production 34: the parser handles a phrase built by it as the grammar says. -/
theorem phrase_p34 (gcf : CustomFunctions) {ts v es} (s1 s2 s3 : String)
    (h1 : Phrase gcf NT.pipeline ts (SemVal.func v) es) :
    Phrase gcf NT.function
      (Token.mk GT s1 :: Token.mk LB s2 :: ts ++ [Token.mk RB s3])
      (SemVal.func (TransformFunc.pipelineGeneratorCompare
        TransformFunc.pipelineGeneratorIdentity v ">")) es := by
  intro e S rest err out hs hla
  have hc := follows_mem hla
  obtain ⟨f1, f2, f3, f4, f5, fl⟩ := fact34 _ hs
  have g1 := fl _ hc hla
  try simp only [List.append_assoc, List.cons_append, List.nil_append, List.singleton_append]
  have hr1 : Reach gcf ⟨e :: S, Token.mk GT s1 :: Token.mk LB s2 :: (ts ++ Token.mk RB s3 :: rest), err, out⟩ _ :=
    Reach_shift gcf f1
  have hr2 : Reach gcf ⟨shiftEntry 25 s1 :: e :: S, Token.mk LB s2 :: (ts ++ Token.mk RB s3 :: rest), err, out⟩ _ :=
    Reach_shift gcf f2
  obtain ⟨x3, o3, r3, hr3, he3, hy3, hv3, ho3⟩ :=
    h1 (shiftEntry 47 s2) (shiftEntry 25 s1 :: e :: S) (Token.mk RB s3 :: rest) err out f3 f4
  subst he3
  simp only [SemVal.carriedBy] at hv3
  have hr4 : Reach gcf ⟨x3 :: shiftEntry 47 s2 :: shiftEntry 25 s1 :: e :: S, Token.mk RB s3 :: rest, (lastError es err), o3⟩ _ :=
    Reach_shift gcf (by rw [hy3]; exact f5)
  have hrR := Reach_reduce gcf (shiftEntry 81 s3 :: x3 :: shiftEntry 47 s2 :: shiftEntry 25 s1 :: e :: S) rest (lastError es err) o3 34 10 4
    rfl g1 (by decide) (by decide) rfl
  refine ⟨_, _, _, hr1.trans (hr2.trans (hr3.trans (hr4.trans (hrR)))), ?_, rfl, ?_, ?_⟩
  · simp [TransformAction, lastError, List.foldl_append]
  · simp [SemVal.carriedBy, TransformAction, shiftEntry, hv3]
  · intro h
    cases h

/-- The table entries on the path of production 35, from every state in which its
left-hand side can begin. -/
theorem fact35 : ∀ s ∈ NT.function.starts,
    validShift s (lex1Code LT) = some 26 ∧
    validShift 26 (lex1Code LB) = some 48 ∧
    (48 : Int) ∈ NT.pipeline.starts ∧
    NT.pipeline.follows (lex1Code RB) = true ∧
    validShift (gotoState 48 7) (lex1Code RB) = some 82 ∧
    (∀ c ∈ tokenCodes, NT.function.follows c = true →
      defaultReduce 82 c = some 35) := by
  decide!

/-- Production 35: the parser handles a phrase built by it as the grammar says. -/
theorem phrase_p35 (gcf : CustomFunctions) {ts v es} (s1 s2 s3 : String)
    (h1 : Phrase gcf NT.pipeline ts (SemVal.func v) es) :
    Phrase gcf NT.function
      (Token.mk LT s1 :: Token.mk LB s2 :: ts ++ [Token.mk RB s3])
      (SemVal.func (TransformFunc.pipelineGeneratorCompare
        TransformFunc.pipelineGeneratorIdentity v "<")) es := by
  intro e S rest err out hs hla
  have hc := follows_mem hla
  obtain ⟨f1, f2, f3, f4, f5, fl⟩ := fact35 _ hs
  have g1 := fl _ hc hla
  try simp only [List.append_assoc, List.cons_append, List.nil_append, List.singleton_append]
  have hr1 : Reach gcf ⟨e :: S, Token.mk LT s1 :: Token.mk LB s2 :: (ts ++ Token.mk RB s3 :: rest), err, out⟩ _ :=
    Reach_shift gcf f1
  have hr2 : Reach gcf ⟨shiftEntry 26 s1 :: e :: S, Token.mk LB s2 :: (ts ++ Token.mk RB s3 :: rest), err, out⟩ _ :=
    Reach_shift gcf f2
  obtain ⟨x3, o3, r3, hr3, he3, hy3, hv3, ho3⟩ :=
    h1 (shiftEntry 48 s2) (shiftEntry 26 s1 :: e :: S) (Token.mk RB s3 :: rest) err out f3 f4
  subst he3
  simp only [SemVal.carriedBy] at hv3
  have hr4 : Reach gcf ⟨x3 :: shiftEntry 48 s2 :: shiftEntry 26 s1 :: e :: S, Token.mk RB s3 :: rest, (lastError es err), o3⟩ _ :=
    Reach_shift gcf (by rw [hy3]; exact f5)
  have hrR := Reach_reduce gcf (shiftEntry 82 s3 :: x3 :: shiftEntry 48 s2 :: shiftEntry 26 s1 :: e :: S) rest (lastError es err) o3 35 10 4
    rfl g1 (by decide) (by decide) rfl
  refine ⟨_, _, _, hr1.trans (hr2.trans (hr3.trans (hr4.trans (hrR)))), ?_, rfl, ?_, ?_⟩
  · simp [TransformAction, lastError, List.foldl_append]
  · simp [SemVal.carriedBy, TransformAction, shiftEntry, hv3]
  · intro h
    cases h

/-- The table entries on the path of production 36, from every state in which its
left-hand side can begin. -/
theorem fact36 : ∀ s ∈ NT.function.starts,
    validShift s (lex1Code EQ) = some 27 ∧
    validShift 27 (lex1Code LB) = some 49 ∧
    (49 : Int) ∈ NT.pipeline.starts ∧
    NT.pipeline.follows (lex1Code RB) = true ∧
    validShift (gotoState 49 7) (lex1Code RB) = some 83 ∧
    (∀ c ∈ tokenCodes, NT.function.follows c = true →
      defaultReduce 83 c = some 36) := by
  decide!

/-- Production 36: the parser handles a phrase built by it as the grammar says. -/
theorem phrase_p36 (gcf : CustomFunctions) {ts v es} (s1 s2 s3 : String)
    (h1 : Phrase gcf NT.pipeline ts (SemVal.func v) es) :
    Phrase gcf NT.function
      (Token.mk EQ s1 :: Token.mk LB s2 :: ts ++ [Token.mk RB s3])
      (SemVal.func (TransformFunc.pipelineGeneratorCompare
        TransformFunc.pipelineGeneratorIdentity v "==")) es := by
  intro e S rest err out hs hla
  have hc := follows_mem hla
  obtain ⟨f1, f2, f3, f4, f5, fl⟩ := fact36 _ hs
  have g1 := fl _ hc hla
  try simp only [List.append_assoc, List.cons_append, List.nil_append, List.singleton_append]
  have hr1 : Reach gcf ⟨e :: S, Token.mk EQ s1 :: Token.mk LB s2 :: (ts ++ Token.mk RB s3 :: rest), err, out⟩ _ :=
    Reach_shift gcf f1
  have hr2 : Reach gcf ⟨shiftEntry 27 s1 :: e :: S, Token.mk LB s2 :: (ts ++ Token.mk RB s3 :: rest), err, out⟩ _ :=
    Reach_shift gcf f2
  obtain ⟨x3, o3, r3, hr3, he3, hy3, hv3, ho3⟩ :=
    h1 (shiftEntry 49 s2) (shiftEntry 27 s1 :: e :: S) (Token.mk RB s3 :: rest) err out f3 f4
  subst he3
  simp only [SemVal.carriedBy] at hv3
  have hr4 : Reach gcf ⟨x3 :: shiftEntry 49 s2 :: shiftEntry 27 s1 :: e :: S, Token.mk RB s3 :: rest, (lastError es err), o3⟩ _ :=
    Reach_shift gcf (by rw [hy3]; exact f5)
  have hrR := Reach_reduce gcf (shiftEntry 83 s3 :: x3 :: shiftEntry 49 s2 :: shiftEntry 27 s1 :: e :: S) rest (lastError es err) o3 36 10 4
    rfl g1 (by decide) (by decide) rfl
  refine ⟨_, _, _, hr1.trans (hr2.trans (hr3.trans (hr4.trans (hrR)))), ?_, rfl, ?_, ?_⟩
  · simp [TransformAction, lastError, List.foldl_append]
  · simp [SemVal.carriedBy, TransformAction, shiftEntry, hv3]
  · intro h
    cases h

/-- The table entries on the path of production 37, from every state in which its
left-hand side can begin. -/
theorem fact37 : ∀ s ∈ NT.function.starts,
    validShift s (lex1Code NE) = some 28 ∧
    validShift 28 (lex1Code LB) = some 50 ∧
    (50 : Int) ∈ NT.pipeline.starts ∧
    NT.pipeline.follows (lex1Code RB) = true ∧
    validShift (gotoState 50 7) (lex1Code RB) = some 84 ∧
    (∀ c ∈ tokenCodes, NT.function.follows c = true →
      defaultReduce 84 c = some 37) := by
  decide!

/-- Production 37: the parser handles a phrase built by it as the grammar says. -/
theorem phrase_p37 (gcf : CustomFunctions) {ts v es} (s1 s2 s3 : String)
    (h1 : Phrase gcf NT.pipeline ts (SemVal.func v) es) :
    Phrase gcf NT.function
      (Token.mk NE s1 :: Token.mk LB s2 :: ts ++ [Token.mk RB s3])
      (SemVal.func (TransformFunc.pipelineGeneratorCompare
        TransformFunc.pipelineGeneratorIdentity v "!=")) es := by
  intro e S rest err out hs hla
  have hc := follows_mem hla
  obtain ⟨f1, f2, f3, f4, f5, fl⟩ := fact37 _ hs
  have g1 := fl _ hc hla
  try simp only [List.append_assoc, List.cons_append, List.nil_append, List.singleton_append]
  have hr1 : Reach gcf ⟨e :: S, Token.mk NE s1 :: Token.mk LB s2 :: (ts ++ Token.mk RB s3 :: rest), err, out⟩ _ :=
    Reach_shift gcf f1
  have hr2 : Reach gcf ⟨shiftEntry 28 s1 :: e :: S, Token.mk LB s2 :: (ts ++ Token.mk RB s3 :: rest), err, out⟩ _ :=
    Reach_shift gcf f2
  obtain ⟨x3, o3, r3, hr3, he3, hy3, hv3, ho3⟩ :=
    h1 (shiftEntry 50 s2) (shiftEntry 28 s1 :: e :: S) (Token.mk RB s3 :: rest) err out f3 f4
  subst he3
  simp only [SemVal.carriedBy] at hv3
  have hr4 : Reach gcf ⟨x3 :: shiftEntry 50 s2 :: shiftEntry 28 s1 :: e :: S, Token.mk RB s3 :: rest, (lastError es err), o3⟩ _ :=
    Reach_shift gcf (by rw [hy3]; exact f5)
  have hrR := Reach_reduce gcf (shiftEntry 84 s3 :: x3 :: shiftEntry 50 s2 :: shiftEntry 28 s1 :: e :: S) rest (lastError es err) o3 37 10 4
    rfl g1 (by decide) (by decide) rfl
  refine ⟨_, _, _, hr1.trans (hr2.trans (hr3.trans (hr4.trans (hrR)))), ?_, rfl, ?_, ?_⟩
  · simp [TransformAction, lastError, List.foldl_append]
  · simp [SemVal.carriedBy, TransformAction, shiftEntry, hv3]
  · intro h
    cases h

/-- The table entries on the path of production 38, from every state in which its
left-hand side can begin. -/
theorem fact38 : ∀ s ∈ NT.function.starts,
    validShift s (lex1Code IDENTIFIER) = some 29 ∧
    validShift 29 (lex1Code LB) = some 51 ∧
    validShift 51 (lex1Code RB) = some 71 ∧
    (∀ c ∈ tokenCodes, NT.function.follows c = true →
      defaultReduce 71 c = some 38) := by
  decide!

/-- Production 38: the parser handles a phrase built by it as the grammar says. -/
theorem phrase_p38 (gcf : CustomFunctions) (name s1 s2 : String) :
    Phrase gcf NT.function
      [Token.mk IDENTIFIER name, Token.mk LB s1, Token.mk RB s2]
      (SemVal.func (gcf name []).1) (gcf name []).2.toList := by
  intro e S rest err out hs hla
  have hc := follows_mem hla
  obtain ⟨f1, f2, f3, fl⟩ := fact38 _ hs
  have g1 := fl _ hc hla
  try simp only [List.append_assoc, List.cons_append, List.nil_append, List.singleton_append]
  have hr1 : Reach gcf ⟨e :: S, Token.mk IDENTIFIER name :: Token.mk LB s1 :: Token.mk RB s2 :: rest, err, out⟩ _ :=
    Reach_shift gcf f1
  have hr2 : Reach gcf ⟨shiftEntry 29 name :: e :: S, Token.mk LB s1 :: Token.mk RB s2 :: rest, err, out⟩ _ :=
    Reach_shift gcf f2
  have hr3 : Reach gcf ⟨shiftEntry 51 s1 :: shiftEntry 29 name :: e :: S, Token.mk RB s2 :: rest, err, out⟩ _ :=
    Reach_shift gcf f3
  have hrR := Reach_reduce gcf (shiftEntry 71 s2 :: shiftEntry 51 s1 :: shiftEntry 29 name :: e :: S) rest err out 38 10 3
    rfl g1 (by decide) (by decide) rfl
  refine ⟨_, _, _, hr1.trans (hr2.trans (hr3.trans (hrR))), ?_, rfl, ?_, ?_⟩
  · cases hg : gcf name [] with
    | mk fn m => cases m <;> simp [TransformAction, lastError, List.foldl_append, shiftEntry, TransformLex.Error, hg]
  · cases hg : gcf name [] with
    | mk fn m => cases m <;> simp [SemVal.carriedBy, TransformAction, shiftEntry, hg]
  · intro h
    cases h

/-- The table entries on the path of production 39, from every state in which its
left-hand side can begin. -/
theorem fact39 : ∀ s ∈ NT.function.starts,
    validShift s (lex1Code IDENTIFIER) = some 29 ∧
    validShift 29 (lex1Code LB) = some 51 ∧
    (51 : Int) ∈ NT.funcList.starts ∧
    NT.funcList.follows (lex1Code RB) = true ∧
    validShift (gotoState 51 13) (lex1Code RB) = some 85 ∧
    (∀ c ∈ tokenCodes, NT.function.follows c = true →
      defaultReduce 85 c = some 39) := by
  decide!

/-- Production 39: the parser handles a phrase built by it as the grammar says. -/
theorem phrase_p39 (gcf : CustomFunctions) {ts l es} (name s1 s2 : String)
    (h1 : Phrase gcf NT.funcList ts (SemVal.funcs l) es) :
    Phrase gcf NT.function
      (Token.mk IDENTIFIER name :: Token.mk LB s1 :: ts ++ [Token.mk RB s2])
      (SemVal.func (gcf name l).1) (es ++ (gcf name l).2.toList) := by
  intro e S rest err out hs hla
  have hc := follows_mem hla
  obtain ⟨f1, f2, f3, f4, f5, fl⟩ := fact39 _ hs
  have g1 := fl _ hc hla
  try simp only [List.append_assoc, List.cons_append, List.nil_append, List.singleton_append]
  have hr1 : Reach gcf ⟨e :: S, Token.mk IDENTIFIER name :: Token.mk LB s1 :: (ts ++ Token.mk RB s2 :: rest), err, out⟩ _ :=
    Reach_shift gcf f1
  have hr2 : Reach gcf ⟨shiftEntry 29 name :: e :: S, Token.mk LB s1 :: (ts ++ Token.mk RB s2 :: rest), err, out⟩ _ :=
    Reach_shift gcf f2
  obtain ⟨x3, o3, r3, hr3, he3, hy3, hv3, ho3⟩ :=
    h1 (shiftEntry 51 s1) (shiftEntry 29 name :: e :: S) (Token.mk RB s2 :: rest) err out f3 f4
  subst he3
  simp only [SemVal.carriedBy] at hv3
  have hr4 : Reach gcf ⟨x3 :: shiftEntry 51 s1 :: shiftEntry 29 name :: e :: S, Token.mk RB s2 :: rest, (lastError es err), o3⟩ _ :=
    Reach_shift gcf (by rw [hy3]; exact f5)
  have hrR := Reach_reduce gcf (shiftEntry 85 s2 :: x3 :: shiftEntry 51 s1 :: shiftEntry 29 name :: e :: S) rest (lastError es err) o3 39 10 4
    rfl g1 (by decide) (by decide) rfl
  refine ⟨_, _, _, hr1.trans (hr2.trans (hr3.trans (hr4.trans (hrR)))), ?_, rfl, ?_, ?_⟩
  · cases hg : gcf name l with
    | mk fn m => cases m <;> simp [TransformAction, lastError, List.foldl_append, shiftEntry, TransformLex.Error, hg, hv3]
  · cases hg : gcf name l with
    | mk fn m => cases m <;> simp [SemVal.carriedBy, TransformAction, shiftEntry, hg, hv3]
  · intro h
    cases h

/-- The table entries on the path of production 40, from every state in which its
left-hand side can begin. -/
theorem fact40 : ∀ s ∈ NT.stringList.starts,
    validShift s (lex1Code STRING) = some 62 ∧
    (∀ c ∈ tokenCodes, NT.stringList.follows c = true →
      defaultReduce 62 c = some 40) := by
  decide!

/-- Production 40: the parser handles a phrase built by it as the grammar says. -/
theorem phrase_p40 (gcf : CustomFunctions) (s : String) :
    Phrase gcf NT.stringList [Token.mk STRING s] (SemVal.strings [s]) [] := by
  intro e S rest err out hs hla
  have hc := follows_mem hla
  obtain ⟨f1, fl⟩ := fact40 _ hs
  have g1 := fl _ hc hla
  try simp only [List.append_assoc, List.cons_append, List.nil_append, List.singleton_append]
  have hr1 : Reach gcf ⟨e :: S, Token.mk STRING s :: rest, err, out⟩ _ :=
    Reach_shift gcf f1
  have hrR := Reach_reduce gcf (shiftEntry 62 s :: e :: S) rest err out 40 14 1
    rfl g1 (by decide) (by decide) rfl
  refine ⟨_, _, _, hr1.trans (hrR), ?_, rfl, ?_, ?_⟩
  · simp [TransformAction, lastError, List.foldl_append]
  · simp [SemVal.carriedBy, TransformAction, shiftEntry]
  · intro h
    cases h

/-- The table entries on the path of production 41, from every state in which its
left-hand side can begin. -/
theorem fact41 : ∀ s ∈ NT.stringList.starts,
    NT.stringList.follows (lex1Code COMMA) = true ∧
    validShift (gotoState s 14) (lex1Code COMMA) = some 75 ∧
    validShift 75 (lex1Code STRING) = some 87 ∧
    (∀ c ∈ tokenCodes, NT.stringList.follows c = true →
      defaultReduce 87 c = some 41) := by
  decide!

/-- Production 41: the parser handles a phrase built by it as the grammar says. -/
theorem phrase_p41 (gcf : CustomFunctions) {ts l es} (s1 s : String)
    (h1 : Phrase gcf NT.stringList ts (SemVal.strings l) es) :
    Phrase gcf NT.stringList (ts ++ [Token.mk COMMA s1, Token.mk STRING s])
      (SemVal.strings ([s] ++ l)) es := by
  intro e S rest err out hs hla
  have hc := follows_mem hla
  obtain ⟨f1, f2, f3, fl⟩ := fact41 _ hs
  have g1 := fl _ hc hla
  try simp only [List.append_assoc, List.cons_append, List.nil_append, List.singleton_append]
  obtain ⟨x1, o1, r1, hr1, he1, hy1, hv1, ho1⟩ :=
    h1 e (S) (Token.mk COMMA s1 :: Token.mk STRING s :: rest) err out hs f1
  subst he1
  simp only [SemVal.carriedBy] at hv1
  have hr2 : Reach gcf ⟨x1 :: e :: S, Token.mk COMMA s1 :: Token.mk STRING s :: rest, (lastError es err), o1⟩ _ :=
    Reach_shift gcf (by rw [hy1]; exact f2)
  have hr3 : Reach gcf ⟨shiftEntry 75 s1 :: x1 :: e :: S, Token.mk STRING s :: rest, (lastError es err), o1⟩ _ :=
    Reach_shift gcf f3
  have hrR := Reach_reduce gcf (shiftEntry 87 s :: shiftEntry 75 s1 :: x1 :: e :: S) rest (lastError es err) o1 41 14 3
    rfl g1 (by decide) (by decide) rfl
  refine ⟨_, _, _, hr1.trans (hr2.trans (hr3.trans (hrR))), ?_, rfl, ?_, ?_⟩
  · simp [TransformAction, lastError, List.foldl_append]
  · simp [SemVal.carriedBy, TransformAction, shiftEntry, hv1]
  · intro h
    cases h

/-- The table entries on the path of production 42, from every state in which its
left-hand side can begin. -/
theorem fact42 : ∀ s ∈ NT.funcList.starts,
    s ∈ NT.pipeline.starts ∧
    (∀ c ∈ tokenCodes, NT.funcList.follows c = true →
      NT.pipeline.follows c = true ∧ defaultReduce (gotoState s 7) c = some 42) := by
  decide!

/-- Production 42: the parser handles a phrase built by it as the grammar says. -/
theorem phrase_p42 (gcf : CustomFunctions) {ts v es}
    (h1 : Phrase gcf NT.pipeline ts (SemVal.func v) es) :
    Phrase gcf NT.funcList ts (SemVal.funcs [v]) es := by
  intro e S rest err out hs hla
  have hc := follows_mem hla
  obtain ⟨f1, fl⟩ := fact42 _ hs
  obtain ⟨g1, g2⟩ := fl _ hc hla
  try simp only [List.append_assoc, List.cons_append, List.nil_append, List.singleton_append]
  obtain ⟨x1, o1, r1, hr1, he1, hy1, hv1, ho1⟩ :=
    h1 e (S) (rest) err out f1 g1
  subst he1
  simp only [SemVal.carriedBy] at hv1
  have hrR := Reach_reduce gcf (x1 :: e :: S) rest (lastError es err) o1 42 13 1
    rfl (by rw [hy1]; exact g2) (by decide) (by decide) rfl
  refine ⟨_, _, _, hr1.trans (hrR), ?_, rfl, ?_, ?_⟩
  · simp [TransformAction, lastError, List.foldl_append]
  · simp [SemVal.carriedBy, TransformAction, shiftEntry, hv1]
  · intro h
    cases h

/-- The table entries on the path of production 43, from every state in which its
left-hand side can begin. -/
theorem fact43 : ∀ s ∈ NT.funcList.starts,
    NT.funcList.follows (lex1Code COMMA) = true ∧
    validShift (gotoState s 13) (lex1Code COMMA) = some 86 ∧
    (86 : Int) ∈ NT.pipeline.starts ∧
    (∀ c ∈ tokenCodes, NT.funcList.follows c = true →
      NT.pipeline.follows c = true ∧ defaultReduce (gotoState 86 7) c = some 43) := by
  decide!

/-- Production 43: the parser handles a phrase built by it as the grammar says. -/
theorem phrase_p43 (gcf : CustomFunctions) {t1 t2 l v e1 e2} (s : String)
    (h1 : Phrase gcf NT.funcList t1 (SemVal.funcs l) e1)
    (h2 : Phrase gcf NT.pipeline t2 (SemVal.func v) e2) :
    Phrase gcf NT.funcList (t1 ++ Token.mk COMMA s :: t2)
      (SemVal.funcs ([v] ++ l)) (e1 ++ e2) := by
  intro e S rest err out hs hla
  have hc := follows_mem hla
  obtain ⟨f1, f2, f3, fl⟩ := fact43 _ hs
  obtain ⟨g1, g2⟩ := fl _ hc hla
  try simp only [List.append_assoc, List.cons_append, List.nil_append, List.singleton_append]
  obtain ⟨x1, o1, r1, hr1, he1, hy1, hv1, ho1⟩ :=
    h1 e (S) (Token.mk COMMA s :: (t2 ++ rest)) err out hs f1
  subst he1
  simp only [SemVal.carriedBy] at hv1
  have hr2 : Reach gcf ⟨x1 :: e :: S, Token.mk COMMA s :: (t2 ++ rest), (lastError e1 err), o1⟩ _ :=
    Reach_shift gcf (by rw [hy1]; exact f2)
  obtain ⟨x3, o3, r3, hr3, he3, hy3, hv3, ho3⟩ :=
    h2 (shiftEntry 86 s) (x1 :: e :: S) (rest) (lastError e1 err) o1 f3 g1
  subst he3
  simp only [SemVal.carriedBy] at hv3
  have hrR := Reach_reduce gcf (x3 :: shiftEntry 86 s :: x1 :: e :: S) rest (lastError e2 (lastError e1 err)) o3 43 13 3
    rfl (by rw [hy3]; exact g2) (by decide) (by decide) rfl
  refine ⟨_, _, _, hr1.trans (hr2.trans (hr3.trans (hrR))), ?_, rfl, ?_, ?_⟩
  · simp [TransformAction, lastError, List.foldl_append]
  · simp [SemVal.carriedBy, TransformAction, shiftEntry, hv1, hv3]
  · intro h
    cases h

/-! ## Completeness of the parser for the grammar -/

/-- Every phrase of the grammar is handled by the parser as the grammar says. -/
theorem Derives.phrase (gcf : CustomFunctions) {X : NT} {ts : List Token} {v : SemVal}
    {es : List String} (h : Derives gcf X ts v es) : Phrase gcf X ts v es := by
  induction h with
  | p1 _ ih1 => exact phrase_p1 gcf ih1
  | p2 s _ _ ih1 ih2 => exact phrase_p2 gcf s ih1 ih2
  | p3 _ ih1 => exact phrase_p3 gcf ih1
  | p4 s _ ih1 => exact phrase_p4 gcf s ih1
  | p5 _ ih1 => exact phrase_p5 gcf ih1
  | p6 s _ _ ih1 ih2 => exact phrase_p6 gcf s ih1 ih2
  | p7 _ ih1 => exact phrase_p7 gcf ih1
  | p8 s _ _ ih1 ih2 => exact phrase_p8 gcf s ih1 ih2
  | p9 _ ih1 => exact phrase_p9 gcf ih1
  | p10 s _ ih1 => exact phrase_p10 gcf s ih1
  | p11 _ ih1 => exact phrase_p11 gcf ih1
  | p12 op _ _ ih1 ih2 => exact phrase_p12 gcf op ih1 ih2
  | p13 _ ih1 => exact phrase_p13 gcf ih1
  | p14 s _ _ ih1 ih2 => exact phrase_p14 gcf s ih1 ih2
  | p15 s _ _ ih1 ih2 => exact phrase_p15 gcf s ih1 ih2
  | p16 _ ih1 => exact phrase_p16 gcf ih1
  | p17 s _ _ ih1 ih2 => exact phrase_p17 gcf s ih1 ih2
  | p18 s _ _ ih1 ih2 => exact phrase_p18 gcf s ih1 ih2
  | p19 s _ ih1 => exact phrase_p19 gcf s ih1
  | p20 _ ih1 => exact phrase_p20 gcf ih1
  | p21 _ ih1 => exact phrase_p21 gcf ih1
  | p22 _ ih1 => exact phrase_p22 gcf ih1
  | p23 s1 s2 _ ih1 => exact phrase_p23 gcf s1 s2 ih1
  | p24 s => exact phrase_p24 gcf s
  | p25 s => exact phrase_p25 gcf s
  | p26 s => exact phrase_p26 gcf s
  | p27 s1 s2 s3 _ ih1 => exact phrase_p27 gcf s1 s2 s3 ih1
  | p28 s => exact phrase_p28 gcf s
  | p29 s1 s2 s3 s4 s5 s6 s7 _ _ ih1 ih2 => exact phrase_p29 gcf s1 s2 s3 s4 s5 s6 s7 ih1 ih2
  | p30 s1 s2 s3 s4 s5 _ ih1 => exact phrase_p30 gcf s1 s2 s3 s4 s5 ih1
  | p31 s1 s2 key s3 => exact phrase_p31 gcf s1 s2 key s3
  | p32 s1 s2 s3 _ ih1 => exact phrase_p32 gcf s1 s2 s3 ih1
  | p33 s1 s2 s3 _ ih1 => exact phrase_p33 gcf s1 s2 s3 ih1
  | p34 s1 s2 s3 _ ih1 => exact phrase_p34 gcf s1 s2 s3 ih1
  | p35 s1 s2 s3 _ ih1 => exact phrase_p35 gcf s1 s2 s3 ih1
  | p36 s1 s2 s3 _ ih1 => exact phrase_p36 gcf s1 s2 s3 ih1
  | p37 s1 s2 s3 _ ih1 => exact phrase_p37 gcf s1 s2 s3 ih1
  | p38 name s1 s2 => exact phrase_p38 gcf name s1 s2
  | p39 name s1 s2 _ ih1 => exact phrase_p39 gcf name s1 s2 ih1
  | p40 s => exact phrase_p40 gcf s
  | p41 s1 s _ ih1 => exact phrase_p41 gcf s1 s ih1
  | p42 _ ih1 => exact phrase_p42 gcf ih1
  | p43 s _ _ ih1 ih2 => exact phrase_p43 gcf s ih1 ih2

/-! ## Acceptance and syntax errors -/

theorem idx_mem (t : List Int) (i : Int) : idx t i ∈ 0 :: t := by
  unfold idx
  by_cases h : i.toNat < t.length
  · rw [List.getD_eq_getElem _ _ h]
    exact List.mem_cons_of_mem _ (List.getElem_mem h)
  · rw [List.getD_eq_default _ _ (by omega)]
    exact List.mem_cons_self _ _

theorem no_errorShift_aux : ∀ v ∈ (0 : Int) :: TransformPact,
    ¬ (v + TransformErrCode ≥ 0 ∧ v + TransformErrCode < TransformLast ∧
      idx TransformChk (idx TransformAct (v + TransformErrCode)) = TransformErrCode) := by
  decide!

/-- No state shifts the `error` token: the grammar has no error production. -/
theorem no_errorShift (s : Int) : errorShift s = false := by
  have h := no_errorShift_aux _ (idx_mem TransformPact s)
  simp only [errorShift, decide_eq_false_iff_not]
  exact h

/-- Error recovery finds no state to resume in, pops the whole stack and returns 1. -/
theorem errorPop_ret (st : TransformParserState) (S : List TransformSymType) :
    errorPop st S = TransformOutcome.ret 1 st.Transformlex := by
  induction S with
  | nil => rfl
  | cons e S ih =>
    have h := no_errorShift e.yys
    simp only [errorShift, decide_eq_false_iff_not] at h
    simp only [errorPop]
    rw [if_neg h]
    exact ih

theorem TransformErrorRecovery_ret {st : TransformParserState} (h : st.Errflag = 0) :
    TransformErrorRecovery st =
      TransformOutcome.ret 1 (st.Transformlex.Error "syntax error") := by
  unfold TransformErrorRecovery
  rw [if_pos h, errorPop_ret]

/-- A syntax error: the state has neither a shift nor a reduction for the next token. -/
theorem newstate_error (gcf : CustomFunctions) {st : TransformParserState} {c : Cfg}
    {e : TransformSymType} {S : List TransformSymType} (h : Abs st c) (hs : c.stack = e :: S)
    (ha : errorAction e.yys (lookahead c.toks) = true) :
    ∃ lex, Transformnewstate gcf st = TransformOutcome.ret 1 lex ∧
      lex.errorString = "syntax error" ∧ lex.output = c.out := by
  simp only [errorAction, Bool.and_eq_true, Bool.or_eq_true, decide_eq_true_eq,
    Option.isNone_iff_eq_none] at ha
  obtain ⟨hv, hd⟩ := ha
  obtain ⟨st1, hstep, habs, hstate, _⟩ := newstate_default gcf h hs hv
  obtain ⟨hr, hchar, hrs, _, _⟩ := readChar_spec habs
  rw [hstep]
  unfold Transformdefault
  dsimp only
  rw [hstate]
  rcases hd with hd | ⟨hd, hx⟩
  · rw [hd, if_neg (by decide), if_pos rfl, TransformErrorRecovery_ret habs.2.2.1]
    exact ⟨_, rfl, rfl, habs.2.2.2.2.1⟩
  · rw [hd, if_pos rfl, hrs, hstate, hchar]
    obtain ⟨tail, h1, h2⟩ := Option.bind_eq_some.mp hx
    rw [h1]
    dsimp only
    rw [h2]
    dsimp only
    rw [if_neg (by decide), if_pos rfl, TransformErrorRecovery_ret hr.2.2.1]
    exact ⟨_, rfl, rfl, hr.2.2.2.2.1⟩

/-- Acceptance: the exception table tells the state to accept on the next token. -/
theorem newstate_accept (gcf : CustomFunctions) {st : TransformParserState} {c : Cfg}
    {e : TransformSymType} {S : List TransformSymType} (h : Abs st c) (hs : c.stack = e :: S)
    (ha : acceptAction e.yys (lookahead c.toks) = true) :
    ∃ lex, Transformnewstate gcf st = TransformOutcome.ret 0 lex ∧
      lex.errorString = c.err ∧ lex.output = c.out := by
  simp only [acceptAction, Bool.and_eq_true, decide_eq_true_eq,
    Option.isNone_iff_eq_none] at ha
  obtain ⟨⟨hv, hd⟩, hx⟩ := ha
  obtain ⟨st1, hstep, habs, hstate, _⟩ := newstate_default gcf h hs hv
  obtain ⟨hr, hchar, hrs, _, _⟩ := readChar_spec habs
  rw [hstep]
  unfold Transformdefault
  dsimp only
  rw [hstate, hd, if_pos rfl, hrs, hstate, hchar]
  cases hb : (excaFind e.yys TransformExca).bind (excaScan (lookahead c.toks)) with
  | none => rw [hb] at hx; cases hx
  | some n =>
    rw [hb] at hx
    simp only [decide_eq_true_eq] at hx
    obtain ⟨tail, h1, h2⟩ := Option.bind_eq_some.mp hb
    rw [h1]
    dsimp only
    rw [h2]
    dsimp only
    rw [if_pos hx]
    exact ⟨_, rfl, hr.2.2.2.1, hr.2.2.2.2.1⟩

theorem loop_of_stepN (gcf : CustomFunctions) {n : Nat} {st st1 : TransformParserState}
    {code : Int} {lex : TransformLex} (h1 : stepN gcf n st = some st1)
    (h2 : Transformnewstate gcf st1 = TransformOutcome.ret code lex) :
    TransformParseLoop gcf (n + 1) st = some (code, lex) := by
  induction n generalizing st with
  | zero =>
    simp only [stepN] at h1
    cases h1
    simp only [TransformParseLoop, h2]
  | succ k ih =>
    simp only [stepN] at h1
    cases hx : Transformnewstate gcf st with
    | ret code lex => rw [hx] at h1; cases h1
    | fault => rw [hx] at h1; cases h1
    | newstate st2 =>
      rw [hx] at h1
      simp only [TransformParseLoop, hx]
      exact ih h1

/-- The first arrival at `Transformnewstate`: state 0 on the stack, nothing read. -/
theorem Abs_init {input : String} {ts : List Token} (hl : lexesAs input 0 ts = true) :
    Abs (TransformParseInit ⟨input, 0, "", TransformFunc.nil⟩)
      ⟨[TransformSymType.zero], ts, "", TransformFunc.nil⟩ := by
  refine ⟨rfl, ⟨_, _, rfl, rfl⟩, rfl, rfl, rfl, ⟨rfl, rfl, rfl⟩, Or.inl ⟨?_, hl⟩⟩
  show (-1 : Int) < 0
  decide


theorem ParseTransform_of_ret (gcf : CustomFunctions) {input : String} {fuel : Nat} {code : Int}
    {lex : TransformLex}
    (h : TransformParseLoop gcf fuel (TransformParseInit ⟨input, 0, "", TransformFunc.nil⟩) =
      some (code, lex)) :
    ParseTransform gcf fuel input = some (lex.output, errorOf lex.errorString) := by
  unfold ParseTransform TransformParse
  rw [h]
  dsimp only
  unfold errorOf
  split <;> rfl

/-- The parser returns 0 from a state that accepts: `ParseTransform` returns the stored
output, and the stored message as its error. -/
theorem ParsesTo_of_accept (gcf : CustomFunctions) {input : String} {ts : List Token} {c : Cfg}
    {e : TransformSymType} {S : List TransformSymType} (hl : lexesAs input 0 ts = true)
    (hr : Reach gcf ⟨[TransformSymType.zero], ts, "", TransformFunc.nil⟩ c)
    (hs : c.stack = e :: S) (ha : acceptAction e.yys (lookahead c.toks) = true) :
    ParsesTo gcf input (c.out, errorOf c.err) := by
  obtain ⟨n, st1, hn, habs⟩ := hr _ (Abs_init hl)
  obtain ⟨lex, hret, h1, h2⟩ := newstate_accept gcf habs hs ha
  refine ⟨n + 1, ?_⟩
  rw [ParseTransform_of_ret gcf (loop_of_stepN gcf hn hret), h1, h2]

/-- The parser returns 1 from a state with the error action: `ParseTransform` returns the
stored output and the error "syntax error". -/
theorem ParsesTo_of_error (gcf : CustomFunctions) {input : String} {ts : List Token} {c : Cfg}
    {e : TransformSymType} {S : List TransformSymType} (hl : lexesAs input 0 ts = true)
    (hr : Reach gcf ⟨[TransformSymType.zero], ts, "", TransformFunc.nil⟩ c)
    (hs : c.stack = e :: S) (ha : errorAction e.yys (lookahead c.toks) = true) :
    ParsesTo gcf input (c.out, some "syntax error") := by
  obtain ⟨n, st1, hn, habs⟩ := hr _ (Abs_init hl)
  obtain ⟨lex, hret, h1, h2⟩ := newstate_error gcf habs hs ha
  refine ⟨n + 1, ?_⟩
  rw [ParseTransform_of_ret gcf (loop_of_stepN gcf hn hret), h1, h2]
  rfl

/-- Completeness of the parser for the grammar: an input whose tokens form a pipeline is
accepted, `ParseTransform` returns the value of the pipeline, and its error is the last
message that a semantic action passed to `Error`, nil when there was none. -/
theorem ParsesTo_of_Derives (gcf : CustomFunctions) (input : String) (ts : List Token)
    {v : TransformFunc} {es : List String}
    (hd : Derives gcf NT.pipeline ts (SemVal.func v) es) (hl : lexesAs input 0 ts = true) :
    ParsesTo gcf input (v, errorOf (lastError es "")) := by
  obtain ⟨e1, out1, err1, hr, he, hy, _, ho⟩ :=
    Derives.phrase gcf hd TransformSymType.zero [] [] "" TransformFunc.nil
      (by decide) (by decide)
  rw [List.append_nil] at hr
  have hacc : acceptAction e1.yys (lookahead []) = true := by
    rw [hy]
    decide!
  have h := ParsesTo_of_accept gcf hl hr rfl hacc
  dsimp only at h
  rw [he] at h
  have hv : out1 = v := SemVal.func.inj (ho rfl)
  rw [hv] at h
  exact h

theorem TransformParseLoop_mono (gcf : CustomFunctions) {n : Nat} {st : TransformParserState}
    {r : Int × TransformLex} (h : TransformParseLoop gcf n st = some r) (k : Nat) :
    TransformParseLoop gcf (n + k) st = some r := by
  induction n generalizing st with
  | zero => simp [TransformParseLoop] at h
  | succ m ih =>
    rw [Nat.succ_add]
    simp only [TransformParseLoop] at h ⊢
    cases hx : Transformnewstate gcf st with
    | ret code lex => rw [hx] at h; exact h
    | fault => rw [hx] at h; cases h
    | newstate st2 =>
      rw [hx] at h
      exact ih h

theorem ParseTransform_mono (gcf : CustomFunctions) {n : Nat} {input : String}
    {r : TransformFunc × Option String} (h : ParseTransform gcf n input = some r) (k : Nat) :
    ParseTransform gcf (n + k) input = some r := by
  unfold ParseTransform TransformParse at h ⊢
  cases hx : TransformParseLoop gcf n
      (TransformParseInit ⟨input, 0, "", TransformFunc.nil⟩) with
  | none => rw [hx] at h; cases h
  | some r1 =>
    rw [hx] at h
    rw [TransformParseLoop_mono gcf hx k]
    exact h

/-- The result of `ParseTransform` does not depend on the fuel. -/
theorem ParsesTo_unique (gcf : CustomFunctions) {input : String}
    {r1 r2 : TransformFunc × Option String} (h1 : ParsesTo gcf input r1)
    (h2 : ParsesTo gcf input r2) : r1 = r2 := by
  obtain ⟨n, hn⟩ := h1
  obtain ⟨m, hm⟩ := h2
  have a := ParseTransform_mono gcf hn m
  have b := ParseTransform_mono gcf hm n
  rw [Nat.add_comm m n, a] at b
  exact Option.some.inj b

/-! ## Phrases of one level are phrases of the levels above -/

theorem Derives.pipeline_of_disjunction {gcf : CustomFunctions} {ts : List Token}
    {v : TransformFunc} {es : List String}
    (h : Derives gcf NT.disjunction ts (SemVal.func v) es) :
    Derives gcf NT.pipeline ts (SemVal.func v) es :=
  Derives.p1 (Derives.p3 h)

theorem Derives.conjunction_of_comparison {gcf : CustomFunctions} {ts : List Token}
    {v : TransformFunc} {es : List String}
    (h : Derives gcf NT.comparison ts (SemVal.func v) es) :
    Derives gcf NT.conjunction ts (SemVal.func v) es :=
  Derives.p7 (Derives.p9 h)

theorem Derives.pipeline_of_comparison {gcf : CustomFunctions} {ts : List Token}
    {v : TransformFunc} {es : List String}
    (h : Derives gcf NT.comparison ts (SemVal.func v) es) :
    Derives gcf NT.pipeline ts (SemVal.func v) es :=
  Derives.pipeline_of_disjunction (Derives.p5 (Derives.conjunction_of_comparison h))

theorem Derives.additive_of_terminal {gcf : CustomFunctions} {ts : List Token}
    {v : TransformFunc} {es : List String}
    (h : Derives gcf NT.terminal ts (SemVal.func v) es) :
    Derives gcf NT.additive ts (SemVal.func v) es :=
  Derives.p13 (Derives.p16 h)

theorem Derives.pipeline_of_additive {gcf : CustomFunctions} {ts : List Token}
    {v : TransformFunc} {es : List String}
    (h : Derives gcf NT.additive ts (SemVal.func v) es) :
    Derives gcf NT.pipeline ts (SemVal.func v) es :=
  Derives.pipeline_of_comparison (Derives.p11 h)

theorem Derives.pipeline_of_terminal {gcf : CustomFunctions} {ts : List Token}
    {v : TransformFunc} {es : List String}
    (h : Derives gcf NT.terminal ts (SemVal.func v) es) :
    Derives gcf NT.pipeline ts (SemVal.func v) es :=
  Derives.pipeline_of_additive (Derives.additive_of_terminal h)

theorem Derives.guarded_of_terminal {gcf : CustomFunctions} {ts : List Token}
    {v : TransformFunc} {es : List String}
    (h : Derives gcf NT.terminal ts (SemVal.func v) es) :
    Derives gcf NT.guarded ts (SemVal.func v) es :=
  Derives.p3 (Derives.p5 (Derives.conjunction_of_comparison
    (Derives.p11 (Derives.additive_of_terminal h))))

theorem lex1Code_ne_one {c : Int} (h : 0 < c) : lex1Code c ≠ 1 := by
  by_cases h1 : c ≥ TransformPrivate ∧ c < TransformPrivate + TransformTok2.length
  · have h2 : 57344 ≤ c := h1.1
    have h3 : c < 57376 := h1.2
    interval_cases c <;> decide
  · have h0 : ¬ c ≤ 0 := by omega
    have h4 : ¬ c < (TransformTok1.length : Int) := by
      simp only [TransformTok1, List.length_singleton]; omega
    simp only [lex1Code, h0, h4, h1, if_false, TransformTok3, tok3Loop]
    decide

theorem lexesAs_append {input : String} {ts : List Token} {t : Token} {rest : List Token} :
    ∀ {position : Int}, lexesAs input position (ts ++ t :: rest) = true → 0 < t.code := by
  induction ts with
  | nil =>
    intro position h
    simp only [List.nil_append, lexesAs, Bool.and_eq_true, decide_eq_true_eq] at h
    exact h.1.2.1
  | cons a ts ih =>
    intro position h
    simp only [List.cons_append, lexesAs, Bool.and_eq_true] at h
    exact ih h.2

/-! ## C1 -/

/-- C1 (fails on the code): where no lexical class matches, `Next` returns `<ERROR>`, and `Lex`
returns 0 for it as for the end of input.  On `$ #` and on `1.5.2` the parser therefore sees
the end of input after `$`, respectively after `1.5`, and `ParseTransform` returns the stage
of that prefix with a nil error. -/
theorem C1_unrecognised_input_ends_the_input (gcf : CustomFunctions) :
    (TransformLex.mk "$ #" 1 "" TransformFunc.nil).Next.1 = errorString ∧
    (TransformLex.mk "1.5.2" 3 "" TransformFunc.nil).Next.1 = errorString ∧
    ParsesTo gcf "$ #" (TransformFunc.pipelineGeneratorIdentity, none) ∧
    ParsesTo gcf "1.5.2" (TransformFunc.pipelineGeneratorConstantFloat "1.5", none) := by
  refine ⟨by decide!, by decide!, ?_, ?_⟩
  · exact ParsesTo_of_Derives gcf _ [Token.mk THIS "$"]
      (Derives.pipeline_of_terminal (Derives.p21 (Derives.p28 "$"))) (by decide!)
  · exact ParsesTo_of_Derives gcf _ [Token.mk NUMBER "1.5"]
      (Derives.pipeline_of_terminal (Derives.p20 (Derives.p24 "1.5"))) (by decide!)

/-! ## C2 -/

theorem fact_after_pipeline : ∀ c ∈ tokenCodes, NT.pipeline.follows c = true → c ≠ 15 →
    c ≠ 1 → errorAction (gotoState 0 7) c = true := by
  decide!

theorem fact_first_token : ∀ c ∈ tokenCodes, validShift 0 c = none →
    errorAction 0 c = true := by
  decide!

/-- C2, counterexample: on `$ | $ )` the error is "syntax error" and the stage returned with it
is the pipeline reduced before the `)`, not nil. -/
theorem C2_counterexample :
    ParseTransform emptyRegistry 100 "$ | $ )" =
      some (TransformFunc.pipelineGeneratorTransform TransformFunc.pipelineGeneratorIdentity
        TransformFunc.pipelineGeneratorIdentity, some "syntax error") ∧
    TransformFunc.pipelineGeneratorTransform TransformFunc.pipelineGeneratorIdentity
        TransformFunc.pipelineGeneratorIdentity ≠ TransformFunc.nil := by
  decide!

/-- C2, amended: `ParseTransform` returns the output stored in the lexer together with the
error.  (1) When the tokens begin with a pipeline of value `v` and go on with a token `t` that
can only end a pipeline and is no PIPE, the result is `v` with the error "syntax error".
(2) When the first token cannot start a stage, the result is nil with "syntax error". -/
theorem C2_error_returns_stored_output (gcf : CustomFunctions) (input : String) :
    (∀ (ts : List Token) (v : TransformFunc) (es : List String) (t : Token)
      (rest : List Token),
      Derives gcf NT.pipeline ts (SemVal.func v) es →
      lexesAs input 0 (ts ++ t :: rest) = true →
      NT.pipeline.follows (lex1Code t.code) = true → lex1Code t.code ≠ 15 →
      ParsesTo gcf input (v, some "syntax error")) ∧
    (∀ (t : Token) (rest : List Token),
      lexesAs input 0 (t :: rest) = true → validShift 0 (lex1Code t.code) = none →
      ParsesTo gcf input (TransformFunc.nil, some "syntax error")) := by
  constructor
  · intro ts v es t rest hd hl hf hp
    obtain ⟨e1, out1, err1, hr, _, hy, _, ho⟩ :=
      Derives.phrase gcf hd TransformSymType.zero [] (t :: rest) "" TransformFunc.nil
        (by decide) hf
    have hv : out1 = v := SemVal.func.inj (ho rfl)
    have ha : errorAction e1.yys (lookahead (t :: rest)) = true := by
      rw [hy]
      exact fact_after_pipeline _ (lex1Code_mem _) hf hp (lex1Code_ne_one (lexesAs_append hl))
    have h := ParsesTo_of_error gcf hl hr rfl ha
    dsimp only at h
    rw [hv] at h
    exact h
  · intro t rest hl hv
    exact ParsesTo_of_error gcf hl (Reach.refl gcf _) rfl
      (fact_first_token _ (lex1Code_mem _) hv)

/-- C2, witness: `$ | $ )` and `)`. -/
theorem C2_error_returns_stored_output_witness :
    ParsesTo emptyRegistry "$ | $ )"
      (TransformFunc.pipelineGeneratorTransform TransformFunc.pipelineGeneratorIdentity
        TransformFunc.pipelineGeneratorIdentity, some "syntax error") ∧
    ParsesTo emptyRegistry ")" (TransformFunc.nil, some "syntax error") :=
  ⟨(C2_error_returns_stored_output emptyRegistry "$ | $ )").1
      ([Token.mk THIS "$"] ++ Token.mk PIPE "|" :: [Token.mk THIS "$"]) _ []
      (Token.mk RB ")") []
      (Derives.p2 "|"
        (Derives.pipeline_of_terminal (Derives.p21 (Derives.p28 "$")))
        (Derives.guarded_of_terminal (Derives.p21 (Derives.p28 "$"))))
      (by decide!) (by decide!) (by decide!),
   (C2_error_returns_stored_output emptyRegistry ")").2 (Token.mk RB ")") []
      (by decide!) (by decide!)⟩

/-! ## C3 -/

theorem keyTokens_after (gcf : CustomFunctions) (ks : List String) :
    ∀ (k : String) (pre : List Token) (l : List String),
      Derives gcf NT.stringList pre (SemVal.strings l) [] →
      Derives gcf NT.stringList (pre ++ Token.mk COMMA "," :: keyTokens k ks)
        (SemVal.strings ((k :: ks).reverse ++ l)) [] := by
  induction ks with
  | nil =>
    intro k pre l h
    exact Derives.p41 "," k h
  | cons k2 ks ih =>
    intro k pre l h
    have h1 := ih k2 (pre ++ [Token.mk COMMA ",", Token.mk STRING k]) ([k] ++ l)
      (Derives.p41 "," k h)
    simp only [List.append_assoc, List.cons_append, List.nil_append, List.reverse_cons,
      List.singleton_append] at h1 ⊢
    exact h1

/-- The list productions 40 and 41 put each new key in front: the keys `k, ks` give the
string list in reverse order. -/
theorem keyTokens_derives (gcf : CustomFunctions) (k : String) (ks : List String) :
    Derives gcf NT.stringList (keyTokens k ks) (SemVal.strings (k :: ks).reverse) [] := by
  cases ks with
  | nil => exact Derives.p40 k
  | cons k2 ks =>
    have h := keyTokens_after gcf ks k2 [Token.mk STRING k] [k] (Derives.p40 k)
    simp only [List.cons_append, List.nil_append, List.reverse_cons, List.append_assoc,
      List.singleton_append] at h ⊢
    exact h

/-- C3 (fails on the code for two keys or more): the field access written with the keys
`k, ks` in this order calls `pipelineGeneratorGet` with the path in reverse order. -/
theorem C3_field_path_is_reversed (gcf : CustomFunctions) (input : String) (k : String)
    (ks : List String)
    (hl : lexesAs input 0
      (Token.mk THIS "$" :: Token.mk LSQUARE "[" :: keyTokens k ks ++ [Token.mk RSQUARE "]"])
        = true) :
    ParsesTo gcf input (TransformFunc.pipelineGeneratorGet (k :: ks).reverse, none) :=
  ParsesTo_of_Derives gcf input _
    (Derives.pipeline_of_terminal
      (Derives.p21 (Derives.p27 "$" "[" "]" (keyTokens_derives gcf k ks)))) hl

/-- C3, at the failing input: `$["a","b"]` gives the path `b, a`. -/
theorem C3_field_path_is_reversed_witness :
    ParsesTo emptyRegistry "$[\"a\",\"b\"]" (TransformFunc.pipelineGeneratorGet ["b", "a"], none) :=
  C3_field_path_is_reversed emptyRegistry "$[\"a\",\"b\"]" "a" ["b"] (by decide!)

/-! ## C4 -/

theorem argTokens_after (gcf : CustomFunctions)
    (rest : List (List Token × TransformFunc × List String)) :
    ∀ (a : List Token × TransformFunc × List String) (pre : List Token)
      (l : List TransformFunc) (es : List String),
      Derives gcf NT.funcList pre (SemVal.funcs l) es →
      (∀ x ∈ a :: rest, Derives gcf NT.pipeline x.1 (SemVal.func x.2.1) x.2.2) →
      Derives gcf NT.funcList
        (pre ++ Token.mk COMMA "," :: argTokens a.1 (rest.map (fun x => x.1)))
        (SemVal.funcs (((a :: rest).map (fun x => x.2.1)).reverse ++ l))
        (es ++ ((a :: rest).map (fun x => x.2.2)).flatten) := by
  induction rest with
  | nil =>
    intro a pre l es h ha
    have h1 := Derives.p43 "," h (ha a (List.mem_cons_self _ _))
    simpa [argTokens] using h1
  | cons a2 rest ih =>
    intro a pre l es h ha
    have h1 := Derives.p43 "," h (ha a (List.mem_cons_self _ _))
    have h2 := ih a2 _ _ _ h1 (fun x hx => ha x (List.mem_cons_of_mem _ hx))
    simp only [List.append_assoc, List.cons_append, List.nil_append, List.reverse_cons,
      List.singleton_append, List.map_cons, List.flatten_cons, argTokens] at h2 ⊢
    exact h2

/-- The list productions 42 and 43 put each new argument in front: the arguments give the
stage list in reverse order. -/
theorem argTokens_derives (gcf : CustomFunctions)
    (a : List Token × TransformFunc × List String)
    (rest : List (List Token × TransformFunc × List String))
    (ha : ∀ x ∈ a :: rest, Derives gcf NT.pipeline x.1 (SemVal.func x.2.1) x.2.2) :
    Derives gcf NT.funcList (argTokens a.1 (rest.map (fun x => x.1)))
      (SemVal.funcs ((a :: rest).map (fun x => x.2.1)).reverse)
      ((a :: rest).map (fun x => x.2.2)).flatten := by
  cases rest with
  | nil =>
    have h := Derives.p42 (ha a (List.mem_cons_self _ _))
    simpa [argTokens] using h
  | cons a2 rest =>
    have h1 := Derives.p42 (ha a (List.mem_cons_self _ _))
    have h := argTokens_after gcf rest a2 _ _ _ h1 (fun x hx => ha x (List.mem_cons_of_mem _ hx))
    simp only [List.append_assoc, List.cons_append, List.nil_append, List.reverse_cons,
      List.singleton_append, List.map_cons, List.flatten_cons, argTokens] at h ⊢
    exact h

/-- C4 (fails on the code for two arguments or more): a call `name(a, rest...)`, each argument
a pipeline with tokens `x.1`, stage `x.2.1` and messages `x.2.2`, passes the argument stages to
`getCustomFunction` in reverse order. -/
theorem C4_call_arguments_are_reversed (gcf : CustomFunctions) (input : String) (name : String)
    (a : List Token × TransformFunc × List String)
    (rest : List (List Token × TransformFunc × List String))
    (ha : ∀ x ∈ a :: rest, Derives gcf NT.pipeline x.1 (SemVal.func x.2.1) x.2.2)
    (hl : lexesAs input 0
      (Token.mk IDENTIFIER name :: Token.mk LB "(" ::
        argTokens a.1 (rest.map (fun x => x.1)) ++ [Token.mk RB ")"]) = true) :
    ParsesTo gcf input
      ((gcf name ((a :: rest).map (fun x => x.2.1)).reverse).1,
       errorOf (lastError (((a :: rest).map (fun x => x.2.2)).flatten ++
         (gcf name ((a :: rest).map (fun x => x.2.1)).reverse).2.toList) "")) :=
  ParsesTo_of_Derives gcf input _
    (Derives.pipeline_of_terminal
      (Derives.p22 (Derives.p39 name "(" ")" (argTokens_derives gcf a rest ha)))) hl

/-- C4, at the failing input: in a registry whose functions return their first argument,
`f(1, 2)` returns the constant 2. -/
theorem C4_call_arguments_are_reversed_witness :
    ParsesTo firstArgRegistry "f(1, 2)" (TransformFunc.pipelineGeneratorConstantFloat "2", none) :=
  C4_call_arguments_are_reversed firstArgRegistry "f(1, 2)" "f"
    ([Token.mk NUMBER "1"], TransformFunc.pipelineGeneratorConstantFloat "1", [])
    [([Token.mk NUMBER "2"], TransformFunc.pipelineGeneratorConstantFloat "2", [])]
    (by
      intro x hx
      simp only [List.mem_cons, List.mem_singleton, List.not_mem_nil, or_false] at hx
      rcases hx with rfl | rfl
      · exact Derives.pipeline_of_terminal (Derives.p20 (Derives.p24 "1"))
      · exact Derives.pipeline_of_terminal (Derives.p20 (Derives.p24 "2")))
    (by decide!)

/-! ## C5 -/

/-- C5, counterexample: `1 | 2 | 3` builds the transform of the transform of 1 and 2 with 3,
which is not the structure that `1 | (2 | 3)` builds. -/
theorem C5_counterexample :
    ParseTransform emptyRegistry 100 "1 | 2 | 3" =
      some (TransformFunc.pipelineGeneratorTransform
        (TransformFunc.pipelineGeneratorTransform
          (TransformFunc.pipelineGeneratorConstantFloat "1")
          (TransformFunc.pipelineGeneratorConstantFloat "2"))
        (TransformFunc.pipelineGeneratorConstantFloat "3"), none) ∧
    ParseTransform emptyRegistry 100 "1 | (2 | 3)" =
      some (TransformFunc.pipelineGeneratorTransform
        (TransformFunc.pipelineGeneratorConstantFloat "1")
        (TransformFunc.pipelineGeneratorTransform
          (TransformFunc.pipelineGeneratorConstantFloat "2")
          (TransformFunc.pipelineGeneratorConstantFloat "3")), none) ∧
    ParseTransform emptyRegistry 100 "1 | 2 | 3" ≠
      ParseTransform emptyRegistry 100 "1 | (2 | 3)" := by
  decide!

/-- C5, amended: the pipe operator associates to the left.  For a pipeline `A` and stages `B`
and `C`, `A | B | C` builds the transform of (the transform of `A` and `B`) and `C`, while
`A | (B | C)` builds the transform of `A` and (the transform of `B` and `C`). -/
theorem C5_pipe_associates_left (gcf : CustomFunctions) (input1 input2 : String)
    (tA tB tC : List Token) (a b c : TransformFunc) (eA eB eC : List String)
    (hA : Derives gcf NT.pipeline tA (SemVal.func a) eA)
    (hB : Derives gcf NT.guarded tB (SemVal.func b) eB)
    (hC : Derives gcf NT.guarded tC (SemVal.func c) eC)
    (h1 : lexesAs input1 0 (tA ++ [Token.mk PIPE "|"] ++ tB ++ [Token.mk PIPE "|"] ++ tC) = true)
    (h2 : lexesAs input2 0 (tA ++ [Token.mk PIPE "|"] ++
      ([Token.mk LB "("] ++ tB ++ [Token.mk PIPE "|"] ++ tC ++ [Token.mk RB ")"])) = true) :
    ParsesTo gcf input1
      (TransformFunc.pipelineGeneratorTransform
        (TransformFunc.pipelineGeneratorTransform a b) c,
       errorOf (lastError (eA ++ eB ++ eC) "")) ∧
    ParsesTo gcf input2
      (TransformFunc.pipelineGeneratorTransform a
        (TransformFunc.pipelineGeneratorTransform b c),
       errorOf (lastError (eA ++ (eB ++ eC)) "")) := by
  constructor
  · have hd := Derives.p2 "|" (Derives.p2 "|" hA hB) hC
    have e : tA ++ [Token.mk PIPE "|"] ++ tB ++ [Token.mk PIPE "|"] ++ tC =
        tA ++ Token.mk PIPE "|" :: tB ++ Token.mk PIPE "|" :: tC := by simp
    rw [e] at h1
    exact ParsesTo_of_Derives gcf input1 _ hd h1
  · have hd := Derives.p2 "|" hA
      (Derives.guarded_of_terminal (Derives.p23 "(" ")" (Derives.p2 "|" (Derives.p1 hB) hC)))
    have e : tA ++ [Token.mk PIPE "|"] ++
        ([Token.mk LB "("] ++ tB ++ [Token.mk PIPE "|"] ++ tC ++ [Token.mk RB ")"]) =
        tA ++ Token.mk PIPE "|" ::
          (Token.mk LB "(" :: (tB ++ Token.mk PIPE "|" :: tC) ++ [Token.mk RB ")"]) := by simp
    rw [e] at h2
    exact ParsesTo_of_Derives gcf input2 _ hd h2

/-- C5, witness: `1 | 2 | 3` and `1 | (2 | 3)`. -/
theorem C5_pipe_associates_left_witness :
    ParsesTo emptyRegistry "1 | 2 | 3"
      (TransformFunc.pipelineGeneratorTransform
        (TransformFunc.pipelineGeneratorTransform
          (TransformFunc.pipelineGeneratorConstantFloat "1")
          (TransformFunc.pipelineGeneratorConstantFloat "2"))
        (TransformFunc.pipelineGeneratorConstantFloat "3"), none) ∧
    ParsesTo emptyRegistry "1 | (2 | 3)"
      (TransformFunc.pipelineGeneratorTransform
        (TransformFunc.pipelineGeneratorConstantFloat "1")
        (TransformFunc.pipelineGeneratorTransform
          (TransformFunc.pipelineGeneratorConstantFloat "2")
          (TransformFunc.pipelineGeneratorConstantFloat "3")), none) :=
  C5_pipe_associates_left emptyRegistry "1 | 2 | 3" "1 | (2 | 3)"
    [Token.mk NUMBER "1"] [Token.mk NUMBER "2"] [Token.mk NUMBER "3"] _ _ _ [] [] []
    (Derives.pipeline_of_terminal (Derives.p20 (Derives.p24 "1")))
    (Derives.guarded_of_terminal (Derives.p20 (Derives.p24 "2")))
    (Derives.guarded_of_terminal (Derives.p20 (Derives.p24 "3")))
    (by decide!) (by decide!)

/-! ## C6 -/

/-- C6: for atoms `a`, `b`, `c`, `a + b * c` builds the sum of `a` and the product of `b` and
`c`, and `a * b + c` builds the sum of the product of `a` and `b` and `c`. -/
theorem C6_multiplication_binds_tighter (gcf : CustomFunctions) (input1 input2 : String)
    (ta tb tc : List Token) (a b c : TransformFunc) (ea eb ec : List String)
    (ha : Derives gcf NT.terminal ta (SemVal.func a) ea)
    (hb : Derives gcf NT.terminal tb (SemVal.func b) eb)
    (hc : Derives gcf NT.terminal tc (SemVal.func c) ec)
    (h1 : lexesAs input1 0
      (ta ++ [Token.mk PLUS "+"] ++ tb ++ [Token.mk MULTIPLY "*"] ++ tc) = true)
    (h2 : lexesAs input2 0
      (ta ++ [Token.mk MULTIPLY "*"] ++ tb ++ [Token.mk PLUS "+"] ++ tc) = true) :
    ParsesTo gcf input1
      (TransformFunc.addTransformGenerator a (TransformFunc.multiplyTransformGenerator b c),
       errorOf (lastError (ea ++ (eb ++ ec)) "")) ∧
    ParsesTo gcf input2
      (TransformFunc.addTransformGenerator (TransformFunc.multiplyTransformGenerator a b) c,
       errorOf (lastError (ea ++ eb ++ ec) "")) := by
  constructor
  · have hd := Derives.pipeline_of_additive
      (Derives.p14 "+" (Derives.additive_of_terminal ha)
        (Derives.p17 "*" (Derives.p16 hb) hc))
    have e : ta ++ [Token.mk PLUS "+"] ++ tb ++ [Token.mk MULTIPLY "*"] ++ tc =
        ta ++ Token.mk PLUS "+" :: (tb ++ Token.mk MULTIPLY "*" :: tc) := by simp
    rw [e] at h1
    exact ParsesTo_of_Derives gcf input1 _ hd h1
  · have hd := Derives.pipeline_of_additive
      (Derives.p14 "+" (Derives.p13 (Derives.p17 "*" (Derives.p16 ha) hb)) (Derives.p16 hc))
    have e : ta ++ [Token.mk MULTIPLY "*"] ++ tb ++ [Token.mk PLUS "+"] ++ tc =
        ta ++ Token.mk MULTIPLY "*" :: tb ++ Token.mk PLUS "+" :: tc := by simp
    rw [e] at h2
    exact ParsesTo_of_Derives gcf input2 _ hd h2

/-- C6, witness: `1 + 2 * 3` is the sum of 1 and the product of 2 and 3, and `1 * 2 + 3` the
sum of the product of 1 and 2 and 3. -/
theorem C6_multiplication_binds_tighter_witness :
    ParsesTo emptyRegistry "1 + 2 * 3"
      (TransformFunc.addTransformGenerator (TransformFunc.pipelineGeneratorConstantFloat "1")
        (TransformFunc.multiplyTransformGenerator
          (TransformFunc.pipelineGeneratorConstantFloat "2")
          (TransformFunc.pipelineGeneratorConstantFloat "3")), none) ∧
    ParsesTo emptyRegistry "1 * 2 + 3"
      (TransformFunc.addTransformGenerator
        (TransformFunc.multiplyTransformGenerator
          (TransformFunc.pipelineGeneratorConstantFloat "1")
          (TransformFunc.pipelineGeneratorConstantFloat "2"))
        (TransformFunc.pipelineGeneratorConstantFloat "3"), none) :=
  C6_multiplication_binds_tighter emptyRegistry "1 + 2 * 3" "1 * 2 + 3"
    [Token.mk NUMBER "1"] [Token.mk NUMBER "2"] [Token.mk NUMBER "3"] _ _ _ [] [] []
    (Derives.p20 (Derives.p24 "1")) (Derives.p20 (Derives.p24 "2"))
    (Derives.p20 (Derives.p24 "3")) (by decide!) (by decide!)

/-! ## C7 -/

/-- C7: for operands `a`, `b`, `c` of the comparison level, `a or b and c` builds the
disjunction of `a` and the conjunction of `b` and `c`, `a or b or c` the disjunction of (the
disjunction of `a` and `b`) and `c`, and `not a and b` the conjunction of the negation of `a`
and `b`. -/
theorem C7_logical_operators (gcf : CustomFunctions) (input1 input2 input3 : String)
    (ta tb tc : List Token) (a b c : TransformFunc) (ea eb ec : List String)
    (ha : Derives gcf NT.comparison ta (SemVal.func a) ea)
    (hb : Derives gcf NT.comparison tb (SemVal.func b) eb)
    (hc : Derives gcf NT.comparison tc (SemVal.func c) ec)
    (h1 : lexesAs input1 0
      (ta ++ [Token.mk OR "or"] ++ tb ++ [Token.mk AND "and"] ++ tc) = true)
    (h2 : lexesAs input2 0
      (ta ++ [Token.mk OR "or"] ++ tb ++ [Token.mk OR "or"] ++ tc) = true)
    (h3 : lexesAs input3 0 ([Token.mk NOT "not"] ++ ta ++ [Token.mk AND "and"] ++ tb) = true) :
    ParsesTo gcf input1
      (TransformFunc.pipelineGeneratorOr a (TransformFunc.pipelineGeneratorAnd b c),
       errorOf (lastError (ea ++ (eb ++ ec)) "")) ∧
    ParsesTo gcf input2
      (TransformFunc.pipelineGeneratorOr (TransformFunc.pipelineGeneratorOr a b) c,
       errorOf (lastError (ea ++ eb ++ ec) "")) ∧
    ParsesTo gcf input3
      (TransformFunc.pipelineGeneratorAnd (TransformFunc.pipelineGeneratorNot a) b,
       errorOf (lastError (ea ++ eb) "")) := by
  refine ⟨?_, ?_, ?_⟩
  · have hd := Derives.pipeline_of_disjunction
      (Derives.p6 "or" (Derives.p5 (Derives.conjunction_of_comparison ha))
        (Derives.p8 "and" (Derives.conjunction_of_comparison hb) (Derives.p9 hc)))
    have e : ta ++ [Token.mk OR "or"] ++ tb ++ [Token.mk AND "and"] ++ tc =
        ta ++ Token.mk OR "or" :: (tb ++ Token.mk AND "and" :: tc) := by simp
    rw [e] at h1
    exact ParsesTo_of_Derives gcf input1 _ hd h1
  · have hd := Derives.pipeline_of_disjunction
      (Derives.p6 "or"
        (Derives.p6 "or" (Derives.p5 (Derives.conjunction_of_comparison ha))
          (Derives.conjunction_of_comparison hb))
        (Derives.conjunction_of_comparison hc))
    have e : ta ++ [Token.mk OR "or"] ++ tb ++ [Token.mk OR "or"] ++ tc =
        ta ++ Token.mk OR "or" :: tb ++ Token.mk OR "or" :: tc := by simp
    rw [e] at h2
    exact ParsesTo_of_Derives gcf input2 _ hd h2
  · have hd := Derives.pipeline_of_disjunction
      (Derives.p5 (Derives.p8 "and" (Derives.p7 (Derives.p10 "not" (Derives.p9 ha)))
        (Derives.p9 hb)))
    have e : [Token.mk NOT "not"] ++ ta ++ [Token.mk AND "and"] ++ tb =
        (Token.mk NOT "not" :: ta) ++ Token.mk AND "and" :: tb := by simp
    rw [e] at h3
    exact ParsesTo_of_Derives gcf input3 _ hd h3

/-- C7, witness: `1 or 2 and 3`, `1 or 2 or 3` and `not 1 and 2`. -/
theorem C7_logical_operators_witness :
    ParsesTo emptyRegistry "1 or 2 and 3"
      (TransformFunc.pipelineGeneratorOr (TransformFunc.pipelineGeneratorConstantFloat "1")
        (TransformFunc.pipelineGeneratorAnd (TransformFunc.pipelineGeneratorConstantFloat "2")
          (TransformFunc.pipelineGeneratorConstantFloat "3")), none) ∧
    ParsesTo emptyRegistry "1 or 2 or 3"
      (TransformFunc.pipelineGeneratorOr
        (TransformFunc.pipelineGeneratorOr (TransformFunc.pipelineGeneratorConstantFloat "1")
          (TransformFunc.pipelineGeneratorConstantFloat "2"))
        (TransformFunc.pipelineGeneratorConstantFloat "3"), none) ∧
    ParsesTo emptyRegistry "not 1 and 2"
      (TransformFunc.pipelineGeneratorAnd
        (TransformFunc.pipelineGeneratorNot (TransformFunc.pipelineGeneratorConstantFloat "1"))
        (TransformFunc.pipelineGeneratorConstantFloat "2"), none) :=
  C7_logical_operators emptyRegistry "1 or 2 and 3" "1 or 2 or 3" "not 1 and 2"
    [Token.mk NUMBER "1"] [Token.mk NUMBER "2"] [Token.mk NUMBER "3"] _ _ _ [] [] []
    (Derives.p11 (Derives.additive_of_terminal (Derives.p20 (Derives.p24 "1"))))
    (Derives.p11 (Derives.additive_of_terminal (Derives.p20 (Derives.p24 "2"))))
    (Derives.p11 (Derives.additive_of_terminal (Derives.p20 (Derives.p24 "3"))))
    (by decide!) (by decide!) (by decide!)

/-! ## C8 -/

theorem fact_chained_comparison :
    NT.additive.follows (lex1Code COMPOP) = true ∧ (0 : Int) ∈ NT.additive.starts ∧
    validShift (gotoState 0 12) (lex1Code COMPOP) = some 35 ∧
    (35 : Int) ∈ NT.additive.starts ∧
    defaultReduce (gotoState 35 12) (lex1Code COMPOP) = some 12 ∧
    defaultReduce (gotoState 0 4) (lex1Code COMPOP) = some 9 ∧
    defaultReduce (gotoState 0 3) (lex1Code COMPOP) = some 7 ∧
    defaultReduce (gotoState 0 2) (lex1Code COMPOP) = some 5 ∧
    defaultReduce (gotoState 0 1) (lex1Code COMPOP) = some 3 ∧
    defaultReduce (gotoState 0 6) (lex1Code COMPOP) = some 1 ∧
    errorAction (gotoState 0 7) (lex1Code COMPOP) = true := by
  decide!

/-- A second comparison operator after `a op1 b`: the comparison is reduced, and with it the
pipeline, and the operator is a syntax error in the state after a pipeline. -/
theorem chained_comparison_rejected (gcf : CustomFunctions) (input : String)
    (ta tb rest : List Token) (a b : TransformFunc) (ea eb : List String) (op1 op2 : String)
    (ha : Derives gcf NT.additive ta (SemVal.func a) ea)
    (hb : Derives gcf NT.additive tb (SemVal.func b) eb)
    (hl : lexesAs input 0
      (ta ++ Token.mk COMPOP op1 :: (tb ++ Token.mk COMPOP op2 :: rest)) = true) :
    ParsesTo gcf input (TransformFunc.pipelineGeneratorCompare a b op1, some "syntax error") := by
  obtain ⟨f1, f2, f3, f4, f5, f6, f7, f8, f9, f10, f11⟩ := fact_chained_comparison
  obtain ⟨x1, o1, r1, hr1, _, hy1, hv1, _⟩ :=
    Derives.phrase gcf ha TransformSymType.zero []
      (Token.mk COMPOP op1 :: (tb ++ Token.mk COMPOP op2 :: rest)) "" TransformFunc.nil f2 f1
  have hr2 : Reach gcf ⟨x1 :: [TransformSymType.zero],
      Token.mk COMPOP op1 :: (tb ++ Token.mk COMPOP op2 :: rest), r1, o1⟩ _ :=
    Reach_shift gcf (by rw [hy1]; exact f3)
  obtain ⟨x3, o3, r3, hr3, _, hy3, hv3, _⟩ :=
    Derives.phrase gcf hb (shiftEntry 35 op1) (x1 :: [TransformSymType.zero])
      (Token.mk COMPOP op2 :: rest) r1 o1 f4 f1
  simp only [SemVal.carriedBy] at hv1 hv3
  have hR1 := Reach_reduce gcf (x3 :: shiftEntry 35 op1 :: x1 :: [TransformSymType.zero])
    (Token.mk COMPOP op2 :: rest) r3 o3 12 4 3 rfl (by rw [hy3]; exact f5)
    (by decide) (by decide) rfl
  have hR2 := hR1.trans
    (Reach_reduce gcf _ _ _ _ 9 3 1 rfl f6 (by decide) (by decide) rfl)
  have hR3 := hR2.trans
    (Reach_reduce gcf _ _ _ _ 7 2 1 rfl f7 (by decide) (by decide) rfl)
  have hR4 := hR3.trans
    (Reach_reduce gcf _ _ _ _ 5 1 1 rfl f8 (by decide) (by decide) rfl)
  have hR5 := hR4.trans
    (Reach_reduce gcf _ _ _ _ 3 6 1 rfl f9 (by decide) (by decide) rfl)
  have hR6 := hR5.trans
    (Reach_reduce gcf _ _ _ _ 1 7 1 rfl f10 (by decide) (by decide) rfl)
  have h := ParsesTo_of_error gcf hl (hr1.trans (hr2.trans (hr3.trans hR6))) rfl f11
  simpa [TransformAction, shiftEntry, hv1, hv3] using h

/-- C8: for operands `a`, `b` of the additive level, `a op b` builds the comparison of `a` and
`b` with the operator text `op` as the lexer delivers it (for each of the six operators, the
text written), and an input that goes on with a second comparison operator after `a op b` is
rejected with "syntax error". -/
theorem C8_comparison_does_not_chain (gcf : CustomFunctions) (input1 input2 : String)
    (ta tb rest : List Token) (a b : TransformFunc) (ea eb : List String) (op op2 : String)
    (ha : Derives gcf NT.additive ta (SemVal.func a) ea)
    (hb : Derives gcf NT.additive tb (SemVal.func b) eb)
    (h1 : lexesAs input1 0 (ta ++ [Token.mk COMPOP op] ++ tb) = true)
    (h2 : lexesAs input2 0
      (ta ++ [Token.mk COMPOP op] ++ tb ++ [Token.mk COMPOP op2] ++ rest) = true) :
    (∀ w ∈ compops, lexSwitch w = (COMPOP, w)) ∧
    ParsesTo gcf input1
      (TransformFunc.pipelineGeneratorCompare a b op, errorOf (lastError (ea ++ eb) "")) ∧
    ParsesTo gcf input2 (TransformFunc.pipelineGeneratorCompare a b op, some "syntax error") := by
  refine ⟨by decide!, ?_, ?_⟩
  · have hd := Derives.pipeline_of_comparison (Derives.p12 op ha hb)
    have e : ta ++ [Token.mk COMPOP op] ++ tb = ta ++ Token.mk COMPOP op :: tb := by simp
    rw [e] at h1
    exact ParsesTo_of_Derives gcf input1 _ hd h1
  · have e : ta ++ [Token.mk COMPOP op] ++ tb ++ [Token.mk COMPOP op2] ++ rest =
        ta ++ Token.mk COMPOP op :: (tb ++ Token.mk COMPOP op2 :: rest) := by simp
    rw [e] at h2
    exact chained_comparison_rejected gcf input2 ta tb rest a b ea eb op op2 ha hb h2

/-- C8, witness: `1 <= 2` is the comparison of 1 and 2 with `<=`, and `1 < 2 < 3` is
rejected. -/
theorem C8_comparison_does_not_chain_witness :
    (∀ w ∈ compops, lexSwitch w = (COMPOP, w)) ∧
    ParsesTo emptyRegistry "1 < 2"
      (TransformFunc.pipelineGeneratorCompare (TransformFunc.pipelineGeneratorConstantFloat "1")
        (TransformFunc.pipelineGeneratorConstantFloat "2") "<", none) ∧
    ParsesTo emptyRegistry "1 < 2 < 3"
      (TransformFunc.pipelineGeneratorCompare (TransformFunc.pipelineGeneratorConstantFloat "1")
        (TransformFunc.pipelineGeneratorConstantFloat "2") "<", some "syntax error") :=
  C8_comparison_does_not_chain emptyRegistry "1 < 2" "1 < 2 < 3"
    [Token.mk NUMBER "1"] [Token.mk NUMBER "2"] [Token.mk NUMBER "3"] _ _ [] [] "<" "<"
    (Derives.additive_of_terminal (Derives.p20 (Derives.p24 "1")))
    (Derives.additive_of_terminal (Derives.p20 (Derives.p24 "2")))
    (by decide!) (by decide!)

/-! ## C9 -/

theorem fact_keyword_needs_LB : ∀ kw ∈ [GTE, LTE, GT, LT, EQ, NE, HAS],
    (validShift 0 (lex1Code kw)).isSome = true ∧
    ∀ c ∈ tokenCodes, c ≠ lex1Code LB →
      errorAction ((validShift 0 (lex1Code kw)).getD 0) c = true := by
  decide!

/-- After one of the keywords `gte`, `lte`, `gt`, `lt`, `eq`, `ne`, `has` at the start of the
input, every token but `(` is a syntax error, and no stage has been stored. -/
theorem keyword_needs_LB (gcf : CustomFunctions) (input : String) (kw : Int) (s : String)
    (rest : List Token) (hk : kw ∈ [GTE, LTE, GT, LT, EQ, NE, HAS])
    (hl : lexesAs input 0 (Token.mk kw s :: rest) = true)
    (ht : lookahead rest ≠ lex1Code LB) :
    ParsesTo gcf input (TransformFunc.nil, some "syntax error") := by
  obtain ⟨f1, f2⟩ := fact_keyword_needs_LB kw hk
  obtain ⟨q, hq⟩ := Option.isSome_iff_exists.mp f1
  rw [hq] at f2
  have hr : Reach gcf ⟨[TransformSymType.zero], Token.mk kw s :: rest, "", TransformFunc.nil⟩ _ :=
    Reach_shift gcf hq
  exact ParsesTo_of_error gcf hl hr rfl (f2 _ (lookahead_mem rest) ht)

/-- C9, counterexample: `gte 5` is a syntax error. -/
theorem C9_counterexample :
    ParseTransform emptyRegistry 100 "gte 5" = some (TransformFunc.nil, some "syntax error") := by
  decide!

/-- C9, amended: the comparison shorthand is a call with parentheses.  For each keyword with
its operator and every pipeline `EXPR`, `kw(EXPR)` builds the comparison of the identity and
`EXPR` with that operator; the keyword followed by anything but `(`, as in `gte 5`, is a
syntax error. -/
theorem C9_shorthand_is_a_call (gcf : CustomFunctions) (input1 input2 : String) (kw : Int)
    (op s : String) (ts rest : List Token) (v : TransformFunc) (es : List String)
    (hk : (kw, op) ∈ shorthandOps)
    (hd : Derives gcf NT.pipeline ts (SemVal.func v) es)
    (h1 : lexesAs input1 0
      ([Token.mk kw s] ++ [Token.mk LB "("] ++ ts ++ [Token.mk RB ")"]) = true)
    (h2 : lexesAs input2 0 (Token.mk kw s :: rest) = true)
    (ht : lookahead rest ≠ lex1Code LB) :
    ParsesTo gcf input1
      (TransformFunc.pipelineGeneratorCompare TransformFunc.pipelineGeneratorIdentity v op,
       errorOf (lastError es "")) ∧
    ParsesTo gcf input2 (TransformFunc.nil, some "syntax error") := by
  have e : [Token.mk kw s] ++ [Token.mk LB "("] ++ ts ++ [Token.mk RB ")"] =
      Token.mk kw s :: Token.mk LB "(" :: ts ++ [Token.mk RB ")"] := by simp
  rw [e] at h1
  simp only [shorthandOps, List.mem_cons, Prod.mk.injEq, List.mem_singleton,
    List.not_mem_nil, or_false] at hk
  constructor
  · rcases hk with ⟨rfl, rfl⟩ | ⟨rfl, rfl⟩ | ⟨rfl, rfl⟩ | ⟨rfl, rfl⟩ | ⟨rfl, rfl⟩ | ⟨rfl, rfl⟩
    · exact ParsesTo_of_Derives gcf input1 _
        (Derives.pipeline_of_terminal (Derives.p22 (Derives.p32 s "(" ")" hd))) h1
    · exact ParsesTo_of_Derives gcf input1 _
        (Derives.pipeline_of_terminal (Derives.p22 (Derives.p33 s "(" ")" hd))) h1
    · exact ParsesTo_of_Derives gcf input1 _
        (Derives.pipeline_of_terminal (Derives.p22 (Derives.p34 s "(" ")" hd))) h1
    · exact ParsesTo_of_Derives gcf input1 _
        (Derives.pipeline_of_terminal (Derives.p22 (Derives.p35 s "(" ")" hd))) h1
    · exact ParsesTo_of_Derives gcf input1 _
        (Derives.pipeline_of_terminal (Derives.p22 (Derives.p36 s "(" ")" hd))) h1
    · exact ParsesTo_of_Derives gcf input1 _
        (Derives.pipeline_of_terminal (Derives.p22 (Derives.p37 s "(" ")" hd))) h1
  · refine keyword_needs_LB gcf input2 kw s rest ?_ h2 ht
    rcases hk with ⟨rfl, _⟩ | ⟨rfl, _⟩ | ⟨rfl, _⟩ | ⟨rfl, _⟩ | ⟨rfl, _⟩ | ⟨rfl, _⟩ <;> simp

/-- C9, witness: `gte(5)` is the comparison with `>=`, `gte 5` a syntax error. -/
theorem C9_shorthand_is_a_call_witness :
    ParsesTo emptyRegistry "gte(5)"
      (TransformFunc.pipelineGeneratorCompare TransformFunc.pipelineGeneratorIdentity
        (TransformFunc.pipelineGeneratorConstantFloat "5") ">=", none) ∧
    ParsesTo emptyRegistry "gte 5" (TransformFunc.nil, some "syntax error") :=
  C9_shorthand_is_a_call emptyRegistry "gte(5)" "gte 5" GTE ">=" "gte"
    [Token.mk NUMBER "5"] [Token.mk NUMBER "5"] _ []
    (by decide) (Derives.pipeline_of_terminal (Derives.p20 (Derives.p24 "5")))
    (by decide!) (by decide!) (by decide!)

/-! ## C10 -/

/-- C10, counterexample: `has[foo]` is a syntax error. -/
theorem C10_counterexample :
    ParseTransform emptyRegistry 100 "has[foo]" =
      some (TransformFunc.nil, some "syntax error") := by
  decide!

/-- The existence test on tokens: the tokens HAS, `(`, STRING and `)` build the existence
test of the value of the STRING with no error; `has` followed by anything but `(` is a
syntax error. -/
theorem has_call_of_tokens (gcf : CustomFunctions) (input1 input2 : String) (key s : String)
    (rest : List Token)
    (h1 : lexesAs input1 0
      [Token.mk HAS s, Token.mk LB "(", Token.mk STRING key, Token.mk RB ")"] = true)
    (h2 : lexesAs input2 0 (Token.mk HAS s :: rest) = true)
    (ht : lookahead rest ≠ lex1Code LB) :
    ParsesTo gcf input1 (TransformFunc.pipelineGeneratorHas key, none) ∧
    ParsesTo gcf input2 (TransformFunc.nil, some "syntax error") :=
  ⟨ParsesTo_of_Derives gcf input1 _
      (Derives.pipeline_of_terminal (Derives.p22 (Derives.p31 s "(" key ")"))) h1,
   keyword_needs_LB gcf input2 HAS s rest (by simp) h2 ht⟩

/-! ## C11 -/

theorem fact_identifier_needs_LB :
    validShift 0 (lex1Code IDENTIFIER) = some 29 ∧
    ∀ c ∈ tokenCodes, c ≠ lex1Code LB → errorAction 29 c = true := by
  decide!

theorem lastError_toList (o : Option String) : lastError o.toList "" = o.getD "" := by
  cases o <;> rfl

/-- C11, counterexample: in a registry where every name resolves to the identity stage,
`foo()` returns that stage and the bare `foo` is a syntax error with a nil stage; and
`order`, an identifier that is no reserved word, is read as `or` and `der`, so that `order()`
is a syntax error too. -/
theorem C11_counterexample :
    ParseTransform identityRegistry 100 "foo()" =
      some (TransformFunc.pipelineGeneratorIdentity, none) ∧
    ParseTransform identityRegistry 100 "foo" =
      some (TransformFunc.nil, some "syntax error") ∧
    ParseTransform identityRegistry 100 "order()" =
      some (TransformFunc.nil, some "syntax error") := by
  decide!

/-- A call on tokens: the tokens IDENTIFIER, `(` and `)` are resolved through
`getCustomFunction name []` and return its stage, with the error of the lookup if there is
one; an IDENTIFIER followed by any token but `(`, or by none, is a syntax error and no stage
is returned. -/
theorem call_of_tokens (gcf : CustomFunctions) (input1 input2 : String)
    (name s1 s2 : String) (rest : List Token)
    (h1 : lexesAs input1 0
      [Token.mk IDENTIFIER name, Token.mk LB s1, Token.mk RB s2] = true)
    (h2 : lexesAs input2 0 (Token.mk IDENTIFIER name :: rest) = true)
    (ht : lookahead rest ≠ lex1Code LB) :
    ParsesTo gcf input1 ((gcf name []).1, errorOf ((gcf name []).2.getD "")) ∧
    ParsesTo gcf input2 (TransformFunc.nil, some "syntax error") := by
  obtain ⟨f1, f2⟩ := fact_identifier_needs_LB
  constructor
  · have h := ParsesTo_of_Derives gcf input1 _
      (Derives.pipeline_of_terminal (Derives.p22 (Derives.p38 name s1 s2))) h1
    rw [lastError_toList] at h
    exact h
  · have hr : Reach gcf
        ⟨[TransformSymType.zero], Token.mk IDENTIFIER name :: rest, "", TransformFunc.nil⟩ _ :=
      Reach_shift gcf f1
    exact ParsesTo_of_error gcf h2 hr rfl (f2 _ (lookahead_mem rest) ht)

/-! ## C12 -/

theorem lastError_getLast (es : List String) (h : es ≠ []) :
    ∀ init, lastError es init = es.getLast h := by
  induction es with
  | nil => exact absurd rfl h
  | cons a es ih =>
    intro init
    cases es with
    | nil => rfl
    | cons b es =>
      have h1 := ih (List.cons_ne_nil b es) a
      rw [List.getLast_cons (List.cons_ne_nil b es)]
      rw [← h1]
      rfl

/-- After a pipeline of value `v`, a token that can only end a pipeline and is no PIPE is a
syntax error: the message "syntax error" replaces whatever message was stored. -/
theorem pipeline_then_error (gcf : CustomFunctions) (input : String) (ts : List Token)
    (v : TransformFunc) (es : List String) (t : Token) (rest : List Token)
    (hd : Derives gcf NT.pipeline ts (SemVal.func v) es)
    (hl : lexesAs input 0 (ts ++ t :: rest) = true)
    (hf : NT.pipeline.follows (lex1Code t.code) = true) (hp : lex1Code t.code ≠ 15) :
    ParsesTo gcf input (v, some "syntax error") := by
  obtain ⟨e1, out1, err1, hr, _, hy, _, ho⟩ :=
    Derives.phrase gcf hd TransformSymType.zero [] (t :: rest) "" TransformFunc.nil
      (by decide) hf
  have hv : out1 = v := SemVal.func.inj (ho rfl)
  have ha : errorAction e1.yys (lookahead (t :: rest)) = true := by
    rw [hy]
    exact fact_after_pipeline _ (lex1Code_mem _) hf hp (lex1Code_ne_one (lexesAs_append hl))
  have h := ParsesTo_of_error gcf hl hr rfl ha
  dsimp only at h
  rw [hv] at h
  exact h

/-- C12, counterexample: in a registry without entries the first message of the parse of
`bogus(1) )` is the one of the lookup, "unknown function" (it is what `bogus(1)` returns),
and the error returned for `bogus(1) )` is "syntax error", the message of the last call. -/
theorem C12_counterexample :
    ParseTransform emptyRegistry 100 "bogus(1)" =
      some (TransformFunc.nil, some "unknown function") ∧
    ParseTransform emptyRegistry 100 "bogus(1) )" =
      some (TransformFunc.nil, some "syntax error") := by
  decide!

/-- C12, amended: the message of the last call of `Error` is the one returned.  When the
tokens form a pipeline during whose parse the semantic actions pass the messages `es`, not
none, to `Error`, `ParseTransform` returns the last of `es`; and when such a pipeline is
followed by a token that can only end a pipeline and is no PIPE, the error returned is
"syntax error", whatever `es` was. -/
theorem C12_last_message_is_returned (gcf : CustomFunctions) (input1 input2 : String)
    (ts : List Token) (v : TransformFunc) (es : List String) (t : Token) (rest : List Token)
    (hd : Derives gcf NT.pipeline ts (SemVal.func v) es) (hne : es ≠ [])
    (h1 : lexesAs input1 0 ts = true)
    (h2 : lexesAs input2 0 (ts ++ t :: rest) = true)
    (hf : NT.pipeline.follows (lex1Code t.code) = true) (hp : lex1Code t.code ≠ 15) :
    ParsesTo gcf input1 (v, errorOf (es.getLast hne)) ∧
    ParsesTo gcf input2 (v, some "syntax error") := by
  constructor
  · have h := ParsesTo_of_Derives gcf input1 ts hd h1
    rw [lastError_getLast es hne] at h
    exact h
  · exact pipeline_then_error gcf input2 ts v es t rest hd h2 hf hp

/-- C12, witness: `bogus(1)` and `bogus(1) )` in a registry without entries. -/
theorem C12_last_message_is_returned_witness :
    ParsesTo emptyRegistry "bogus(1)" (TransformFunc.nil, some "unknown function") ∧
    ParsesTo emptyRegistry "bogus(1) )" (TransformFunc.nil, some "syntax error") :=
  C12_last_message_is_returned emptyRegistry "bogus(1)" "bogus(1) )"
    (Token.mk IDENTIFIER "bogus" :: Token.mk LB "(" :: [Token.mk NUMBER "1"] ++
      [Token.mk RB ")"]) _ _ (Token.mk RB ")") []
    (Derives.pipeline_of_terminal (Derives.p22 (Derives.p39 "bogus" "(" ")"
      (Derives.p42 (Derives.pipeline_of_terminal (Derives.p20 (Derives.p24 "1")))))))
    (by decide) (by decide!) (by decide!) (by decide!) (by decide!)

/-! ## C17 -/

theorem fact_minus_after_multiply :
    NT.terminal.follows (lex1Code MULTIPLY) = true ∧ (0 : Int) ∈ NT.terminal.starts ∧
    defaultReduce (gotoState 0 5) (lex1Code MULTIPLY) = some 16 ∧
    validShift (gotoState 0 11) (lex1Code MULTIPLY) = some 38 ∧
    errorAction 38 (lex1Code MINUS) = true := by
  decide!

/-- A minus sign after `y *`, for an atom `y` at the start of the input: the state after the
`*` has no action on it, a syntax error. -/
theorem minus_after_multiply_rejected (gcf : CustomFunctions) (input : String)
    (ty rest : List Token) (y : TransformFunc) (ey : List String) (s1 s2 : String)
    (hy : Derives gcf NT.terminal ty (SemVal.func y) ey)
    (hl : lexesAs input 0 (ty ++ Token.mk MULTIPLY s1 :: Token.mk MINUS s2 :: rest) = true) :
    ∃ f, ParsesTo gcf input (f, some "syntax error") := by
  obtain ⟨f1, f2, f3, f4, f5⟩ := fact_minus_after_multiply
  obtain ⟨x1, o1, r1, hr1, _, hy1, _, _⟩ :=
    Derives.phrase gcf hy TransformSymType.zero []
      (Token.mk MULTIPLY s1 :: Token.mk MINUS s2 :: rest) "" TransformFunc.nil f2 f1
  have hR1 := Reach_reduce gcf (x1 :: [TransformSymType.zero])
    (Token.mk MULTIPLY s1 :: Token.mk MINUS s2 :: rest) r1 o1 16 11 1 rfl
    (by rw [hy1]; exact f3) (by decide) (by decide) rfl
  have hR2 := hR1.trans (Reach_shift gcf (by exact f4))
  have h := ParsesTo_of_error gcf hl (hr1.trans hR2) rfl f5
  exact ⟨_, h⟩

/-- C17, counterexample: `2 * - $` is a syntax error. -/
theorem C17_counterexample :
    ParseTransform emptyRegistry 100 "2 * - $" =
      some (TransformFunc.nil, some "syntax error") := by
  decide!

/-- C17, amended: a unary minus is accepted at the start of a product only.  For atoms `x`
and `y`, `- x` builds the inverse of `x` and `- x * y` the product of the inverse of `x` and
`y`; in `y * - x` the minus sign after the `*` is a syntax error. -/
theorem C17_unary_minus_starts_a_product (gcf : CustomFunctions)
    (input1 input2 input3 : String) (tx ty rest : List Token) (x y : TransformFunc)
    (ex ey : List String)
    (hx : Derives gcf NT.terminal tx (SemVal.func x) ex)
    (hy : Derives gcf NT.terminal ty (SemVal.func y) ey)
    (h1 : lexesAs input1 0 ([Token.mk MINUS "-"] ++ tx) = true)
    (h2 : lexesAs input2 0
      ([Token.mk MINUS "-"] ++ tx ++ [Token.mk MULTIPLY "*"] ++ ty) = true)
    (h3 : lexesAs input3 0
      (ty ++ [Token.mk MULTIPLY "*"] ++ [Token.mk MINUS "-"] ++ rest) = true) :
    ParsesTo gcf input1
      (TransformFunc.inverseTransformGenerator x, errorOf (lastError ex "")) ∧
    ParsesTo gcf input2
      (TransformFunc.multiplyTransformGenerator (TransformFunc.inverseTransformGenerator x) y,
       errorOf (lastError (ex ++ ey) "")) ∧
    ∃ f, ParsesTo gcf input3 (f, some "syntax error") := by
  refine ⟨?_, ?_, ?_⟩
  · have hd := Derives.pipeline_of_additive (Derives.p13 (Derives.p19 "-" hx))
    exact ParsesTo_of_Derives gcf input1 _ hd h1
  · have hd := Derives.pipeline_of_additive
      (Derives.p13 (Derives.p17 "*" (Derives.p19 "-" hx) hy))
    have e : [Token.mk MINUS "-"] ++ tx ++ [Token.mk MULTIPLY "*"] ++ ty =
        (Token.mk MINUS "-" :: tx) ++ Token.mk MULTIPLY "*" :: ty := by simp
    rw [e] at h2
    exact ParsesTo_of_Derives gcf input2 _ hd h2
  · have e : ty ++ [Token.mk MULTIPLY "*"] ++ [Token.mk MINUS "-"] ++ rest =
        ty ++ Token.mk MULTIPLY "*" :: Token.mk MINUS "-" :: rest := by simp
    rw [e] at h3
    exact minus_after_multiply_rejected gcf input3 ty rest y ey "*" "-" hy h3

/-- C17, witness: `- $`, `- $ * 2` and `2 * - $`. -/
theorem C17_unary_minus_starts_a_product_witness :
    ParsesTo emptyRegistry "- $"
      (TransformFunc.inverseTransformGenerator TransformFunc.pipelineGeneratorIdentity,
       none) ∧
    ParsesTo emptyRegistry "- $ * 2"
      (TransformFunc.multiplyTransformGenerator
        (TransformFunc.inverseTransformGenerator TransformFunc.pipelineGeneratorIdentity)
        (TransformFunc.pipelineGeneratorConstantFloat "2"), none) ∧
    ∃ f, ParsesTo emptyRegistry "2 * - $" (f, some "syntax error") :=
  C17_unary_minus_starts_a_product emptyRegistry "- $" "- $ * 2" "2 * - $"
    [Token.mk THIS "$"] [Token.mk NUMBER "2"] [Token.mk THIS "$"] _ _ [] []
    (Derives.p21 (Derives.p28 "$")) (Derives.p20 (Derives.p24 "2"))
    (by decide!) (by decide!) (by decide!)

/-! ## The keyword calls -/

/-- The keyword calls on tokens: for each of the keywords `gte`, `lte`, `gt`, `lt`, `eq`, `ne`, `Lex` returns the
token of the keyword for its text, and for every pipeline `E` of value `v` the input
`k(E)` builds the comparison of the identity and `v` with the operator of that keyword:
`ParseTransform` returns this stage, and no other, when the tokens of the input are
those of `k`, `(`, `E` and `)`. -/
theorem keyword_call_of_tokens (gcf : CustomFunctions) (input : String)
    (text : String) (kw : Int) (op : String) (ts : List Token) (v : TransformFunc)
    (es : List String)
    (hk : (text, kw, op) ∈ shorthandKeywords)
    (hd : Derives gcf NT.pipeline ts (SemVal.func v) es)
    (hl : lexesAs input 0
      ([Token.mk kw text] ++ [Token.mk LB "("] ++ ts ++ [Token.mk RB ")"]) = true) :
    lexSwitch text = (kw, text) ∧
    ParsesTo gcf input
      (TransformFunc.pipelineGeneratorCompare TransformFunc.pipelineGeneratorIdentity v op,
       errorOf (lastError es "")) ∧
    ∀ r, ParsesTo gcf input r →
      r = (TransformFunc.pipelineGeneratorCompare TransformFunc.pipelineGeneratorIdentity v op,
        errorOf (lastError es "")) := by
  have e : [Token.mk kw text] ++ [Token.mk LB "("] ++ ts ++ [Token.mk RB ")"] =
      Token.mk kw text :: Token.mk LB "(" :: ts ++ [Token.mk RB ")"] := by simp
  rw [e] at hl
  have hp : ParsesTo gcf input
      (TransformFunc.pipelineGeneratorCompare TransformFunc.pipelineGeneratorIdentity v op,
       errorOf (lastError es "")) := by
    simp only [shorthandKeywords, List.mem_cons, Prod.mk.injEq, List.mem_singleton,
      List.not_mem_nil, or_false] at hk
    rcases hk with ⟨rfl, rfl, rfl⟩ | ⟨rfl, rfl, rfl⟩ | ⟨rfl, rfl, rfl⟩ | ⟨rfl, rfl, rfl⟩ |
      ⟨rfl, rfl, rfl⟩ | ⟨rfl, rfl, rfl⟩
    · exact ParsesTo_of_Derives gcf input _
        (Derives.pipeline_of_terminal (Derives.p22 (Derives.p32 _ "(" ")" hd))) hl
    · exact ParsesTo_of_Derives gcf input _
        (Derives.pipeline_of_terminal (Derives.p22 (Derives.p33 _ "(" ")" hd))) hl
    · exact ParsesTo_of_Derives gcf input _
        (Derives.pipeline_of_terminal (Derives.p22 (Derives.p34 _ "(" ")" hd))) hl
    · exact ParsesTo_of_Derives gcf input _
        (Derives.pipeline_of_terminal (Derives.p22 (Derives.p35 _ "(" ")" hd))) hl
    · exact ParsesTo_of_Derives gcf input _
        (Derives.pipeline_of_terminal (Derives.p22 (Derives.p36 _ "(" ")" hd))) hl
    · exact ParsesTo_of_Derives gcf input _
        (Derives.pipeline_of_terminal (Derives.p22 (Derives.p37 _ "(" ")" hd))) hl
  refine ⟨?_, hp, fun r hr => ParsesTo_unique gcf hr hp⟩
  have hall : ∀ x ∈ shorthandKeywords, lexSwitch x.1 = (x.2.1, x.1) := by decide!
  exact hall _ hk

/-! ## The lexer on arbitrary input -/

/-- The whitespace loop on blanks followed by a character that is no blank: it stops after
that character. -/
theorem skipBlanks_blanks (blanks : List Char) (d : Char) (rest : List Char)
    (hb : ∀ c ∈ blanks, c = ' ' ∨ c = tabChar) (hd : ¬ (d = ' ' ∨ d = tabChar)) :
    ∀ (c : Char) (position : Int), (c = ' ' ∨ c = tabChar) →
      TransformLex.skipBlanks (blanks ++ d :: rest) c position =
        (false, position + blanks.length + 1) := by
  induction blanks with
  | nil =>
    intro c position hc
    rw [List.nil_append, TransformLex.skipBlanks.eq_def]
    dsimp only
    rw [if_pos hc, TransformLex.skipBlanks.eq_def]
    dsimp only
    rw [if_neg hd]
    simp
  | cons b blanks ih =>
    intro c position hc
    rw [List.cons_append, TransformLex.skipBlanks.eq_def]
    dsimp only
    rw [if_pos hc]
    rw [ih (fun x hx => hb x (List.mem_cons_of_mem _ hx)) b (position + 1)
      (hb b (List.mem_cons_self _ _))]
    simp only [List.length_cons, Nat.cast_add, Nat.cast_one, Prod.mk.injEq, true_and]
    omega

/-- The method `Next` at a position followed by blanks and then by text that does not start
with a blank: the lexeme is the match of the tokenizer on that text, `<ERROR>` when there
is none. -/
theorem Next_after_blanks (pre blanks : List Char) (d : Char) (rest : List Char)
    (err : String) (out : TransformFunc)
    (hb : ∀ c ∈ blanks, c = ' ' ∨ c = tabChar) (hd : ¬ (d = ' ' ∨ d = tabChar)) :
    (TransformLex.mk (String.mk (pre ++ (blanks ++ d :: rest))) pre.length err out).Next.1 =
      if tokenizerFindString (d :: rest) = [] then errorString
      else String.mk (tokenizerFindString (d :: rest)) := by
  unfold TransformLex.Next
  dsimp only
  rw [Int.toNat_ofNat, List.drop_left,
    skipBlanks_blanks blanks d rest hb hd ' ' _ (Or.inl rfl)]
  dsimp only
  have e : ((pre.length : Int) + (blanks.length : Int) + 1 - 1).toNat =
      pre.length + blanks.length := by omega
  rw [e, ← List.append_assoc, ← List.length_append, List.drop_left]
  split <;> rfl

theorem orElse_cases {α : Type} {a b : Option α} {x : α}
    (h : (a.orElse fun _ => b) = some x) : a = some x ∨ (a = none ∧ b = some x) := by
  cases a with
  | none => exact Or.inr ⟨rfl, h⟩
  | some y => exact Or.inl h

theorem matchLiterals_some {lits : List String} {rest r : List Char}
    (h : matchLiterals lits rest = some r) :
    ∃ w ∈ lits, r = w.data ∧ w.data.isPrefixOf rest = true := by
  unfold matchLiterals at h
  obtain ⟨w, hw, rfl⟩ := Option.map_eq_some.mp h
  exact ⟨w, List.mem_of_find?_eq_some hw, rfl, by simpa using List.find?_some hw⟩

/-! ## C14 -/

theorem fact_keywords_start : ∀ w ∈ builtins ++ logicals,
    ∃ d t, w.data = d :: t ∧ ¬ (d = ' ' ∨ d = tabChar) := by
  intro w hw
  simp only [builtins, logicals, List.cons_append, List.nil_append, List.mem_cons,
    List.mem_singleton, List.not_mem_nil, or_false] at hw
  rcases hw with rfl | rfl | rfl | rfl | rfl | rfl | rfl | rfl | rfl | rfl | rfl | rfl |
    rfl | rfl <;> exact ⟨_, _, rfl, by decide⟩

theorem tokenizerFindString_keyword {rest : List Char} {w : String}
    (hw : (builtins ++ logicals).find? (fun w => w.data.isPrefixOf rest) = some w) :
    tokenizerFindString rest = w.data := by
  unfold tokenizerFindString matchLiterals
  rw [List.find?_append] at hw
  cases h1 : builtins.find? (fun w => w.data.isPrefixOf rest) with
  | some x =>
    rw [h1] at hw
    simp only [Option.or] at hw
    cases hw
    simp [Option.orElse]
  | none =>
    rw [h1] at hw
    simp only [Option.or] at hw
    rw [hw]
    simp [Option.orElse]

/-- C14, counterexample: on `order` the method `Next` returns `or`, although the class of
identifiers matches the whole of `order`; `iffy` and `settings` give `if` and `set`, and
`order` is delivered as the token OR followed by the identifier `der`. -/
theorem C14_counterexample :
    (TransformLex.mk "order" 0 "" TransformFunc.nil).Next.1 = "or" ∧
    matchIdents "order".data = some "order".data ∧
    (TransformLex.mk "iffy" 0 "" TransformFunc.nil).Next.1 = "if" ∧
    (TransformLex.mk "settings" 0 "" TransformFunc.nil).Next.1 = "set" ∧
    lexesAs "order" 0 [Token.mk OR "or", Token.mk IDENTIFIER "der"] = true := by
  decide!

/-- The reserved words come first: when the text at the cursor, after blanks, begins with a
word of `builtins` or `logicals`, `Next` returns the first such word in the order of the
two classes, however the text goes on. -/
theorem Next_keyword (pre blanks rest : List Char) (w : String) (err : String)
    (out : TransformFunc) (hb : ∀ c ∈ blanks, c = ' ' ∨ c = tabChar)
    (hw : (builtins ++ logicals).find? (fun w => w.data.isPrefixOf rest) = some w) :
    (TransformLex.mk (String.mk (pre ++ (blanks ++ rest))) pre.length err out).Next.1 = w := by
  obtain ⟨d, t, hdt, hd⟩ := fact_keywords_start w (List.mem_of_find?_eq_some hw)
  have hp : w.data.isPrefixOf rest = true := by simpa using List.find?_some hw
  rw [hdt] at hp
  cases rest with
  | nil => simp [List.isPrefixOf] at hp
  | cons d1 rest1 =>
    have hd1 : d1 = d := by
      simp only [List.isPrefixOf, Bool.and_eq_true, beq_iff_eq] at hp
      exact hp.1.symm
    subst hd1
    rw [Next_after_blanks pre blanks d1 rest1 err out hb hd, tokenizerFindString_keyword hw,
      hdt]
    rw [if_neg (List.cons_ne_nil _ _), ← hdt]

/-! ## C16 -/

theorem Next_cases (l : TransformLex) :
    l.Next.1 = eofString ∨ l.Next.1 = errorString ∨
      ∃ rest, l.Next.1 = String.mk (tokenizerFindString rest) := by
  unfold TransformLex.Next
  dsimp only
  cases TransformLex.skipBlanks (l.input.data.drop l.position.toNat) ' ' l.position with
  | mk b p =>
    cases b
    · dsimp only
      split
      · exact Or.inr (Or.inl rfl)
      · exact Or.inr (Or.inr ⟨_, rfl⟩)
    · exact Or.inl rfl

theorem fact_literals_no_quote :
    ∀ w ∈ builtins ++ logicals ++ compops ++ pipes ++ syms ++ maths,
      w.data.head? ≠ some dquote := by
  decide!

theorem isDigit_ne_dquote {c : Char} (h : isDigit c = true) : c ≠ dquote := by
  intro e
  subst e
  revert h
  decide

theorem isIdentStart_ne_dquote {c : Char} (h : isIdentStart c = true) : c ≠ dquote := by
  intro e
  subst e
  revert h
  decide

theorem matchNumbers_head {rest r : List Char} (h : matchNumbers rest = some r) :
    r.head? ≠ some dquote := by
  unfold matchNumbers at h
  cases rest with
  | nil => simp at h
  | cons c t =>
    by_cases hc : c = Char.ofNat 45
    · subst hc
      simp only [if_true, List.length_singleton, List.drop_succ_cons, List.drop_zero] at h
      split_ifs at h with h1
      have hm : Char.ofNat 45 ≠ dquote := by decide
      split at h
      · split_ifs at h <;>
        · cases h
          simpa using hm
      · cases h
        simpa using hm
    · simp only [hc, if_false, List.length_nil, List.drop_zero, List.nil_append] at h
      split_ifs at h with h1
      have hd : isDigit c = true := by
        by_contra hn
        apply h1
        simp [List.takeWhile, hn]
      have hh : (List.takeWhile isDigit (c :: t)).head? = some c := by
        simp [List.takeWhile, hd]
      have hq := isDigit_ne_dquote hd
      split at h
      · split_ifs at h <;>
        · cases h
          simp only [List.head?_append, hh, Option.or, ne_eq, Option.some.injEq]
          exact hq
      · cases h
        rw [hh]
        simpa using hq

theorem matchIdents_head {rest r : List Char} (h : matchIdents rest = some r) :
    r.head? ≠ some dquote := by
  unfold matchIdents at h
  cases rest with
  | nil => simp at h
  | cons c t =>
    simp only at h
    split_ifs at h with h1
    cases h
    simpa using isIdentStart_ne_dquote h1

/-- A lexeme of the tokenizer that begins with a quote is a match of the class `stringr`. -/
theorem tokenizerFindString_quote {rest : List Char}
    (hq : (tokenizerFindString rest).head? = some dquote) :
    matchStringr rest = some (tokenizerFindString rest) := by
  have hne : tokenizerFindString rest ≠ [] := by
    intro e
    rw [e] at hq
    cases hq
  obtain ⟨tok, htok⟩ : ∃ tok, tok = tokenizerFindString rest := ⟨_, rfl⟩
  rw [← htok] at hq hne ⊢
  unfold tokenizerFindString at htok
  have lit : ∀ (lits : List String), (∀ w ∈ lits, w ∈ builtins ++ logicals ++ compops ++
      pipes ++ syms ++ maths) → matchLiterals lits rest ≠ some tok := by
    intro lits hl h
    obtain ⟨w, hw, rfl, _⟩ := matchLiterals_some h
    exact fact_literals_no_quote w (hl w hw) hq
  cases hx : ((matchLiterals builtins rest).orElse fun _ =>
     (matchLiterals logicals rest).orElse fun _ =>
     (matchNumbers rest).orElse fun _ =>
     (matchLiterals compops rest).orElse fun _ =>
     (matchStringr rest).orElse fun _ =>
     (matchLiterals pipes rest).orElse fun _ =>
     (matchLiterals syms rest).orElse fun _ =>
     (matchIdents rest).orElse fun _ =>
     matchLiterals maths rest) with
  | none =>
    rw [hx] at htok
    exact absurd htok hne
  | some y =>
    rw [hx] at htok
    simp only [Option.getD_some] at htok
    subst htok
    rcases orElse_cases hx with h | ⟨_, hx⟩
    · exact absurd h (lit _ (fun w hw => by simp [hw]))
    rcases orElse_cases hx with h | ⟨_, hx⟩
    · exact absurd h (lit _ (fun w hw => by simp [hw]))
    rcases orElse_cases hx with h | ⟨_, hx⟩
    · exact absurd hq (matchNumbers_head h)
    rcases orElse_cases hx with h | ⟨_, hx⟩
    · exact absurd h (lit _ (fun w hw => by simp [hw]))
    rcases orElse_cases hx with h | ⟨_, hx⟩
    · exact h
    rcases orElse_cases hx with h | ⟨_, hx⟩
    · exact absurd h (lit _ (fun w hw => by simp [hw]))
    rcases orElse_cases hx with h | ⟨_, hx⟩
    · exact absurd h (lit _ (fun w hw => by simp [hw]))
    rcases orElse_cases hx with h | ⟨_, hx⟩
    · exact absurd hq (matchIdents_head h)
    · exact absurd hx (lit _ (fun w hw => by simp [hw]))

/-- A match of the class `stringr`: between the quotes, one character and then no quote. -/
theorem matchStringr_payload {rest tok : List Char} (h : matchStringr rest = some tok) :
    dquote ∉ ((tok.drop 1).dropLast).drop 1 := by
  unfold matchStringr at h
  split at h
  · rename_i q c0 r
    split_ifs at h with h1
    dsimp only at h
    split at h
    · split_ifs at h with h2
      cases h
      simp only [List.cons_append, List.drop_succ_cons, List.drop_zero]
      rw [← List.cons_append, List.dropLast_concat]
      simp only [List.drop_succ_cons, List.drop_zero]
      intro hm
      have := List.mem_takeWhile_imp hm
      simp at this
    · cases h
  · cases h

theorem ite_not_STRING {c : Prop} [Decidable c] {a b r : Int × String}
    (hr : (if c then a else b) = r) (h : r.1 = STRING) (ha : a.1 ≠ STRING) :
    ¬ c ∧ b = r := by
  by_cases hc : c
  · rw [if_pos hc] at hr
    subst hr
    exact absurd h ha
  · rw [if_neg hc] at hr
    exact ⟨hc, hr⟩

/-- The lexeme that `lexSwitch` classifies as STRING, and the value it leaves. -/
theorem lexSwitch_STRING {token : String} {r : Int × String} (hr : lexSwitch token = r)
    (h : r.1 = STRING) :
    stringRegexMatch token.data = true ∧
    r.2 = String.mk ((token.data.drop 1).dropLast) ∧
    token ≠ eofString ∧ token ≠ errorString := by
  delta lexSwitch at hr
  obtain ⟨c1, hr⟩ := ite_not_STRING hr h (by dsimp only; decide)
  obtain ⟨c2, hr⟩ := ite_not_STRING hr h (by dsimp only; decide)
  iterate 26
    obtain ⟨_, hr⟩ := ite_not_STRING hr h (by dsimp only; decide)
  by_cases c3 : stringRegexMatch token.data = true
  · rw [if_pos c3] at hr
    subst hr
    exact ⟨c3, rfl, c1, c2⟩
  · rw [if_neg c3] at hr
    subst hr
    exact absurd h (by dsimp only; decide)

/-- C16: when `Lex` returns STRING, the lexeme that `Next` returned begins and ends with a
double quote, the value left in `strVal` is the lexeme without its first and last
character, unchanged otherwise, and this value is not empty and has no double quote after
its first character. -/
theorem C16_string_payload (l : TransformLex) (lval : TransformSymType)
    (h : (l.Lex lval).1 = STRING) :
    l.Next.1.data.head? = some dquote ∧ l.Next.1.data.getLast? = some dquote ∧
    (l.Lex lval).2.1.strVal = String.mk ((l.Next.1.data.drop 1).dropLast) ∧
    (l.Lex lval).2.1.strVal ≠ "" ∧
    dquote ∉ (l.Lex lval).2.1.strVal.data.drop 1 := by
  simp only [TransformLex.Lex] at h ⊢
  obtain ⟨hm, hv, hne1, hne2⟩ := lexSwitch_STRING rfl h
  simp only [stringRegexMatch, decide_eq_true_eq] at hm
  obtain ⟨hlen, hhead, hlast, _⟩ := hm
  rw [hv]
  refine ⟨hhead, hlast, rfl, ?_, ?_⟩
  · intro e
    have e1 := congrArg String.data e
    have e2 : ((l.Next.1.data.drop 1).dropLast).length = 0 := by
      rw [show (l.Next.1.data.drop 1).dropLast = [] from e1]
      rfl
    simp only [List.length_dropLast, List.length_drop] at e2
    omega
  · rcases Next_cases l with h1 | h1 | ⟨rest, h1⟩
    · exact absurd h1 hne1
    · exact absurd h1 hne2
    · rw [h1] at hhead ⊢
      exact matchStringr_payload (tokenizerFindString_quote hhead)

/-- C16, witness: the token of `"a\b"`, a backslash between two letters, is a STRING with the
three characters between the quotes as its value. -/
theorem C16_string_payload_witness :
    (TransformLex.mk "\"a\\b\"" 0 "" TransformFunc.nil).Next.1.data.head? = some dquote ∧
    (TransformLex.mk "\"a\\b\"" 0 "" TransformFunc.nil).Next.1.data.getLast? = some dquote ∧
    ((TransformLex.mk "\"a\\b\"" 0 "" TransformFunc.nil).Lex TransformSymType.zero).2.1.strVal =
      String.mk (((TransformLex.mk "\"a\\b\"" 0 "" TransformFunc.nil).Next.1.data.drop
        1).dropLast) ∧
    ((TransformLex.mk "\"a\\b\"" 0 "" TransformFunc.nil).Lex TransformSymType.zero).2.1.strVal
      ≠ "" ∧
    dquote ∉ ((TransformLex.mk "\"a\\b\"" 0 "" TransformFunc.nil).Lex
      TransformSymType.zero).2.1.strVal.data.drop 1 :=
  C16_string_payload (TransformLex.mk "\"a\\b\"" 0 "" TransformFunc.nil) TransformSymType.zero
    (by decide!)

/-! ## The stored message along a run of the parser -/

theorem readChar_fields (st : TransformParserState) :
    (readChar st).Transformlex.errorString = st.Transformlex.errorString ∧
    (readChar st).TransformS = st.TransformS ∧
    (readChar st).Transformstate = st.Transformstate := by
  unfold readChar
  split
  · simp only [Transformlex1, Lex_eq]
    exact ⟨trivial, trivial, trivial⟩
  · exact ⟨rfl, rfl, rfl⟩

/-- A semantic action leaves the stored message as it is or replaces it by the message of
an error that `getCustomFunction` returned. -/
theorem TransformAction_message (gcf : CustomFunctions) (p : Int) (S : List TransformSymType)
    (V : TransformSymType) (lex : TransformLex) :
    (TransformAction gcf p S V lex).2.errorString = lex.errorString ∨
    ∃ name args msg, (gcf name args).2 = some msg ∧
      (TransformAction gcf p S V lex).2.errorString = msg := by
  unfold TransformAction
  dsimp only
  split <;> first
    | exact Or.inl rfl
    | (split
       · rename_i fn msg heq
         exact Or.inr ⟨_, _, msg, by rw [heq], rfl⟩
       · exact Or.inl rfl)

/-- The action of a production whose call of `getCustomFunction` fails stores the message of
the error. -/
theorem TransformAction_callFails (gcf : CustomFunctions) (p : Int)
    (S : List TransformSymType) (V : TransformSymType) (lex : TransformLex)
    (h : callFails gcf p S = true) :
    ∃ name args msg, (gcf name args).2 = some msg ∧
      (TransformAction gcf p S V lex).2.errorString = msg := by
  simp only [callFails, Bool.or_eq_true, Bool.and_eq_true, decide_eq_true_eq] at h
  rcases h with ⟨rfl, h⟩ | ⟨rfl, h⟩
  · obtain ⟨msg, hm⟩ := Option.isSome_iff_exists.mp h
    refine ⟨_, _, msg, hm, ?_⟩
    cases hg : gcf (S.getD 2 TransformSymType.zero).strVal [] with
    | mk fn m =>
      rw [hg] at hm
      dsimp only at hm
      subst hm
      simp only [List.getD_eq_getElem?_getD] at hg
      simp [TransformAction, hg, TransformLex.Error]
  · obtain ⟨msg, hm⟩ := Option.isSome_iff_exists.mp h
    refine ⟨_, _, msg, hm, ?_⟩
    cases hg : gcf (S.getD 3 TransformSymType.zero).strVal
        (S.getD 1 TransformSymType.zero).funcList with
    | mk fn m =>
      rw [hg] at hm
      dsimp only at hm
      subst hm
      simp only [List.getD_eq_getElem?_getD] at hg
      simp [TransformAction, hg, TransformLex.Error]

theorem Transformreduce_message (gcf : CustomFunctions)
    (hmsg : ∀ name args msg, (gcf name args).2 = some msg → msg ≠ "")
    (st : TransformParserState) (n : Int) (h : st.Transformlex.errorString ≠ "") :
    (∀ code lex, Transformreduce gcf st n = TransformOutcome.ret code lex →
      lex.errorString ≠ "") ∧
    (∀ st1, Transformreduce gcf st n = TransformOutcome.newstate st1 →
      st1.Transformlex.errorString ≠ "") := by
  unfold Transformreduce
  dsimp only
  split
  · exact ⟨fun _ _ e => (nomatch e), fun _ e => (nomatch e)⟩
  · refine ⟨fun _ _ e => (nomatch e), fun st1 e => ?_⟩
    cases e
    simp only [Transformstack]
    rcases TransformAction_message gcf n st.TransformS
      (st.TransformS.getD ((idx TransformR2 n).toNat - 1) TransformSymType.zero)
      st.Transformlex with h1 | ⟨name, args, msg, h1, h2⟩
    · rw [h1]; exact h
    · rw [h2]; exact hmsg _ _ _ h1

theorem TransformErrorRecovery_message (st : TransformParserState)
    (h : st.Transformlex.errorString ≠ "") :
    (∀ code lex, TransformErrorRecovery st = TransformOutcome.ret code lex →
      lex.errorString ≠ "") ∧
    (∀ st1, TransformErrorRecovery st = TransformOutcome.newstate st1 →
      st1.Transformlex.errorString ≠ "") := by
  unfold TransformErrorRecovery
  split_ifs
  · rw [errorPop_ret]
    refine ⟨fun _ _ e => ?_, fun _ e => (nomatch e)⟩
    cases e
    simp [TransformLex.Error]
  · rw [errorPop_ret]
    refine ⟨fun _ _ e => ?_, fun _ e => (nomatch e)⟩
    cases e
    exact h
  · refine ⟨fun _ _ e => ?_, fun _ e => (nomatch e)⟩
    cases e
    exact h
  · refine ⟨fun _ _ e => (nomatch e), fun _ e => ?_⟩
    cases e
    exact h
  · exact ⟨fun _ _ e => (nomatch e), fun _ e => (nomatch e)⟩

theorem Transformdefault_message (gcf : CustomFunctions)
    (hmsg : ∀ name args msg, (gcf name args).2 = some msg → msg ≠ "")
    (st : TransformParserState) (h : st.Transformlex.errorString ≠ "") :
    (∀ code lex, Transformdefault gcf st = TransformOutcome.ret code lex →
      lex.errorString ≠ "") ∧
    (∀ st1, Transformdefault gcf st = TransformOutcome.newstate st1 →
      st1.Transformlex.errorString ≠ "") := by
  have hr : (readChar st).Transformlex.errorString ≠ "" := by
    rw [(readChar_fields st).1]; exact h
  unfold Transformdefault
  dsimp only
  split_ifs
  · split
    · exact ⟨fun _ _ e => (nomatch e), fun _ e => (nomatch e)⟩
    · split
      · exact ⟨fun _ _ e => (nomatch e), fun _ e => (nomatch e)⟩
      · split_ifs
        · refine ⟨fun _ _ e => ?_, fun _ e => (nomatch e)⟩
          cases e
          exact hr
        · exact TransformErrorRecovery_message _ hr
        · exact Transformreduce_message gcf hmsg _ _ hr
  · exact TransformErrorRecovery_message _ h
  · exact Transformreduce_message gcf hmsg _ _ h

/-- One pass keeps a stored message: when the messages of `getCustomFunction` are not
empty, a pass that starts with a message stored ends with a message stored. -/
theorem Transformnewstate_message (gcf : CustomFunctions)
    (hmsg : ∀ name args msg, (gcf name args).2 = some msg → msg ≠ "")
    (st : TransformParserState) (h : st.Transformlex.errorString ≠ "") :
    (∀ code lex, Transformnewstate gcf st = TransformOutcome.ret code lex →
      lex.errorString ≠ "") ∧
    (∀ st1, Transformnewstate gcf st = TransformOutcome.newstate st1 →
      st1.Transformlex.errorString ≠ "") := by
  have hr : (readChar st).Transformlex.errorString ≠ "" := by
    rw [(readChar_fields st).1]; exact h
  unfold Transformnewstate
  dsimp only
  split_ifs <;> first
    | exact Transformdefault_message gcf hmsg _ h
    | exact Transformdefault_message gcf hmsg _ hr
    | (refine ⟨fun _ _ e => (nomatch e), fun _ e => ?_⟩
       cases e
       exact hr)

theorem TransformParseLoop_message (gcf : CustomFunctions)
    (hmsg : ∀ name args msg, (gcf name args).2 = some msg → msg ≠ "") (fuel : Nat) :
    ∀ (st : TransformParserState) (code : Int) (lex : TransformLex),
      st.Transformlex.errorString ≠ "" →
      TransformParseLoop gcf fuel st = some (code, lex) → lex.errorString ≠ "" := by
  induction fuel with
  | zero =>
    intro st code lex _ h
    simp [TransformParseLoop] at h
  | succ k ih =>
    intro st code lex hst h
    simp only [TransformParseLoop] at h
    obtain ⟨h1, h2⟩ := Transformnewstate_message gcf hmsg st hst
    cases hx : Transformnewstate gcf st with
    | ret c l =>
      rw [hx] at h
      cases h
      exact h1 _ _ hx
    | fault => rw [hx] at h; cases h
    | newstate st1 =>
      rw [hx] at h
      exact ih st1 code lex (h2 _ hx) h

/-- A run that returns passes through every state that it reaches without returning. -/
theorem TransformParseLoop_of_stepN (gcf : CustomFunctions) (n : Nat) :
    ∀ (st0 st : TransformParserState) (fuel : Nat) (r : Int × TransformLex),
      stepN gcf n st0 = some st → TransformParseLoop gcf fuel st0 = some r →
      ∃ fuel1, TransformParseLoop gcf fuel1 st = some r := by
  induction n with
  | zero =>
    intro st0 st fuel r h1 h2
    simp only [stepN] at h1
    cases h1
    exact ⟨fuel, h2⟩
  | succ k ih =>
    intro st0 st fuel r h1 h2
    simp only [stepN] at h1
    cases fuel with
    | zero => simp [TransformParseLoop] at h2
    | succ f =>
      simp only [TransformParseLoop] at h2
      cases hx : Transformnewstate gcf st0 with
      | ret c l => rw [hx] at h1; cases h1
      | fault => rw [hx] at h1; cases h1
      | newstate st1 =>
        rw [hx] at h1 h2
        exact ih st1 st f r h1 h2

/-- A state whose default action is the production `p` reduces by `p`. -/
theorem Transformnewstate_reduce (gcf : CustomFunctions) (st : TransformParserState) (p : Int)
    (h : defaultReduce st.Transformstate (readChar st).Transformchar = some p) :
    ∃ st1, Transformnewstate gcf st = Transformreduce gcf st1 p ∧
      st1.TransformS = st.TransformS ∧
      st1.Transformlex.errorString = st.Transformlex.errorString := by
  obtain ⟨hv, hdef, hpos⟩ := defaultReduce_some h
  obtain ⟨r1, r2, r3⟩ := readChar_fields st
  have hd : ∀ st1 : TransformParserState, st1.Transformstate = st.Transformstate →
      Transformdefault gcf st1 = Transformreduce gcf st1 p := by
    intro st1 h1
    unfold Transformdefault
    dsimp only
    rw [h1, hdef, if_neg (by omega), if_neg (by omega)]
  unfold Transformnewstate
  dsimp only
  by_cases h1 : idx TransformPact st.Transformstate ≤ TransformFlag
  · rw [if_pos h1]
    exact ⟨st, hd st rfl, rfl, rfl⟩
  · rw [if_neg h1]
    refine ⟨readChar st, ?_, r2, r1⟩
    rcases validShift_none hv with h2 | h2 | h2
    · exact absurd h2 h1
    · rw [if_pos h2]
      exact hd _ r3
    · by_cases h3 : idx TransformPact st.Transformstate + (readChar st).Transformchar < 0 ∨
          idx TransformPact st.Transformstate + (readChar st).Transformchar ≥ TransformLast
      · rw [if_pos h3]
        exact hd _ r3
      · rw [if_neg h3, if_neg h2]
        exact hd _ r3

theorem Transformreduce_callFails (gcf : CustomFunctions)
    (hmsg : ∀ name args msg, (gcf name args).2 = some msg → msg ≠ "")
    (st : TransformParserState) (p : Int) (h : callFails gcf p st.TransformS = true) :
    (∀ code lex, Transformreduce gcf st p ≠ TransformOutcome.ret code lex) ∧
    (∀ st1, Transformreduce gcf st p = TransformOutcome.newstate st1 →
      st1.Transformlex.errorString ≠ "") := by
  unfold Transformreduce
  dsimp only
  cases List.drop (idx TransformR2 p).toNat st.TransformS with
  | nil => exact ⟨fun _ _ e => (nomatch e), fun _ e => (nomatch e)⟩
  | cons top below =>
    refine ⟨fun _ _ e => (nomatch e), fun st1 e => ?_⟩
    cases e
    simp only [Transformstack]
    obtain ⟨name, args, msg, h1, h2⟩ :=
      TransformAction_callFails gcf p st.TransformS
        (st.TransformS.getD ((idx TransformR2 p).toNat - 1) TransformSymType.zero)
        st.Transformlex h
    rw [h2]
    exact hmsg _ _ _ h1

/-- After a failing call of `getCustomFunction` the parser returns no nil error: when the
messages of `getCustomFunction` are not empty and a pass of the parse of `input` runs a
semantic action whose call fails, every result of `ParseTransform` on `input` carries an
error. -/
theorem failing_call_is_returned (gcf : CustomFunctions)
    (hmsg : ∀ name args msg, (gcf name args).2 = some msg → msg ≠ "") (input : String)
    (n fuel : Nat) (r : TransformFunc × Option String)
    (hcall : failingCallAt gcf input n = true)
    (hret : ParseTransform gcf fuel input = some r) : r.2 ≠ none := by
  unfold failingCallAt at hcall
  cases hs : stepN gcf n (TransformParseInit
      { input := input, position := 0, errorString := "", output := TransformFunc.nil }) with
  | none => rw [hs] at hcall; cases hcall
  | some st =>
    rw [hs] at hcall
    dsimp only at hcall
    cases hp : defaultReduce st.Transformstate (readChar st).Transformchar with
    | none => rw [hp] at hcall; cases hcall
    | some p =>
      rw [hp] at hcall
      dsimp only at hcall
      obtain ⟨st1, hstep, hS, _⟩ := Transformnewstate_reduce gcf st p hp
      rw [← hS] at hcall
      obtain ⟨g1, g2⟩ := Transformreduce_callFails gcf hmsg st1 p hcall
      unfold ParseTransform TransformParse at hret
      cases hl : TransformParseLoop gcf fuel (TransformParseInit
          { input := input, position := 0, errorString := "",
            output := TransformFunc.nil }) with
      | none => rw [hl] at hret; cases hret
      | some res =>
        obtain ⟨code, tl⟩ := res
        rw [hl] at hret
        dsimp only at hret
        obtain ⟨fuel1, hf⟩ := TransformParseLoop_of_stepN gcf n _ st fuel _ hs hl
        have hne : tl.errorString ≠ "" := by
          cases fuel1 with
          | zero => simp [TransformParseLoop] at hf
          | succ f =>
            simp only [TransformParseLoop] at hf
            rw [hstep] at hf
            cases hx : Transformreduce gcf st1 p with
            | ret c l => exact absurd hx (g1 c l)
            | fault => rw [hx] at hf; cases hf
            | newstate st2 =>
              rw [hx] at hf
              exact TransformParseLoop_message gcf hmsg f st2 code tl (g2 st2 hx) hf
        rw [if_neg hne] at hret
        cases hret
        simp

/-! ## Facts of the tables about the stacks that the parser builds -/

theorem fact_no_shift_of_end : ∀ s ∈ stateList, validShift s 1 = none := by
  decide!

theorem fact_shift_links : ∀ q ∈ stateList, ∀ c ∈ tokenCodes,
    (validShift q c).all (fun s1 => decide (s1 ∈ stateList ∧ q ∈ preds s1)) = true := by
  decide!

theorem fact_some_action : ∀ s ∈ stateList, ∀ c ∈ tokenCodes, validShift s c = none →
    acceptAction s c = true ∨ errorAction s c = true ∨ (defaultReduce s c).isSome = true := by
  decide!

theorem fact_goto_links : ∀ n ∈ ntNums, ∀ b ∈ startsOfNum n,
    gotoState b n ∈ stateList ∧ b ∈ preds (gotoState b n) := by
  decide!

theorem fact_reduce_depth : ∀ s ∈ stateList, 0 < idx TransformDef s →
    idx TransformR1 (idx TransformDef s) ∈ ntNums ∧
    1 ≤ idx TransformR2 (idx TransformDef s) ∧
    (∀ i ∈ List.range (idx TransformR2 (idx TransformDef s)).toNat, (0 : Int) ∉ predsN i s) ∧
    (∀ b ∈ predsN (idx TransformR2 (idx TransformDef s)).toNat s,
      b ∈ startsOfNum (idx TransformR1 (idx TransformDef s))) := by
  decide!

theorem fact_unit_rank : ∀ s ∈ stateList, 0 < idx TransformDef s →
    idx TransformR2 (idx TransformDef s) = 1 →
    ∀ b ∈ stateList, stateRank s < stateRank (gotoState b (idx TransformR1 (idx TransformDef s))) := by
  decide!


theorem fact_R2_nonneg : ∀ v ∈ (0 : Int) :: TransformR2, 0 ≤ v := by
  decide!

/-! ## Stacks as the parser builds them -/

theorem Linked_top_mem {e : TransformSymType} {S : List TransformSymType}
    (h : Linked (e :: S)) : e.yys ∈ stateList := by
  cases S with
  | nil =>
    simp only [Linked] at h
    rw [h]
    decide
  | cons f S => exact h.1

theorem Linked_below {L : List TransformSymType} (h : Linked L) :
    ∀ (i : Nat) (y x : TransformSymType), L[i]? = some y → L[i + 1]? = some x →
      x.yys ∈ preds y.yys := by
  induction L with
  | nil => exact absurd h (by simp [Linked])
  | cons e S ih =>
    intro i y x hy hx
    cases S with
    | nil => simp at hx
    | cons f S =>
      obtain ⟨_, h2, h3⟩ := h
      cases i with
      | zero =>
        simp only [List.getElem?_cons_zero, Option.some.injEq, List.getElem?_cons_succ] at hy hx
        subst hy
        subst hx
        exact h2
      | succ j =>
        simp only [List.getElem?_cons_succ] at hy hx
        exact ih h3 j y x hy (by simpa using hx)

theorem Linked_predsN {e : TransformSymType} {S : List TransformSymType}
    (h : Linked (e :: S)) :
    ∀ (i : Nat) (x : TransformSymType), (e :: S)[i]? = some x → x.yys ∈ predsN i e.yys := by
  intro i
  induction i with
  | zero =>
    intro x hx
    simp only [List.getElem?_cons_zero, Option.some.injEq] at hx
    subst hx
    simp [predsN]
  | succ j ih =>
    intro x hx
    have hlt : j + 1 < (e :: S).length := by
      by_contra hn
      rw [List.getElem?_eq_none (by omega)] at hx
      cases hx
    obtain ⟨y, hj⟩ : ∃ y, (e :: S)[j]? = some y :=
      ⟨_, List.getElem?_eq_getElem (Nat.lt_of_succ_lt hlt)⟩
    have h1 := ih _ hj
    have h2 := Linked_below h j _ x hj hx
    simp only [predsN, List.mem_dedup, List.mem_flatMap]
    exact ⟨_, h1, h2⟩

theorem Linked_bottom {L : List TransformSymType} (h : Linked L) :
    ∃ x, L[L.length - 1]? = some x ∧ x.yys = 0 := by
  induction L with
  | nil => exact absurd h (by simp [Linked])
  | cons e S ih =>
    cases S with
    | nil => exact ⟨e, by simp, h⟩
    | cons f S =>
      obtain ⟨x, hx, h0⟩ := ih h.2.2
      refine ⟨x, ?_, h0⟩
      simp only [List.length_cons, Nat.add_sub_cancel] at hx ⊢
      rw [List.getElem?_cons_succ]
      exact hx

theorem Linked_drop {L : List TransformSymType} (h : Linked L) :
    ∀ (k : Nat) (b : TransformSymType) (B : List TransformSymType),
      L.drop k = b :: B → Linked (b :: B) := by
  induction L with
  | nil => exact absurd h (by simp [Linked])
  | cons e S ih =>
    intro k b B hd
    cases k with
    | zero =>
      simp only [List.drop_zero, List.cons.injEq] at hd
      rw [← hd.1, ← hd.2]
      exact h
    | succ j =>
      simp only [List.drop_succ_cons] at hd
      cases S with
      | nil => simp at hd
      | cons f S => exact ih h.2.2 j b B hd

/-- On a stack that the parser builds, a state whose default action is a production has the
right-hand side of the production above an entry of a state where the left-hand side can
begin. -/
theorem Linked_reduce {e : TransformSymType} {S : List TransformSymType}
    (h : Linked (e :: S)) (hd : 0 < idx TransformDef e.yys) :
    ∃ b B, (e :: S).drop (idx TransformR2 (idx TransformDef e.yys)).toNat = b :: B ∧
      b.yys ∈ startsOfNum (idx TransformR1 (idx TransformDef e.yys)) := by
  obtain ⟨_, _, f3, f4⟩ := fact_reduce_depth e.yys (Linked_top_mem h) hd
  generalize (idx TransformR2 (idx TransformDef e.yys)).toNat = k at f3 f4
  by_cases hk : k < (e :: S).length
  · refine ⟨(e :: S)[k], (e :: S).drop (k + 1), (List.drop_eq_getElem_cons hk), ?_⟩
    exact f4 _ (Linked_predsN h k _ (List.getElem?_eq_getElem hk))
  · obtain ⟨x, hx, h0⟩ := Linked_bottom h
    have := Linked_predsN h _ x hx
    rw [h0] at this
    exact absurd this (f3 _ (List.mem_range.mpr (by
      have : 0 < (e :: S).length := by simp
      omega)))

/-! ## One pass on a described state -/

theorem loop_stepN_add (gcf : CustomFunctions) {n : Nat} :
    ∀ {st st1 : TransformParserState} {m : Nat} {r : Int × TransformLex},
      stepN gcf n st = some st1 → TransformParseLoop gcf m st1 = some r →
      TransformParseLoop gcf (n + m) st = some r := by
  induction n with
  | zero =>
    intro st st1 m r h1 h2
    simp only [stepN] at h1
    cases h1
    simpa using h2
  | succ k ih =>
    intro st st1 m r h1 h2
    simp only [stepN] at h1
    rw [Nat.succ_add]
    simp only [TransformParseLoop]
    cases hx : Transformnewstate gcf st with
    | ret code lex => rw [hx] at h1; cases h1
    | fault => rw [hx] at h1; cases h1
    | newstate st2 =>
      rw [hx] at h1
      exact ih h1 h2

/-- A pass that returns on the described state returns the same on the parser state. -/
theorem cfgStep_ret (gcf : CustomFunctions) {st : TransformParserState} {c : Cfg}
    {code : Int} {err : String} {out : TransformFunc} (ha : Abs st c)
    (h : cfgStep gcf c = CfgOutcome.ret code err out) :
    ∃ lex, Transformnewstate gcf st = TransformOutcome.ret code lex ∧
      lex.errorString = err ∧ lex.output = out := by
  unfold cfgStep at h
  cases hs : c.stack with
  | nil => rw [hs] at h; cases h
  | cons e S =>
    rw [hs] at h
    dsimp only at h
    cases hv : validShift e.yys (lookahead c.toks) with
    | some s1 =>
      rw [hv] at h
      dsimp only at h
      cases ht : c.toks with
      | nil => rw [ht] at h; cases h
      | cons t ts => rw [ht] at h; cases h
    | none =>
      rw [hv] at h
      dsimp only at h
      by_cases h1 : acceptAction e.yys (lookahead c.toks) = true
      · rw [if_pos h1] at h
        cases h
        exact newstate_accept gcf ha hs h1
      · rw [if_neg h1] at h
        by_cases h2 : errorAction e.yys (lookahead c.toks) = true
        · rw [if_pos h2] at h
          cases h
          exact newstate_error gcf ha hs h2
        · rw [if_neg h2] at h
          cases hp : defaultReduce e.yys (lookahead c.toks) with
          | none => rw [hp] at h; cases h
          | some p =>
            rw [hp] at h
            dsimp only at h
            unfold cfgReduce at h
            split at h <;> cases h

/-- A pass that does not return on the described state leads the parser to a state that
the outcome describes. -/
theorem cfgStep_next (gcf : CustomFunctions) {c c1 : Cfg}
    (h : cfgStep gcf c = CfgOutcome.next c1) : Reach gcf c c1 := by
  unfold cfgStep at h
  obtain ⟨stack, toks, err, out⟩ := c
  dsimp only at h
  cases stack with
  | nil => cases h
  | cons e S =>
    dsimp only at h
    cases hv : validShift e.yys (lookahead toks) with
    | some s1 =>
      rw [hv] at h
      dsimp only at h
      cases toks with
      | nil => cases h
      | cons t ts =>
        dsimp only at h
        cases h
        exact Reach_shift gcf hv
    | none =>
      rw [hv] at h
      dsimp only at h
      by_cases h1 : acceptAction e.yys (lookahead toks) = true
      · rw [if_pos h1] at h
        cases h
      · rw [if_neg h1] at h
        by_cases h2 : errorAction e.yys (lookahead toks) = true
        · rw [if_pos h2] at h
          cases h
        · rw [if_neg h2] at h
          cases hp : defaultReduce e.yys (lookahead toks) with
          | none => rw [hp] at h; cases h
          | some p =>
            rw [hp] at h
            dsimp only at h
            unfold cfgReduce at h
            dsimp only at h
            cases hd : List.drop (idx TransformR2 p).toNat (e :: S) with
            | nil => rw [hd] at h; cases h
            | cons b B =>
              rw [hd] at h
              dsimp only at h
              cases h
              have h0 : idx TransformR2 p = ((idx TransformR2 p).toNat : Int) :=
                (Int.toNat_of_nonneg (fact_R2_nonneg _ (idx_mem TransformR2 p))).symm
              exact Reach_reduce gcf (e :: S) toks err out p (idx TransformR1 p)
                (idx TransformR2 p).toNat rfl hp h0 rfl hd

/-- The run on the described state is a run of the parser. -/
theorem cfgRun_sound (gcf : CustomFunctions) (fuel : Nat) :
    ∀ (c : Cfg) (code : Int) (err : String) (out : TransformFunc),
      cfgRun gcf fuel c = some (code, err, out) → ∀ st, Abs st c →
      ∃ n lex, TransformParseLoop gcf n st = some (code, lex) ∧ lex.errorString = err ∧
        lex.output = out := by
  induction fuel with
  | zero =>
    intro c code err out h
    simp [cfgRun] at h
  | succ k ih =>
    intro c code err out h st ha
    simp only [cfgRun] at h
    cases hx : cfgStep gcf c with
    | fault => rw [hx] at h; cases h
    | ret code1 err1 out1 =>
      rw [hx] at h
      cases h
      obtain ⟨lex, h1, h2, h3⟩ := cfgStep_ret gcf ha hx
      exact ⟨1, lex, by simp [TransformParseLoop, h1], h2, h3⟩
    | next c1 =>
      rw [hx] at h
      obtain ⟨n1, st1, hn, ha1⟩ := cfgStep_next gcf hx st ha
      obtain ⟨n, lex, h1, h2, h3⟩ := ih c1 code err out h st1 ha1
      exact ⟨n1 + n, lex, loop_stepN_add gcf hn h1, h2, h3⟩

theorem cfgRun_mono (gcf : CustomFunctions) {n : Nat} :
    ∀ {c : Cfg} {r : Int × String × TransformFunc}, cfgRun gcf n c = some r →
      ∀ k, cfgRun gcf (n + k) c = some r := by
  induction n with
  | zero =>
    intro c r h
    simp [cfgRun] at h
  | succ m ih =>
    intro c r h k
    rw [Nat.succ_add]
    simp only [cfgRun] at h ⊢
    cases hx : cfgStep gcf c with
    | fault => rw [hx] at h; cases h
    | ret code err out => rw [hx] at h; exact h
    | next c1 =>
      rw [hx] at h
      exact ih h k

theorem ntRank_le (i : Nat) : ntRank.getD i 0 ≤ 11 := by
  by_cases h : i < 15
  · interval_cases i <;> decide
  · rw [List.getD_eq_default _ _ (by simp [ntRank]; omega)]
    omega

theorem stateRank_le (s : Int) : stateRank s ≤ 11 := by
  unfold stateRank
  split
  · exact ntRank_le _
  · omega

/-- On a stack that the parser builds every pass is a shift, a reduction or a return; the
stack after it is again one that the parser builds, and the bound on the passes to come has
gone down. -/
theorem cfgStep_linked (gcf : CustomFunctions) {c : Cfg} (h : Linked c.stack) :
    cfgStep gcf c ≠ CfgOutcome.fault ∧
    ∀ c1, cfgStep gcf c = CfgOutcome.next c1 → Linked c1.stack ∧ c1.measure < c.measure := by
  obtain ⟨stack, toks, err, out⟩ := c
  dsimp only at h
  cases stack with
  | nil => exact absurd h (by simp [Linked])
  | cons e S =>
    have he := Linked_top_mem h
    unfold cfgStep
    dsimp only
    cases hv : validShift e.yys (lookahead toks) with
    | some s1 =>
      dsimp only
      cases toks with
      | nil =>
        have := fact_no_shift_of_end e.yys he
        simp only [lookahead] at hv
        rw [this] at hv
        cases hv
      | cons t ts =>
        dsimp only
        refine ⟨fun e => (nomatch e), fun c1 e1 => ?_⟩
        cases e1
        have f := fact_shift_links e.yys he (lex1Code t.code) (lex1Code_mem _)
        simp only [lookahead] at hv
        rw [hv] at f
        simp only [Option.all_some, decide_eq_true_eq] at f
        refine ⟨⟨f.1, f.2, h⟩, ?_⟩
        have r1 := stateRank_le s1
        have r0 := stateRank_le e.yys
        simp only [Cfg.measure, List.length_cons, List.headD_cons, shiftEntry]
        omega
    | none =>
      dsimp only
      by_cases h1 : acceptAction e.yys (lookahead toks) = true
      · rw [if_pos h1]
        exact ⟨fun e => (nomatch e), fun c1 e1 => (nomatch e1)⟩
      · rw [if_neg h1]
        by_cases h2 : errorAction e.yys (lookahead toks) = true
        · rw [if_pos h2]
          exact ⟨fun e => (nomatch e), fun c1 e1 => (nomatch e1)⟩
        · rw [if_neg h2]
          rcases fact_some_action e.yys he _ (lookahead_mem toks) hv with f | f | f
          · exact absurd f h1
          · exact absurd f h2
          · obtain ⟨p, hp⟩ := Option.isSome_iff_exists.mp f
            rw [hp]
            dsimp only
            obtain ⟨_, hdef, hpos⟩ := defaultReduce_some hp
            rw [← hdef] at hpos
            obtain ⟨b, B, hd, hb⟩ := Linked_reduce h hpos
            obtain ⟨g1, g2, _, _⟩ := fact_reduce_depth e.yys he hpos
            rw [hdef] at hd hb g1 g2
            unfold cfgReduce
            dsimp only
            rw [hd]
            dsimp only
            refine ⟨fun e => (nomatch e), fun c1 e1 => ?_⟩
            cases e1
            have hB := Linked_drop h _ b B hd
            have f := fact_goto_links _ g1 _ hb
            refine ⟨⟨f.1, f.2, hB⟩, ?_⟩
            have hlen := congrArg List.length hd
            simp only [List.length_drop, List.length_cons] at hlen
            have r1 := stateRank_le (gotoState b.yys (idx TransformR1 p))
            have r0 := stateRank_le e.yys
            simp only [Cfg.measure, List.length_cons, List.headD_cons]
            by_cases hk : idx TransformR2 p = 1
            · have fr := fact_unit_rank e.yys he hpos (by rw [hdef]; exact hk) b.yys
                (Linked_top_mem hB)
              rw [hdef] at fr
              rw [hk] at hlen
              simp only [Int.toNat_one] at hlen
              omega
            · have : 2 ≤ (idx TransformR2 p).toNat := by omega
              omega

/-- On a stack that the parser builds the run returns. -/
theorem cfgRun_total (gcf : CustomFunctions) (n : Nat) :
    ∀ c : Cfg, c.measure = n → Linked c.stack → ∃ fuel r, cfgRun gcf fuel c = some r := by
  induction n using Nat.strong_induction_on with
  | _ n ih =>
    intro c hn h
    obtain ⟨h1, h2⟩ := cfgStep_linked gcf h
    cases hx : cfgStep gcf c with
    | fault => exact absurd hx h1
    | ret code err out => exact ⟨1, (code, err, out), by simp [cfgRun, hx]⟩
    | next c1 =>
      obtain ⟨hl, hm⟩ := h2 c1 hx
      obtain ⟨fuel, r, hr⟩ := ih c1.measure (by omega) c1 rfl hl
      exact ⟨fuel + 1, r, by simp [cfgRun, hx, hr]⟩

/-! ## Every input has a token stream, and the parser returns on it -/

theorem skipBlanks_bounds (rest : List Char) :
    ∀ (c : Char) (position : Int),
      position ≤ (TransformLex.skipBlanks rest c position).2 ∧
      (TransformLex.skipBlanks rest c position).2 ≤ position + rest.length ∧
      ((TransformLex.skipBlanks rest c position).1 = false → (c = ' ' ∨ c = tabChar) →
        position + 1 ≤ (TransformLex.skipBlanks rest c position).2) := by
  induction rest with
  | nil =>
    intro c position
    rw [TransformLex.skipBlanks.eq_def]
    dsimp only
    split <;> simp_all
  | cons d rest ih =>
    intro c position
    rw [TransformLex.skipBlanks.eq_def]
    dsimp only
    by_cases hc : c = ' ' ∨ c = tabChar
    · rw [if_pos hc]
      obtain ⟨h1, h2, _⟩ := ih d (position + 1)
      simp only [List.length_cons, Nat.cast_add, Nat.cast_one]
      exact ⟨by omega, by omega, fun _ _ => h1⟩
    · rw [if_neg hc]
      simp only [List.length_cons, Nat.cast_add, Nat.cast_one]
      exact ⟨le_refl _, by omega, fun _ h => absurd h hc⟩

/-- A call of `Lex` that delivers a token moves the cursor forward, and it began before the
end of the input. -/
theorem lexAt_progress (input : String) (position : Int) (h0 : 0 ≤ position)
    (h : 0 < (lexAt input position).1) :
    position < (lexAt input position).2.2 ∧ position < input.data.length := by
  unfold lexAt at h ⊢
  dsimp only at h ⊢
  unfold TransformLex.Next at h ⊢
  dsimp only at h ⊢
  obtain ⟨b1, b2, b3⟩ := skipBlanks_bounds (input.data.drop position.toNat) ' ' position
  revert h b1 b2 b3
  generalize TransformLex.skipBlanks (input.data.drop position.toNat) ' ' position = r
  obtain ⟨b, p⟩ := r
  intro h b1 b2 b3
  have e1 : (lexSwitch eofString).1 = 0 := by decide
  have e2 : (lexSwitch errorString).1 = 0 := by decide
  dsimp only at h b1 b2 b3 ⊢
  cases b with
  | true =>
    dsimp only at h
    rw [e1] at h
    exact absurd h (by decide)
  | false =>
    dsimp only at h ⊢
    have b4 := b3 rfl (Or.inl rfl)
    simp only [List.length_drop] at b2
    by_cases ht : tokenizerFindString (input.data.drop (p - 1).toNat) = []
    · rw [if_pos ht] at h
      dsimp only at h
      rw [e2] at h
      exact absurd h (by decide)
    · rw [if_neg ht]
      dsimp only
      have hl : 0 < (tokenizerFindString (input.data.drop (p - 1).toNat)).length :=
        List.length_pos.mpr ht
      constructor
      · omega
      · omega

/-- Every input is a sequence of tokens: the calls of `Lex` deliver finitely many before the
call that returns 0. -/
theorem tokens_exist (input : String) (m : Nat) :
    ∀ position : Int, 0 ≤ position → input.data.length - position.toNat = m →
      ∃ ts, lexesAs input position ts = true := by
  induction m using Nat.strong_induction_on with
  | _ m ih =>
    intro position h0 hm
    by_cases hc : (lexAt input position).1 ≤ 0
    · exact ⟨[], by simp [lexesAs, hc]⟩
    · obtain ⟨h1, h2⟩ := lexAt_progress input position h0 (by omega)
      obtain ⟨ts, hts⟩ := ih (input.data.length - (lexAt input position).2.2.toNat)
        (by omega) (lexAt input position).2.2 (by omega) rfl
      refine ⟨Token.mk (lexAt input position).1 (lexAt input position).2.1 :: ts, ?_⟩
      simp only [lexesAs, Bool.and_eq_true, decide_eq_true_eq]
      exact ⟨⟨trivial, by omega, trivial⟩, hts⟩

/-- The function `ParseTransform` returns on every input: the parser neither loops nor
panics. -/
theorem ParseTransform_total (gcf : CustomFunctions) (input : String) :
    ∃ r, ParsesTo gcf input r := by
  obtain ⟨ts, hl⟩ := tokens_exist input _ 0 (le_refl _) rfl
  have ha := Abs_init hl
  have hL : Linked (Cfg.mk [TransformSymType.zero] ts "" TransformFunc.nil).stack := rfl
  obtain ⟨fuel, ⟨code, err, out⟩, hr⟩ := cfgRun_total gcf _ _ rfl hL
  obtain ⟨n, lex, h1, _, _⟩ := cfgRun_sound gcf fuel _ code err out hr _ ha
  exact ⟨_, n, ParseTransform_of_ret gcf h1⟩

/-! ## Errors of the lookup -/

/-- When the messages of the errors of `getCustomFunction` are not empty and a pass of the
parse of `input` runs a semantic action whose call of `getCustomFunction` returns an error
(the actions of the call productions, 38 and 39), `ParseTransform` returns on `input` and
the error it returns is not nil. -/
theorem reached_lookup_error_is_returned (gcf : CustomFunctions) (input : String) (n : Nat)
    (hmsg : ∀ name args msg, (gcf name args).2 = some msg → msg ≠ "")
    (hcall : failingCallAt gcf input n = true) :
    ∃ f msg, ParsesTo gcf input (f, some msg) := by
  obtain ⟨⟨f, e⟩, fuel, hr⟩ := ParseTransform_total gcf input
  have hne := failing_call_is_returned gcf hmsg input n fuel _ hcall hr
  cases e with
  | none => exact absurd rfl hne
  | some msg => exact ⟨f, msg, fuel, hr⟩

/-! ## The lexeme is a prefix of the text at the cursor -/

theorem drop_takeWhile_length {α : Type} (p : α → Bool) (l : List α) :
    l.drop (l.takeWhile p).length = l.dropWhile p := by
  have e := List.drop_left (l.takeWhile p) (l.dropWhile p)
  rw [List.takeWhile_append_dropWhile] at e
  exact e

/-- What the tokenizer returns: nothing, a literal of one of the classes of literals, or a
match of the class of numbers, of strings or of identifiers. -/
theorem tokenizerFindString_cases (rest : List Char) :
    tokenizerFindString rest = [] ∨
    (∃ w ∈ builtins ++ logicals ++ compops ++ pipes ++ syms ++ maths,
      tokenizerFindString rest = w.data ∧ w.data.isPrefixOf rest = true) ∨
    matchNumbers rest = some (tokenizerFindString rest) ∨
    matchStringr rest = some (tokenizerFindString rest) ∨
    matchIdents rest = some (tokenizerFindString rest) := by
  obtain ⟨tok, htok⟩ : ∃ tok, tok = tokenizerFindString rest := ⟨_, rfl⟩
  rw [← htok]
  unfold tokenizerFindString at htok
  have lit : ∀ (lits : List String), (∀ w ∈ lits, w ∈ builtins ++ logicals ++ compops ++
      pipes ++ syms ++ maths) → matchLiterals lits rest = some tok →
      ∃ w ∈ builtins ++ logicals ++ compops ++ pipes ++ syms ++ maths,
        tok = w.data ∧ w.data.isPrefixOf rest = true := by
    intro lits hl h
    obtain ⟨w, hw, e, hp⟩ := matchLiterals_some h
    exact ⟨w, hl w hw, e, hp⟩
  cases hx : ((matchLiterals builtins rest).orElse fun _ =>
     (matchLiterals logicals rest).orElse fun _ =>
     (matchNumbers rest).orElse fun _ =>
     (matchLiterals compops rest).orElse fun _ =>
     (matchStringr rest).orElse fun _ =>
     (matchLiterals pipes rest).orElse fun _ =>
     (matchLiterals syms rest).orElse fun _ =>
     (matchIdents rest).orElse fun _ =>
     matchLiterals maths rest) with
  | none =>
    rw [hx] at htok
    exact Or.inl htok
  | some y =>
    rw [hx] at htok
    simp only [Option.getD_some] at htok
    subst htok
    right
    rcases orElse_cases hx with h | ⟨_, hx⟩
    · exact Or.inl (lit _ (fun w hw => by simp [hw]) h)
    rcases orElse_cases hx with h | ⟨_, hx⟩
    · exact Or.inl (lit _ (fun w hw => by simp [hw]) h)
    rcases orElse_cases hx with h | ⟨_, hx⟩
    · exact Or.inr (Or.inl h)
    rcases orElse_cases hx with h | ⟨_, hx⟩
    · exact Or.inl (lit _ (fun w hw => by simp [hw]) h)
    rcases orElse_cases hx with h | ⟨_, hx⟩
    · exact Or.inr (Or.inr (Or.inl h))
    rcases orElse_cases hx with h | ⟨_, hx⟩
    · exact Or.inl (lit _ (fun w hw => by simp [hw]) h)
    rcases orElse_cases hx with h | ⟨_, hx⟩
    · exact Or.inl (lit _ (fun w hw => by simp [hw]) h)
    rcases orElse_cases hx with h | ⟨_, hx⟩
    · exact Or.inr (Or.inr (Or.inr h))
    · exact Or.inl (lit _ (fun w hw => by simp [hw]) hx)

/-- The digits and the fraction of a number, read from `r`: a prefix of `r`. -/
theorem digits_prefix (r : List Char) (c : Char) (r3 : List Char)
    (h : r.drop (r.takeWhile isDigit).length = c :: r3) :
    (r.takeWhile isDigit ++ c :: r3.takeWhile isDigit) <+: r ∧
    r.takeWhile isDigit <+: r := by
  rw [drop_takeWhile_length] at h
  have e := List.takeWhile_append_dropWhile isDigit r
  rw [h] at e
  constructor
  · refine ⟨r3.dropWhile isDigit, ?_⟩
    conv_rhs => rw [← e]
    rw [List.append_assoc, List.cons_append, List.takeWhile_append_dropWhile]
  · exact List.takeWhile_prefix _

theorem matchNumbers_prefix {rest r : List Char} (h : matchNumbers rest = some r) :
    r <+: rest := by
  unfold matchNumbers at h
  cases rest with
  | nil => simp at h
  | cons c t =>
    by_cases hc : c = Char.ofNat 45
    · subst hc
      simp only [if_true, List.length_singleton, List.drop_succ_cons, List.drop_zero] at h
      split_ifs at h with h1
      split at h
      · rename_i c1 r3 hd
        obtain ⟨p1, p2⟩ := digits_prefix t c1 r3 hd
        split_ifs at h <;> cases h
        · rw [List.append_assoc, List.singleton_append]
          exact (List.prefix_cons_inj _).mpr p1
        · rw [List.singleton_append]
          exact (List.prefix_cons_inj _).mpr p2
      · cases h
        rw [List.singleton_append]
        exact (List.prefix_cons_inj _).mpr ( List.takeWhile_prefix _)
    · simp only [hc, if_false, List.length_nil, List.drop_zero, List.nil_append] at h
      split_ifs at h with h1
      split at h
      · rename_i c1 r3 hd
        obtain ⟨p1, p2⟩ := digits_prefix (c :: t) c1 r3 hd
        split_ifs at h <;> cases h
        · exact p1
        · exact p2
      · cases h
        exact List.takeWhile_prefix _

theorem matchStringr_prefix {rest r : List Char} (h : matchStringr rest = some r) :
    r <+: rest := by
  unfold matchStringr at h
  split at h
  · rename_i q c0 r1
    split_ifs at h with h1
    dsimp only at h
    split at h
    · rename_i c r2 hd
      split_ifs at h with h2
      cases h
      rw [drop_takeWhile_length] at hd
      have e := List.takeWhile_append_dropWhile (fun c => decide (c ≠ dquote ∧ c ≠ newline)) r1
      rw [hd] at e
      refine ⟨r2, ?_⟩
      simp only [List.cons_append, List.append_assoc, List.singleton_append,
        List.nil_append]
      rw [e]
    · cases h
  · cases h

theorem matchIdents_prefix {rest r : List Char} (h : matchIdents rest = some r) :
    r <+: rest := by
  unfold matchIdents at h
  cases rest with
  | nil => simp at h
  | cons c t =>
    simp only at h
    split_ifs at h with h1
    cases h
    exact (List.prefix_cons_inj _).mpr ( List.takeWhile_prefix _)

/-- The lexeme returned by the tokenizer is a prefix of the text it is given. -/
theorem tokenizerFindString_prefix (rest : List Char) : tokenizerFindString rest <+: rest := by
  rcases tokenizerFindString_cases rest with h | ⟨w, _, e, hp⟩ | h | h | h
  · rw [h]
    exact List.nil_prefix
  · rw [e]
    exact List.isPrefixOf_iff_prefix.mp hp
  · exact matchNumbers_prefix h
  · exact matchStringr_prefix h
  · exact matchIdents_prefix h

/-! ## C22 -/

/-- The checked loop neither panics nor runs out of passes, and it does what the loop of
`Next` does, when the cursor is within the input. -/
theorem skipBlanksChecked_eq (input : List Char) :
    ∀ (fuel : Nat) (c : Char) (position : Int), 0 ≤ position → position ≤ input.length →
      input.length - position.toNat < fuel →
      TransformLex.skipBlanksChecked input fuel c position =
        some (TransformLex.skipBlanks (input.drop position.toNat) c position) := by
  intro fuel
  induction fuel with
  | zero =>
    intro c position _ _ hf
    exact absurd hf (Nat.not_lt_zero _)
  | succ fuel ih =>
    intro c position h0 h1 hf
    rw [TransformLex.skipBlanksChecked, TransformLex.skipBlanks.eq_def]
    dsimp only
    by_cases hc : c = ' ' ∨ c = tabChar
    · rw [if_pos hc, if_pos hc]
      by_cases he : position ≥ input.length
      · rw [if_pos he]
        have e : input.drop position.toNat = [] := List.drop_eq_nil_of_le (by omega)
        rw [e]
      · rw [if_neg he, if_pos h0]
        have hlt : position.toNat < input.length := by omega
        rw [List.getElem?_eq_getElem hlt, List.drop_eq_getElem_cons hlt]
        dsimp only
        have e : (position + 1).toNat = position.toNat + 1 := by omega
        rw [ih _ (position + 1) (by omega) (by omega) (by omega), e]
    · rw [if_neg hc, if_neg hc]

/-- One call of `Next` with the cursor within the input: no index or slice is out of bounds,
the cursor does not go back and stays within the input, and the call returns `<EOF>` or
`<ERROR>` or moves the cursor by one character at least. -/
theorem Next_bounds (l : TransformLex) (h0 : 0 ≤ l.position)
    (h1 : l.position ≤ l.input.data.length) :
    l.Next.2.input = l.input ∧ l.position ≤ l.Next.2.position ∧
    l.Next.2.position ≤ l.input.data.length ∧
    l.NextChecked = some l.Next ∧
    (l.Next.1 = eofString ∨ l.Next.1 = errorString ∨ l.position + 1 ≤ l.Next.2.position) := by
  unfold TransformLex.NextChecked TransformLex.Next
  rw [skipBlanksChecked_eq l.input.data _ ' ' l.position h0 h1 (by omega)]
  obtain ⟨b1, b2, b3⟩ := skipBlanks_bounds (l.input.data.drop l.position.toNat) ' ' l.position
  revert b1 b2 b3
  generalize TransformLex.skipBlanks (l.input.data.drop l.position.toNat) ' ' l.position = r
  obtain ⟨b, p⟩ := r
  intro b1 b2 b3
  dsimp only at b1 b2 b3 ⊢
  simp only [List.length_drop] at b2
  cases b with
  | true =>
    dsimp only
    exact ⟨rfl, b1, by omega, rfl, Or.inl rfl⟩
  | false =>
    dsimp only
    have b4 := b3 rfl (Or.inl rfl)
    have hp := ( tokenizerFindString_prefix (l.input.data.drop (p - 1).toNat)).length_le
    simp only [List.length_drop] at hp
    rw [if_pos (⟨by omega, by omega⟩ : 0 ≤ p - 1 ∧ p - 1 ≤ (l.input.data.length : Int))]
    by_cases ht : tokenizerFindString (l.input.data.drop (p - 1).toNat) = []
    · rw [if_pos ht, if_pos ht]
      dsimp only
      exact ⟨rfl, by omega, by omega, rfl, Or.inr (Or.inl rfl)⟩
    · rw [if_neg ht, if_neg ht]
      dsimp only
      have hl : 0 < (tokenizerFindString (l.input.data.drop (p - 1).toNat)).length :=
        List.length_pos.mpr ht
      exact ⟨rfl, by omega, by omega, rfl, Or.inr (Or.inr (by omega))⟩

/-- The cursor after any number of calls of `Next` from the start of the input. -/
theorem afterCalls_bounds (input : String) (n : Nat) :
    ∀ l : TransformLex, l.input = input → 0 ≤ l.position →
      l.position ≤ input.data.length →
      (TransformLex.afterCalls n l).input = input ∧
      0 ≤ (TransformLex.afterCalls n l).position ∧
      (TransformLex.afterCalls n l).position ≤ input.data.length := by
  induction n with
  | zero =>
    intro l hi h0 h1
    exact ⟨hi, h0, h1⟩
  | succ n ih =>
    intro l hi h0 h1
    rw [← hi] at h1
    obtain ⟨a1, a2, a3, _, _⟩ := Next_bounds l h0 h1
    rw [TransformLex.afterCalls]
    exact ih _ (a1.trans hi) (by omega) (by rw [← hi]; exact a3)

/-- C22: after any number `n` of calls of `Next` from position 0 of any input, the cursor
is between 0 and the length of the input; the next call evaluates no index or slice out of
bounds (the checked `Next` returns what `Next` returns); and that call returns `<EOF>` or
`<ERROR>`, or it moves the cursor forward by one character at least. -/
theorem C22_cursor_stays_within_the_input (input : String) (err : String)
    (out : TransformFunc) (n : Nat) :
    0 ≤ (TransformLex.afterCalls n (TransformLex.mk input 0 err out)).position ∧
    (TransformLex.afterCalls n (TransformLex.mk input 0 err out)).position ≤
      input.data.length ∧
    (TransformLex.afterCalls n (TransformLex.mk input 0 err out)).NextChecked =
      some (TransformLex.afterCalls n (TransformLex.mk input 0 err out)).Next ∧
    ((TransformLex.afterCalls n (TransformLex.mk input 0 err out)).Next.1 = eofString ∨
     (TransformLex.afterCalls n (TransformLex.mk input 0 err out)).Next.1 = errorString ∨
     (TransformLex.afterCalls n (TransformLex.mk input 0 err out)).position + 1 ≤
       (TransformLex.afterCalls n (TransformLex.mk input 0 err out)).Next.2.position) := by
  obtain ⟨a1, a2, a3⟩ := afterCalls_bounds input n (TransformLex.mk input 0 err out) rfl
    (le_refl _) (Int.ofNat_nonneg _)
  have a4 : (TransformLex.afterCalls n (TransformLex.mk input 0 err out)).position ≤
      (TransformLex.afterCalls n (TransformLex.mk input 0 err out)).input.data.length := by
    rw [a1]
    exact a3
  obtain ⟨_, _, _, b4, b5⟩ := Next_bounds _ a2 a4
  exact ⟨a2, a3, b4, b5⟩

/-! ## The class of numbers -/

theorem takeWhile_digits_append (ds tail : List Char) (hd : ∀ c ∈ ds, isDigit c = true)
    (ht : ∀ c ∈ tail.head?, isDigit c = false) :
    (ds ++ tail).takeWhile isDigit = ds := by
  rw [List.takeWhile_append_of_pos hd]
  cases tail with
  | nil => simp
  | cons c t =>
    have h := ht c (by simp)
    simp [List.takeWhile, h]

/-- A text that is read as a number: a sign or none, digits, a fraction or none, and a rest
that does not go on with a digit or a dot. -/
theorem matchNumbers_of_shape (sign ds frac tail : List Char)
    (hs : sign = [] ∨ sign = [Char.ofNat 45]) (hne : ds ≠ [])
    (hd : ∀ c ∈ ds, isDigit c = true)
    (hf : frac = [] ∨ ∃ fs, frac = Char.ofNat 46 :: fs ∧ fs ≠ [] ∧ ∀ c ∈ fs, isDigit c = true)
    (ht : ∀ c ∈ tail.head?, isDigit c = false ∧ c ≠ Char.ofNat 46) :
    matchNumbers (sign ++ ds ++ frac ++ tail) = some (sign ++ ds ++ frac) := by
  have hdot : isDigit (Char.ofNat 46) = false := by decide
  have hminus : isDigit (Char.ofNat 45) = false := by decide
  have ht1 : ∀ c ∈ tail.head?, isDigit c = false := fun c hc => (ht c hc).1
  have f1 : (ds ++ (frac ++ tail)).takeWhile isDigit = ds := by
    apply takeWhile_digits_append ds _ hd
    rcases hf with rfl | ⟨fs, rfl, _, _⟩
    · simpa using ht1
    · intro c hc
      simp only [List.cons_append, List.head?_cons, Option.mem_def, Option.some.injEq] at hc
      rw [← hc]
      exact hdot
  have f2 : (ds ++ (frac ++ tail)).drop ds.length = frac ++ tail := List.drop_left _ _
  obtain ⟨d0, ds1, rfl⟩ := List.exists_cons_of_ne_nil hne
  have hd0 : d0 ≠ Char.ofNat 45 := by
    intro e
    have := hd d0 (List.mem_cons_self _ _)
    rw [e, hminus] at this
    cases this
  have body : (if (d0 :: ds1) = [] then none
      else
        match frac ++ tail with
        | c :: r3 =>
          if c = Char.ofNat 46 ∧ r3.takeWhile isDigit ≠ [] then
            some (sign ++ (d0 :: ds1) ++ c :: r3.takeWhile isDigit)
          else some (sign ++ (d0 :: ds1))
        | [] => some (sign ++ (d0 :: ds1))) = some (sign ++ (d0 :: ds1) ++ frac) := by
    rw [if_neg (List.cons_ne_nil _ _)]
    rcases hf with rfl | ⟨fs, rfl, hfs, hfd⟩
    · cases tail with
      | nil => simp
      | cons c t =>
        have h := (ht c (by simp)).2
        simp [h]
    · have f3 : (fs ++ tail).takeWhile isDigit = fs := takeWhile_digits_append fs tail hfd ht1
      simp only [List.cons_append, f3]
      rw [if_pos ⟨trivial, hfs⟩]
  rw [List.append_assoc, List.append_assoc]
  rcases hs with rfl | rfl
  · unfold matchNumbers
    simp only [List.nil_append, List.cons_append, if_neg hd0, List.length_nil,
      List.drop_zero]
    rw [← List.cons_append, f1, f2]
    exact body
  · unfold matchNumbers
    simp only [List.singleton_append, if_true, List.length_singleton, List.drop_succ_cons,
      List.drop_zero]
    rw [f1, f2]
    exact body

/-- The shape of a match of the class of numbers. -/
theorem matchNumbers_shape {rest tok : List Char} (h : matchNumbers rest = some tok) :
    ∃ sign ds frac, tok = sign ++ ds ++ frac ∧ (sign = [] ∨ sign = [Char.ofNat 45]) ∧
      ds ≠ [] ∧ (∀ c ∈ ds, isDigit c = true) ∧
      (frac = [] ∨ ∃ fs, frac = Char.ofNat 46 :: fs ∧ fs ≠ [] ∧
        ∀ c ∈ fs, isDigit c = true) ∧
      sign <+: rest := by
  have hall : ∀ l : List Char, ∀ c ∈ l.takeWhile isDigit, isDigit c = true :=
    fun l c hc => List.mem_takeWhile_imp hc
  unfold matchNumbers at h
  cases rest with
  | nil => simp at h
  | cons c t =>
    by_cases hc : c = Char.ofNat 45
    · subst hc
      simp only [if_true, List.length_singleton, List.drop_succ_cons, List.drop_zero] at h
      split_ifs at h with h1
      split at h
      · rename_i c1 r3 hdr
        split_ifs at h with h2 <;> cases h
        · exact ⟨_, _, c1 :: r3.takeWhile isDigit, by simp, Or.inr rfl, h1, hall t,
            Or.inr ⟨_, by rw [h2.1], h2.2, hall r3⟩, by simp⟩
        · exact ⟨_, _, [], by simp, Or.inr rfl, h1, hall t, Or.inl rfl, by simp⟩
      · cases h
        exact ⟨_, _, [], by simp, Or.inr rfl, h1, hall t, Or.inl rfl, by simp⟩
    · simp only [hc, if_false, List.length_nil, List.drop_zero, List.nil_append] at h
      split_ifs at h with h1
      split at h
      · rename_i c1 r3 hdr
        split_ifs at h with h2 <;> cases h
        · exact ⟨[], _, c1 :: r3.takeWhile isDigit, by simp, Or.inl rfl, h1, hall _,
            Or.inr ⟨_, by rw [h2.1], h2.2, hall r3⟩, List.nil_prefix⟩
        · exact ⟨[], _, [], by simp, Or.inl rfl, h1, hall _, Or.inl rfl, List.nil_prefix⟩
      · cases h
        exact ⟨[], _, [], by simp, Or.inl rfl, h1, hall _, Or.inl rfl, List.nil_prefix⟩

/-- A match of the class of numbers is a number as a whole: `numberRegex` matches it. -/
theorem matchNumbers_idem {rest tok : List Char} (h : matchNumbers rest = some tok) :
    numberRegexMatch tok = true := by
  obtain ⟨sign, ds, frac, rfl, hs, hne, hd, hf, _⟩ := matchNumbers_shape h
  have := matchNumbers_of_shape sign ds frac [] hs hne hd hf (by simp)
  rw [List.append_nil] at this
  unfold numberRegexMatch
  exact decide_eq_true this

/-- The literals of the `switch` of `Lex` and the two sentinels: none of them is a number. -/
theorem fact_literals_no_number :
    ∀ w ∈ [eofString, errorString, "true", "false", ")", "(", "[", "]", "$", "has", "and",
      "or", "not", ">=", "<=", ">", "<", "==", "!=", "if", "|", ":", ",", "gte", "lte", "lt",
      "gt", "eq", "ne", "set", "-", "+", "/", "*"], numberRegexMatch w.data = false := by
  decide!

/-- The `switch` of `Lex` on a lexeme that `numberRegex` matches: NUMBER. -/
theorem lexSwitch_number (token : String) (h : numberRegexMatch token.data = true) :
    lexSwitch token = (NUMBER, token) := by
  have key : ∀ w ∈ [eofString, errorString, "true", "false", ")", "(", "[", "]", "$", "has",
      "and", "or", "not", ">=", "<=", ">", "<", "==", "!=", "if", "|", ":", ",", "gte", "lte",
      "lt", "gt", "eq", "ne", "set", "-", "+", "/", "*"], token ≠ w := by
    intro w hw e
    have := fact_literals_no_number w hw
    rw [← e, h] at this
    cases this
  simp only [List.mem_cons, List.mem_singleton, List.not_mem_nil, or_false, forall_eq_or_imp,
    forall_eq] at key
  obtain ⟨k1, k2, k3, k4, k5, k6, k7, k8, k9, k10, k11, k12, k13, k14, k15, k16, k17, k18,
    k19, k20, k21, k22, k23, k24, k25, k26, k27, k28, k29, k30, k31, k32, k33, k34⟩ := key
  delta lexSwitch
  rw [if_neg k1, if_neg k2, if_neg (not_or.mpr ⟨k3, k4⟩), if_neg k5, if_neg k6, if_neg k7,
    if_neg k8, if_neg k9, if_neg k10, if_neg k11, if_neg k12, if_neg k13,
    if_neg (not_or.mpr ⟨k14, not_or.mpr ⟨k15, not_or.mpr ⟨k16, not_or.mpr ⟨k17,
      not_or.mpr ⟨k18, k19⟩⟩⟩⟩⟩),
    if_neg k20, if_neg (not_or.mpr ⟨k21, k22⟩), if_neg k23, if_neg k24, if_neg k25,
    if_neg k26, if_neg k27, if_neg k28, if_neg k29, if_neg k30, if_neg k31, if_neg k32,
    if_neg k33, if_neg k34, if_pos h]

/-! ## The lexer on text it can read -/

theorem matchLiterals_none (lits : List String) (c : Char) (t : List Char)
    (h : ∀ w ∈ lits, ∃ x xs, w.data = x :: xs ∧ x ≠ c) :
    matchLiterals lits (c :: t) = none := by
  unfold matchLiterals
  rw [Option.map_eq_none', List.find?_eq_none]
  intro w hw
  obtain ⟨x, xs, e, hx⟩ := h w hw
  rw [e]
  simp [List.isPrefixOf, hx]

theorem fact_keywords_letters : ∀ w ∈ builtins ++ logicals,
    ∃ x xs, w.data = x :: xs ∧ isDigit x = false ∧ x ≠ '-' := by
  intro w hw
  simp only [builtins, logicals, List.cons_append, List.nil_append, List.mem_cons,
    List.mem_singleton, List.not_mem_nil, or_false] at hw
  rcases hw with rfl | rfl | rfl | rfl | rfl | rfl | rfl | rfl | rfl | rfl | rfl | rfl |
    rfl | rfl <;> exact ⟨_, _, rfl, by decide, by decide⟩

/-- A text that begins with a digit or a minus sign and is read as a number by the class of
numbers: the tokenizer returns that number. -/
theorem tokenizerFindString_number (c : Char) (t tok : List Char)
    (hc : isDigit c = true ∨ c = '-') (h : matchNumbers (c :: t) = some tok) :
    tokenizerFindString (c :: t) = tok := by
  have hk : ∀ lits : List String, (∀ w ∈ lits, w ∈ builtins ++ logicals) →
      matchLiterals lits (c :: t) = none := by
    intro lits hl
    apply matchLiterals_none
    intro w hw
    obtain ⟨x, xs, e, h1, h2⟩ := fact_keywords_letters w (hl w hw)
    refine ⟨x, xs, e, ?_⟩
    rintro rfl
    rcases hc with hc | hc
    · rw [h1] at hc
      cases hc
    · exact h2 hc
  unfold tokenizerFindString
  rw [hk builtins (fun w hw => by simp [hw]), hk logicals (fun w hw => by simp [hw]), h]
  rfl

/-- The whitespace loop on a text of blanks only: it leaves through `return eofString`. -/
theorem skipBlanks_only_blanks (blanks : List Char)
    (hb : ∀ c ∈ blanks, c = ' ' ∨ c = tabChar) :
    ∀ (c : Char) (position : Int), (c = ' ' ∨ c = tabChar) →
      (TransformLex.skipBlanks blanks c position).1 = true := by
  induction blanks with
  | nil =>
    intro c position hc
    rw [TransformLex.skipBlanks.eq_def]
    dsimp only
    rw [if_pos hc]
  | cons b blanks ih =>
    intro c position hc
    rw [TransformLex.skipBlanks.eq_def]
    dsimp only
    rw [if_pos hc]
    exact ih (fun x hx => hb x (List.mem_cons_of_mem _ hx)) b (position + 1)
      (hb b (List.mem_cons_self _ _))

/-- The call of `Lex` with nothing but blanks left: it returns 0. -/
theorem lexAt_end (input : String) (p : Int) (pre blanks : List Char)
    (hin : input.data = pre ++ blanks) (hp : p = pre.length)
    (hb : ∀ c ∈ blanks, c = ' ' ∨ c = tabChar) :
    (lexAt input p).1 = 0 := by
  subst hp
  unfold lexAt
  dsimp only
  unfold TransformLex.Next
  dsimp only
  rw [Int.toNat_ofNat, hin, List.drop_left]
  have h := skipBlanks_only_blanks blanks hb ' ' (pre.length : Int) (Or.inl rfl)
  revert h
  generalize TransformLex.skipBlanks blanks ' ' (pre.length : Int) = r
  obtain ⟨b, q⟩ := r
  intro h
  dsimp only at h
  subst h
  rfl

/-- The call of `Lex` with the cursor before blanks and a text that the tokenizer reads: the
token of the lexeme, and the cursor after the lexeme. -/
theorem lexAt_token (input : String) (p : Int) (pre blanks : List Char) (d : Char)
    (rest : List Char) (hin : input.data = pre ++ (blanks ++ d :: rest))
    (hp : p = pre.length) (hb : ∀ c ∈ blanks, c = ' ' ∨ c = tabChar)
    (hd : ¬ (d = ' ' ∨ d = tabChar)) (hne : tokenizerFindString (d :: rest) ≠ []) :
    lexAt input p =
      ((lexSwitch (String.mk (tokenizerFindString (d :: rest)))).1,
       (lexSwitch (String.mk (tokenizerFindString (d :: rest)))).2,
       ((pre ++ blanks).length : Int) + (tokenizerFindString (d :: rest)).length) := by
  subst hp
  unfold lexAt
  dsimp only
  unfold TransformLex.Next
  dsimp only
  rw [Int.toNat_ofNat, hin, List.drop_left,
    skipBlanks_blanks blanks d rest hb hd ' ' _ (Or.inl rfl)]
  dsimp only
  have e : ((pre.length : Int) + (blanks.length : Int) + 1 - 1).toNat =
      pre.length + blanks.length := by omega
  rw [e, ← List.append_assoc, ← List.length_append, List.drop_left, if_neg hne]
  dsimp only
  have e2 : (pre.length : Int) + (blanks.length : Int) + 1 - 1 =
      ((pre ++ blanks).length : Int) := by
    rw [List.length_append]
    push_cast
    omega
  rw [e2]

/-- One more token of the stream: the cursor is before blanks and a text that the tokenizer
reads as a lexeme of the code `code`, and the tokens `ts` follow the lexeme. -/
theorem lexesAs_cons (input : String) (p : Int) (pre blanks : List Char) (d : Char)
    (rest : List Char) (code : Int) (ts : List Token)
    (hin : input.data = pre ++ (blanks ++ d :: rest)) (hp : p = pre.length)
    (hb : ∀ c ∈ blanks, c = ' ' ∨ c = tabChar) (hd : ¬ (d = ' ' ∨ d = tabChar))
    (hne : tokenizerFindString (d :: rest) ≠ [])
    (hcode : (lexSwitch (String.mk (tokenizerFindString (d :: rest)))).1 = code)
    (hpos : 0 < code)
    (hrest : lexesAs input
      (((pre ++ blanks).length : Int) + (tokenizerFindString (d :: rest)).length) ts = true) :
    lexesAs input p
      (Token.mk code (lexSwitch (String.mk (tokenizerFindString (d :: rest)))).2 :: ts) =
        true := by
  rw [lexesAs, lexAt_token input p pre blanks d rest hin hp hb hd hne]
  dsimp only
  rw [hrest, Bool.and_true, decide_eq_true_eq]
  exact ⟨hcode, hpos, rfl⟩

/-- The end of the stream: nothing but blanks is left. -/
theorem lexesAs_nil (input : String) (p : Int) (pre blanks : List Char)
    (hin : input.data = pre ++ blanks) (hp : p = pre.length)
    (hb : ∀ c ∈ blanks, c = ' ' ∨ c = tabChar) :
    lexesAs input p [] = true := by
  rw [lexesAs, lexAt_end input p pre blanks hin hp hb]
  rfl

theorem isDigit_not_blank {c : Char} (h : isDigit c = true) : ¬ (c = ' ' ∨ c = tabChar) := by
  rintro (e | e) <;>
  · subst e
    revert h
    decide

/-- A minus sign and a digit at the start of a text: the class of numbers matches, and its
match begins with the two. -/
theorem matchNumbers_signed (d : Char) (rest : List Char) (hd : isDigit d = true) :
    ∃ t, matchNumbers (Char.ofNat 45 :: d :: rest) = some (Char.ofNat 45 :: d :: t) := by
  unfold matchNumbers
  simp only [if_true, List.length_singleton, List.drop_succ_cons, List.drop_zero]
  have e : (d :: rest).takeWhile isDigit = d :: rest.takeWhile isDigit := by
    simp [List.takeWhile, hd]
  rw [e, if_neg (List.cons_ne_nil _ _)]
  split
  · split_ifs
    · exact ⟨_, rfl⟩
    · exact ⟨_, rfl⟩
  · exact ⟨_, rfl⟩

/-- The tokenizer on digits that are followed by no digit and no dot: the digits. -/
theorem tokenizerFindString_digits (sign ds tail : List Char)
    (hs : sign = [] ∨ sign = [Char.ofNat 45]) (hne : ds ≠ [])
    (hd : ∀ c ∈ ds, isDigit c = true)
    (ht : ∀ c ∈ tail.head?, isDigit c = false ∧ c ≠ Char.ofNat 46) :
    tokenizerFindString (sign ++ ds ++ tail) = sign ++ ds ∧
    lexSwitch (String.mk (sign ++ ds)) = (NUMBER, String.mk (sign ++ ds)) := by
  have h := matchNumbers_of_shape sign ds [] tail hs hne hd (Or.inl rfl) ht
  rw [List.append_nil] at h
  refine ⟨?_, lexSwitch_number _ (matchNumbers_idem h)⟩
  obtain ⟨d0, ds1, rfl⟩ := List.exists_cons_of_ne_nil hne
  rcases hs with rfl | rfl
  · exact tokenizerFindString_number d0 _ _ (Or.inl (hd d0 (List.mem_cons_self _ _))) h
  · exact tokenizerFindString_number (Char.ofNat 45) _ _ (Or.inr rfl) h

/-- The tokenizer on a minus sign that is followed by a blank: the sign alone. -/
theorem tokenizerFindString_minus_blank (t : List Char) :
    tokenizerFindString ('-' :: ' ' :: t) = ['-'] := by
  simp [tokenizerFindString, matchLiterals, builtins, logicals, compops, pipes, syms, maths,
    matchNumbers, matchStringr, matchIdents, List.isPrefixOf, isDigit, isIdentStart, dquote,
    Option.orElse]

/-! ## C21 -/

/-- The tokens of `a-b` for digits `a` and `b`: the number `a` and the number `-b`. -/
theorem lexesAs_digits_minus_digits (a b : List Char) (ha : a ≠ []) (hb : b ≠ [])
    (hda : ∀ c ∈ a, isDigit c = true) (hdb : ∀ c ∈ b, isDigit c = true) :
    lexesAs (String.mk (a ++ '-' :: b)) 0
      ([Token.mk NUMBER (String.mk a)] ++ Token.mk NUMBER (String.mk ('-' :: b)) :: []) =
        true := by
  obtain ⟨a0, a1, rfl⟩ := List.exists_cons_of_ne_nil ha
  obtain ⟨t1, s1⟩ := tokenizerFindString_digits [] (a0 :: a1) ('-' :: b) (Or.inl rfl) ha hda
    (by simp; decide)
  obtain ⟨t2, s2⟩ := tokenizerFindString_digits ['-'] b [] (Or.inr rfl) hb hdb (by simp)
  simp only [List.nil_append, List.append_nil, List.cons_append, List.singleton_append]
    at t1 s1 t2 s2
  have h3 : lexesAs (String.mk (a0 :: a1 ++ '-' :: b))
      ((((a0 :: a1) ++ []).length : Int) + (tokenizerFindString ('-' :: b)).length) [] =
        true :=
    lexesAs_nil _ _ (a0 :: a1 ++ '-' :: b) [] (by simp) (by rw [t2]; simp; omega) (by simp)
  have h2 := lexesAs_cons (String.mk (a0 :: a1 ++ '-' :: b))
    ((([] ++ [] : List Char).length : Int) + (tokenizerFindString (a0 :: (a1 ++ '-' :: b))).length)
    (a0 :: a1) [] '-' b NUMBER [] (by simp) (by rw [t1]; simp) (by simp) (by decide)
    (by rw [t2]; simp) (by rw [t2, s2]) (by decide) h3
  have h1 := lexesAs_cons (String.mk (a0 :: a1 ++ '-' :: b)) 0 [] [] a0 (a1 ++ '-' :: b)
    NUMBER _ (by simp) (by simp) (by simp)
    (isDigit_not_blank (hda a0 (List.mem_cons_self _ _)))
    (by rw [t1]; simp) (by rw [t1, s1]) (by decide) h2
  rw [t1, s1, t2, s2] at h1
  exact h1

/-- The tokens of `a - b` for digits `a` and `b`: the number `a`, the operator MINUS and the
number `b`. -/
theorem lexesAs_digits_blank_minus (a b : List Char) (ha : a ≠ []) (hb : b ≠ [])
    (hda : ∀ c ∈ a, isDigit c = true) (hdb : ∀ c ∈ b, isDigit c = true) :
    lexesAs (String.mk (a ++ ' ' :: '-' :: ' ' :: b)) 0
      ([Token.mk NUMBER (String.mk a)] ++ Token.mk MINUS "-" ::
        [Token.mk NUMBER (String.mk b)]) = true := by
  obtain ⟨a0, a1, rfl⟩ := List.exists_cons_of_ne_nil ha
  obtain ⟨b0, b1, rfl⟩ := List.exists_cons_of_ne_nil hb
  obtain ⟨t1, s1⟩ := tokenizerFindString_digits [] (a0 :: a1) (' ' :: '-' :: ' ' :: b0 :: b1)
    (Or.inl rfl) ha hda (by simp; decide)
  have t2 := tokenizerFindString_minus_blank (b0 :: b1)
  have s2 : lexSwitch (String.mk ['-']) = (MINUS, "-") := by decide
  obtain ⟨t3, s3⟩ := tokenizerFindString_digits [] (b0 :: b1) [] (Or.inl rfl) hb hdb (by simp)
  simp only [List.nil_append, List.append_nil, List.cons_append, List.singleton_append]
    at t1 s1 t3 s3
  have h4 : lexesAs (String.mk (a0 :: a1 ++ ' ' :: '-' :: ' ' :: b0 :: b1))
      ((((a0 :: a1 ++ [' ', '-']) ++ [' ']).length : Int) +
        (tokenizerFindString (b0 :: b1)).length) [] = true :=
    lexesAs_nil _ _ (a0 :: a1 ++ ' ' :: '-' :: ' ' :: b0 :: b1) [] (by simp)
      (by rw [t3]; simp; omega) (by simp)
  have h3 := lexesAs_cons (String.mk (a0 :: a1 ++ ' ' :: '-' :: ' ' :: b0 :: b1))
    ((((a0 :: a1) ++ [' ']).length : Int) + (tokenizerFindString ('-' :: ' ' :: b0 :: b1)).length)
    (a0 :: a1 ++ [' ', '-']) [' '] b0 b1 NUMBER [] (by simp) (by rw [t2]; simp; omega)
    (by simp) (isDigit_not_blank (hdb b0 (List.mem_cons_self _ _)))
    (by rw [t3]; simp) (by rw [t3, s3]) (by decide) h4
  have h2 := lexesAs_cons (String.mk (a0 :: a1 ++ ' ' :: '-' :: ' ' :: b0 :: b1))
    ((([] ++ [] : List Char).length : Int) +
      (tokenizerFindString (a0 :: (a1 ++ ' ' :: '-' :: ' ' :: b0 :: b1))).length)
    (a0 :: a1) [' '] '-' (' ' :: b0 :: b1) MINUS _ (by simp) (by rw [t1]; simp) (by simp)
    (by decide) (by rw [t2]; simp) (by rw [t2, s2]) (by decide) h3
  have h1 := lexesAs_cons (String.mk (a0 :: a1 ++ ' ' :: '-' :: ' ' :: b0 :: b1)) 0 [] [] a0
    (a1 ++ ' ' :: '-' :: ' ' :: b0 :: b1) NUMBER _ (by simp) (by simp) (by simp)
    (isDigit_not_blank (hda a0 (List.mem_cons_self _ _)))
    (by rw [t1]; simp) (by rw [t1, s1]) (by decide) h2
  rw [t1, s1, t2, s2, t3, s3] at h1
  exact h1

/-- C21: a minus sign that the lexer finds at its cursor (after blanks) directly before a
digit `d` is the sign of a number: `Lex` returns NUMBER, never MINUS, and the lexeme begins
with the sign and `d`, whatever stands before the cursor.  So for digits `a` and `b` the
input `a-b` is the two tokens NUMBER `a` and NUMBER `-b`, and `ParseTransform` returns the
error "syntax error" on it (with the constant `a`, the stage of the first token), while
`a - b` is the difference of the constants `a` and `b`, without an error. -/
theorem C21_minus_before_a_digit_is_a_sign (gcf : CustomFunctions)
    (pre blanks : List Char) (d : Char) (rest : List Char) (err : String)
    (out : TransformFunc) (lval : TransformSymType) (a b : List Char)
    (hbl : ∀ c ∈ blanks, c = ' ' ∨ c = tabChar) (hd : isDigit d = true)
    (ha : a ≠ []) (hb : b ≠ [])
    (hda : ∀ c ∈ a, isDigit c = true) (hdb : ∀ c ∈ b, isDigit c = true) :
    ((TransformLex.mk (String.mk (pre ++ (blanks ++ '-' :: d :: rest))) pre.length err
      out).Lex lval).1 = NUMBER ∧
    (∃ t, (TransformLex.mk (String.mk (pre ++ (blanks ++ '-' :: d :: rest))) pre.length err
      out).Next.1 = String.mk ('-' :: d :: t)) ∧
    lexesAs (String.mk (a ++ '-' :: b)) 0
      ([Token.mk NUMBER (String.mk a)] ++ Token.mk NUMBER (String.mk ('-' :: b)) :: []) =
        true ∧
    ParsesTo gcf (String.mk (a ++ '-' :: b))
      (TransformFunc.pipelineGeneratorConstantFloat (String.mk a), some "syntax error") ∧
    ParsesTo gcf (String.mk (a ++ ' ' :: '-' :: ' ' :: b))
      (TransformFunc.subtractTransformGenerator
        (TransformFunc.pipelineGeneratorConstantFloat (String.mk a))
        (TransformFunc.pipelineGeneratorConstantFloat (String.mk b)), none) := by
  obtain ⟨t, ht⟩ := matchNumbers_signed d rest hd
  have htok : tokenizerFindString ('-' :: d :: rest) = '-' :: d :: t :=
    tokenizerFindString_number '-' _ _ (Or.inr rfl) ht
  have hnext : (TransformLex.mk (String.mk (pre ++ (blanks ++ '-' :: d :: rest))) pre.length
      err out).Next.1 = String.mk ('-' :: d :: t) := by
    rw [Next_after_blanks pre blanks '-' (d :: rest) err out hbl (by decide), htok,
      if_neg (List.cons_ne_nil _ _)]
  have hl1 := lexesAs_digits_minus_digits a b ha hb hda hdb
  have hl2 := lexesAs_digits_blank_minus a b ha hb hda hdb
  refine ⟨?_, ⟨t, hnext⟩, hl1, ?_, ?_⟩
  · unfold TransformLex.Lex
    dsimp only
    rw [hnext, lexSwitch_number _ (matchNumbers_idem ht)]
  · exact pipeline_then_error gcf _ _ _ _ _ []
      (Derives.pipeline_of_terminal (Derives.p20 (Derives.p24 (String.mk a)))) hl1
      (by dsimp only; decide!) (by dsimp only; decide!)
  · exact ParsesTo_of_Derives gcf _ _
      (Derives.pipeline_of_additive (Derives.p15 "-"
        (Derives.additive_of_terminal (Derives.p20 (Derives.p24 (String.mk a))))
        (Derives.p16 (Derives.p20 (Derives.p24 (String.mk b)))))) hl2

/-- C21, witness: the cursor after `$` in `$ -5`, and the inputs `1-2` and `1 - 2`. -/
theorem C21_minus_before_a_digit_is_a_sign_witness :
    ((TransformLex.mk (String.mk ("$".data ++ (" ".data ++ '-' :: '5' :: []))) "$".data.length
      "" TransformFunc.nil).Lex TransformSymType.zero).1 = NUMBER ∧
    (∃ t, (TransformLex.mk (String.mk ("$".data ++ (" ".data ++ '-' :: '5' :: [])))
      "$".data.length "" TransformFunc.nil).Next.1 = String.mk ('-' :: '5' :: t)) ∧
    lexesAs (String.mk ("1".data ++ '-' :: "2".data)) 0
      ([Token.mk NUMBER (String.mk "1".data)] ++
        Token.mk NUMBER (String.mk ('-' :: "2".data)) :: []) = true ∧
    ParsesTo emptyRegistry (String.mk ("1".data ++ '-' :: "2".data))
      (TransformFunc.pipelineGeneratorConstantFloat (String.mk "1".data),
       some "syntax error") ∧
    ParsesTo emptyRegistry (String.mk ("1".data ++ ' ' :: '-' :: ' ' :: "2".data))
      (TransformFunc.subtractTransformGenerator
        (TransformFunc.pipelineGeneratorConstantFloat (String.mk "1".data))
        (TransformFunc.pipelineGeneratorConstantFloat (String.mk "2".data)), none) :=
  C21_minus_before_a_digit_is_a_sign emptyRegistry "$".data " ".data '5' [] ""
    TransformFunc.nil TransformSymType.zero "1".data "2".data
    (by decide) (by decide) (by decide) (by decide) (by decide) (by decide)

/-! ## Facts of the tables about the values that the semantic actions read -/

theorem fact_reads_are_tokens : ∀ e ∈ stateList, 0 < idx TransformDef e →
    ∀ k ∈ readsStrVal (idx TransformDef e), ∀ s ∈ predsN k e, strValRead s = true := by
  decide!

theorem fact_goto_not_read : ∀ n ∈ ntNums, ∀ b ∈ stateList,
    strValRead (gotoState b n) = false := by
  decide!

/-! ## The parser on token streams that differ in values it does not read -/

theorem SameEntry_self (e : TransformSymType) : SameEntry e e :=
  ⟨rfl, rfl, rfl, rfl, fun _ => rfl⟩

theorem SameEntry_getD {S1 S2 : List TransformSymType} (h : List.Forall₂ SameEntry S1 S2) :
    ∀ k : Nat, SameEntry (S1.getD k TransformSymType.zero) (S2.getD k TransformSymType.zero) := by
  induction h with
  | nil =>
    intro k
    simp only [List.getD_nil]
    exact SameEntry_self _
  | cons hab _ ih =>
    intro k
    cases k with
    | zero => exact hab
    | succ j => exact ih j

/-- The semantic action of production `p` on two stacks whose entries agree in what the
actions read. -/
theorem TransformAction_same (gcf : CustomFunctions) (p : Int)
    (S1 S2 : List TransformSymType) (V1 V2 : TransformSymType) (lex : TransformLex)
    (hS : ∀ k : Nat,
      SameEntry (S1.getD k TransformSymType.zero) (S2.getD k TransformSymType.zero))
    (hV : V1.val = V2.val ∧ V1.stringList = V2.stringList ∧ V1.funcList = V2.funcList)
    (hr : ∀ k ∈ readsStrVal p, (S1.getD k TransformSymType.zero).strVal =
      (S2.getD k TransformSymType.zero).strVal) :
    (TransformAction gcf p S1 V1 lex).1.val = (TransformAction gcf p S2 V2 lex).1.val ∧
    (TransformAction gcf p S1 V1 lex).1.stringList =
      (TransformAction gcf p S2 V2 lex).1.stringList ∧
    (TransformAction gcf p S1 V1 lex).1.funcList =
      (TransformAction gcf p S2 V2 lex).1.funcList ∧
    (TransformAction gcf p S1 V1 lex).2 = (TransformAction gcf p S2 V2 lex).2 := by
  have v := fun k => (hS k).2.1
  have sl := fun k => (hS k).2.2.1
  have fl := fun k => (hS k).2.2.2.1
  obtain ⟨hv1, hv2, hv3⟩ := hV
  have r1 : p.toNat = 12 ∨ p.toNat = 31 → (S1.getD 1 TransformSymType.zero).strVal =
      (S2.getD 1 TransformSymType.zero).strVal := by
    intro h
    apply hr
    have hp : p = 12 ∨ p = 31 := by omega
    simp [readsStrVal, hp]
  have r0 : p.toNat = 24 ∨ p.toNat = 25 ∨ p.toNat = 26 ∨ p.toNat = 40 ∨ p.toNat = 41 →
      (S1.getD 0 TransformSymType.zero).strVal =
        (S2.getD 0 TransformSymType.zero).strVal := by
    intro h
    apply hr
    have hp : p = 24 ∨ p = 25 ∨ p = 26 ∨ p = 40 ∨ p = 41 := by omega
    have hq : ¬ (p = 12 ∨ p = 31) := by omega
    simp [readsStrVal, hp, hq]
  have r2 : p.toNat = 38 → (S1.getD 2 TransformSymType.zero).strVal =
      (S2.getD 2 TransformSymType.zero).strVal := by
    intro h
    apply hr
    have hp : p = 38 := by omega
    subst hp
    decide
  have r3 : p.toNat = 39 → (S1.getD 3 TransformSymType.zero).strVal =
      (S2.getD 3 TransformSymType.zero).strVal := by
    intro h
    apply hr
    have hp : p = 39 := by omega
    subst hp
    decide
  unfold TransformAction
  dsimp only
  generalize p.toNat = n at r0 r1 r2 r3
  clear hS hr
  split <;> first
    | exact ⟨hv1, hv2, hv3, rfl⟩
    | (simp_all; done)
    | (simp_all
       split <;> simp_all)

theorem lookahead_same {ts1 ts2 : List Token} (h : List.Forall₂ SameToken ts1 ts2) :
    lookahead ts1 = lookahead ts2 := by
  cases h with
  | nil => rfl
  | cons hab _ =>
    simp only [lookahead]
    rw [hab.1]

theorem validShift_chk {s c s1 : Int} (h : validShift s c = some s1) :
    idx TransformChk s1 = c := by
  obtain ⟨_, _, h3, h4⟩ := validShift_some h
  rw [← h4]
  exact h3

/-- The values that the action of the default production of the top state reads are values
of tokens, so they agree on two stacks that agree in such values. -/
theorem reads_same {e1 : TransformSymType} {S1 stack2 : List TransformSymType}
    (hl : Linked (e1 :: S1)) (hs : List.Forall₂ SameEntry (e1 :: S1) stack2)
    (hd : 0 < idx TransformDef e1.yys) :
    ∀ k ∈ readsStrVal (idx TransformDef e1.yys),
      ((e1 :: S1).getD k TransformSymType.zero).strVal =
        (stack2.getD k TransformSymType.zero).strVal := by
  intro k hk
  by_cases hlt : k < (e1 :: S1).length
  · have hx : (e1 :: S1)[k]? = some ((e1 :: S1).getD k TransformSymType.zero) := by
      rw [List.getD_eq_getElem _ _ hlt]
      exact List.getElem?_eq_getElem hlt
    have hp := Linked_predsN hl k _ hx
    have hread := fact_reads_are_tokens e1.yys (Linked_top_mem hl) hd k hk _ hp
    exact (SameEntry_getD hs k).2.2.2.2 hread
  · rw [List.getD_eq_default _ _ (by omega),
      List.getD_eq_default _ _ (by rw [← hs.length_eq]; omega)]

/-- A reduction on two described states that agree in what the actions read: it leaves two
such states. -/
theorem cfgReduce_same (gcf : CustomFunctions) {e1 : TransformSymType}
    {S1 stack2 : List TransformSymType} {toks1 toks2 : List Token} {err : String}
    {out : TransformFunc} (hl : Linked (e1 :: S1))
    (hs : List.Forall₂ SameEntry (e1 :: S1) stack2)
    (ht : List.Forall₂ SameToken toks1 toks2) (hd : 0 < idx TransformDef e1.yys) :
    (∀ code m o, cfgReduce gcf ⟨e1 :: S1, toks1, err, out⟩ (idx TransformDef e1.yys) ≠
      CfgOutcome.ret code m o) ∧
    ∀ d1, cfgReduce gcf ⟨e1 :: S1, toks1, err, out⟩ (idx TransformDef e1.yys) =
        CfgOutcome.next d1 →
      ∃ d2, cfgReduce gcf ⟨stack2, toks2, err, out⟩ (idx TransformDef e1.yys) =
        CfgOutcome.next d2 ∧ SameCfg d1 d2 := by
  obtain ⟨hn1, _, _, _⟩ := fact_reduce_depth e1.yys (Linked_top_mem hl) hd
  have hact := TransformAction_same gcf (idx TransformDef e1.yys) (e1 :: S1) stack2
    ((e1 :: S1).getD ((idx TransformR2 (idx TransformDef e1.yys)).toNat - 1)
      TransformSymType.zero)
    (stack2.getD ((idx TransformR2 (idx TransformDef e1.yys)).toNat - 1)
      TransformSymType.zero)
    ⟨"", 0, err, out⟩ (SameEntry_getD hs)
    ⟨(SameEntry_getD hs _).2.1, (SameEntry_getD hs _).2.2.1, (SameEntry_getD hs _).2.2.2.1⟩
    (reads_same hl hs hd)
  obtain ⟨a1, a2, a3, a4⟩ := hact
  have hdrop := List.forall₂_drop (idx TransformR2 (idx TransformDef e1.yys)).toNat hs
  unfold cfgReduce
  dsimp only
  cases hx : (e1 :: S1).drop (idx TransformR2 (idx TransformDef e1.yys)).toNat with
  | nil =>
    exact ⟨fun _ _ _ e => (nomatch e), fun _ e => (nomatch e)⟩
  | cons b1 B1 =>
    rw [hx] at hdrop
    cases hy : stack2.drop (idx TransformR2 (idx TransformDef e1.yys)).toNat with
    | nil =>
      rw [hy] at hdrop
      cases hdrop
    | cons b2 B2 =>
      rw [hy] at hdrop
      cases hdrop with
      | cons hb hB =>
        refine ⟨fun _ _ _ e => (nomatch e), fun d1 e => ?_⟩
        cases e
        refine ⟨_, rfl, ?_⟩
        have hb1 : b1.yys ∈ stateList := Linked_top_mem (Linked_drop hl _ b1 B1 hx)
        refine ⟨List.Forall₂.cons ⟨?_, a1, a2, a3, ?_⟩ (List.Forall₂.cons hb hB), ht, ?_, ?_⟩
        · dsimp only
          rw [hb.1]
        · intro hread
          dsimp only at hread
          rw [fact_goto_not_read _ hn1 _ hb1] at hread
          cases hread
        · dsimp only
          rw [a4]
        · dsimp only
          rw [a4]

/-- One pass of the parser on two described states that agree in what the actions read. -/
theorem cfgStep_same (gcf : CustomFunctions) {c1 c2 : Cfg} (hs : SameCfg c1 c2)
    (hl : Linked c1.stack) :
    (∀ code m o, cfgStep gcf c1 = CfgOutcome.ret code m o →
      cfgStep gcf c2 = CfgOutcome.ret code m o) ∧
    ∀ d1, cfgStep gcf c1 = CfgOutcome.next d1 →
      ∃ d2, cfgStep gcf c2 = CfgOutcome.next d2 ∧ SameCfg d1 d2 := by
  obtain ⟨stack1, toks1, err1, out1⟩ := c1
  obtain ⟨stack2, toks2, err2, out2⟩ := c2
  obtain ⟨hst, htk, he, ho⟩ := hs
  dsimp only at hst htk he ho hl
  subst he ho
  cases hst with
  | nil => exact absurd hl (by simp [Linked])
  | @cons e1 e2 S1 S2 hab hS =>
    have hla := lookahead_same htk
    unfold cfgStep
    dsimp only
    rw [← hab.1, ← hla]
    cases hv : validShift e1.yys (lookahead toks1) with
    | some s1 =>
      dsimp only
      cases htk with
      | nil => exact ⟨fun _ _ _ e => (nomatch e), fun _ e => (nomatch e)⟩
      | @cons t1 t2 ts1 ts2 hT hTs =>
        dsimp only
        refine ⟨fun _ _ _ e => (nomatch e), fun d1 e => ?_⟩
        cases e
        refine ⟨_, rfl, List.Forall₂.cons ⟨rfl, rfl, rfl, rfl, ?_⟩ (List.Forall₂.cons hab hS),
          hTs, rfl, rfl⟩
        intro hread
        have hc := validShift_chk hv
        simp only [shiftEntry, strValRead, decide_eq_true_eq] at hread
        rw [hc] at hread
        exact hT.2 hread
    | none =>
      dsimp only
      by_cases h1 : acceptAction e1.yys (lookahead toks1) = true
      · rw [if_pos h1, if_pos h1]
        exact ⟨fun _ _ _ e => e, fun _ e => (nomatch e)⟩
      · rw [if_neg h1, if_neg h1]
        by_cases h2 : errorAction e1.yys (lookahead toks1) = true
        · rw [if_pos h2, if_pos h2]
          exact ⟨fun _ _ _ e => e, fun _ e => (nomatch e)⟩
        · rw [if_neg h2, if_neg h2]
          cases hp : defaultReduce e1.yys (lookahead toks1) with
          | none => exact ⟨fun _ _ _ e => (nomatch e), fun _ e => (nomatch e)⟩
          | some p =>
            dsimp only
            obtain ⟨_, hp1, hp2⟩ := defaultReduce_some hp
            subst hp1
            obtain ⟨r1, r2⟩ := cfgReduce_same gcf hl (List.Forall₂.cons hab hS) htk hp2
            exact ⟨fun code m o e => absurd e (r1 code m o), r2⟩

/-- The parser returns the same on two described states that agree in what the actions
read. -/
theorem cfgRun_same (gcf : CustomFunctions) (fuel : Nat) :
    ∀ (c1 c2 : Cfg) (r : Int × String × TransformFunc), SameCfg c1 c2 → Linked c1.stack →
      cfgRun gcf fuel c1 = some r → cfgRun gcf fuel c2 = some r := by
  induction fuel with
  | zero =>
    intro c1 c2 r _ _ h
    simp [cfgRun] at h
  | succ k ih =>
    intro c1 c2 r hs hl h
    obtain ⟨s1, s2⟩ := cfgStep_same gcf hs hl
    obtain ⟨_, l2⟩ := cfgStep_linked gcf hl
    simp only [cfgRun] at h ⊢
    cases hx : cfgStep gcf c1 with
    | fault => rw [hx] at h; cases h
    | ret code m o =>
      rw [hx] at h
      rw [s1 code m o hx]
      exact h
    | next d1 =>
      rw [hx] at h
      obtain ⟨d2, hd2, hsd⟩ := s2 d1 hx
      rw [hd2]
      exact ih d1 d2 r hsd (l2 d1 hx).1 h

/-- Two inputs whose token streams agree in the kinds of the tokens and in the values that
the actions read: `ParseTransform` returns the same on both. -/
theorem ParsesTo_same (gcf : CustomFunctions) (input1 input2 : String) (ts1 ts2 : List Token)
    (h1 : lexesAs input1 0 ts1 = true) (h2 : lexesAs input2 0 ts2 = true)
    (hs : List.Forall₂ SameToken ts1 ts2) :
    ∃ r, ParsesTo gcf input1 r ∧ ParsesTo gcf input2 r := by
  have hL : Linked (Cfg.mk [TransformSymType.zero] ts1 "" TransformFunc.nil).stack := rfl
  obtain ⟨fuel, ⟨code, err, out⟩, hr⟩ := cfgRun_total gcf _ _ rfl hL
  have hsame : SameCfg (Cfg.mk [TransformSymType.zero] ts1 "" TransformFunc.nil)
      (Cfg.mk [TransformSymType.zero] ts2 "" TransformFunc.nil) :=
    ⟨List.Forall₂.cons (SameEntry_self _) List.Forall₂.nil, hs, rfl, rfl⟩
  have hr2 := cfgRun_same gcf fuel _ _ _ hsame hL hr
  obtain ⟨n1, lex1, a1, a2, a3⟩ := cfgRun_sound gcf fuel _ code err out hr _ (Abs_init h1)
  obtain ⟨n2, lex2, b1, b2, b3⟩ := cfgRun_sound gcf fuel _ code err out hr2 _ (Abs_init h2)
  have p1 := ParseTransform_of_ret gcf a1
  have p2 := ParseTransform_of_ret gcf b1
  rw [a2, a3] at p1
  rw [b2, b3] at p2
  exact ⟨_, ⟨n1, p1⟩, ⟨n2, p2⟩⟩

/-! ## The lexer on a text and on the text with colons for bars -/

theorem colonForBar_plain (c x : Char) (h1 : x ≠ '|') (h2 : x ≠ ':') :
    colonForBar c = x ↔ c = x := by
  unfold colonForBar
  split_ifs with h
  · subst h
    exact ⟨fun e => absurd e.symm h2, fun e => absurd e.symm h1⟩
  · exact Iff.rfl

theorem colonForBar_colon (c : Char) : colonForBar c = ':' ↔ (c = '|' ∨ c = ':') := by
  unfold colonForBar
  split_ifs with h
  · simp [h]
  · simp [h]

theorem colonForBar_ne_bar (c : Char) : colonForBar c ≠ '|' := by
  unfold colonForBar
  split_ifs with h
  · decide
  · exact h

theorem isDigit_colonForBar (c : Char) : isDigit (colonForBar c) = isDigit c := by
  unfold colonForBar
  split_ifs with h
  · subst h
    decide
  · rfl

theorem isIdentStart_colonForBar (c : Char) :
    isIdentStart (colonForBar c) = isIdentStart c := by
  unfold colonForBar
  split_ifs with h
  · subst h
    decide
  · rfl

theorem isIdentChar_colonForBar (c : Char) : isIdentChar (colonForBar c) = isIdentChar c := by
  unfold isIdentChar
  rw [isDigit_colonForBar, isIdentStart_colonForBar]

/-- A text without a bar and without a colon is left as it is. -/
theorem map_colonForBar_plain (w : List Char) (hw : ∀ c ∈ w, c ≠ '|' ∧ c ≠ ':') :
    w.map colonForBar = w := by
  induction w with
  | nil => rfl
  | cons a w ih =>
    rw [List.map_cons, ih (fun c hc => hw c (List.mem_cons_of_mem _ hc))]
    have h := (hw a (List.mem_cons_self _ _)).1
    simp [colonForBar, h]

/-- Only a text without a bar and without a colon is taken to such a text: itself. -/
theorem map_colonForBar_eq_plain (l w : List Char) (hw : ∀ c ∈ w, c ≠ '|' ∧ c ≠ ':') :
    l.map colonForBar = w ↔ l = w := by
  induction l generalizing w with
  | nil => simp [eq_comm]
  | cons a l ih =>
    cases w with
    | nil => simp
    | cons b w =>
      have hb := hw b (List.mem_cons_self _ _)
      simp only [List.map_cons, List.cons.injEq, colonForBar_plain a b hb.1 hb.2,
        ih w (fun c hc => hw c (List.mem_cons_of_mem _ hc))]

theorem isPrefixOf_map_plain (w : List Char) (hw : ∀ c ∈ w, c ≠ '|' ∧ c ≠ ':') :
    ∀ rest : List Char, w.isPrefixOf (rest.map colonForBar) = w.isPrefixOf rest := by
  induction w with
  | nil =>
    intro rest
    simp [List.isPrefixOf]
  | cons a w ih =>
    intro rest
    cases rest with
    | nil => rfl
    | cons b rest =>
      have ha := hw a (List.mem_cons_self _ _)
      simp only [List.map_cons, List.isPrefixOf,
        ih (fun c hc => hw c (List.mem_cons_of_mem _ hc)) rest]
      congr 1
      rw [Bool.eq_iff_iff]
      simp only [beq_iff_eq]
      constructor
      · intro e
        exact ((colonForBar_plain b a ha.1 ha.2).mp e.symm).symm
      · intro e
        exact ((colonForBar_plain b a ha.1 ha.2).mpr e.symm).symm

/-- A class of literals without a bar and without a colon matches the same literal in both
texts. -/
theorem matchLiterals_map (lits : List String)
    (hl : ∀ w ∈ lits, ∀ c ∈ w.data, c ≠ '|' ∧ c ≠ ':') (rest : List Char) :
    matchLiterals lits (rest.map colonForBar) =
      (matchLiterals lits rest).map (List.map colonForBar) := by
  unfold matchLiterals
  have h1 : lits.find? (fun w => w.data.isPrefixOf (rest.map colonForBar)) =
      lits.find? (fun w => w.data.isPrefixOf rest) := by
    induction lits with
    | nil => rfl
    | cons a lits ih =>
      simp only [List.find?, isPrefixOf_map_plain a.data (hl a (List.mem_cons_self _ _)) rest]
      rw [ih (fun w hw => hl w (List.mem_cons_of_mem _ hw))]
  rw [h1]
  cases hx : lits.find? (fun w => w.data.isPrefixOf rest) with
  | none => rfl
  | some w =>
    simp only [Option.map_some']
    rw [map_colonForBar_plain w.data (hl w (List.mem_of_find?_eq_some hx))]

theorem fact_plain_literals :
    ∀ w ∈ builtins ++ logicals ++ compops ++ syms ++ maths, ∀ c ∈ w.data,
      c ≠ '|' ∧ c ≠ ':' := by
  decide!

/-- The class of pipes matches the colon where it matched a bar. -/
theorem matchLiterals_pipes_map (rest : List Char) :
    matchLiterals pipes (rest.map colonForBar) =
      (matchLiterals pipes rest).map (List.map colonForBar) := by
  cases rest with
  | nil => rfl
  | cons c t =>
    by_cases h1 : c = ':'
    · subst h1
      simp [matchLiterals, pipes, List.isPrefixOf, colonForBar]
    · by_cases h2 : c = '|'
      · subst h2
        simp [matchLiterals, pipes, List.isPrefixOf, colonForBar]
      · by_cases h3 : c = ','
        · subst h3
          simp [matchLiterals, pipes, List.isPrefixOf, colonForBar]
        · have e : colonForBar c = c := by simp [colonForBar, h2]
          simp [matchLiterals, pipes, List.isPrefixOf, e, h1, h2, h3, Ne.symm h1,
            Ne.symm h2, Ne.symm h3]

theorem isDigit_comp_colonForBar : isDigit ∘ colonForBar = isDigit :=
  funext isDigit_colonForBar

/-- The digits and the fraction of a number in both texts. -/
theorem numberBody_map (s r : List Char) :
    (if List.takeWhile isDigit (r.map colonForBar) = [] then none
      else
        match (r.map colonForBar).drop (List.takeWhile isDigit (r.map colonForBar)).length with
        | c :: r3 =>
          if c = Char.ofNat 46 ∧ List.takeWhile isDigit r3 ≠ [] then
            some (s.map colonForBar ++ List.takeWhile isDigit (r.map colonForBar) ++
              c :: List.takeWhile isDigit r3)
          else some (s.map colonForBar ++ List.takeWhile isDigit (r.map colonForBar))
        | [] => some (s.map colonForBar ++ List.takeWhile isDigit (r.map colonForBar))) =
    (if List.takeWhile isDigit r = [] then none
      else
        match r.drop (List.takeWhile isDigit r).length with
        | c :: r3 =>
          if c = Char.ofNat 46 ∧ List.takeWhile isDigit r3 ≠ [] then
            some (s ++ List.takeWhile isDigit r ++ c :: List.takeWhile isDigit r3)
          else some (s ++ List.takeWhile isDigit r)
        | [] => some (s ++ List.takeWhile isDigit r)).map (List.map colonForBar) := by
  rw [List.takeWhile_map, isDigit_comp_colonForBar, List.length_map, ← List.map_drop]
  generalize List.takeWhile isDigit r = ds
  generalize r.drop ds.length = r1
  by_cases hds : ds = []
  · subst hds
    rfl
  · have hds2 : ds.map colonForBar ≠ [] := by simpa using hds
    rw [if_neg hds, if_neg hds2]
    cases r1 with
    | nil => simp
    | cons c r3 =>
      simp only [List.map_cons, List.takeWhile_map, isDigit_comp_colonForBar]
      have hdot : colonForBar c = Char.ofNat 46 ↔ c = Char.ofNat 46 :=
        colonForBar_plain c _ (by decide) (by decide)
      by_cases hc : c = Char.ofNat 46 ∧ List.takeWhile isDigit r3 ≠ []
      · have hc2 : colonForBar c = Char.ofNat 46 ∧
            List.map colonForBar (List.takeWhile isDigit r3) ≠ [] :=
          ⟨hdot.mpr hc.1, by simpa using hc.2⟩
        rw [if_pos hc, if_pos hc2]
        simp
      · have hc2 : ¬ (colonForBar c = Char.ofNat 46 ∧
            List.map colonForBar (List.takeWhile isDigit r3) ≠ []) := by
          intro h
          exact hc ⟨hdot.mp h.1, by simpa using h.2⟩
        rw [if_neg hc, if_neg hc2]
        simp

theorem matchNumbers_map (rest : List Char) :
    matchNumbers (rest.map colonForBar) =
      (matchNumbers rest).map (List.map colonForBar) := by
  cases rest with
  | nil => rfl
  | cons c t =>
    have hm : colonForBar c = Char.ofNat 45 ↔ c = Char.ofNat 45 :=
      colonForBar_plain c _ (by decide) (by decide)
    unfold matchNumbers
    by_cases hc : c = Char.ofNat 45
    · subst hc
      have e : colonForBar (Char.ofNat 45) = Char.ofNat 45 := by decide
      simp only [List.map_cons, e, if_true, List.length_singleton, List.drop_succ_cons,
        List.drop_zero]
      exact numberBody_map [Char.ofNat 45] t
    · have hc2 : ¬ colonForBar c = Char.ofNat 45 := fun h => hc (hm.mp h)
      simp only [List.map_cons, if_neg hc, if_neg hc2, List.length_nil, List.drop_zero]
      exact numberBody_map [] (c :: t)

theorem matchIdents_map (rest : List Char) :
    matchIdents (rest.map colonForBar) =
      (matchIdents rest).map (List.map colonForBar) := by
  cases rest with
  | nil => rfl
  | cons c t =>
    unfold matchIdents
    simp only [List.map_cons, isIdentStart_colonForBar]
    split_ifs
    · simp only [Option.map_some', List.map_cons, List.takeWhile_map]
      rw [show isIdentChar ∘ colonForBar = isIdentChar from funext isIdentChar_colonForBar]
    · rfl

theorem matchStringr_map (rest : List Char) :
    matchStringr (rest.map colonForBar) =
      (matchStringr rest).map (List.map colonForBar) := by
  have hq : ∀ c, colonForBar c = dquote ↔ c = dquote :=
    fun c => colonForBar_plain c _ (by decide) (by decide)
  have hn : ∀ c, colonForBar c = newline ↔ c = newline :=
    fun c => colonForBar_plain c _ (by decide) (by decide)
  have hp : (fun c => decide (c ≠ dquote ∧ c ≠ newline)) ∘ colonForBar =
      (fun c => decide (c ≠ dquote ∧ c ≠ newline)) := by
    funext c
    simp only [Function.comp, ne_eq, hq, hn]
  unfold matchStringr
  cases rest with
  | nil => rfl
  | cons q t =>
    cases t with
    | nil => rfl
    | cons c0 r =>
      simp only [List.map_cons, hq, ne_eq, hn]
      by_cases h : q = dquote ∧ ¬ c0 = newline
      · rw [if_pos h, if_pos h]
        rw [List.takeWhile_map, hp, List.length_map, ← List.map_drop]
        generalize List.takeWhile (fun c => decide (¬ c = dquote ∧ ¬ c = newline)) r = body
        generalize r.drop body.length = r1
        cases r1 with
        | nil => rfl
        | cons c r2 =>
          simp only [List.map_cons, hq]
          split_ifs
          · simp
          · rfl
      · rw [if_neg h, if_neg h]
        rfl

theorem orElse_map {α β : Type} (f : α → β) (a b : Option α) :
    ((a.map f).orElse fun _ => b.map f) = (a.orElse fun _ => b).map f := by
  cases a <;> rfl

/-- The tokenizer on the text with colons for bars: the lexeme with colons for bars. -/
theorem tokenizerFindString_map (rest : List Char) :
    tokenizerFindString (rest.map colonForBar) =
      (tokenizerFindString rest).map colonForBar := by
  have hl : ∀ lits : List String,
      (∀ w ∈ lits, w ∈ builtins ++ logicals ++ compops ++ syms ++ maths) →
      matchLiterals lits (rest.map colonForBar) =
        (matchLiterals lits rest).map (List.map colonForBar) :=
    fun lits h => matchLiterals_map lits (fun w hw => fact_plain_literals w (h w hw)) rest
  unfold tokenizerFindString
  rw [hl builtins (fun w hw => by simp [hw]), hl logicals (fun w hw => by simp [hw]),
    hl compops (fun w hw => by simp [hw]), hl syms (fun w hw => by simp [hw]),
    hl maths (fun w hw => by simp [hw]), matchLiterals_pipes_map, matchNumbers_map,
    matchStringr_map, matchIdents_map]
  simp only [orElse_map]
  cases ((matchLiterals builtins rest).orElse fun _ =>
     (matchLiterals logicals rest).orElse fun _ =>
     (matchNumbers rest).orElse fun _ =>
     (matchLiterals compops rest).orElse fun _ =>
     (matchStringr rest).orElse fun _ =>
     (matchLiterals pipes rest).orElse fun _ =>
     (matchLiterals syms rest).orElse fun _ =>
     (matchIdents rest).orElse fun _ =>
     matchLiterals maths rest) <;> rfl

theorem skipBlanks_map (rest : List Char) :
    ∀ (c : Char) (position : Int),
      TransformLex.skipBlanks (rest.map colonForBar) (colonForBar c) position =
        TransformLex.skipBlanks rest c position := by
  have hb : ∀ c, (colonForBar c = ' ' ∨ colonForBar c = tabChar) ↔ (c = ' ' ∨ c = tabChar) :=
    fun c => by
      rw [colonForBar_plain c ' ' (by decide) (by decide),
        colonForBar_plain c tabChar (by decide) (by decide)]
  induction rest with
  | nil =>
    intro c position
    rw [List.map_nil, TransformLex.skipBlanks.eq_def, TransformLex.skipBlanks.eq_def]
    dsimp only
    simp only [hb]
  | cons d rest ih =>
    intro c position
    rw [List.map_cons, TransformLex.skipBlanks.eq_def,
      TransformLex.skipBlanks.eq_def (d :: rest)]
    dsimp only
    simp only [hb, ih]

/-! ## The `switch` of `Lex` on a text and on the text with colons for bars -/

/-- The `switch` of `Lex` on a lexeme that is none of its `case` labels: the `default`. -/
theorem lexSwitch_default (token : String) (h : token ∉ switchCases) :
    lexSwitch token =
      if numberRegexMatch token.data then (NUMBER, token)
      else if stringRegexMatch token.data then
        (STRING, String.mk ((token.data.drop 1).dropLast))
      else (IDENTIFIER, token) := by
  have key : ∀ w ∈ switchCases, token ≠ w := fun w hw e => h (e ▸ hw)
  simp only [switchCases, List.mem_cons, List.mem_singleton, List.not_mem_nil, or_false,
    forall_eq_or_imp, forall_eq] at key
  obtain ⟨k1, k2, k3, k4, k5, k6, k7, k8, k9, k10, k11, k12, k13, k14, k15, k16, k17, k18,
    k19, k20, k21, k22, k23, k24, k25, k26, k27, k28, k29, k30, k31, k32, k33, k34⟩ := key
  delta lexSwitch
  rw [if_neg k1, if_neg k2, if_neg (not_or.mpr ⟨k3, k4⟩), if_neg k5, if_neg k6, if_neg k7,
    if_neg k8, if_neg k9, if_neg k10, if_neg k11, if_neg k12, if_neg k13,
    if_neg (not_or.mpr ⟨k14, not_or.mpr ⟨k15, not_or.mpr ⟨k16, not_or.mpr ⟨k17,
      not_or.mpr ⟨k18, k19⟩⟩⟩⟩⟩),
    if_neg k20, if_neg (not_or.mpr ⟨k21, k22⟩), if_neg k23, if_neg k24, if_neg k25,
    if_neg k26, if_neg k27, if_neg k28, if_neg k29, if_neg k30, if_neg k31, if_neg k32,
    if_neg k33, if_neg k34]

theorem fact_switchCases_map : ∀ w ∈ switchCases,
    lexSwitch (colonsForBars w) = ((lexSwitch w).1, colonsForBars (lexSwitch w).2) ∧
    ((w.data.all fun c => decide (c ≠ '|' ∧ c ≠ ':')) = true ∨ w = ":" ∨ w = "|") := by
  decide!

theorem colonsForBars_data (s : String) : (colonsForBars s).data = s.data.map colonForBar :=
  rfl

theorem numberRegexMatch_map (tok : List Char) :
    numberRegexMatch (tok.map colonForBar) = numberRegexMatch tok := by
  unfold numberRegexMatch
  rw [matchNumbers_map, Bool.eq_iff_iff, decide_eq_true_eq, decide_eq_true_eq]
  constructor
  · intro h
    obtain ⟨r, hr, e⟩ := Option.map_eq_some'.mp h
    have hp := matchNumbers_prefix hr
    have hlen : r.length = tok.length := by
      have := congrArg List.length e
      simpa using this
    rw [hr, hp.eq_of_length hlen]
  · intro h
    rw [h]
    rfl

theorem stringRegexMatch_map (tok : List Char) :
    stringRegexMatch (tok.map colonForBar) = stringRegexMatch tok := by
  have hq : ∀ c, colonForBar c = dquote ↔ c = dquote :=
    fun c => colonForBar_plain c _ (by decide) (by decide)
  have hn : ∀ c, colonForBar c = newline ↔ c = newline :=
    fun c => colonForBar_plain c _ (by decide) (by decide)
  have h1 : (tok.map colonForBar).head? = some dquote ↔ tok.head? = some dquote := by
    cases tok with
    | nil => simp
    | cons a t => simp [hq]
  have h2 : (tok.map colonForBar).getLast? = some dquote ↔ tok.getLast? = some dquote := by
    rw [List.getLast?_map]
    cases tok.getLast? with
    | none => simp
    | some a => simp [hq]
  have h3 : newline ∈ ((tok.map colonForBar).drop 1).dropLast ↔
      newline ∈ (tok.drop 1).dropLast := by
    rw [← List.map_drop, ← List.map_dropLast, List.mem_map]
    constructor
    · rintro ⟨a, ha, e⟩
      rw [(hn a).mp e] at ha
      exact ha
    · intro h
      exact ⟨newline, h, by decide⟩
  unfold stringRegexMatch
  rw [Bool.eq_iff_iff, decide_eq_true_eq, decide_eq_true_eq, List.length_map, h1, h2, h3]

/-- The `switch` of `Lex` on a lexeme with colons for bars: the same token code, and the
value with colons for bars. -/
theorem lexSwitch_map (token : String) :
    lexSwitch (colonsForBars token) =
      ((lexSwitch token).1, colonsForBars (lexSwitch token).2) := by
  by_cases hm : token ∈ switchCases
  · exact (fact_switchCases_map token hm).1
  · have hm2 : colonsForBars token ∉ switchCases := by
      intro hc
      rcases (fact_switchCases_map _ hc).2 with hp | hp | hp
      · have hpl : ∀ c ∈ (colonsForBars token).data, c ≠ '|' ∧ c ≠ ':' := by
          intro c hc1
          have := List.all_eq_true.mp hp c hc1
          simpa using this
        have e := (map_colonForBar_eq_plain token.data _ hpl).mp rfl
        have e2 : token = colonsForBars token := String.ext e
        rw [← e2] at hc
        exact hm hc
      · have e : token.data.map colonForBar = [':'] := congrArg String.data hp
        cases hd : token.data with
        | nil => rw [hd] at e; cases e
        | cons a t =>
          rw [hd] at e
          simp only [List.map_cons, List.cons.injEq, List.map_eq_nil_iff] at e
          obtain ⟨ea, et⟩ := e
          subst et
          have e3 : token = String.mk [a] := String.ext hd
          rcases (colonForBar_colon a).mp ea with rfl | rfl
          · exact hm (by rw [e3]; decide)
          · exact hm (by rw [e3]; decide)
      · have e : token.data.map colonForBar = ['|'] := congrArg String.data hp
        cases hd : token.data with
        | nil => rw [hd] at e; cases e
        | cons a t =>
          rw [hd] at e
          simp only [List.map_cons, List.cons.injEq] at e
          exact absurd e.1 (colonForBar_ne_bar a)
    rw [lexSwitch_default _ hm, lexSwitch_default _ hm2, colonsForBars_data,
      numberRegexMatch_map, stringRegexMatch_map]
    split_ifs
    · rfl
    · dsimp only
      rw [← List.map_drop, ← List.map_dropLast]
      rfl
    · rfl

/-! ## The token stream of a text and of the text with colons for bars -/

/-- The call of `Lex` on the text with colons for bars: the same token code and the same
cursor afterwards, and the value with colons for bars. -/
theorem lexAt_map (input : String) (p : Int) :
    lexAt (colonsForBars input) p =
      ((lexAt input p).1, colonsForBars (lexAt input p).2.1, (lexAt input p).2.2) := by
  have e1 : lexSwitch eofString = (0, eofString) := by decide
  have e2 : lexSwitch errorString = (0, errorString) := by decide
  have e3 : colonsForBars eofString = eofString := by decide
  have e4 : colonsForBars errorString = errorString := by decide
  unfold lexAt
  dsimp only
  unfold TransformLex.Next
  dsimp only
  rw [colonsForBars_data, ← List.map_drop]
  have hs := skipBlanks_map (input.data.drop p.toNat) ' ' p
  rw [show colonForBar ' ' = ' ' from by decide] at hs
  rw [hs]
  generalize TransformLex.skipBlanks (input.data.drop p.toNat) ' ' p = r
  obtain ⟨b, q⟩ := r
  cases b with
  | true =>
    dsimp only
    rw [e1, e3]
  | false =>
    dsimp only
    rw [← List.map_drop, tokenizerFindString_map]
    by_cases ht : tokenizerFindString (input.data.drop (q - 1).toNat) = []
    · rw [if_pos ht, if_pos (by rw [ht]; rfl)]
      dsimp only
      rw [e2, e4, ht]
      rfl
    · rw [if_neg ht, if_neg (by simpa using ht)]
      dsimp only
      rw [show String.mk ((tokenizerFindString (input.data.drop (q - 1).toNat)).map
          colonForBar) =
        colonsForBars (String.mk (tokenizerFindString (input.data.drop (q - 1).toNat)))
        from rfl, lexSwitch_map, List.length_map]

/-- The token stream of the text with colons for bars: the tokens of the text, their values
with colons for bars. -/
theorem lexesAs_map (input : String) (ts : List Token) :
    ∀ p : Int, lexesAs input p ts = true →
      lexesAs (colonsForBars input) p
        (ts.map fun t => Token.mk t.code (colonsForBars t.strVal)) = true := by
  induction ts with
  | nil =>
    intro p h
    simp only [lexesAs, List.map_nil, decide_eq_true_eq] at h ⊢
    rw [lexAt_map]
    exact h
  | cons t ts ih =>
    intro p h
    simp only [lexesAs, List.map_cons, Bool.and_eq_true, decide_eq_true_eq] at h ⊢
    rw [lexAt_map]
    dsimp only
    obtain ⟨⟨h1, h2, h3⟩, h4⟩ := h
    exact ⟨⟨h1, h2, by rw [h3]⟩, ih _ h4⟩

/-- A text has one token stream. -/
theorem lexesAs_unique (input : String) (ts1 : List Token) :
    ∀ (ts2 : List Token) (p : Int), lexesAs input p ts1 = true →
      lexesAs input p ts2 = true → ts1 = ts2 := by
  induction ts1 with
  | nil =>
    intro ts2 p h1 h2
    cases ts2 with
    | nil => rfl
    | cons t ts =>
      simp only [lexesAs, Bool.and_eq_true, decide_eq_true_eq] at h1 h2
      omega
  | cons t1 ts1 ih =>
    intro ts2 p h1 h2
    cases ts2 with
    | nil =>
      simp only [lexesAs, Bool.and_eq_true, decide_eq_true_eq] at h1 h2
      omega
    | cons t2 ts2 =>
      simp only [lexesAs, Bool.and_eq_true, decide_eq_true_eq] at h1 h2
      obtain ⟨⟨a1, _, a3⟩, a4⟩ := h1
      obtain ⟨⟨b1, _, b3⟩, b4⟩ := h2
      have e : t1 = t2 := by
        cases t1
        cases t2
        simp only at a1 a3 b1 b3
        rw [← a1, ← a3, ← b1, ← b3]
      rw [e, ih ts2 _ a4 b4]

/-- Every token of the stream is delivered by a call of `Lex` at some cursor. -/
theorem lexesAs_mem (input : String) (ts : List Token) :
    ∀ p : Int, lexesAs input p ts = true →
      ∀ t ∈ ts, ∃ q : Int, (lexAt input q).1 = t.code ∧ (lexAt input q).2.1 = t.strVal := by
  induction ts with
  | nil =>
    intro p _ t ht
    cases ht
  | cons t1 ts ih =>
    intro p h t ht
    simp only [lexesAs, Bool.and_eq_true, decide_eq_true_eq] at h
    rcases List.mem_cons.mp ht with rfl | hm
    · exact ⟨p, h.1.1, h.1.2.2⟩
    · exact ih _ h.2 t hm

/-! ## The values that the actions read, of tokens that are no strings -/

theorem fact_switchCases_values : ∀ w ∈ switchCases,
    (lexSwitch w).2 = w ∧ w.data.head? ≠ some dquote := by
  decide!

theorem fact_literals_plain :
    ∀ w ∈ builtins ++ logicals ++ compops ++ pipes ++ syms ++ maths,
      lex1Code (lexSwitch w).1 ∈ readKinds →
      ((lexSwitch w).2.data.all fun c => decide (c ≠ '|' ∧ c ≠ ':')) = true := by
  decide!

/-- The value left by the `switch` of `Lex` is the lexeme, unless the token is a STRING. -/
theorem lexSwitch_snd (token : String) (h : (lexSwitch token).1 ≠ STRING) :
    (lexSwitch token).2 = token := by
  by_cases hm : token ∈ switchCases
  · exact (fact_switchCases_values token hm).1
  · rw [lexSwitch_default _ hm] at h ⊢
    split_ifs at h ⊢
    · rfl
    · exact absurd rfl h
    · rfl

/-- A match of the class `stringr` begins with a quote, and `stringRegex` matches it. -/
theorem matchStringr_shape {rest tok : List Char} (h : matchStringr rest = some tok) :
    tok.head? = some dquote ∧ stringRegexMatch tok = true := by
  unfold matchStringr at h
  split at h
  · rename_i q c0 r
    split_ifs at h with h1
    dsimp only at h
    split at h
    · rename_i c r2 hd
      split_ifs at h with h2
      cases h
      obtain ⟨rfl, hc0⟩ := h1
      subst h2
      refine ⟨rfl, ?_⟩
      unfold stringRegexMatch
      rw [decide_eq_true_eq]
      refine ⟨by simp, rfl, ?_, ?_⟩
      · exact List.getLast?_concat _
      · rw [show List.drop 1 (dquote :: c0 :: List.takeWhile
            (fun c => decide (c ≠ dquote ∧ c ≠ newline)) r ++ [dquote]) =
          (c0 :: List.takeWhile (fun c => decide (c ≠ dquote ∧ c ≠ newline)) r) ++ [dquote]
          from rfl, List.dropLast_concat]
        simp only [List.mem_cons, not_or]
        refine ⟨fun e => hc0 e.symm, fun hm => ?_⟩
        have := List.mem_takeWhile_imp hm
        simp at this
    · cases h
  · cases h

/-- The `switch` of `Lex` on a match of the class `stringr`: STRING. -/
theorem lexSwitch_string {rest tok : List Char} (h : matchStringr rest = some tok) :
    (lexSwitch (String.mk tok)).1 = STRING := by
  obtain ⟨hq, hs⟩ := matchStringr_shape h
  have hm : String.mk tok ∉ switchCases :=
    fun hc => (fact_switchCases_values _ hc).2 hq
  have hn : numberRegexMatch tok = false := by
    cases hx : numberRegexMatch tok with
    | false => rfl
    | true =>
      unfold numberRegexMatch at hx
      rw [decide_eq_true_eq] at hx
      exact absurd hq (matchNumbers_head hx)
  rw [lexSwitch_default _ hm]
  dsimp only
  rw [hn, hs]
  rfl

theorem isDigit_plain {c : Char} (h : isDigit c = true) : c ≠ '|' ∧ c ≠ ':' := by
  constructor <;>
  · intro e
    subst e
    revert h
    decide

theorem isIdentChar_plain {c : Char} (h : isIdentChar c = true) : c ≠ '|' ∧ c ≠ ':' := by
  constructor <;>
  · intro e
    subst e
    revert h
    decide

theorem matchNumbers_plain {rest tok : List Char} (h : matchNumbers rest = some tok) :
    ∀ c ∈ tok, c ≠ '|' ∧ c ≠ ':' := by
  obtain ⟨sign, ds, frac, rfl, hs, _, hd, hf, _⟩ := matchNumbers_shape h
  intro c hc
  simp only [List.mem_append] at hc
  rcases hc with (hc | hc) | hc
  · rcases hs with rfl | rfl
    · cases hc
    · simp only [List.mem_singleton] at hc
      subst hc
      decide
  · exact isDigit_plain (hd c hc)
  · rcases hf with rfl | ⟨fs, rfl, _, hfd⟩
    · cases hc
    · rcases List.mem_cons.mp hc with rfl | hc
      · decide
      · exact isDigit_plain (hfd c hc)

theorem matchIdents_plain {rest tok : List Char} (h : matchIdents rest = some tok) :
    ∀ c ∈ tok, c ≠ '|' ∧ c ≠ ':' := by
  unfold matchIdents at h
  cases rest with
  | nil => simp at h
  | cons a t =>
    simp only at h
    split_ifs at h with h1
    cases h
    intro c hc
    rcases List.mem_cons.mp hc with rfl | hc
    · exact isIdentChar_plain (by simp [isIdentChar, h1])
    · exact isIdentChar_plain (List.mem_takeWhile_imp hc)

/-- A token whose value an action reads and that is no STRING: its value has no bar and no
colon. -/
theorem lexAt_plain (input : String) (p : Int)
    (hk : lex1Code (lexAt input p).1 ∈ readKinds) (hs : (lexAt input p).1 ≠ STRING) :
    ∀ c ∈ (lexAt input p).2.1.data, c ≠ '|' ∧ c ≠ ':' := by
  unfold lexAt at hk hs ⊢
  dsimp only at hk hs ⊢
  rcases Next_cases (TransformLex.mk input p "" TransformFunc.nil) with h | h | ⟨rest, h⟩
  · rw [h] at hk
    exact absurd hk (by decide)
  · rw [h] at hk
    exact absurd hk (by decide)
  · rw [h] at hk hs ⊢
    rcases tokenizerFindString_cases rest with e | ⟨w, hw, e, _⟩ | e | e | e
    · rw [e] at hk hs ⊢
      rw [lexSwitch_snd _ hs]
      intro c hc
      cases hc
    · rw [e] at hk hs ⊢
      intro c hc
      have := List.all_eq_true.mp (fact_literals_plain w hw hk) c hc
      simpa using this
    · rw [lexSwitch_snd _ hs]
      exact matchNumbers_plain e
    · exact absurd (lexSwitch_string e) hs
    · rw [lexSwitch_snd _ hs]
      exact matchIdents_plain e

/-! ## C15 -/

theorem tokens_of_map_eq (ts1 : List Token) :
    ∀ ts2 : List Token,
      ts1.map (fun t => Token.mk t.code (colonsForBars t.strVal)) =
        ts2.map (fun t => Token.mk t.code (colonsForBars t.strVal)) →
      List.Forall₂ (fun a b => a.code = b.code ∧
        colonsForBars a.strVal = colonsForBars b.strVal) ts1 ts2 := by
  induction ts1 with
  | nil =>
    intro ts2 h
    cases ts2 with
    | nil => exact List.Forall₂.nil
    | cons b ts2 => cases h
  | cons a ts1 ih =>
    intro ts2 h
    cases ts2 with
    | nil => cases h
    | cons b ts2 =>
      simp only [List.map_cons, List.cons.injEq, Token.mk.injEq] at h
      exact List.Forall₂.cons h.1 (ih ts2 h.2)

/-- C15: the bar and the colon are one token.  `Lex` returns PIPE for both; two inputs that
differ only in bars written for colons or colons for bars (they become the same text when
every bar is replaced by a colon) have token streams with the same token kinds; and when
the exchanges are outside the string literals (the STRING tokens of the two streams carry
the same values), `ParseTransform` returns on both inputs, and it returns the same stage
and the same error on both: there is one result that it returns on each of them, and it
returns no other. -/
theorem C15_bar_and_colon_are_one_token (gcf : CustomFunctions) (input1 input2 : String)
    (ts1 ts2 : List Token)
    (hx : colonsForBars input1 = colonsForBars input2)
    (h1 : lexesAs input1 0 ts1 = true) (h2 : lexesAs input2 0 ts2 = true) :
    lexSwitch "|" = (PIPE, "|") ∧ lexSwitch ":" = (PIPE, ":") ∧
    ts1.map Token.code = ts2.map Token.code ∧
    ((∀ p ∈ ts1.zip ts2, p.1.code = STRING → p.1.strVal = p.2.strVal) →
      ∃ r, ParsesTo gcf input1 r ∧ ParsesTo gcf input2 r ∧
        ∀ r1, ParsesTo gcf input1 r1 ∨ ParsesTo gcf input2 r1 → r1 = r) := by
  have m1 := lexesAs_map input1 ts1 0 h1
  have m2 := lexesAs_map input2 ts2 0 h2
  rw [hx] at m1
  have hm := lexesAs_unique _ _ _ 0 m1 m2
  have hf := tokens_of_map_eq ts1 ts2 hm
  refine ⟨by decide, by decide, ?_, ?_⟩
  · have hc := congrArg (List.map Token.code) hm
    simp only [List.map_map] at hc
    exact hc
  · intro hstr
    have hsame : List.Forall₂ SameToken ts1 ts2 := by
      rw [List.forall₂_iff_zip]
      refine ⟨hf.length_eq, ?_⟩
      intro a b hab
      obtain ⟨hc, hv⟩ := List.forall₂_zip hf hab
      refine ⟨hc, fun hk => ?_⟩
      by_cases hs : a.code = STRING
      · exact hstr (a, b) hab hs
      · obtain ⟨q1, c1, v1⟩ := lexesAs_mem input1 ts1 0 h1 a (List.of_mem_zip hab).1
        obtain ⟨q2, c2, v2⟩ := lexesAs_mem input2 ts2 0 h2 b (List.of_mem_zip hab).2
        have p1 := lexAt_plain input1 q1 (by rw [c1]; exact hk) (by rw [c1]; exact hs)
        have p2 := lexAt_plain input2 q2 (by rw [c2, ← hc]; exact hk)
          (by rw [c2, ← hc]; exact hs)
        rw [v1] at p1
        rw [v2] at p2
        have hd := congrArg String.data hv
        rw [colonsForBars_data, colonsForBars_data, map_colonForBar_plain _ p1,
          map_colonForBar_plain _ p2] at hd
        exact String.ext hd
    obtain ⟨r, q1, q2⟩ := ParsesTo_same gcf input1 input2 ts1 ts2 h1 h2 hsame
    refine ⟨r, q1, q2, ?_⟩
    rintro r1 (h | h)
    · exact ParsesTo_unique gcf h q1
    · exact ParsesTo_unique gcf h q2

/-- C15, witness: the inputs `"a|b" | $` and `"a|b" : $`. -/
theorem C15_bar_and_colon_are_one_token_witness :
    lexSwitch "|" = (PIPE, "|") ∧ lexSwitch ":" = (PIPE, ":") ∧
    [Token.mk STRING "a|b", Token.mk PIPE "|", Token.mk THIS "$"].map Token.code =
      [Token.mk STRING "a|b", Token.mk PIPE ":", Token.mk THIS "$"].map Token.code ∧
    ((∀ p ∈ [Token.mk STRING "a|b", Token.mk PIPE "|", Token.mk THIS "$"].zip
        [Token.mk STRING "a|b", Token.mk PIPE ":", Token.mk THIS "$"],
        p.1.code = STRING → p.1.strVal = p.2.strVal) →
      ∃ r, ParsesTo emptyRegistry "\"a|b\" | $" r ∧ ParsesTo emptyRegistry "\"a|b\" : $" r ∧
        ∀ r1, ParsesTo emptyRegistry "\"a|b\" | $" r1 ∨
          ParsesTo emptyRegistry "\"a|b\" : $" r1 → r1 = r) :=
  C15_bar_and_colon_are_one_token emptyRegistry "\"a|b\" | $" "\"a|b\" : $"
    [Token.mk STRING "a|b", Token.mk PIPE "|", Token.mk THIS "$"]
    [Token.mk STRING "a|b", Token.mk PIPE ":", Token.mk THIS "$"]
    (by decide) (by decide!) (by decide!)

/-! ## The lexer on identifiers and on quoted keys -/

theorem takeWhile_append_stop {p : Char → Bool} (l tail : List Char)
    (hl : ∀ x ∈ l, p x = true) (ht : ∀ x ∈ tail.head?, p x = false) :
    (l ++ tail).takeWhile p = l := by
  rw [List.takeWhile_append_of_pos hl]
  cases tail with
  | nil => simp
  | cons c t =>
    have h := ht c (by simp)
    simp [List.takeWhile, h]

/-- A class of literals none of which begins with a character of the kind `p` does not match a
text that begins with such a character. -/
theorem matchLiterals_none_of_kind (p : Char → Bool) (lits : List String)
    (hl : ∀ w ∈ lits, w.data.head?.map p = some false) (c : Char) (hc : p c = true)
    (t : List Char) : matchLiterals lits (c :: t) = none := by
  apply matchLiterals_none
  intro w hw
  have h := hl w hw
  cases hd : w.data with
  | nil => rw [hd] at h; cases h
  | cons x xs =>
    rw [hd] at h
    simp only [List.head?_cons, Option.map_some', Option.some.injEq] at h
    refine ⟨x, xs, rfl, ?_⟩
    rintro rfl
    rw [hc] at h
    cases h

theorem fact_literal_heads :
    (∀ w ∈ compops ++ pipes ++ syms ++ maths, w.data.head?.map isIdentStart = some false) ∧
    (∀ w ∈ builtins ++ logicals ++ compops ++ pipes ++ syms ++ maths,
      w.data.head?.map (fun c => decide (c = dquote)) = some false) ∧
    (∀ w ∈ builtins ++ logicals, ∀ x ∈ w.data, isIdentChar x = true) ∧
    (∀ w ∈ switchCases,
      w ∈ builtins ++ logicals ∨ w.data.head?.map isIdentStart ≠ some true) := by
  decide!

theorem isIdentStart_facts {c : Char} (h : isIdentStart c = true) :
    isDigit c = false ∧ c ≠ Char.ofNat 45 ∧ c ≠ dquote ∧ c ≠ newline ∧
    isIdentChar c = true ∧ ¬ (c = ' ' ∨ c = tabChar) := by
  refine ⟨?_, ?_, ?_, ?_, by simp [isIdentChar, h], ?_⟩
  · simp only [isIdentStart, isDigit, decide_eq_true_eq, decide_eq_false_iff_not] at h ⊢
    omega
  · rintro rfl
    revert h
    decide
  · rintro rfl
    revert h
    decide
  · rintro rfl
    revert h
    decide
  · rintro (rfl | rfl) <;>
    · revert h
      decide

theorem isIdentChar_facts {c : Char} (h : isIdentChar c = true) :
    c ≠ dquote ∧ c ≠ newline := by
  constructor <;>
  · rintro rfl
    revert h
    decide

theorem matchNumbers_none_of_head (c : Char) (t : List Char) (h1 : isDigit c = false)
    (h2 : c ≠ Char.ofNat 45) : matchNumbers (c :: t) = none := by
  unfold matchNumbers
  simp [h2, List.takeWhile, h1]

theorem matchStringr_none_of_head (c : Char) (t : List Char) (h : c ≠ dquote) :
    matchStringr (c :: t) = none := by
  unfold matchStringr
  cases t with
  | nil => rfl
  | cons c0 r => simp [h]

/-- A word of letters that begins a name followed by a character that is none: it begins
the name. -/
theorem isPrefixOf_of_append (w : List Char) (hw : ∀ x ∈ w, isIdentChar x = true)
    (r : List Char) (hr : ∀ x ∈ r.head?, isIdentChar x = false) :
    ∀ name : List Char, w.isPrefixOf (name ++ r) = true → w.isPrefixOf name = true := by
  induction w with
  | nil =>
    intro name _
    simp [List.isPrefixOf]
  | cons x w ih =>
    intro name h
    cases name with
    | nil =>
      cases r with
      | nil => simp [List.isPrefixOf] at h
      | cons y r1 =>
        simp only [List.nil_append, List.isPrefixOf, Bool.and_eq_true, beq_iff_eq] at h
        have h1 := hw x (List.mem_cons_self _ _)
        have h2 := hr y (by simp)
        rw [h.1, h2] at h1
        cases h1
    | cons a name =>
      simp only [List.cons_append, List.isPrefixOf, Bool.and_eq_true, beq_iff_eq] at h ⊢
      exact ⟨h.1, ih (fun y hy => hw y (List.mem_cons_of_mem _ hy)) name h.2⟩

/-- The tokenizer on a name `c :: t` of the form of an identifier that no reserved word
begins, followed by a character that is no letter, digit or underscore: the name, and `Lex`
returns IDENTIFIER for it. -/
theorem tokenizerFindString_ident (c : Char) (t r : List Char) (hc : isIdentStart c = true)
    (ht : ∀ x ∈ t, isIdentChar x = true) (hr : ∀ x ∈ r.head?, isIdentChar x = false)
    (hk : ∀ w ∈ builtins ++ logicals, w.data.isPrefixOf (c :: t) = false) :
    tokenizerFindString (c :: t ++ r) = c :: t ∧
    lexSwitch (String.mk (c :: t)) = (IDENTIFIER, String.mk (c :: t)) := by
  obtain ⟨f1, f2, f3, f4⟩ := fact_literal_heads
  obtain ⟨c1, c2, c3, c4, c5, c6⟩ := isIdentStart_facts hc
  have hkw : ∀ lits : List String, (∀ w ∈ lits, w ∈ builtins ++ logicals) →
      matchLiterals lits (c :: (t ++ r)) = none := by
    intro lits hl
    unfold matchLiterals
    rw [Option.map_eq_none', List.find?_eq_none]
    intro w hw hp
    have h1 := isPrefixOf_of_append w.data (f3 w (hl w hw)) r hr (c :: t) hp
    rw [hk w (hl w hw)] at h1
    cases h1
  have hsy : ∀ lits : List String, (∀ w ∈ lits, w ∈ compops ++ pipes ++ syms ++ maths) →
      matchLiterals lits (c :: (t ++ r)) = none :=
    fun lits hl => matchLiterals_none_of_kind isIdentStart lits
      (fun w hw => f1 w (hl w hw)) c hc _
  have hid : matchIdents (c :: (t ++ r)) = some (c :: t) := by
    unfold matchIdents
    simp only
    rw [if_pos hc, takeWhile_append_stop t r ht hr]
  constructor
  · unfold tokenizerFindString
    rw [List.cons_append, hkw builtins (fun w hw => by simp [hw]),
      hkw logicals (fun w hw => by simp [hw]), matchNumbers_none_of_head c _ c1 c2,
      hsy compops (fun w hw => by simp [hw]), matchStringr_none_of_head c _ c3,
      hsy pipes (fun w hw => by simp [hw]), hsy syms (fun w hw => by simp [hw]), hid]
    rfl
  · have hm : String.mk (c :: t) ∉ switchCases := by
      intro hmem
      rcases f4 _ hmem with h | h
      · have h1 := hk _ h
        have h2 : (c :: t).isPrefixOf (c :: t) = true := by
          rw [ List.isPrefixOf_iff_prefix]
        rw [h2] at h1
        cases h1
      · apply h
        simp [hc]
    have hn : numberRegexMatch (c :: t) = false := by
      unfold numberRegexMatch
      rw [matchNumbers_none_of_head c _ c1 c2]
      rfl
    have hs : stringRegexMatch (c :: t) = false := by
      unfold stringRegexMatch
      rw [decide_eq_false_iff_not]
      rintro ⟨_, h, _⟩
      simp only [List.head?_cons, Option.some.injEq] at h
      exact c3 h
    rw [lexSwitch_default _ hm]
    dsimp only
    rw [hn, hs]
    rfl

/-- The tokenizer on a quoted key: the text up to the closing quote, and `Lex` returns
STRING for it with the key as its value. -/
theorem tokenizerFindString_quoted (c0 : Char) (body r : List Char) (hc0 : c0 ≠ newline)
    (hb : ∀ x ∈ body, x ≠ dquote ∧ x ≠ newline) :
    tokenizerFindString (dquote :: c0 :: body ++ dquote :: r) =
      dquote :: c0 :: body ++ [dquote] ∧
    lexSwitch (String.mk (dquote :: c0 :: body ++ [dquote])) =
      (STRING, String.mk (c0 :: body)) := by
  obtain ⟨_, f2, _, _⟩ := fact_literal_heads
  have hq : (fun c => decide (c = dquote)) dquote = true := by decide
  have hlit : ∀ lits : List String,
      (∀ w ∈ lits, w ∈ builtins ++ logicals ++ compops ++ pipes ++ syms ++ maths) →
      matchLiterals lits (dquote :: (c0 :: (body ++ dquote :: r))) = none :=
    fun lits hl => matchLiterals_none_of_kind (fun c => decide (c = dquote)) lits
      (fun w hw => f2 w (hl w hw)) dquote hq _
  have e0 : dquote :: c0 :: body ++ dquote :: r = dquote :: (c0 :: (body ++ dquote :: r)) := rfl
  rw [e0]
  have hs : matchStringr (dquote :: (c0 :: (body ++ dquote :: r))) =
      some (dquote :: c0 :: body ++ [dquote]) := by
    unfold matchStringr
    simp only
    rw [if_pos ⟨trivial, hc0⟩]
    have e : List.takeWhile (fun c => decide (c ≠ dquote ∧ c ≠ newline)) (body ++ dquote :: r) =
        body :=
      takeWhile_append_stop body (dquote :: r) (fun x hx => by simpa using hb x hx)
        (fun x hx => by
          simp only [List.head?_cons, Option.mem_def, Option.some.injEq] at hx
          subst hx
          simp)
    simp only [e, List.drop_left]
    rfl
  constructor
  · unfold tokenizerFindString
    rw [hlit builtins (fun w hw => by simp [hw]),
      hlit logicals (fun w hw => by simp [hw]),
      matchNumbers_none_of_head dquote _ (by decide) (by decide),
      hlit compops (fun w hw => by simp [hw]), hs]
    rfl
  · obtain ⟨hq1, hs1⟩ := matchStringr_shape hs
    have hm : String.mk (dquote :: c0 :: body ++ [dquote]) ∉ switchCases :=
      fun hc => (fact_switchCases_values _ hc).2 hq1
    have hn : numberRegexMatch (dquote :: c0 :: body ++ [dquote]) = false := by
      unfold numberRegexMatch
      rw [List.cons_append, matchNumbers_none_of_head dquote _ (by decide) (by decide)]
      rfl
    rw [lexSwitch_default _ hm]
    dsimp only
    rw [hn, hs1]
    simp only [Bool.false_eq_true, if_false, if_true]
    rw [show List.drop 1 (dquote :: c0 :: body ++ [dquote]) = (c0 :: body) ++ [dquote] from rfl,
      List.dropLast_concat]

/-! ## The order of the lexical classes -/

theorem findSome_cons_orElse {α β : Type} (g : α → Option β) (f : α) (fs : List α) :
    (f :: fs).findSome? g = (g f).orElse fun _ => fs.findSome? g := by
  rw [List.findSome?_cons]
  cases g f <;> rfl

/-- The tokenizer returns the match of the first of the lexical classes that matches. -/
theorem tokenizerFindString_classes (rest : List Char) :
    tokenizerFindString rest = (lexicalClasses.findSome? (fun f => f rest)).getD [] := by
  unfold tokenizerFindString lexicalClasses
  simp only [findSome_cons_orElse, List.findSome?_nil]
  cases matchLiterals maths rest <;> rfl

theorem findSome_first {α β : Type} (g : α → Option β) (m : β) :
    ∀ (l : List α) (i : Nat) (f : α), l[i]? = some f → g f = some m →
      (∀ j, j < i → ∀ h, l[j]? = some h → g h = none) → l.findSome? g = some m := by
  intro l
  induction l with
  | nil =>
    intro i f hf
    simp at hf
  | cons a l ih =>
    intro i f hf hm hlt
    cases i with
    | zero =>
      simp only [List.getElem?_cons_zero, Option.some.injEq] at hf
      subst hf
      rw [List.findSome?_cons, hm]
    | succ i =>
      have ha : g a = none := hlt 0 (Nat.succ_pos i) a (by simp)
      rw [List.findSome?_cons, ha]
      exact ih i f (by simpa using hf) hm
        (fun j hj h hh => hlt (j + 1) (Nat.succ_lt_succ hj) h (by simpa using hh))

theorem fact_literals_not_empty :
    ∀ w ∈ builtins ++ logicals ++ compops ++ pipes ++ syms ++ maths, w.data ≠ [] := by
  decide!

/-- No lexical class matches the empty text. -/
theorem class_match_not_empty (rest m : List Char) :
    ∀ f ∈ lexicalClasses, f rest = some m → m ≠ [] := by
  have lit : ∀ (lits : List String), (∀ w ∈ lits, w ∈ builtins ++ logicals ++ compops ++
      pipes ++ syms ++ maths) → matchLiterals lits rest = some m → m ≠ [] := by
    intro lits hl h
    obtain ⟨w, hw, e, _⟩ := matchLiterals_some h
    rw [e]
    exact fact_literals_not_empty w (hl w hw)
  intro f hf h
  simp only [lexicalClasses, List.mem_cons, List.mem_singleton, List.not_mem_nil,
    or_false] at hf
  rcases hf with rfl | rfl | rfl | rfl | rfl | rfl | rfl | rfl | rfl
  · exact lit _ (fun w hw => by simp [hw]) h
  · exact lit _ (fun w hw => by simp [hw]) h
  · obtain ⟨sign, ds, frac, e, _, hds, _⟩ := matchNumbers_shape h
    rw [e]
    cases ds with
    | nil => exact absurd rfl hds
    | cons c ds => simp
  · exact lit _ (fun w hw => by simp [hw]) h
  · intro e
    have hq := (matchStringr_shape h).1
    rw [e] at hq
    cases hq
  · exact lit _ (fun w hw => by simp [hw]) h
  · exact lit _ (fun w hw => by simp [hw]) h
  · unfold matchIdents at h
    cases rest with
    | nil => cases h
    | cons c r =>
      dsimp only at h
      split at h
      · cases h
        exact List.cons_ne_nil _ _
      · cases h
  · exact lit _ (fun w hw => by simp [hw]) h

/-! ## C14 -/

/-- C14, amended: `Next` returns the match of the first lexical class that matches, and not
the longest match of any class.  At a cursor followed by blanks and then by a text that
begins with a character that is no blank: if the class at the place `i` of the order
builtins, logicals, numbers, compops, stringr, pipes, syms, idents, maths matches `m` at the
start of the text and no class before it in this order matches, `Next` returns `m`,
whatever the classes after it match; if no class matches, it returns `<ERROR>`; in a class
of literals the match is the first literal, in the order of the class, that the text
begins with; so when the text begins with a reserved word, `Next` returns the first such
word in the order has, if, gte, lte, gt, lt, eq, ne, set, true, false, and, or, not. -/
theorem C14_first_class_wins (pre blanks : List Char) (d : Char) (rest : List Char)
    (err : String) (out : TransformFunc)
    (hb : ∀ c ∈ blanks, c = ' ' ∨ c = tabChar) (hd : ¬ (d = ' ' ∨ d = tabChar)) :
    (∀ (i : Nat) (f : List Char → Option (List Char)) (m : List Char),
      lexicalClasses[i]? = some f → f (d :: rest) = some m →
      (∀ j, j < i → ∀ g, lexicalClasses[j]? = some g → g (d :: rest) = none) →
      (TransformLex.mk (String.mk (pre ++ (blanks ++ d :: rest))) pre.length err out).Next.1 =
        String.mk m) ∧
    ((∀ f ∈ lexicalClasses, f (d :: rest) = none) →
      (TransformLex.mk (String.mk (pre ++ (blanks ++ d :: rest))) pre.length err out).Next.1 =
        errorString) ∧
    (∀ (lits : List String) (w : String),
      lits.find? (fun w => w.data.isPrefixOf (d :: rest)) = some w →
      matchLiterals lits (d :: rest) = some w.data) ∧
    (∀ w : String,
      (builtins ++ logicals).find? (fun w => w.data.isPrefixOf (d :: rest)) = some w →
      (TransformLex.mk (String.mk (pre ++ (blanks ++ d :: rest))) pre.length err out).Next.1 =
        w) := by
  refine ⟨?_, ?_, ?_, ?_⟩
  · intro i f m hf hm hlt
    have h1 := findSome_first (fun f => f (d :: rest)) m lexicalClasses i f hf hm hlt
    have h2 : tokenizerFindString (d :: rest) = m := by
      rw [tokenizerFindString_classes, h1]
      rfl
    have h3 : m ≠ [] := class_match_not_empty (d :: rest) m f (List.getElem?_mem hf) hm
    rw [Next_after_blanks pre blanks d rest err out hb hd, h2, if_neg h3]
  · intro hall
    have h1 : lexicalClasses.findSome? (fun f => f (d :: rest)) = none :=
      List.findSome?_eq_none_iff.mpr hall
    have h2 : tokenizerFindString (d :: rest) = [] := by
      rw [tokenizerFindString_classes, h1]
      rfl
    rw [Next_after_blanks pre blanks d rest err out hb hd, h2, if_pos rfl]
  · intro lits w hw
    unfold matchLiterals
    rw [hw]
    rfl
  · intro w hw
    exact Next_keyword pre blanks (d :: rest) w err out hb hw

/-- C14, witness: at position 1 of `1 order`, before the blank, no word of `builtins` begins
the text `order` and the class `logicals` matches `or`: `Next` returns `or`. -/
theorem C14_first_class_wins_witness :
    (TransformLex.mk (String.mk ("1".data ++ (" ".data ++ 'o' :: "rder".data))) "1".data.length
      "" TransformFunc.nil).Next.1 = String.mk "or".data :=
  (C14_first_class_wins "1".data " ".data 'o' "rder".data "" TransformFunc.nil
    (by decide) (by decide)).1 1 (matchLiterals logicals) "or".data rfl (by decide!)
    (fun j hj g hg => by
      obtain rfl : j = 0 := by omega
      have e : g = matchLiterals builtins := by
        simpa [lexicalClasses] using hg.symm
      rw [e]
      decide!)

/-! ## Inputs written out -/

/-- One more token of the stream, read without blanks before it. -/
theorem lexesAs_step (full : String) (p q : Int) (pre : List Char) (d : Char)
    (tok1 rest : List Char) (code : Int) (val : String) (ts : List Token)
    (hfull : full.data = pre ++ (d :: (tok1 ++ rest))) (hp : p = pre.length)
    (hq : q = (pre ++ d :: tok1).length) (hd : ¬ (d = ' ' ∨ d = tabChar))
    (hfind : tokenizerFindString (d :: (tok1 ++ rest)) = d :: tok1)
    (hsw : lexSwitch (String.mk (d :: tok1)) = (code, val)) (hpos : 0 < code)
    (hrest : lexesAs full q ts = true) :
    lexesAs full p (Token.mk code val :: ts) = true := by
  have e : (((pre ++ []).length : Int) + (tokenizerFindString (d :: (tok1 ++ rest))).length) =
      q := by
    rw [hfind, hq]
    simp
  have h := lexesAs_cons full p pre [] d (tok1 ++ rest) code ts (by simpa using hfull) hp
    (by simp) hd (by rw [hfind]; simp) (by rw [hfind, hsw]) hpos (by rw [e]; exact hrest)
  rw [hfind, hsw] at h
  exact h

/-- The end of the stream at the end of the input. -/
theorem lexesAs_done (full : String) (q : Int) (hq : q = full.data.length) :
    lexesAs full q [] = true :=
  lexesAs_nil full q full.data [] (by simp) hq (by simp)

theorem tokenizerFindString_LB (r : List Char) : tokenizerFindString ('(' :: r) = ['('] := by
  cases r <;>
  simp [tokenizerFindString, matchLiterals, builtins, logicals, compops, pipes, syms, maths,
    matchNumbers, matchStringr, matchIdents, List.isPrefixOf, isDigit, isIdentStart, dquote,
    Option.orElse]

theorem tokenizerFindString_RB (r : List Char) : tokenizerFindString (')' :: r) = [')'] := by
  cases r <;>
  simp [tokenizerFindString, matchLiterals, builtins, logicals, compops, pipes, syms, maths,
    matchNumbers, matchStringr, matchIdents, List.isPrefixOf, isDigit, isIdentStart, dquote,
    Option.orElse]

theorem tokenizerFindString_LSQUARE (r : List Char) :
    tokenizerFindString ('[' :: r) = ['['] := by
  cases r <;>
  simp [tokenizerFindString, matchLiterals, builtins, logicals, compops, pipes, syms, maths,
    matchNumbers, matchStringr, matchIdents, List.isPrefixOf, isDigit, isIdentStart, dquote,
    Option.orElse]

theorem tokenizerFindString_has (r : List Char) :
    tokenizerFindString ('h' :: 'a' :: 's' :: r) = ['h', 'a', 's'] := by
  have h : (builtins ++ logicals).find? (fun w => w.data.isPrefixOf ('h' :: 'a' :: 's' :: r)) =
      some "has" := by
    simp [builtins, List.find?, List.isPrefixOf]
  exact tokenizerFindString_keyword h

/-- The tokens of `has("key")` for a key of the form of an identifier. -/
theorem lexesAs_has_call (c : Char) (t : List Char) (hc : isIdentStart c = true)
    (ht : ∀ x ∈ t, isIdentChar x = true) :
    lexesAs (String.mk ("has(\"".data ++ (c :: t) ++ "\")".data)) 0
      [Token.mk HAS "has", Token.mk LB "(", Token.mk STRING (String.mk (c :: t)),
        Token.mk RB ")"] = true := by
  obtain ⟨_, _, _, c4, _, _⟩ := isIdentStart_facts hc
  obtain ⟨k1, k2⟩ := tokenizerFindString_quoted c t [')'] c4
    (fun x hx => isIdentChar_facts (ht x hx))
  generalize hfull : String.mk ("has(\"".data ++ (c :: t) ++ "\")".data) = full
  have hdata : full.data = 'h' :: 'a' :: 's' :: '(' :: dquote :: c :: (t ++ [dquote, ')']) := by
    rw [← hfull]
    simp [dquote]
  have h5 : lexesAs full (full.data.length : Int) [] = true := lexesAs_done full _ rfl
  have h4 : lexesAs full ((['h', 'a', 's', '('] ++ dquote :: (c :: t ++ [dquote])).length : Int)
      [Token.mk RB ")"] = true :=
    lexesAs_step full _ _ (['h', 'a', 's', '('] ++ dquote :: (c :: t ++ [dquote])) ')' [] []
      RB ")" [] (by rw [hdata]; simp) rfl (by rw [hdata]; simp) (by decide)
      (tokenizerFindString_RB []) (by decide!) (by decide) h5
  have h3 : lexesAs full ((['h', 'a', 's', '('] : List Char).length : Int)
      [Token.mk STRING (String.mk (c :: t)), Token.mk RB ")"] = true :=
    lexesAs_step full _ _ ['h', 'a', 's', '('] dquote (c :: t ++ [dquote]) [')']
      STRING (String.mk (c :: t)) _ (by rw [hdata]; simp) rfl rfl (by decide)
      (by simpa using k1) (by simpa using k2) (by decide) h4
  have h2 : lexesAs full ((['h', 'a', 's'] : List Char).length : Int)
      [Token.mk LB "(", Token.mk STRING (String.mk (c :: t)), Token.mk RB ")"] = true :=
    lexesAs_step full _ _ ['h', 'a', 's'] '(' [] (dquote :: c :: (t ++ [dquote, ')']))
      LB "(" _ (by rw [hdata]; simp) rfl rfl (by decide)
      (tokenizerFindString_LB _) (by decide!) (by decide) h3
  exact lexesAs_step full 0 _ [] 'h' ['a', 's'] ('(' :: dquote :: c :: (t ++ [dquote, ')']))
    HAS "has" _ (by rw [hdata]; simp) rfl rfl (by decide)
    (tokenizerFindString_has _) (by decide!) (by decide) h2

/-- The tokens of a text that begins with `has[`: HAS, LSQUARE and whatever follows. -/
theorem lexesAs_has_bracket (r : List Char) :
    ∃ ts, lexesAs (String.mk ('h' :: 'a' :: 's' :: '[' :: r)) 0
      (Token.mk HAS "has" :: Token.mk LSQUARE "[" :: ts) = true := by
  obtain ⟨ts, hts⟩ := tokens_exist (String.mk ('h' :: 'a' :: 's' :: '[' :: r)) _
    ((['h', 'a', 's', '['] : List Char).length : Int) (by simp) rfl
  have h2 : lexesAs (String.mk ('h' :: 'a' :: 's' :: '[' :: r))
      ((['h', 'a', 's'] : List Char).length : Int) (Token.mk LSQUARE "[" :: ts) = true :=
    lexesAs_step _ _ _ ['h', 'a', 's'] '[' [] r LSQUARE "[" _ (by simp) rfl rfl (by decide)
      (tokenizerFindString_LSQUARE _) (by decide!) (by decide) hts
  exact ⟨ts, lexesAs_step _ 0 _ [] 'h' ['a', 's'] ('[' :: r) HAS "has" _ (by simp) rfl rfl
    (by decide) (tokenizerFindString_has _) (by decide!) (by decide) h2⟩

/-! ## C10 -/

/-- C10, amended: the existence test is a call with a quoted key, and the form with square
brackets is rejected.  For every key of the form of an identifier (a letter or underscore,
then letters, digits and underscores), `ParseTransform` on `has("key")` returns the
existence test of the key and no error, and on `has[key]` it returns a nil stage and the
error "syntax error". -/
theorem C10_has_is_a_call (gcf : CustomFunctions) (c : Char) (t : List Char)
    (hc : isIdentStart c = true) (ht : ∀ x ∈ t, isIdentChar x = true) :
    ParsesTo gcf (String.mk ("has(\"".data ++ (c :: t) ++ "\")".data))
      (TransformFunc.pipelineGeneratorHas (String.mk (c :: t)), none) ∧
    ParsesTo gcf (String.mk ("has[".data ++ (c :: t) ++ "]".data))
      (TransformFunc.nil, some "syntax error") := by
  obtain ⟨ts, hts⟩ := lexesAs_has_bracket (c :: t ++ "]".data)
  exact has_call_of_tokens gcf _ _ (String.mk (c :: t)) "has" (Token.mk LSQUARE "[" :: ts)
    (lexesAs_has_call c t hc ht) hts (by simp only [lookahead]; decide)

/-- C10, witness: `has("foo")` is the existence test of `foo`, `has[foo]` a syntax error. -/
theorem C10_has_is_a_call_witness :
    ParsesTo emptyRegistry (String.mk ("has(\"".data ++ ('f' :: "oo".data) ++ "\")".data))
      (TransformFunc.pipelineGeneratorHas (String.mk ('f' :: "oo".data)), none) ∧
    ParsesTo emptyRegistry (String.mk ("has[".data ++ ('f' :: "oo".data) ++ "]".data))
      (TransformFunc.nil, some "syntax error") :=
  C10_has_is_a_call emptyRegistry 'f' "oo".data (by decide) (by decide)

/-! ## C11 -/

/-- The tokens of `name()` and of `name` for a name of the form of an identifier that no
reserved word begins. -/
theorem lexesAs_name_call (c : Char) (t : List Char) (hc : isIdentStart c = true)
    (ht : ∀ x ∈ t, isIdentChar x = true)
    (hk : ∀ w ∈ builtins ++ logicals, w.data.isPrefixOf (c :: t) = false) :
    lexesAs (String.mk ((c :: t) ++ "()".data)) 0
      [Token.mk IDENTIFIER (String.mk (c :: t)), Token.mk LB "(", Token.mk RB ")"] = true ∧
    lexesAs (String.mk (c :: t)) 0 [Token.mk IDENTIFIER (String.mk (c :: t))] = true := by
  obtain ⟨_, _, _, _, _, c6⟩ := isIdentStart_facts hc
  obtain ⟨k1, k2⟩ := tokenizerFindString_ident c t ['(', ')'] hc ht (by simp; decide) hk
  obtain ⟨k3, _⟩ := tokenizerFindString_ident c t [] hc ht (by simp) hk
  constructor
  · generalize hfull : String.mk ((c :: t) ++ "()".data) = full
    have hdata : full.data = c :: (t ++ ['(', ')']) := by
      rw [← hfull]
      simp
    have h4 : lexesAs full (full.data.length : Int) [] = true := lexesAs_done full _ rfl
    have h3 : lexesAs full (((c :: t) ++ ['(']).length : Int) [Token.mk RB ")"] = true :=
      lexesAs_step full _ _ ((c :: t) ++ ['(']) ')' [] [] RB ")" [] (by rw [hdata]; simp) rfl
        (by rw [hdata]; simp) (by decide) (tokenizerFindString_RB []) (by decide!)
        (by decide) h4
    have h2 : lexesAs full ((c :: t).length : Int) [Token.mk LB "(", Token.mk RB ")"] = true :=
      lexesAs_step full _ _ (c :: t) '(' [] [')'] LB "(" _ (by rw [hdata]; simp) rfl rfl
        (by decide) (tokenizerFindString_LB _) (by decide!) (by decide) h3
    exact lexesAs_step full 0 _ [] c t ['(', ')'] IDENTIFIER (String.mk (c :: t)) _
      (by rw [hdata]; simp) rfl (by simp) c6 (by simpa using k1) k2 (by decide) h2
  · exact lexesAs_step (String.mk (c :: t)) 0 _ [] c t [] IDENTIFIER (String.mk (c :: t)) _
      (by simp) rfl rfl c6 (by simpa using k3) k2 (by decide)
      (lexesAs_done _ _ (by simp))

/-- C11, amended: a call of a custom function needs its parentheses.  For every name of the
form of an identifier (a letter or underscore, then letters, digits and underscores) that
does not begin with a reserved word (a word of `builtins` or `logicals`), `ParseTransform`
on `name()` returns the stage of `getCustomFunction name []`, with the error of the lookup
if it returns one whose message is not empty, and on the bare `name` it returns a nil
stage and the error "syntax error". -/
theorem C11_call_needs_parentheses (gcf : CustomFunctions) (c : Char) (t : List Char)
    (hc : isIdentStart c = true) (ht : ∀ x ∈ t, isIdentChar x = true)
    (hk : ∀ w ∈ builtins ++ logicals, w.data.isPrefixOf (c :: t) = false) :
    ParsesTo gcf (String.mk ((c :: t) ++ "()".data))
      ((gcf (String.mk (c :: t)) []).1,
        errorOf ((gcf (String.mk (c :: t)) []).2.getD "")) ∧
    ParsesTo gcf (String.mk (c :: t)) (TransformFunc.nil, some "syntax error") := by
  obtain ⟨h1, h2⟩ := lexesAs_name_call c t hc ht hk
  exact call_of_tokens gcf _ _ (String.mk (c :: t)) "(" ")" [] h1 h2 (by decide)

/-- C11, witness: `foo()` and `foo` in the registry where every name is the identity. -/
theorem C11_call_needs_parentheses_witness :
    ParsesTo identityRegistry (String.mk (('f' :: "oo".data) ++ "()".data))
      ((identityRegistry (String.mk ('f' :: "oo".data)) []).1,
        errorOf ((identityRegistry (String.mk ('f' :: "oo".data)) []).2.getD "")) ∧
    ParsesTo identityRegistry (String.mk ('f' :: "oo".data))
      (TransformFunc.nil, some "syntax error") :=
  C11_call_needs_parentheses identityRegistry 'f' "oo".data (by decide) (by decide)
    (by decide!)

/-! ## C13 -/

/-- C13 (fails on the code): a call whose lookup fails does not always give an error.  The
call `bogus(1)` alone returns the error of the lookup (here in the registry without
entries), but in `$ # bogus(1)` the character `#`, which no lexical class reads, ends the
input for the parser: for every registry, also one in which the lookup of `bogus` fails,
`ParseTransform` returns the identity stage and no error, and `getCustomFunction` is never
called.  And an error of the lookup whose message is empty is not returned at all:
`ParseTransform` tests the stored message against the empty string. -/
theorem C13_lookup_error_can_be_lost (gcf : CustomFunctions) :
    ParsesTo emptyRegistry "bogus(1)" (TransformFunc.nil, some "unknown function") ∧
    lexesAs "$ # bogus(1)" 0 [Token.mk THIS "$"] = true ∧
    ParsesTo gcf "$ # bogus(1)" (TransformFunc.pipelineGeneratorIdentity, none) ∧
    ParsesTo silentRegistry "f()" (TransformFunc.nil, none) := by
  have hl : lexesAs "$ # bogus(1)" 0 [Token.mk THIS "$"] = true := by decide!
  refine ⟨⟨100, by decide!⟩, hl, ?_, ⟨100, by decide!⟩⟩
  exact ParsesTo_of_Derives gcf "$ # bogus(1)" _
    (Derives.pipeline_of_terminal (Derives.p21 (Derives.p28 "$"))) hl

/-! ## C20 -/

theorem fact_keyword_call_unclosed : ∀ kw ∈ [GTE, LTE, GT, LT, EQ, NE],
    (validShift 0 (lex1Code kw)).isSome = true ∧
    (validShift ((validShift 0 (lex1Code kw)).getD 0) (lex1Code LB)).isSome = true ∧
    (validShift ((validShift 0 (lex1Code kw)).getD 0) (lex1Code LB)).getD 0 ∈
      NT.pipeline.starts ∧
    errorAction
      (gotoState ((validShift ((validShift 0 (lex1Code kw)).getD 0) (lex1Code LB)).getD 0)
        NT.pipeline.num) 1 = true := by
  decide!

/-- A keyword call whose input ends after the pipeline of the argument, before the closing
parenthesis: a syntax error, returned with the stage of the argument. -/
theorem keyword_call_unclosed (gcf : CustomFunctions) (input : String) (kw : Int)
    (text s : String) (ts : List Token) (v : TransformFunc) (es : List String)
    (hk : kw ∈ [GTE, LTE, GT, LT, EQ, NE])
    (hd : Derives gcf NT.pipeline ts (SemVal.func v) es)
    (hl : lexesAs input 0 (Token.mk kw text :: Token.mk LB s :: ts) = true) :
    ParsesTo gcf input (v, some "syntax error") := by
  obtain ⟨f1, f2, f3, f4⟩ := fact_keyword_call_unclosed kw hk
  obtain ⟨q1, hq1⟩ := Option.isSome_iff_exists.mp f1
  rw [hq1] at f2 f3 f4
  simp only [Option.getD_some] at f2 f3 f4
  obtain ⟨q2, hq2⟩ := Option.isSome_iff_exists.mp f2
  rw [hq2] at f3 f4
  simp only [Option.getD_some] at f3 f4
  have r1 : Reach gcf
      ⟨[TransformSymType.zero], Token.mk kw text :: Token.mk LB s :: ts, "", TransformFunc.nil⟩
      ⟨[shiftEntry q1 text, TransformSymType.zero], Token.mk LB s :: ts, "",
        TransformFunc.nil⟩ :=
    Reach_shift gcf hq1
  have r2 : Reach gcf
      ⟨[shiftEntry q1 text, TransformSymType.zero], Token.mk LB s :: ts, "",
        TransformFunc.nil⟩
      ⟨[shiftEntry q2 s, shiftEntry q1 text, TransformSymType.zero], ts, "",
        TransformFunc.nil⟩ :=
    Reach_shift gcf hq2
  obtain ⟨e1, out1, err1, hr, _, hy, _, ho⟩ :=
    Derives.phrase gcf hd (shiftEntry q2 s) [shiftEntry q1 text, TransformSymType.zero] []
      "" TransformFunc.nil f3 (by decide)
  rw [List.append_nil] at hr
  have hv : out1 = v := SemVal.func.inj (ho rfl)
  have ha : errorAction e1.yys (lookahead []) = true := by
    rw [hy]
    exact f4
  have h := ParsesTo_of_error gcf hl ((r1.trans r2).trans hr) rfl ha
  dsimp only at h
  rw [hv] at h
  exact h

/-- C20 (fails on the code): a pipeline that parses successfully is not always accepted as
the argument of a keyword call.  `5 #` parses successfully, to the constant 5 with no
error, because the character `#`, which no lexical class reads, ends the input; and for
each of the six keywords `k` the input `k(5 #)` returns the constant 5 and the error
"syntax error", not the comparison of the identity with 5: the input ends for the parser
before the closing parenthesis. -/
theorem C20_unread_text_ends_the_argument (gcf : CustomFunctions) :
    ParsesTo gcf "5 #" (TransformFunc.pipelineGeneratorConstantFloat "5", none) ∧
    ParsesTo gcf "gte(5 #)"
      (TransformFunc.pipelineGeneratorConstantFloat "5", some "syntax error") ∧
    ParsesTo gcf "lte(5 #)"
      (TransformFunc.pipelineGeneratorConstantFloat "5", some "syntax error") ∧
    ParsesTo gcf "gt(5 #)"
      (TransformFunc.pipelineGeneratorConstantFloat "5", some "syntax error") ∧
    ParsesTo gcf "lt(5 #)"
      (TransformFunc.pipelineGeneratorConstantFloat "5", some "syntax error") ∧
    ParsesTo gcf "eq(5 #)"
      (TransformFunc.pipelineGeneratorConstantFloat "5", some "syntax error") ∧
    ParsesTo gcf "ne(5 #)"
      (TransformFunc.pipelineGeneratorConstantFloat "5", some "syntax error") := by
  have hd : Derives gcf NT.pipeline [Token.mk NUMBER "5"]
      (SemVal.func (TransformFunc.pipelineGeneratorConstantFloat "5")) [] :=
    Derives.pipeline_of_terminal (Derives.p20 (Derives.p24 "5"))
  refine ⟨ParsesTo_of_Derives gcf "5 #" _ hd (by decide!), ?_, ?_, ?_, ?_, ?_, ?_⟩
  · exact keyword_call_unclosed gcf "gte(5 #)" GTE "gte" "(" _ _ [] (by decide) hd (by decide!)
  · exact keyword_call_unclosed gcf "lte(5 #)" LTE "lte" "(" _ _ [] (by decide) hd (by decide!)
  · exact keyword_call_unclosed gcf "gt(5 #)" GT "gt" "(" _ _ [] (by decide) hd (by decide!)
  · exact keyword_call_unclosed gcf "lt(5 #)" LT "lt" "(" _ _ [] (by decide) hd (by decide!)
  · exact keyword_call_unclosed gcf "eq(5 #)" EQ "eq" "(" _ _ [] (by decide) hd (by decide!)
  · exact keyword_call_unclosed gcf "ne(5 #)" NE "ne" "(" _ _ [] (by decide) hd (by decide!)

end Transforms

namespace Restcore

/-! ## C18 -/

theorem any_tails_singleton (c : Char) (l : List Char) :
    (l.tails.any (fun t => [c].isPrefixOf t)) = true ↔ c ∈ l := by
  induction l with
  | nil => simp [List.isPrefixOf]
  | cons a l ih =>
    rw [List.tails, List.any_cons, Bool.or_eq_true, ih]
    simp only [List.isPrefixOf, Bool.and_true, beq_iff_eq, List.mem_cons]

theorem stringsContains_char (n : String) (c : Char) :
    stringsContains n (String.mk [c]) = true ↔ c ∈ n.data :=
  any_tails_singleton c n.data

theorem length_eq_zero_iff (n : String) : n.length = 0 ↔ n = "" := by
  constructor
  · intro h
    have h1 : n.data = [] := List.length_eq_zero.mp h
    cases n
    simp only at h1
    rw [h1]
  · intro h
    rw [h]
    rfl

theorem ite_some_iff (c : Bool) (e : String) :
    ((if c = true then some e else none) = some e ↔ c = true) ∧
    ((if c = true then some e else (none : Option String)) = none ↔ ¬ c = true) := by
  cases c <;> simp

/-- C18: `ValidName` returns a non-nil `err` unchanged; for a nil `err` it returns
`ErrInvalidName` exactly when the name is empty or contains a slash, a backslash, a space or
a question mark, and nil exactly when it is none of these. -/
theorem C18_ValidName (n : String) :
    (∀ e : String, ValidName n (some e) = some e) ∧
    (ValidName n none = some ErrInvalidName ↔
      (n = "" ∨ '/' ∈ n.data ∨ backslash ∈ n.data ∨ ' ' ∈ n.data ∨ '?' ∈ n.data)) ∧
    (ValidName n none = none ↔
      ¬ (n = "" ∨ '/' ∈ n.data ∨ backslash ∈ n.data ∨ ' ' ∈ n.data ∨ '?' ∈ n.data)) := by
  have h1 := stringsContains_char n '/'
  have h2 := stringsContains_char n backslash
  have h3 := stringsContains_char n ' '
  have h4 := stringsContains_char n '?'
  have h5 := length_eq_zero_iff n
  have hc : (stringsContains n "/" || stringsContains n (String.mk [backslash]) ||
      stringsContains n " " || stringsContains n "?" || decide (n.length = 0)) = true ↔
      (n = "" ∨ '/' ∈ n.data ∨ backslash ∈ n.data ∨ ' ' ∈ n.data ∨ '?' ∈ n.data) := by
    simp only [Bool.or_eq_true, decide_eq_true_eq]
    rw [show stringsContains n "/" = stringsContains n (String.mk ['/']) from rfl,
      show stringsContains n " " = stringsContains n (String.mk [' ']) from rfl,
      show stringsContains n "?" = stringsContains n (String.mk ['?']) from rfl,
      h1, h2, h3, h4, h5]
    constructor
    · rintro ((((h | h) | h) | h) | h)
      · exact Or.inr (Or.inl h)
      · exact Or.inr (Or.inr (Or.inl h))
      · exact Or.inr (Or.inr (Or.inr (Or.inl h)))
      · exact Or.inr (Or.inr (Or.inr (Or.inr h)))
      · exact Or.inl h
    · rintro (h | h | h | h | h)
      · exact Or.inr h
      · exact Or.inl (Or.inl (Or.inl (Or.inl h)))
      · exact Or.inl (Or.inl (Or.inl (Or.inr h)))
      · exact Or.inl (Or.inl (Or.inr h))
      · exact Or.inl (Or.inr h)
  refine ⟨fun e => rfl, ?_, ?_⟩
  · rw [← hc]
    exact (ite_some_iff _ _).1
  · rw [← hc]
    exact (ite_some_iff _ _).2

end Restcore

namespace Commands

/-! ## C19 -/

/-- While neither limit is exceeded the loop only collects: datapoints whose sizes `ds` keep
the batch at 10000 datapoints and 10000000 bytes at most are appended to `dpa`, and nothing
is inserted. -/
theorem importLoop_collects (rest : List Nat) (ds : List Nat) :
    ∀ (dpa : List Nat) (size : Nat), dpa.length + ds.length ≤ 10000 →
      size + ds.sum ≤ 10000000 →
      importLoop (fun d => Except.ok d) (fun _ => none) (ds ++ rest) dpa size =
        importLoop (fun d => Except.ok d) (fun _ => none) rest (dpa ++ ds)
          (size + ds.sum) := by
  induction ds with
  | nil =>
    intro dpa size _ _
    simp
  | cons d ds ih =>
    intro dpa size hl hs
    simp only [List.length_cons, List.sum_cons] at hl hs
    rw [List.cons_append, importLoop]
    dsimp only
    have hc : ¬ (size + d > 10000000 ∨ (dpa ++ [d]).length > 10000) := by
      simp only [List.length_append, List.length_singleton]
      omega
    rw [if_neg hc, ih (dpa ++ [d]) (size + d)
      (by simp only [List.length_append, List.length_singleton]; omega) (by omega)]
    simp only [List.append_assoc, List.singleton_append, List.sum_cons, Nat.add_assoc]

/-- C19 (fails on the code): the loop tests the limits after it has added the datapoint, so
the batch it inserts is one that exceeds a limit.  A file of two datapoints of 6000000 bytes
each is inserted as one batch of 12000000 bytes; and whenever the first 10001 datapoints of
a file, of sizes `ds` and `d`, have no more than 10000000 bytes together, they are inserted
as one batch of 10001 datapoints.  (A datapoint is given by its serialized size; every
`Bytes` and every insert succeeds.) -/
theorem C19_batches_exceed_the_limits (ds : List Nat) (d : Nat) (rest : List Nat)
    (hlen : ds.length = 10000) (hsum : ds.sum + d ≤ 10000000) :
    (importStreamData (fun d => Except.ok d) (fun _ => none) none
      [6000000, 6000000]).inserted = [[6000000, 6000000]] ∧
    (importStreamData (fun d => Except.ok d) (fun _ => none) none
      (ds ++ d :: rest)).inserted.head? = some (ds ++ [d]) ∧
    (ds ++ [d]).length = 10001 := by
  refine ⟨by decide, ?_, by simp [hlen]⟩
  unfold importStreamData
  dsimp only
  rw [importLoop_collects (d :: rest) ds [] 0 (by simp [hlen]) (by omega), importLoop]
  dsimp only
  have hc : 0 + ds.sum + d > 10000000 ∨ ([] ++ ds ++ [d]).length > 10000 := by
    right
    simp [hlen]
  rw [if_pos hc]
  simp

/-- C19, at a failing input: 10001 datapoints of one byte each are inserted as one batch. -/
theorem C19_batches_exceed_the_limits_witness :
    (importStreamData (fun d => Except.ok d) (fun _ => none) none
      [6000000, 6000000]).inserted = [[6000000, 6000000]] ∧
    (importStreamData (fun d => Except.ok d) (fun _ => none) none
      (List.replicate 10000 1 ++ 1 :: [])).inserted.head? =
        some (List.replicate 10000 1 ++ [1]) ∧
    (List.replicate 10000 1 ++ [1]).length = 10001 :=
  C19_batches_exceed_the_limits (List.replicate 10000 1) 1 []
    (List.length_replicate 10000 1)
    (by rw [List.sum_replicate, smul_eq_mul]; decide)

end Commands

namespace Commands

/-! ## C23 -/

/-- The loop from any point of the run, when the reading ends without an error and every
`Bytes` and every insert succeeds: the batches inserted from there on are, joined, the
datapoints held in `dpa` followed by those still to be read; none is empty; the run ends
without an error. -/
theorem importLoop_keeps {Datapoint : Type} (Bytes : Datapoint → Except String Nat)
    (InsertStreamByID : List Datapoint → Option String)
    (hi : ∀ b, InsertStreamByID b = none) (rest : List Datapoint) :
    ∀ (dpa : List Datapoint) (size : Nat), (∀ dp ∈ rest, ∃ n, Bytes dp = Except.ok n) →
      (importLoop Bytes InsertStreamByID rest dpa size).inserted.flatten = dpa ++ rest ∧
      (∀ b ∈ (importLoop Bytes InsertStreamByID rest dpa size).inserted, b ≠ []) ∧
      (importLoop Bytes InsertStreamByID rest dpa size).err = none := by
  induction rest with
  | nil =>
    intro dpa size _
    rw [importLoop]
    by_cases h : dpa.length > 0
    · rw [if_pos h, hi]
      refine ⟨by simp, ?_, rfl⟩
      intro b hb
      simp only [List.mem_singleton] at hb
      subst hb
      exact List.ne_nil_of_length_pos h
    · rw [if_neg h]
      have h0 : dpa = [] := List.length_eq_zero.mp (by omega)
      subst h0
      exact ⟨rfl, fun b hb => absurd hb (List.not_mem_nil b), rfl⟩
  | cons dp rest ih =>
    intro dpa size hb
    obtain ⟨n, hn⟩ := hb dp (List.mem_cons_self dp rest)
    have hrest : ∀ d ∈ rest, ∃ n, Bytes d = Except.ok n :=
      fun d hd => hb d (List.mem_cons_of_mem dp hd)
    rw [importLoop]
    dsimp only
    rw [hn]
    dsimp only
    by_cases hc : size + n > 10000000 ∨ (dpa ++ [dp]).length > 10000
    · rw [if_pos hc, hi]
      dsimp only
      obtain ⟨h1, h2, h3⟩ := ih [] 0 hrest
      refine ⟨?_, ?_, h3⟩
      · rw [List.flatten_cons, h1]
        simp
      · intro b hb1
        rcases List.mem_cons.mp hb1 with rfl | hb2
        · simp
        · exact h2 b hb2
    · rw [if_neg hc]
      obtain ⟨h1, h2, h3⟩ := ih (dpa ++ [dp]) (size + n) hrest
      refine ⟨?_, h2, h3⟩
      rw [h1]
      simp

/-- C23: when the file is read without an error, `Bytes` succeeds on each of its datapoints
and every insert succeeds, the batches passed to `InsertStreamByID`, joined in the order of
the calls, are the datapoints of the file in their order; no batch is empty; and
`importStreamData` returns nil. -/
theorem C23_import_keeps_the_data {Datapoint : Type} (Bytes : Datapoint → Except String Nat)
    (InsertStreamByID : List Datapoint → Option String) (file : List Datapoint)
    (hb : ∀ dp ∈ file, ∃ n, Bytes dp = Except.ok n)
    (hi : ∀ b, InsertStreamByID b = none) :
    (importStreamData Bytes InsertStreamByID none file).inserted.flatten = file ∧
    (∀ b ∈ (importStreamData Bytes InsertStreamByID none file).inserted, b ≠ []) ∧
    (importStreamData Bytes InsertStreamByID none file).err = none := by
  have h := importLoop_keeps Bytes InsertStreamByID hi file [] 0 hb
  rw [List.nil_append] at h
  exact h

/-- C23, witness: three datapoints of 6000000, 6000000 and 1 bytes, inserted as the batch of
the first two and the batch of the third. -/
theorem C23_import_keeps_the_data_witness :
    (importStreamData (fun d => Except.ok d) (fun _ => none) none
      [6000000, 6000000, 1]).inserted.flatten = [6000000, 6000000, 1] ∧
    (∀ b ∈ (importStreamData (fun d => Except.ok d) (fun _ => none) none
      [6000000, 6000000, 1]).inserted, b ≠ []) ∧
    (importStreamData (fun d => Except.ok d) (fun _ => none) none
      [6000000, 6000000, 1]).err = none :=
  C23_import_keeps_the_data (fun d => Except.ok d) (fun _ => none) [6000000, 6000000, 1]
    (fun dp _ => ⟨dp, rfl⟩) (fun _ => rfl)

end Commands

namespace Restcore

/-! ## C24 -/

theorem int64OfUint64_small (lim : Nat) (h : lim < 2 ^ 63) : int64OfUint64 lim = lim := by
  unfold int64OfUint64
  have e : lim % 2 ^ 64 = lim := Nat.mod_eq_of_lt (by omega)
  rw [e, if_pos h]

theorem int64OfUint64_large (lim : Nat) (h1 : 2 ^ 63 ≤ lim) (h2 : lim < 2 ^ 64) :
    int64OfUint64 lim = (lim : Int) - 2 ^ 64 := by
  unfold int64OfUint64
  have e : lim % 2 ^ 64 = lim := Nat.mod_eq_of_lt h2
  rw [e, if_neg (by omega)]

/-- The limit returned by a call of `ParseTRange` that returns no error is the conversion of
the value that `ParseUint` gave. -/
theorem ParseTRange_limit {F : Type} [Zero F] (ParseFloat : String → F × Option String)
    (ParseUint : String → Nat × Option String) (q : String → String)
    (hok : (ParseTRange ParseFloat ParseUint q).err = none) :
    (ParseTRange ParseFloat ParseUint q).limit = int64OfUint64 (ParseUint (q "limit")).1 := by
  unfold ParseTRange at hok ⊢
  dsimp only at hok ⊢
  split_ifs at hok ⊢
  rfl

/-- C24 (fails on the code): `ParseTRange` returns the parsed limit converted to `int64`.
When the call returns no error and the parameter `limit` parses as the unsigned 64-bit value
`lim`, the limit returned is `lim` if `lim` is below 2^63; if it is 2^63 or more, the limit
returned is `lim - 2^64`, a negative number. -/
theorem C24_limit_wraps_to_negative {F : Type} [Zero F]
    (ParseFloat : String → F × Option String) (ParseUint : String → Nat × Option String)
    (q : String → String) (lim : Nat)
    (hlim : ParseUint (q "limit") = (lim, none)) (h64 : lim < 2 ^ 64)
    (hok : (ParseTRange ParseFloat ParseUint q).err = none) :
    (lim < 2 ^ 63 → (ParseTRange ParseFloat ParseUint q).limit = lim) ∧
    (2 ^ 63 ≤ lim → (ParseTRange ParseFloat ParseUint q).limit = (lim : Int) - 2 ^ 64 ∧
      (ParseTRange ParseFloat ParseUint q).limit < 0) := by
  have h := ParseTRange_limit ParseFloat ParseUint q hok
  rw [hlim] at h
  dsimp only at h
  constructor
  · intro hs
    rw [h, int64OfUint64_small lim hs]
  · intro hl
    rw [h, int64OfUint64_large lim hl h64]
    exact ⟨rfl, by omega⟩

/-- C24, at the failing input: the query `?t1=1&limit=9223372036854775808` gives the limit
-9223372036854775808. -/
theorem C24_limit_wraps_to_negative_witness :
    (9223372036854775808 < 2 ^ 63 →
      (ParseTRange decimalUint decimalUint queryLimit2Pow63).limit =
        (9223372036854775808 : Nat)) ∧
    (2 ^ 63 ≤ 9223372036854775808 →
      (ParseTRange decimalUint decimalUint queryLimit2Pow63).limit =
        ((9223372036854775808 : Nat) : Int) - 2 ^ 64 ∧
      (ParseTRange decimalUint decimalUint queryLimit2Pow63).limit < 0) :=
  C24_limit_wraps_to_negative decimalUint decimalUint queryLimit2Pow63 9223372036854775808
    (by decide) (by decide) (by decide)

end Restcore
